import Mathlib

/-!
Chat-App server: WebSocket frame codec and handshake

Shallow embedding of `server/src/websocket_server.c`.

Conventions of the embedding:

* a C `int` is an `Int`; every arithmetic result that can leave the range of a
  32-bit `int` is passed through `int32` (two's-complement wrap, the arithmetic
  modulo 2^32 of the target machines); `>>` is the arithmetic shift of the integer
  value, with a shift count of 32 or more, which C leaves undefined, taken modulo 32
  as the shift instruction of the target machines takes it; `&` and `|` are the
  two's-complement operations `Int.land` and `Int.lor`;
* an `unsigned char` is a `Nat` below 256; a store into an `unsigned char` is
  taken `% 256`;
* a byte buffer is a `List Nat`, its claimed length (`data_len`) is a separate
  `int` argument exactly as in the C signatures; a read past the end of the list
  yields 0 and a `memcpy` past the end is cut at the end of the list; the indices
  of its input that the decoder reads are given by `parse_ws_frame_read_end`;
* a function that writes beyond the end of a buffer of fixed size returns `none`
  (`parse_websocket_handshake` with the key buffer of its caller);
* `malloc` is an argument of the decoder: a predicate telling for which sizes the
  allocation succeeds;
* a C string is the list of its bytes up to, and without, the terminating NUL.
-/

namespace ChatApp

/-! ## Machine integers -/

/-- Largest value of a C `int`. -/
def INT_MAX : Int := 2147483647

/-- Two's-complement wrap of a mathematical integer into the range of a 32-bit C `int`. -/
def int32 (x : Int) : Int := (x + 2147483648) % 4294967296 - 2147483648

/-- Conversion of an `int` to a 64-bit `size_t` (as done for the arguments of `malloc` and `memcpy`). -/
def size_t (x : Int) : Nat := (x % 18446744073709551616).toNat

/-- Store of an `int` value into an `unsigned char`. -/
def to_uchar (x : Int) : Nat := (x % 256).toNat

/-- Read of `data[i]` from an `unsigned char` buffer, promoted to `int`;
indices past the end of the list read as 0. -/
def byteAt (data : List Nat) (i : Nat) : Int := ((data.getD i 0 : Nat) : Int)

/-! ## Frame decoding: `parse_ws_frame` -/

/-- The C struct `WSFrame`; `payload = none` is the NULL pointer. -/
structure WSFrame where
  fin : Int
  opcode : Int
  masked : Int
  payload_len : Int
  mask : List Nat
  payload : Option (List Nat)
deriving DecidableEq

/-- The frame `WSFrame frame = {0}` that the connection handler passes in. -/
def WSFrame.zero : WSFrame :=
  { fin := 0, opcode := 0, masked := 0, payload_len := 0, mask := [0, 0, 0, 0], payload := none }

/-- One iteration `payload_len = (payload_len << 8) | data[2 + i];` of the 64-bit length loop,
with the result held in a C `int`. -/
def len64_step (data : List Nat) (payload_len : Int) (i : Nat) : Int :=
  int32 (Int.lor (payload_len <<< (8 : Int)) (byteAt data (2 + i)))

/-- The loop `for (i = 0; i < 8; i++) payload_len = (payload_len << 8) | data[2 + i];`
started from `payload_len = 0`. -/
def read_len64 (data : List Nat) : Int :=
  (List.range 8).foldl (len64_step data) 0

/-- The loop `for (i = 0; i < payload_len; i++) payload[i] ^= mask[i % 4];`
over the bytes of the payload buffer from index `i` on. -/
def unmask_from (mask : List Nat) (payload_len : Int) : Nat → List Nat → List Nat
  | _, [] => []
  | i, b :: bs =>
    (if (i : Int) < payload_len then (b ^^^ mask.getD (i % 4) 0) % 256 else b)
      :: unmask_from mask payload_len (i + 1) bs

/-- Last part of `parse_ws_frame`: the full-payload check, `malloc`, `memcpy` and unmasking.
The argument `malloc` tells for which sizes the allocation succeeds. The bytes copied are
those of the list `data`, so the copy stops where the list ends, while `memcpy` reads
`(size_t) payload_len` bytes whatever the buffer holds: the indices read are given by
`parse_payload_read_end` below. -/
def parse_payload (malloc : Nat → Bool) (data : List Nat) (data_len : Int)
    (frame : WSFrame) (header_size : Int) : Int × WSFrame :=
  if data_len < int32 (header_size + frame.payload_len) then (-1, frame)
  else if malloc (size_t frame.payload_len) = false then (-1, { frame with payload := none })
  else
    let copied := (data.drop header_size.toNat).take (size_t frame.payload_len)
    let payload := if frame.masked ≠ 0 then unmask_from frame.mask frame.payload_len 0 copied
                   else copied
    (int32 (header_size + frame.payload_len), { frame with payload := some payload })

/-- Middle part of `parse_ws_frame`: the masking key. -/
def parse_mask (malloc : Nat → Bool) (data : List Nat) (data_len : Int)
    (frame : WSFrame) (header_size : Int) : Int × WSFrame :=
  if frame.masked ≠ 0 then
    if data_len < header_size + 4 then (-1, frame)
    else parse_payload malloc data data_len
      { frame with mask := (data.drop header_size.toNat).take 4 } (header_size + 4)
  else parse_payload malloc data data_len frame header_size

/-- The function `parse_ws_frame(data, data_len, frame)`: returns the C return value and
the contents of `*frame` at return. -/
def parse_ws_frame (malloc : Nat → Bool) (data : List Nat) (data_len : Int)
    (frame : WSFrame) : Int × WSFrame :=
  if data_len < 2 then (-1, frame)
  else
    let f1 : WSFrame :=
      { frame with
        fin := (Int.land (byteAt data 0) 0x80) >>> (7 : Nat)
        opcode := Int.land (byteAt data 0) 0x0F
        masked := (Int.land (byteAt data 1) 0x80) >>> (7 : Nat)
        payload_len := Int.land (byteAt data 1) 0x7F }
    if f1.payload_len = 126 then
      if data_len < 4 then (-1, f1)
      else parse_mask malloc data data_len
        { f1 with payload_len := Int.lor (byteAt data 2 <<< (8 : Int)) (byteAt data 3) } 4
    else if f1.payload_len = 127 then
      if data_len < 10 then (-1, f1)
      else parse_mask malloc data data_len { f1 with payload_len := read_len64 data } 10
    else parse_mask malloc data data_len f1 2

/-! ## Bytes of the input that `parse_ws_frame` reads

`parse_payload` cuts the `memcpy` of the payload at the end of the list `data`, which is right
when the bytes are there. The functions below take the branches of the three parts of
`parse_ws_frame` and return the number `e` such that the call reads the bytes
`data[0], ..., data[e - 1]` of its input, whatever lies behind these addresses. -/

/-- Bytes read on leaving the last part of `parse_ws_frame`: those below `header_size`, and
with the full-payload check passed and the allocation granted, the `(size_t) payload_len`
bytes that `memcpy(frame->payload, &data[header_size], frame->payload_len)` reads from index
`header_size` on. -/
def parse_payload_read_end (malloc : Nat → Bool) (data_len : Int) (payload_len : Int)
    (header_size : Int) : Nat :=
  if data_len < int32 (header_size + payload_len) then header_size.toNat
  else if malloc (size_t payload_len) = false then header_size.toNat
  else header_size.toNat + size_t payload_len

/-- Bytes read on leaving the middle part of `parse_ws_frame`: the masking key is read by
`memcpy(frame->mask, &data[header_size], 4)` after the check `data_len < header_size + 4`. -/
def parse_mask_read_end (malloc : Nat → Bool) (data_len : Int) (masked payload_len : Int)
    (header_size : Int) : Nat :=
  if masked ≠ 0 then
    if data_len < header_size + 4 then header_size.toNat
    else parse_payload_read_end malloc data_len payload_len (header_size + 4)
  else parse_payload_read_end malloc data_len payload_len header_size

/-- Bytes of `data` read by the call `parse_ws_frame(data, data_len, frame)`: the call reads
`data[i]` for every `i` below the value returned here. -/
def parse_ws_frame_read_end (malloc : Nat → Bool) (data : List Nat) (data_len : Int) : Nat :=
  if data_len < 2 then 0
  else
    let masked : Int := (Int.land (byteAt data 1) 0x80) >>> (7 : Nat)
    let payload_len : Int := Int.land (byteAt data 1) 0x7F
    if payload_len = 126 then
      if data_len < 4 then 2
      else parse_mask_read_end malloc data_len masked
        (Int.lor (byteAt data 2 <<< (8 : Int)) (byteAt data 3)) 4
    else if payload_len = 127 then
      if data_len < 10 then 2
      else parse_mask_read_end malloc data_len masked (read_len64 data) 10
    else parse_mask_read_end malloc data_len masked payload_len 2

/-! ## Frame encoding: `create_ws_frame` -/

/-- The loop `for (i = 7; i >= 0; i--) frame[pos++] = (data_len >> (i * 8)) & 0xFF;`.
`data_len` is an `int` of 32 bits, and for `i = 7, 6, 5, 4` the shift count is 56, 48, 40, 32,
not less than the width of the type, which C leaves undefined. The model takes what the
compiled code does on the targets the server is built for: the shift instruction uses the count
modulo 32, so these four iterations shift by 24, 16, 8 and 0 as the last four do. -/
def len64_bytes (data_len : Int) : List Nat :=
  [7, 6, 5, 4, 3, 2, 1, 0].map
    (fun i => to_uchar (Int.land (data_len >>> (i * 8 % 32 : Nat)) 0xFF))

/-- Header bytes written by `create_ws_frame` before the payload. -/
def ws_header (data_len : Int) : List Nat :=
  if data_len < 126 then [0x81, to_uchar (Int.land data_len 0x7F)]
  else if data_len < 65536 then
    [0x81, 126, to_uchar (Int.land (data_len >>> (8 : Nat)) 0xFF), to_uchar (Int.land data_len 0xFF)]
  else [0x81, 127] ++ len64_bytes data_len

/-- The function `create_ws_frame(data, data_len, frame, frame_size)`: returns the C return
value and the bytes written to `frame[0 ..]`, in order. -/
def create_ws_frame (data : List Nat) (data_len : Int) (frame_size : Int) : Int × List Nat :=
  if frame_size < int32 (2 + data_len) then (-1, [])
  else
    let header := ws_header data_len
    (int32 ((header.length : Int) + data_len), header ++ data.take (size_t data_len))

/-! ## Wire format of a frame, as the protocol states it

These definitions follow the words of the specification, not the code: they are
what the decoder and the encoder are compared with. -/

/-- The 7-bit length field of the minimal length-prefix form for a payload of `n` bytes. -/
def length_code (n : Nat) : Nat := if n < 126 then n else if n < 65536 then 126 else 127

/-- The `k` low-order bytes of `n`, most significant first. -/
def be_bytes : Nat → Nat → List Nat
  | 0, _ => []
  | k + 1, n => (n / 256 ^ k % 256) :: be_bytes k n

/-- The extended length bytes of the minimal length-prefix form: none below 126,
16-bit big-endian up to 65535, 64-bit big-endian above. -/
def length_ext (n : Nat) : List Nat :=
  if n < 126 then [] else if n < 65536 then be_bytes 2 n else be_bytes 8 n

/-- Client-side masking: byte `i` of the payload XOR-ed with `k[i mod 4]`, from index `i` on. -/
def mask_from (k : List Nat) : Nat → List Nat → List Nat
  | _, [] => []
  | i, b :: bs => (b ^^^ k.getD (i % 4) 0) :: mask_from k (i + 1) bs

/-- A masked frame with first byte `b0`: header with the mask bit set and the minimal length
prefix, then the mask key `k`, then the masked payload. -/
def masked_frame (b0 : Nat) (k p : List Nat) : List Nat :=
  b0 :: (0x80 + length_code p.length) :: (length_ext p.length ++ (k ++ mask_from k 0 p))

/-- A masked text frame (FIN set, opcode 0x1). -/
def masked_text_frame (k p : List Nat) : List Nat := masked_frame 0x81 k p

/-- The 7-bit length field of a received buffer. -/
def wire_len7 (data : List Nat) : Nat := data.getD 1 0 % 128

/-- The mask bit (bit 7 of byte 1) of a received buffer. -/
def wire_mask_bit (data : List Nat) : Nat := data.getD 1 0 / 128 % 2

/-- Size of the fixed header and the extended length field: 2, 4 or 10. -/
def wire_base_size (data : List Nat) : Nat :=
  if wire_len7 data = 126 then 4 else if wire_len7 data = 127 then 10 else 2

/-- Header size of a received buffer: 2, 4 or 10, plus 4 when the mask bit is set. -/
def wire_header_size (data : List Nat) : Nat :=
  wire_base_size data + (if wire_mask_bit data = 1 then 4 else 0)

/-- Unsigned big-endian value of the 8 bytes `data[2..9]`, with the most significant bit
ignored: the payload length that a frame with 7-bit field 127 declares. -/
def wire_len64 (data : List Nat) : Nat :=
  ((List.range 8).foldl (fun acc i => acc * 256 + data.getD (2 + i) 0) 0) % 9223372036854775808

/-- Payload length that the header of `data` declares. -/
def wire_payload_len (data : List Nat) : Nat :=
  if wire_len7 data = 126 then data.getD 2 0 * 256 + data.getD 3 0
  else if wire_len7 data = 127 then wire_len64 data
  else wire_len7 data

/-- Total length that the header of `data` declares for the frame: header bytes, extended length
bytes, mask key when the mask bit is set, and payload. -/
def wire_total_len (data : List Nat) : Nat := wire_header_size data + wire_payload_len data

/-! ### Intermediate frame records

The contents of `*frame` between the stages of `parse_ws_frame`, used to state the lemmas. -/

/-- The frame record after the two fixed header bytes and the length have been decoded. -/
def header_frame (b0 mbit n : Nat) (frame0 : WSFrame) : WSFrame :=
  { fin := (Int.land (b0 : Int) 0x80) >>> (7 : Nat), opcode := Int.land (b0 : Int) 0x0F,
    masked := (mbit : Int), payload_len := (n : Int), mask := frame0.mask,
    payload := frame0.payload }

/-- The frame record after the header of `data` has been read, with decoded length `len`. -/
def wire_frame (data : List Nat) (frame0 : WSFrame) (len : Int) : WSFrame :=
  { fin := ((data.getD 0 0 / 128 : Nat) : Int), opcode := ((data.getD 0 0 % 16 : Nat) : Int),
    masked := ((wire_mask_bit data : Nat) : Int), payload_len := len, mask := frame0.mask,
    payload := frame0.payload }

/-! ## Handshake: `parse_websocket_handshake` -/

/-- Bytes of an ASCII string literal. -/
def str_bytes (s : String) : List Nat := s.toList.map Char.toNat

/-- The contents of the C string stored in `buf`: the bytes before the first NUL. -/
def c_str (buf : List Nat) : List Nat := buf.takeWhile (fun c => c ≠ 0)

/-- The function `tolower` in the "C" locale. -/
def tolower (c : Nat) : Nat := if 65 ≤ c ∧ c ≤ 90 then c + 32 else c

/-- The function `isspace` in the "C" locale: space, `\t`, `\n`, `\v`, `\f`, `\r`. -/
def isspace (c : Nat) : Bool := c = 32 || (9 ≤ c && c ≤ 13)

/-- The call `strstr(s, "\r\n")`: offset of the first CR LF pair in the string `s`,
`none` for a NULL result. -/
def strstr_crlf : List Nat → Option Nat
  | [] => none
  | [_] => none
  | c :: d :: rest =>
    if c = 13 ∧ d = 10 then some 0 else (strstr_crlf (d :: rest)).map (fun i => i + 1)

/-- The test `strncasecmp(s, t, n) == 0` on two C strings: the first `n` characters agree up to
case, or both strings end before that and agree up to case. -/
def strncasecmp_eq : Nat → List Nat → List Nat → Bool
  | 0, _, _ => true
  | _ + 1, [], [] => true
  | n + 1, a :: s, b :: t => tolower a = tolower b && strncasecmp_eq n s t
  | _ + 1, _, _ => false

/-- The header name `"Sec-WebSocket-Key:"` (18 characters). -/
def SEC_KEY : List Nat := str_bytes "Sec-WebSocket-Key:"

/-- The loop `while (val_start < line_end && isspace(*val_start)) val_start++;` on the
characters between `val_start` and `line_end`. -/
def skip_space : List Nat → List Nat
  | [] => []
  | c :: rest => if isspace c then skip_space rest else c :: rest

/-- The size of the array `char key[256]` that `websocket_client_handler` passes to
`parse_websocket_handshake`. -/
def KEY_SIZE : Nat := 256

/-- The statements `strncpy(key, val_start, len); key[len] = '\0';` for the `len` characters
`value` between `val_start` and `line_end` and a key buffer of `key_size` characters. They
write `len + 1` characters from `key[0]` on, and there is no test on `len`: the result is the
string left in the buffer, and `none` when the writes go beyond the end of the buffer, that is
when `len + 1` exceeds `key_size`. -/
def copy_key (key_size : Nat) (value : List Nat) : Option (List Nat) :=
  if value.length + 1 ≤ key_size then some value else none

/-- The `while (*line_start)` loop of `parse_websocket_handshake`; `s` is the string at
`line_start`, `key` the contents of the key buffer of `key_size` characters, the second
argument bounds the number of iterations. Returns the C return value and the key buffer, or
`none` when the copy of the key writes beyond the end of the buffer. -/
def handshake_loop (key_size : Nat) : Nat → List Nat → List Nat → Option (Int × List Nat)
  | 0, _, key => some (0, key)
  | fuel + 1, s, key =>
    if s = [] then some (0, key)
    else
      let line_end : Nat := match strstr_crlf s with
        | some i => i
        | none => s.length
      if strncasecmp_eq 18 s SEC_KEY then
        (copy_key key_size (skip_space ((s.take line_end).drop 18))).map (fun k => (1, k))
      else if line_end = s.length then some (0, key)
      else handshake_loop key_size fuel (s.drop (line_end + 2)) key

/-- The function `parse_websocket_handshake(request, key)`, called with a key buffer of
`key_size` characters: returns the C return value and the string in the key buffer at return,
or `none` when it writes beyond the end of the key buffer. Every iteration but the last
advances `line_start` by at least two characters, so `strlen(request) + 1` iterations are never
exhausted. -/
def parse_websocket_handshake (key_size : Nat) (request key : List Nat) :
    Option (Int × List Nat) :=
  handshake_loop key_size ((c_str request).length + 1) (c_str request) key

/-! ### Request lines, as the specification states them

These definitions follow the words of the specification and the ASCII table; they use neither
`tolower` nor `isspace` nor the loops of the code. -/

/-- The CR LF delimited lines of a request string. -/
def crlf_lines : List Nat → List (List Nat)
  | [] => [[]]
  | [c] => [[c]]
  | c :: d :: rest =>
    if c = 13 ∧ d = 10 then [] :: crlf_lines rest
    else match crlf_lines (d :: rest) with
      | [] => [[c]]
      | l :: ls => (c :: l) :: ls

/-- The characters `a` and `b` are equal up to case: they are equal, or one of them is an
upper-case letter `A` to `Z` (65 to 90) and the other one the lower-case letter 32 above it. -/
def same_letter (a b : Nat) : Bool :=
  a = b || (65 ≤ a && a ≤ 90 && b = a + 32) || (65 ≤ b && b ≤ 90 && a = b + 32)

/-- The line `l` begins with the characters of `pat`, compared case-insensitively. -/
def starts_with_ci (l pat : List Nat) : Bool :=
  decide (pat.length ≤ l.length) && (List.zipWith same_letter l pat).all id

/-- Some line of the request begins with `Sec-WebSocket-Key:` (case-insensitively). -/
def has_key_line (request : List Nat) : Prop :=
  ∃ l ∈ crlf_lines (c_str request), starts_with_ci l SEC_KEY = true

instance has_key_line_decidable (request : List Nat) : Decidable (has_key_line request) := by
  unfold has_key_line
  infer_instance

/-- The first line of the request, in request order, that begins with `Sec-WebSocket-Key:`
(case-insensitively). -/
def key_line (request : List Nat) : Option (List Nat) :=
  (crlf_lines (c_str request)).find? (fun l => starts_with_ci l SEC_KEY)

/-- White space: tab, line feed, vertical tab, form feed, carriage return and space. -/
def is_blank (c : Nat) : Bool := decide (c ∈ [9, 10, 11, 12, 13, 32])

/-- The value of a key line: the text after the 18 characters of the header name, without its
leading white space; white space further on, also at the end, is kept. -/
def line_value (l : List Nat) : List Nat := (l.drop 18).dropWhile is_blank

/-! ## Accept token: `generate_accept_header`

`SHA1` and the base64 filter are OpenSSL library functions; they are modelled here from the
standards they implement (FIPS 180-4 and RFC 4648). Words are `Nat` values below 2^32. -/

/-- Rotate a 32-bit word left by `n` bits. -/
def rotl32 (x n : Nat) : Nat := ((x <<< n) ||| (x >>> (32 - n))) % 4294967296

/-- SHA-1 padding: a 1 bit, zero bits up to 56 mod 64 bytes, then the bit length on 64 bits. -/
def sha1_pad (msg : List Nat) : List Nat :=
  msg ++ [0x80] ++ List.replicate ((119 - msg.length % 64) % 64) 0 ++ be_bytes 8 (msg.length * 8)

/-- Big-endian 32-bit words of a byte string. -/
def be_words : List Nat → List Nat
  | a :: b :: c :: d :: rest => (a * 16777216 + b * 65536 + c * 256 + d) :: be_words rest
  | _ => []

/-- Message schedule: `n` more words appended to `w`. -/
def sha1_extend : Nat → List Nat → List Nat
  | 0, w => w
  | n + 1, w =>
    sha1_extend n (w ++ [rotl32 (w.getD (w.length - 3) 0 ^^^ w.getD (w.length - 8) 0
      ^^^ w.getD (w.length - 14) 0 ^^^ w.getD (w.length - 16) 0) 1])

/-- Round function of SHA-1. -/
def sha1_f (t b c d : Nat) : Nat :=
  if t < 20 then (b &&& c) ||| ((b ^^^ 0xFFFFFFFF) &&& d)
  else if t < 40 then b ^^^ c ^^^ d
  else if t < 60 then (b &&& c) ||| (b &&& d) ||| (c &&& d)
  else b ^^^ c ^^^ d

/-- Round constant of SHA-1. -/
def sha1_k (t : Nat) : Nat :=
  if t < 20 then 0x5A827999 else if t < 40 then 0x6ED9EBA1
  else if t < 60 then 0x8F1BBCDC else 0xCA62C1D6

/-- The five chaining words of SHA-1. -/
structure Sha1State where
  a : Nat
  b : Nat
  c : Nat
  d : Nat
  e : Nat
deriving DecidableEq

/-- One of the 80 rounds. -/
def sha1_round (w : List Nat) (s : Sha1State) (t : Nat) : Sha1State :=
  { a := (rotl32 s.a 5 + sha1_f t s.b s.c s.d + s.e + sha1_k t + w.getD t 0) % 4294967296,
    b := s.a, c := rotl32 s.b 30, d := s.c, e := s.d }

/-- Compression of one 64-byte block. -/
def sha1_block (h : Sha1State) (block : List Nat) : Sha1State :=
  let w := sha1_extend 64 (be_words block)
  let s := (List.range 80).foldl (sha1_round w) h
  { a := (h.a + s.a) % 4294967296, b := (h.b + s.b) % 4294967296,
    c := (h.c + s.c) % 4294967296, d := (h.d + s.d) % 4294967296,
    e := (h.e + s.e) % 4294967296 }

/-- Compression of the first `n` 64-byte blocks of `m`. -/
def sha1_blocks : Nat → Sha1State → List Nat → Sha1State
  | 0, h, _ => h
  | n + 1, h, m => sha1_blocks n (sha1_block h (m.take 64)) (m.drop 64)

/-- The OpenSSL function `SHA1(d, n, md)`: the 20-byte digest of the byte string `d`. -/
def SHA1 (msg : List Nat) : List Nat :=
  let h := sha1_blocks ((sha1_pad msg).length / 64)
    { a := 0x67452301, b := 0xEFCDAB89, c := 0x98BADCFE, d := 0x10325476, e := 0xC3D2E1F0 }
    (sha1_pad msg)
  be_bytes 4 h.a ++ be_bytes 4 h.b ++ be_bytes 4 h.c ++ be_bytes 4 h.d ++ be_bytes 4 h.e

/-- The base64 alphabet of RFC 4648. -/
def BASE64_ALPHABET : List Nat :=
  str_bytes "ABCDEFGHIJKLMNOPQRSTUVWXYZabcdefghijklmnopqrstuvwxyz0123456789+/"

/-- Character of a 6-bit value. -/
def b64_char (n : Nat) : Nat := BASE64_ALPHABET.getD n 0

/-- The helper `base64_encode(input, length, output)`: the base64 text of the bytes, with `=`
padding and no line breaks (`BIO_FLAGS_BASE64_NO_NL`). -/
def base64_encode : List Nat → List Nat
  | a :: b :: c :: rest =>
    b64_char (a / 4) :: b64_char (a % 4 * 16 + b / 16) :: b64_char (b % 16 * 4 + c / 64)
      :: b64_char (c % 64) :: base64_encode rest
  | [a, b] => [b64_char (a / 4), b64_char (a % 4 * 16 + b / 16), b64_char (b % 16 * 4), 61]
  | [a] => [b64_char (a / 4), b64_char (a % 4 * 16), 61, 61]
  | [] => []

/-- The macro `WS_GUID`. -/
def WS_GUID : List Nat := str_bytes "258EAFA5-E914-47DA-95CA-C5AB0DC85B11"

/-- The call `snprintf(buf, size, "%s%s", a, b)`: the string left in `buf`, cut to `size - 1`
characters. -/
def snprintf_ss (size : Nat) (a b : List Nat) : List Nat := (c_str a ++ c_str b).take (size - 1)

/-- The function `generate_accept_header(key, accept)`: the string written to `accept`.
`concat` is a 256-byte buffer; `SHA1` is given `strlen(concat)` bytes. -/
def generate_accept_header (key : List Nat) : List Nat :=
  let concat := snprintf_ss 256 key WS_GUID
  base64_encode (SHA1 (c_str concat))

/-! ## Arrays and loops shared by the pool, the registry and the store

A C array is the list of its elements. An access outside the array is undefined in C;
the model reads a default element there and drops the write. -/

/-- The read `a[i]` with an `int` index. -/
def array_get {α : Type} [Inhabited α] (a : List α) (i : Int) : α :=
  if 0 ≤ i then a.getD i.toNat default else default

/-- The write `a[i] = v` with an `int` index. -/
def array_set {α : Type} (a : List α) (i : Int) (v : α) : List α :=
  if 0 ≤ i then a.set i.toNat v else a

/-- The search loop `for (i = i0; i < n; i++) if (p(i)) return i;`: the first index from `i` on
that satisfies `p`, `none` when the loop runs to its end. The first argument bounds the number
of iterations. -/
def first_index (p : Int → Bool) (n : Int) : Nat → Int → Option Int
  | 0, _ => none
  | fuel + 1, i =>
    if i < n then (if p i then some i else first_index p n fuel (i + 1)) else none

/-- The compaction loop `for (k = j; k < n - 1; k++) a[k] = a[k + 1];` from `k` on. The first
argument bounds the number of iterations. -/
def shift_down {α : Type} [Inhabited α] (n : Int) : Nat → Int → List α → List α
  | 0, _, a => a
  | fuel + 1, k, a =>
    if k < int32 (n - 1) then shift_down n fuel (k + 1) (array_set a k (array_get a (k + 1)))
    else a

/-- The C remainder `a % b` (truncated division; `b = 0` is undefined in C). -/
def c_rem (a b : Int) : Int := Int.tmod a b

/-! ## Worker pool: `thread_pool.c` -/

/-- The struct `WorkItem`: the function pointer and the argument pointer, as addresses
(0 is NULL). -/
structure WorkItem where
  task : Nat
  arg : Nat
deriving DecidableEq, Inhabited

/-- The struct `ThreadPool` without the thread handles and the synchronisation objects;
`queue` is the array that the `queue` pointer refers to. -/
structure ThreadPool where
  thread_count : Int
  queue : List WorkItem
  queue_size : Int
  queue_front : Int
  queue_rear : Int
  queue_count : Int
  is_running : Int
  is_shutdown : Int
deriving DecidableEq

/-- The function `thread_pool_submit(task, arg)` on the pool state (it runs with the queue
mutex held): the return value and the pool afterwards. -/
def thread_pool_submit (s : ThreadPool) (task arg : Nat) : Int × ThreadPool :=
  if s.queue_count ≥ s.queue_size then (-1, s)
  else
    let rear := c_rem (int32 (s.queue_front + s.queue_count)) s.queue_size
    (0, { s with queue := array_set s.queue rear { task := task, arg := arg },
                 queue_count := int32 (s.queue_count + 1) })

/-- Lines 23 to 25 of `worker_thread`: take the work item at `queue_front` and advance the
ring. -/
def worker_dequeue (s : ThreadPool) : WorkItem × ThreadPool :=
  (array_get s.queue s.queue_front,
   { s with queue_front := c_rem (int32 (s.queue_front + 1)) s.queue_size,
            queue_count := int32 (s.queue_count - 1) })

/-- What one iteration of the `while (1)` loop of `worker_thread` does. -/
inductive WorkerAction where
  | wait
  | exit
  | run (work : WorkItem)
deriving DecidableEq

/-- One iteration of the `while (1)` loop of `worker_thread`, taken under the queue mutex:
`wait` when the worker stays in `pthread_cond_wait` (queue empty and no shutdown), `exit` when
it leaves the loop, `run work` when it dequeues `work`. -/
def worker_iteration (s : ThreadPool) : WorkerAction × ThreadPool :=
  if s.queue_count = 0 ∧ s.is_shutdown = 0 then (WorkerAction.wait, s)
  else if s.is_shutdown ≠ 0 ∧ s.queue_count = 0 then (WorkerAction.exit, s)
  else (WorkerAction.run (worker_dequeue s).1, (worker_dequeue s).2)

/-- The locked part of `thread_pool_shutdown`: set the flag. -/
def thread_pool_shutdown (s : ThreadPool) : ThreadPool := { s with is_shutdown := 1 }

/-- The state that `thread_pool_init(num_threads, queue_size)` leaves when it returns 0;
`queue_mem` is the uninitialised array returned by `malloc(sizeof(WorkItem) * queue_size)`. -/
def thread_pool_init (num_threads queue_size : Int) (queue_mem : List WorkItem) : ThreadPool :=
  { thread_count := num_threads, queue := queue_mem, queue_size := queue_size,
    queue_front := 0, queue_rear := 0, queue_count := 0, is_running := 1, is_shutdown := 0 }

/-! ### The pool as a step system -/

/-- The items in the ring, oldest first: `count` items read from index `front` on, modulo
`size`. -/
def ring_read (q : List WorkItem) (size : Nat) : Nat → Nat → List WorkItem
  | _, 0 => []
  | front, count + 1 => q.getD (front % size) default :: ring_read q size (front + 1) count

/-- The list queue that the ring buffer of the pool stands for. -/
def ring_contents (s : ThreadPool) : List WorkItem :=
  ring_read s.queue s.queue_size.toNat s.queue_front.toNat s.queue_count.toNat

/-- The ring buffer is well formed: the array has `queue_size` elements, the front index is
inside it, the count is between 0 and the size, and index sums fit an `int`. -/
def RingInv (s : ThreadPool) : Prop :=
  (s.queue.length : Int) = s.queue_size ∧ 0 < s.queue_size ∧ s.queue_size ≤ 1073741824 ∧
  0 ≤ s.queue_front ∧ s.queue_front < s.queue_size ∧
  0 ≤ s.queue_count ∧ s.queue_count ≤ s.queue_size

/-- The degenerate pool of `thread_pool_init(n, q)` with `q ≤ 0` accepts nothing; otherwise the
ring is well formed. -/
def PoolInv (s : ThreadPool) : Prop := RingInv s ∨ (s.queue_size ≤ 0 ∧ s.queue_count = 0)

instance (s : ThreadPool) : Decidable (RingInv s) := by
  unfold RingInv; infer_instance

instance (s : ThreadPool) : Decidable (PoolInv s) := by
  unfold PoolInv; infer_instance

/-- The atomic steps of the pool: a call of `thread_pool_submit`, one loop iteration of some
worker thread (with the execution of the task it dequeued), the flag setting of
`thread_pool_shutdown`. -/
inductive PoolEvent where
  | submit (task arg : Nat)
  | worker
  | shutdown
deriving DecidableEq

/-- The pool with its history: the items accepted by `thread_pool_submit`, the items handed
to workers, the items whose task was run (`if (work.task) work.task(work.arg)`), and the number
of workers that have left their loop. -/
structure PoolSys where
  pool : ThreadPool
  accepted : List WorkItem
  handed : List WorkItem
  executed : List WorkItem
  exited : Nat

/-- One atomic step of the pool. -/
def pool_step (y : PoolSys) : PoolEvent → PoolSys
  | PoolEvent.submit task arg =>
    if (thread_pool_submit y.pool task arg).1 = 0 then
      { y with pool := (thread_pool_submit y.pool task arg).2,
               accepted := y.accepted ++ [{ task := task, arg := arg }] }
    else { y with pool := (thread_pool_submit y.pool task arg).2 }
  | PoolEvent.worker =>
    match worker_iteration y.pool with
    | (WorkerAction.wait, p) => { y with pool := p }
    | (WorkerAction.exit, p) => { y with pool := p, exited := y.exited + 1 }
    | (WorkerAction.run work, p) =>
      { y with pool := p, handed := y.handed ++ [work],
               executed := if work.task ≠ 0 then y.executed ++ [work] else y.executed }
  | PoolEvent.shutdown => { y with pool := thread_pool_shutdown y.pool }

/-- A run of the pool: the steps of `evs` in order. -/
def pool_run (y : PoolSys) (evs : List PoolEvent) : PoolSys := evs.foldl pool_step y

/-- The pool system right after `thread_pool_init(num_threads, queue_size)` returned 0. -/
def pool_sys_init (num_threads queue_size : Int) (queue_mem : List WorkItem) : PoolSys :=
  { pool := thread_pool_init num_threads queue_size queue_mem, accepted := [], handed := [],
    executed := [], exited := 0 }

/-! ## Connection registry: `websocket_add_client` and friends -/

/-- The struct `WebSocketClient`; `thread` is the thread handle, which the registry functions
never write. -/
structure WebSocketClient where
  fd : Int
  user_id : Int
  room_id : Int
  thread : Nat
  is_connected : Int
deriving DecidableEq, Inhabited

/-- The struct `WebSocketServer` (global `g_server`) without its mutex: the array `clients`
of 1000 elements and `client_count`. -/
structure WebSocketServer where
  clients : List WebSocketClient
  client_count : Int
deriving DecidableEq

/-- The global `g_server = {0}` after `websocket_init`. -/
def websocket_server_zero : WebSocketServer :=
  { clients := List.replicate 1000 { fd := 0, user_id := 0, room_id := 0, thread := 0,
                                     is_connected := 0 },
    client_count := 0 }

/-- The function `websocket_add_client(fd, user_id, room_id)`: the return value and the registry
afterwards. -/
def websocket_add_client (s : WebSocketServer) (fd user_id room_id : Int) :
    Int × WebSocketServer :=
  if s.client_count ≥ 1000 then (-1, s)
  else
    let idx := s.client_count
    (idx, { clients := array_set s.clients idx
              { array_get s.clients idx with
                fd := fd, user_id := user_id, room_id := room_id, is_connected := 1 },
            client_count := int32 (s.client_count + 1) })

/-- The function `websocket_get_client_index(fd)`: the first index below `client_count` whose
entry has this `fd` and a non-zero `is_connected`, or -1. -/
def websocket_get_client_index (s : WebSocketServer) (fd : Int) : Int :=
  match first_index
      (fun i => (array_get s.clients i).fd = fd ∧ (array_get s.clients i).is_connected ≠ 0)
      s.client_count s.client_count.toNat 0 with
  | some i => i
  | none => -1

/-- The function `websocket_remove_client(fd)`: the return value and the registry afterwards. -/
def websocket_remove_client (s : WebSocketServer) (fd : Int) : Int × WebSocketServer :=
  let idx := websocket_get_client_index s fd
  if idx ≥ 0 then
    let cleared := array_set s.clients idx { array_get s.clients idx with is_connected := 0 }
    (idx, { clients := shift_down s.client_count s.client_count.toNat idx cleared,
            client_count := int32 (s.client_count - 1) })
  else (idx, s)

/-- The function `websocket_get_active_connections()`. -/
def websocket_get_active_connections (s : WebSocketServer) : Int := s.client_count

/-- The live table of the registry: the entries at the indices below `client_count`. -/
def live_clients (s : WebSocketServer) : List WebSocketClient :=
  s.clients.take s.client_count.toNat

/-- The macro `MAX_FRAME_SIZE`. -/
def MAX_FRAME_SIZE : Int := 65536

/-- The send loop of `websocket_broadcast_to_room` over the entries from index `i` on.
`send k` is the result of the `k`-th call of `send` in this broadcast (the socket is outside the
program); `log` lists the calls made so far, as (fd, bytes), and `sent_count` counts the calls
that returned a positive value. The first argument bounds the number of iterations. -/
def broadcast_loop (s : WebSocketServer) (room_id : Int) (frame : List Nat) (send : Nat → Int) :
    Nat → Int → List (Int × List Nat) → Int → Int × List (Int × List Nat)
  | 0, _, log, sent_count => (sent_count, log)
  | fuel + 1, i, log, sent_count =>
    if i < s.client_count then
      if (array_get s.clients i).is_connected ≠ 0 ∧ (array_get s.clients i).room_id = room_id then
        broadcast_loop s room_id frame send fuel (i + 1)
          (log ++ [((array_get s.clients i).fd, frame)])
          (if send log.length > 0 then int32 (sent_count + 1) else sent_count)
      else broadcast_loop s room_id frame send fuel (i + 1) log sent_count
    else (sent_count, log)

/-- The function `websocket_broadcast_to_room(room_id, message)` for a non-null `message`
(a C string): the return value, the `send` calls made, in order, and the registry afterwards.
`frame_size` bytes of the local buffer `frame` are passed to `send`. -/
def websocket_broadcast_to_room (s : WebSocketServer) (room_id : Int) (message : List Nat)
    (send : Nat → Int) : Int × List (Int × List Nat) × WebSocketServer :=
  let msg_len : Int := int32 ((c_str message).length : Int)
  let created := create_ws_frame (c_str message) msg_len MAX_FRAME_SIZE
  if created.1 < 0 then (-1, [], s)
  else
    let r := broadcast_loop s room_id (created.2.take created.1.toNat) send
      s.client_count.toNat 0 [] 0
    (r.1, r.2, s)

/-- The registry is well formed: the array has its 1000 elements and `client_count` lies
between 0 and 1000. -/
def RegistryInv (s : WebSocketServer) : Prop :=
  s.clients.length = 1000 ∧ 0 ≤ s.client_count ∧ s.client_count ≤ 1000

instance (s : WebSocketServer) : Decidable (RegistryInv s) := by
  unfold RegistryInv; infer_instance

/-- The entries that a broadcast to `room_id` must reach: the live entries whose
`is_connected` flag is set and whose room is `room_id`, in table order. -/
def room_targets (s : WebSocketServer) (room_id : Int) : List WebSocketClient :=
  (live_clients s).filter (fun c => c.is_connected ≠ 0 ∧ c.room_id = room_id)

/-- The number of the `send` calls `start .. start + n - 1` that succeed. -/
def sends_succeeded (send : Nat → Int) (start n : Nat) : Nat :=
  ((List.range n).filter (fun k => send (start + k) > 0)).length

/-- The send loop of a broadcast, over a list of entries instead of array indices. -/
def fan_out (room_id : Int) (frame : List Nat) (send : Nat → Int) :
    List WebSocketClient → List (Int × List Nat) → Int → Int × List (Int × List Nat)
  | [], log, sent_count => (sent_count, log)
  | c :: rest, log, sent_count =>
    if c.is_connected ≠ 0 ∧ c.room_id = room_id then
      fan_out room_id frame send rest (log ++ [(c.fd, frame)])
        (if send log.length > 0 then int32 (sent_count + 1) else sent_count)
    else fan_out room_id frame send rest log sent_count

/-! ### Example registries -/

/-- The registry after the connections with fd 5, 6 and 7 were added to the empty one, the
second of them in room 1. -/
def registry_567 : WebSocketServer :=
  (websocket_add_client (websocket_add_client (websocket_add_client websocket_server_zero
    5 0 0).2 6 0 1).2 7 0 0).2

/-- The registry with fd 5 in room 0, fd 6 in room 1 and fd 7 in room 1. -/
def registry_rooms : WebSocketServer :=
  (websocket_add_client (websocket_add_client (websocket_add_client websocket_server_zero
    5 0 0).2 6 0 1).2 7 0 1).2

/-! ### Example pools -/

/-- The pool of `thread_pool_init(10, 100)`, as `main` creates it, after two accepted
submits. -/
def pool_two_queued : PoolSys :=
  pool_run (pool_sys_init 10 100 (List.replicate 100 default))
    [PoolEvent.submit 1 1, PoolEvent.submit 2 2]

/-! ## In-memory store: `database.c`

The global `g_db` is passed explicitly. The three mutexes only serialise the calls and are not
part of the state; a `char` array is the list of its bytes. -/

/-- The constant `MAX_USERS`. -/
def MAX_USERS : Int := 1000

/-- The constant `MAX_ROOMS`. -/
def MAX_ROOMS : Int := 100

/-- The constant `MAX_MESSAGES`. -/
def MAX_MESSAGES : Int := 10000

/-- The constant `MAX_USERS_PER_ROOM`. -/
def MAX_USERS_PER_ROOM : Int := 50

/-- The struct `User`. -/
structure User where
  user_id : Int
  username : List Nat
  password_hash : List Nat
  role : Int
  current_room_id : Int
  created_at : Int
  is_active : Int
  is_online : Int
deriving DecidableEq, Inhabited

/-- The struct `ChatRoom`. -/
structure ChatRoom where
  room_id : Int
  room_name : List Nat
  created_by : Int
  max_users : Int
  current_user_count : Int
  user_ids : List Int
  created_at : Int
  is_active : Int
deriving DecidableEq, Inhabited

/-- The struct `Message`. -/
structure Message where
  message_id : Int
  sender_id : Int
  room_id : Int
  sender_name : List Nat
  content : List Nat
  timestamp : Int
deriving DecidableEq, Inhabited

/-- The struct `Database`, without its mutexes. -/
structure Database where
  users : List User
  user_count : Int
  next_user_id : Int
  rooms : List ChatRoom
  room_count : Int
  next_room_id : Int
  messages : List Message
  message_count : Int
  next_message_id : Int
deriving DecidableEq

/-- A `User` of zero bytes. -/
def user_zero : User :=
  { user_id := 0, username := List.replicate 50 0, password_hash := List.replicate 65 0,
    role := 0, current_room_id := 0, created_at := 0, is_active := 0, is_online := 0 }

/-- A `ChatRoom` of zero bytes. -/
def room_zero : ChatRoom :=
  { room_id := 0, room_name := List.replicate 100 0, created_by := 0, max_users := 0,
    current_user_count := 0, user_ids := List.replicate 50 0, created_at := 0, is_active := 0 }

/-- A `Message` of zero bytes. -/
def message_zero : Message :=
  { message_id := 0, sender_id := 0, room_id := 0, sender_name := List.replicate 50 0,
    content := List.replicate 1024 0, timestamp := 0 }

/-- The function `db_init`: `memset` to zero, then the three id counters start at 1. -/
def db_init : Database :=
  { users := List.replicate 1000 user_zero, user_count := 0, next_user_id := 1,
    rooms := List.replicate 100 room_zero, room_count := 0, next_room_id := 1,
    messages := List.replicate 10000 message_zero, message_count := 0, next_message_id := 1 }

/-- The call `strncpy(dst, src, n)` for a C string `src` and `n` at most the size of `dst`:
the first `n` bytes of `dst` become the string, cut at `n` bytes or padded with zero bytes up
to `n`; the later bytes of `dst` stay. -/
def strncpy (dst src : List Nat) (n : Nat) : List Nat :=
  (c_str src).take n ++ List.replicate (n - (c_str src).length) 0 ++ dst.drop n

/-- The function `db_create_room`; `now` is the value of `time(NULL)`. Returns the result and
the store after the call. -/
def db_create_room (db : Database) (room_name : List Nat) (created_by : Int) (now : Int) :
    Int × Database :=
  if db.room_count ≥ MAX_ROOMS then (-1, db)
  else
    let new_room : ChatRoom :=
      { array_get db.rooms db.room_count with
        room_id := db.next_room_id,
        room_name := strncpy (array_get db.rooms db.room_count).room_name room_name 99,
        created_by := created_by,
        max_users := MAX_USERS_PER_ROOM,
        current_user_count := 0,
        created_at := now,
        is_active := 1 }
    (new_room.room_id,
     { db with rooms := array_set db.rooms db.room_count new_room,
               next_room_id := int32 (db.next_room_id + 1),
               room_count := int32 (db.room_count + 1) })

/-- The function `db_add_user_to_room`. The outer loop stops at the first room with the id
(every branch under its test returns); the inner loop looks for the user among the first
`current_user_count` entries of `user_ids`. -/
def db_add_user_to_room (db : Database) (room_id user_id : Int) : Int × Database :=
  match first_index (fun i => (array_get db.rooms i).room_id = room_id)
      db.room_count db.room_count.toNat 0 with
  | none => (-3, db)
  | some i =>
    let room := array_get db.rooms i
    if room.current_user_count ≥ room.max_users then (-1, db)
    else
      match first_index (fun j => array_get room.user_ids j = user_id)
          room.current_user_count room.current_user_count.toNat 0 with
      | some _ => (-2, db)
      | none =>
        let joined : ChatRoom :=
          { room with
            user_ids := array_set room.user_ids room.current_user_count user_id,
            current_user_count := int32 (room.current_user_count + 1) }
        (0, { db with rooms := array_set db.rooms i joined })

/-- The outer loop of `db_remove_user_from_room` from room index `i` on: a room with the id
that does not hold the user is passed over and the search goes on with the next room. -/
def remove_user_loop (db : Database) (room_id user_id : Int) : Nat → Int → Int × Database
  | 0, _ => (-1, db)
  | fuel + 1, i =>
    if i < db.room_count then
      let room := array_get db.rooms i
      if room.room_id = room_id then
        match first_index (fun j => array_get room.user_ids j = user_id)
            room.current_user_count room.current_user_count.toNat 0 with
        | some j =>
          let left : ChatRoom :=
            { room with
              user_ids := shift_down room.current_user_count
                room.current_user_count.toNat j room.user_ids,
              current_user_count := int32 (room.current_user_count - 1) }
          (0, { db with rooms := array_set db.rooms i left })
        | none => remove_user_loop db room_id user_id fuel (i + 1)
      else remove_user_loop db room_id user_id fuel (i + 1)
    else (-1, db)

/-- The function `db_remove_user_from_room`. -/
def db_remove_user_from_room (db : Database) (room_id user_id : Int) : Int × Database :=
  remove_user_loop db room_id user_id db.room_count.toNat 0

/-! ### Rooms and members, as the specification speaks of them -/

/-- The stored rooms: the first `room_count` elements of the array. -/
def live_rooms (db : Database) : List ChatRoom := db.rooms.take db.room_count.toNat

/-- The member list of a room: the first `current_user_count` entries of `user_ids`. -/
def room_members (r : ChatRoom) : List Int := r.user_ids.take r.current_user_count.toNat

/-- The stored room with the given id, the first one in table order, as `db_get_room_by_id`
finds it. -/
def db_room (db : Database) (room_id : Int) : Option ChatRoom :=
  (live_rooms db).find? (fun r => r.room_id = room_id)

/-- The rooms table is well formed: the arrays have their declared sizes, `room_count` lies
between 0 and 100, and every stored room has capacity 50 and a member count between 0 and 50. -/
def StoreWF (db : Database) : Prop :=
  db.rooms.length = 100 ∧ 0 ≤ db.room_count ∧ db.room_count ≤ 100 ∧
  (∀ r ∈ db.rooms, r.user_ids.length = 50) ∧
  ∀ r ∈ live_rooms db,
    r.max_users = 50 ∧ 0 ≤ r.current_user_count ∧ r.current_user_count ≤ 50

instance (db : Database) : Decidable (StoreWF db) := by
  unfold StoreWF; infer_instance

/-- A call of one of the three room functions. -/
inductive RoomCall where
  | create (room_name : List Nat) (created_by now : Int)
  | add (room_id user_id : Int)
  | remove (room_id user_id : Int)
deriving DecidableEq

/-- The store after a call. -/
def room_call (db : Database) : RoomCall → Database
  | RoomCall.create room_name created_by now => (db_create_room db room_name created_by now).2
  | RoomCall.add room_id user_id => (db_add_user_to_room db room_id user_id).2
  | RoomCall.remove room_id user_id => (db_remove_user_from_room db room_id user_id).2

/-- The store after a sequence of calls. -/
def room_calls (db : Database) (calls : List RoomCall) : Database := calls.foldl room_call db

/-- The results and the store after `db_add_user_to_room(room_id, u)` for each `u` of a list,
in order. -/
def add_users (db : Database) (room_id : Int) : List Int → List Int × Database
  | [] => ([], db)
  | u :: us =>
    ((db_add_user_to_room db room_id u).1 :: (add_users (db_add_user_to_room db room_id u).2
        room_id us).1,
     (add_users (db_add_user_to_room db room_id u).2 room_id us).2)

/-- The invariant of the rooms table: it is well formed, the next room id is one more than the
number of stored rooms, and every stored room has pairwise distinct members and an id below
the next room id. -/
def StoreInv (db : Database) : Prop :=
  StoreWF db ∧ db.next_room_id = db.room_count + 1 ∧
  ∀ r ∈ live_rooms db, (room_members r).Nodup ∧ r.room_id < db.next_room_id

/-! ### Example stores -/

/-- The user ids 1 to 50. -/
def fifty_users : List Int := (List.range 50).map (fun n => (n : Int) + 1)

/-- The store after `db_init` and `db_create_room("R", 1)`: one empty room, of id 1. -/
def store_one_room : Database := (db_create_room db_init [82] 1 0).2

/-- The store in which users 5 and 6 have joined room 1. -/
def store_two_members : Database := (add_users store_one_room 1 [5, 6]).2

/-- The store in which the users 1 to 50 have joined room 1, which is then full. -/
def store_full_room : Database := (add_users store_one_room 1 fifty_users).2

/-- A sequence of calls: a room is created, the users 5, 6 and again 5 are added, user 5 is
removed and user 7 is added. -/
def example_calls : List RoomCall :=
  [RoomCall.create [82] 1 0, RoomCall.add 1 5, RoomCall.add 1 6, RoomCall.add 1 5,
   RoomCall.remove 1 5, RoomCall.add 1 7]

/-! ### Users and messages -/

/-- The call `strcmp(s, t)` on two C strings, each given by the bytes of its buffer; the end of
a list reads as the terminating NUL. Only the sign of the result is specified by C. -/
def strcmp : List Nat → List Nat → Int
  | [], [] => 0
  | [], b :: _ => -(b : Int)
  | a :: _, [] => (a : Int)
  | a :: s, b :: t => if a ≠ b then (a : Int) - (b : Int) else if a = 0 then 0 else strcmp s t

/-- The function `db_create_user`; `now` is the value of `time(NULL)`. Returns the result and
the store after the call. -/
def db_create_user (db : Database) (username password_hash : List Nat) (role : Int)
    (now : Int) : Int × Database :=
  if db.user_count ≥ MAX_USERS then (-1, db)
  else
    match first_index (fun i => strcmp (array_get db.users i).username username = 0)
        db.user_count db.user_count.toNat 0 with
    | some _ => (-2, db)
    | none =>
      let new_user : User :=
        { array_get db.users db.user_count with
          user_id := db.next_user_id,
          username := strncpy (array_get db.users db.user_count).username username 49,
          password_hash :=
            strncpy (array_get db.users db.user_count).password_hash password_hash 64,
          role := role,
          current_room_id := -1,
          created_at := now,
          is_active := 1,
          is_online := 0 }
      (new_user.user_id,
       { db with users := array_set db.users db.user_count new_user,
                 next_user_id := int32 (db.next_user_id + 1),
                 user_count := int32 (db.user_count + 1) })

/-- The function `db_update_user_online_status`. -/
def db_update_user_online_status (db : Database) (user_id is_online : Int) : Int × Database :=
  match first_index (fun i => (array_get db.users i).user_id = user_id)
      db.user_count db.user_count.toNat 0 with
  | none => (-1, db)
  | some i =>
    let updated : User := { array_get db.users i with is_online := is_online }
    (0, { db with users := array_set db.users i updated })

/-- The function `db_create_message`; `now` is the value of `time(NULL)`. Returns the result
and the store after the call. -/
def db_create_message (db : Database) (sender_id room_id : Int) (sender_name content : List Nat)
    (now : Int) : Int × Database :=
  if db.message_count ≥ MAX_MESSAGES then (-1, db)
  else
    let msg : Message :=
      { array_get db.messages db.message_count with
        message_id := db.next_message_id,
        sender_id := sender_id,
        room_id := room_id,
        sender_name := strncpy (array_get db.messages db.message_count).sender_name sender_name 49,
        content := strncpy (array_get db.messages db.message_count).content content 1023,
        timestamp := now }
    (msg.message_id,
     { db with messages := array_set db.messages db.message_count msg,
               next_message_id := int32 (db.next_message_id + 1),
               message_count := int32 (db.message_count + 1) })

/-- The value of `sizeof(Message)` on an LP64 target: three `int`s, 50 and 1024 `char`s, two
bytes of padding and an 8-byte `time_t`. -/
def SIZEOF_MESSAGE : Nat := 1096

/-- The first loop of `db_get_room_messages`: counts the stored messages of the room from
index `i` on, starting from `msg_count`. -/
def count_room_messages (db : Database) (room_id : Int) : Nat → Int → Int → Int
  | 0, _, msg_count => msg_count
  | fuel + 1, i, msg_count =>
    if i < db.message_count then
      count_room_messages db room_id fuel (i + 1)
        (if (array_get db.messages i).room_id = room_id then int32 (msg_count + 1)
         else msg_count)
    else msg_count

/-- The second loop of `db_get_room_messages` from index `i` on: `result` lists the elements
written to the result array so far (so `result_idx` is its length), `skipped` counts the
messages of the room met so far. -/
def copy_room_messages (db : Database) (room_id start_idx : Int) :
    Nat → Int → List Message → Int → List Message
  | 0, _, result, _ => result
  | fuel + 1, i, result, skipped =>
    if i < db.message_count then
      if (array_get db.messages i).room_id = room_id then
        copy_room_messages db room_id start_idx fuel (i + 1)
          (if skipped ≥ start_idx then result ++ [array_get db.messages i] else result)
          (int32 (skipped + 1))
      else copy_room_messages db room_id start_idx fuel (i + 1) result skipped
    else result

/-- The function `db_get_room_messages(room_id, &count, limit)`: the returned array (`none` for
NULL) and the value of `*count`. The argument `malloc` tells for which sizes the allocation
succeeds. The store is only read. -/
def db_get_room_messages (malloc : Nat → Bool) (db : Database) (room_id limit : Int) :
    Option (List Message) × Int :=
  let counted := count_room_messages db room_id db.message_count.toNat 0 0
  let start_idx := if limit > 0 ∧ counted > limit then int32 (counted - limit) else 0
  let msg_count := if limit > 0 ∧ counted > limit then limit else counted
  if malloc ((SIZEOF_MESSAGE * size_t msg_count) % 18446744073709551616) = false then (none, 0)
  else
    (some (copy_room_messages db room_id start_idx db.message_count.toNat 0 [] 0), msg_count)

/-- The function `db_get_all_messages(&count)`: the returned copy (`none` for NULL) and the
value of `*count`. The store is only read. -/
def db_get_all_messages (malloc : Nat → Bool) (db : Database) : Option (List Message) × Int :=
  (if malloc ((SIZEOF_MESSAGE * size_t db.message_count) % 18446744073709551616) = false
   then none
   else some (db.messages.take (size_t db.message_count)),
   db.message_count)

/-- The stored users: the first `user_count` elements of the array. -/
def live_users (db : Database) : List User := db.users.take db.user_count.toNat

/-- The stored messages: the first `message_count` elements of the array, in insertion
order. -/
def live_messages (db : Database) : List Message := db.messages.take db.message_count.toNat

/-- The messages of a room, in insertion order. -/
def room_messages (db : Database) (room_id : Int) : List Message :=
  (live_messages db).filter (fun m => m.room_id = room_id)

/-! ### The store as a step system -/

/-- A call of a store function. The last case stands for the functions that never assign to
`g_db`: `db_get_user_by_id`, `db_get_user_by_username`, `db_user_exists`, `db_get_room_by_id`,
`db_get_room_users`, `db_get_all_rooms`, `db_get_room_messages`, `db_get_all_messages` and the
three `db_print_` functions. -/
inductive StoreCall where
  | create_user (username password_hash : List Nat) (role now : Int)
  | update_online (user_id is_online : Int)
  | create_room (room_name : List Nat) (created_by now : Int)
  | add_user_to_room (room_id user_id : Int)
  | remove_user_from_room (room_id user_id : Int)
  | create_message (sender_id room_id : Int) (sender_name content : List Nat) (now : Int)
  | query
deriving DecidableEq

/-- The store after a call. -/
def store_call (db : Database) : StoreCall → Database
  | StoreCall.create_user username password_hash role now =>
    (db_create_user db username password_hash role now).2
  | StoreCall.update_online user_id is_online =>
    (db_update_user_online_status db user_id is_online).2
  | StoreCall.create_room room_name created_by now =>
    (db_create_room db room_name created_by now).2
  | StoreCall.add_user_to_room room_id user_id => (db_add_user_to_room db room_id user_id).2
  | StoreCall.remove_user_from_room room_id user_id =>
    (db_remove_user_from_room db room_id user_id).2
  | StoreCall.create_message sender_id room_id sender_name content now =>
    (db_create_message db sender_id room_id sender_name content now).2
  | StoreCall.query => db

/-- The store after a sequence of calls. -/
def store_calls (db : Database) (calls : List StoreCall) : Database := calls.foldl store_call db

/-- The three tables of the store. -/
inductive Table where
  | users
  | rooms
  | messages
deriving DecidableEq

/-- The next-id counter of a table. -/
def next_id : Table → Database → Int
  | Table.users, db => db.next_user_id
  | Table.rooms, db => db.next_room_id
  | Table.messages, db => db.next_message_id

/-- The identifiers stored in a table, in table order. -/
def stored_ids : Table → Database → List Int
  | Table.users, db => (live_users db).map (fun u => u.user_id)
  | Table.rooms, db => (live_rooms db).map (fun r => r.room_id)
  | Table.messages, db => (live_messages db).map (fun m => m.message_id)

/-- The identifier that a call returns when it is a successful creation in the table: the
result of the `db_create_` function of the table when it is positive (the failure results are
-1 and -2). -/
def created_id : Table → Database → StoreCall → Option Int
  | Table.users, db, StoreCall.create_user username password_hash role now =>
    if (db_create_user db username password_hash role now).1 > 0
    then some (db_create_user db username password_hash role now).1 else none
  | Table.rooms, db, StoreCall.create_room room_name created_by now =>
    if (db_create_room db room_name created_by now).1 > 0
    then some (db_create_room db room_name created_by now).1 else none
  | Table.messages, db, StoreCall.create_message sender_id room_id sender_name content now =>
    if (db_create_message db sender_id room_id sender_name content now).1 > 0
    then some (db_create_message db sender_id room_id sender_name content now).1 else none
  | _, _, _ => none

/-- The identifiers returned by the successful creations in a table during a sequence of
calls, in the order of the calls. -/
def created_ids (t : Table) : Database → List StoreCall → List Int
  | _, [] => []
  | db, c :: cs => (created_id t db c).toList ++ created_ids t (store_call db c) cs

/-- The invariant of the users table: sizes and counters in range, the stored user at index
`i` has the id `i + 1`, and the slots from `user_count` on still hold the zero bytes of
`db_init`. -/
def UsersInv (db : Database) : Prop :=
  db.users.length = 1000 ∧ 0 ≤ db.user_count ∧ db.user_count ≤ 1000 ∧
  db.next_user_id = db.user_count + 1 ∧
  (∀ (i : Nat) (u : User), (live_users db)[i]? = some u → u.user_id = (i : Int) + 1) ∧
  ∀ i : Nat, db.user_count.toNat ≤ i → i < 1000 → db.users[i]? = some user_zero

/-- The invariant of the ids and free slots of the rooms table. -/
def RoomIdsInv (db : Database) : Prop :=
  (∀ (i : Nat) (r : ChatRoom), (live_rooms db)[i]? = some r → r.room_id = (i : Int) + 1) ∧
  ∀ i : Nat, db.room_count.toNat ≤ i → i < 100 → db.rooms[i]? = some room_zero

/-- The invariant of the messages table. -/
def MessagesInv (db : Database) : Prop :=
  db.messages.length = 10000 ∧ 0 ≤ db.message_count ∧ db.message_count ≤ 10000 ∧
  db.next_message_id = db.message_count + 1 ∧
  (∀ (i : Nat) (m : Message), (live_messages db)[i]? = some m →
    m.message_id = (i : Int) + 1) ∧
  ∀ i : Nat, db.message_count.toNat ≤ i → i < 10000 → db.messages[i]? = some message_zero

/-- The invariant of the whole store. -/
def DbInv (db : Database) : Prop :=
  StoreInv db ∧ UsersInv db ∧ RoomIdsInv db ∧ MessagesInv db

/-- The call passes a username of at most 49 characters, if it is a `db_create_user` call; this
is the bound that `auth_register`, the caller of `db_create_user`, enforces. -/
def short_username : StoreCall → Prop
  | StoreCall.create_user username _ _ _ => (c_str username).length ≤ 49
  | _ => True

instance (c : StoreCall) : Decidable (short_username c) := by
  cases c <;> unfold short_username <;> infer_instance

/-! ## Connection handler: the receive loop of `websocket_client_handler` -/

/-- What one iteration of the receive loop does: the `send` calls it makes, as (fd, bytes) in
order, whether it reaches the end of the loop body (`false` when it leaves the loop by `break`),
and the registry afterwards. -/
structure HandlerStep where
  sends : List (Int × List Nat)
  continues : Bool
  server : WebSocketServer
deriving DecidableEq

/-- The loop of the text branch over the registry entries from index `i` on: the frame is
encoded anew for every connected entry other than the sender and sent when
`create_ws_frame` returns a positive size. `log` lists the `send` calls made so far. -/
def relay_loop (s : WebSocketServer) (client_fd : Int) (message : List Nat)
    (payload_len : Int) : Nat → Int → List (Int × List Nat) → List (Int × List Nat)
  | 0, _, log => log
  | fuel + 1, i, log =>
    if i < s.client_count then
      if (array_get s.clients i).is_connected ≠ 0 ∧ (array_get s.clients i).fd ≠ client_fd then
        if (create_ws_frame message payload_len MAX_FRAME_SIZE).1 > 0 then
          relay_loop s client_fd message payload_len fuel (i + 1)
            (log ++ [((array_get s.clients i).fd,
              (create_ws_frame message payload_len MAX_FRAME_SIZE).2.take
                (create_ws_frame message payload_len MAX_FRAME_SIZE).1.toNat)])
        else relay_loop s client_fd message payload_len fuel (i + 1) log
      else relay_loop s client_fd message payload_len fuel (i + 1) log
    else log

/-- One iteration of the loop `while (g_running)` of `websocket_client_handler` for the
client `client_fd`, after `recv` returned `n` and left the received bytes in `buffer`. The
argument `malloc` tells for which sizes the allocation in `parse_ws_frame` succeeds. -/
def websocket_handler_iteration (malloc : Nat → Bool) (s : WebSocketServer) (client_fd : Int)
    (buffer : List Nat) (n : Int) : HandlerStep :=
  if n ≤ 0 then { sends := [], continues := false, server := s }
  else if (parse_ws_frame malloc buffer n WSFrame.zero).1 < 0 then
    { sends := [], continues := false, server := s }
  else if (parse_ws_frame malloc buffer n WSFrame.zero).2.opcode = 0x1 then
    if size_t (parse_ws_frame malloc buffer n WSFrame.zero).2.payload_len < 4096 then
      { sends := relay_loop s client_fd
          ((parse_ws_frame malloc buffer n WSFrame.zero).2.payload.getD [])
          (parse_ws_frame malloc buffer n WSFrame.zero).2.payload_len
          s.client_count.toNat 0 [],
        continues := true, server := s }
    else { sends := [], continues := true, server := s }
  else if (parse_ws_frame malloc buffer n WSFrame.zero).2.opcode = 0x8 then
    { sends := [], continues := false, server := s }
  else if (parse_ws_frame malloc buffer n WSFrame.zero).2.opcode = 0x9 then
    { sends := [(client_fd, [0x8A, 0x00])], continues := true, server := s }
  else { sends := [], continues := true, server := s }

/-! ## HTTP acceptor: the loop of `http_server_start` -/

/-- The function pointer `http_handler_task`, a non-null value. -/
def HTTP_HANDLER_TASK : Nat := 1

/-- What one iteration of the acceptor loop does with an accepted socket: the pool afterwards,
the result of `thread_pool_submit` (`none` when it is not called), the sockets passed to `close`
and the pointers passed to `free`. -/
structure AcceptStep where
  pool : ThreadPool
  submitted : Option Int
  closed : List Int
  freed : List Nat
deriving DecidableEq

/-- One iteration of the loop `while (g_http_running)` of `http_server_start`, after `accept`
returned `client_fd`; `client_fd_ptr` is the result of `malloc(sizeof(int))`, 0 for NULL. The
result of `thread_pool_submit` is discarded, and the loop body calls neither `close` nor
`free`. -/
def http_accept_iteration (pool : ThreadPool) (client_fd : Int) (client_fd_ptr : Nat) :
    AcceptStep :=
  if client_fd < 0 then { pool := pool, submitted := none, closed := [], freed := [] }
  else if client_fd_ptr ≠ 0 then
    { pool := (thread_pool_submit pool HTTP_HANDLER_TASK client_fd_ptr).2,
      submitted := some (thread_pool_submit pool HTTP_HANDLER_TASK client_fd_ptr).1,
      closed := [], freed := [] }
  else { pool := pool, submitted := none, closed := [], freed := [] }

/-! ### Example states for the store, the handler and the acceptor -/

/-- The name of 50 characters `aa...ab`. -/
def long_name_b : List Nat := List.replicate 49 97 ++ [98]

/-- The name of 50 characters `aa...ac`. -/
def long_name_c : List Nat := List.replicate 49 97 ++ [99]

/-- The store after `db_init` and the registration of the two long names. -/
def store_long_names : Database :=
  store_calls db_init
    [StoreCall.create_user long_name_b [104] 0 0, StoreCall.create_user long_name_c [104] 0 0]

/-- A run of the store: two users, a room, two members, four messages in the rooms 1, 2, 1
and 1. -/
def example_store_calls : List StoreCall :=
  [StoreCall.create_user [98, 111, 98] [104] 0 0, StoreCall.create_user [97, 108] [104] 1 0,
   StoreCall.create_room [82] 1 0, StoreCall.add_user_to_room 1 1,
   StoreCall.add_user_to_room 1 2,
   StoreCall.create_message 1 1 [98, 111, 98] [104, 105] 0,
   StoreCall.create_message 1 2 [98, 111, 98] [104] 0,
   StoreCall.create_message 2 1 [97, 108] [106] 0,
   StoreCall.create_message 2 1 [97, 108] [107] 0]

/-- The store after the run `example_store_calls`. -/
def example_store : Database := store_calls db_init example_store_calls

/-- The store in which 100 rooms have been created. -/
def store_full_rooms : Database :=
  store_calls db_init (List.replicate 100 (StoreCall.create_room [82] 1 0))

/-- The pool of `thread_pool_init(10, 100)` after 100 accepted submits: its queue is full. -/
def pool_full : ThreadPool :=
  (pool_run (pool_sys_init 10 100 (List.replicate 100 default))
    (List.replicate 100 (PoolEvent.submit 1 1))).pool

/-! ### Example pools after shutdown -/

/-- The pool of `thread_pool_init(10, 100)`, as `main` creates it, after
`thread_pool_shutdown` has set the flag. -/
def pool_shut_down : ThreadPool :=
  thread_pool_shutdown (thread_pool_init 10 100 (List.replicate 100 default))

/-! ## The registry and the connection handlers as step systems -/

/-- A call of one of the two functions that write the registry. -/
inductive RegistryCall where
  | add (fd user_id room_id : Int)
  | remove (fd : Int)
deriving DecidableEq

/-- The registry with its history: the number of `websocket_add_client` calls that returned an
index and the number of `websocket_remove_client` calls that returned an index (both return -1
when they fail). -/
structure RegistrySys where
  server : WebSocketServer
  added : Nat
  removed : Nat
deriving DecidableEq

/-- One call on the registry. -/
def registry_call (y : RegistrySys) : RegistryCall → RegistrySys
  | RegistryCall.add fd user_id room_id =>
    { server := (websocket_add_client y.server fd user_id room_id).2,
      added := if (websocket_add_client y.server fd user_id room_id).1 ≥ 0 then y.added + 1
               else y.added,
      removed := y.removed }
  | RegistryCall.remove fd =>
    { server := (websocket_remove_client y.server fd).2,
      added := y.added,
      removed := if (websocket_remove_client y.server fd).1 ≥ 0 then y.removed + 1
                 else y.removed }

/-- The registry after a sequence of calls. -/
def registry_calls (y : RegistrySys) (calls : List RegistryCall) : RegistrySys :=
  calls.foldl registry_call y

/-- The initial empty registry, before any call. -/
def registry_sys_zero : RegistrySys :=
  { server := websocket_server_zero, added := 0, removed := 0 }

theorem int32_eq_self {x : Int} (h1 : -2147483648 ≤ x) (h2 : x ≤ 2147483647) : int32 x = x := by
  unfold int32; omega

theorem size_t_natCast {n : Nat} (h : n < 18446744073709551616) : size_t (n : Int) = n := by
  unfold size_t; omega

theorem land_natCast (a b : Nat) : Int.land (a : Int) (b : Int) = ((a &&& b : Nat) : Int) := rfl

theorem lor_natCast (a b : Nat) : Int.lor (a : Int) (b : Int) = ((a ||| b : Nat) : Int) := rfl

theorem length_mask_from (k : List Nat) (i : Nat) (p : List Nat) :
    (mask_from k i p).length = p.length := by
  induction p generalizing i with
  | nil => rfl
  | cons b bs ih => simp [mask_from, ih]

theorem xor_byte_lt {a b : Nat} (ha : a < 256) (hb : b < 256) : a ^^^ b < 256 :=
  Nat.xor_lt_two_pow (n := 8) ha hb

theorem unmask_mask_from (k : List Nat) (len : Int) (i : Nat) (p : List Nat)
    (hp : ∀ b ∈ p, b < 256) (hlen : ((i + p.length : Nat) : Int) ≤ len) :
    unmask_from k len i (mask_from k i p) = p := by
  induction p generalizing i with
  | nil => rfl
  | cons b bs ih =>
    have hb : b < 256 := hp b (by simp)
    have hi : (i : Int) < len := by simp at hlen; omega
    have hx : (b ^^^ k.getD (i % 4) 0 ^^^ k.getD (i % 4) 0) % 256 = b := by
      rw [Nat.xor_assoc, Nat.xor_self, Nat.xor_zero]; omega
    simp only [mask_from, unmask_from, hi, if_true, hx]
    rw [ih (i + 1) (fun c hc => hp c (by simp [hc])) (by simp at hlen ⊢; omega)]

theorem parse_payload_complete (malloc : Nat → Bool) (hdr body : List Nat) (frame : WSFrame)
    (hpl : frame.payload_len = (body.length : Int))
    (hfit : ((hdr.length + body.length : Nat) : Int) ≤ INT_MAX)
    (hm : malloc body.length = true) :
    parse_payload malloc (hdr ++ body) ((hdr.length + body.length : Nat) : Int) frame hdr.length
      = (((hdr.length + body.length : Nat) : Int),
         { frame with payload := some (if frame.masked ≠ 0
              then unmask_from frame.mask (body.length : Int) 0 body else body) }) := by
  have hI : INT_MAX = 2147483647 := rfl
  have h1 : int32 ((hdr.length : Int) + (body.length : Int)) = ((hdr.length + body.length : Nat) : Int) := by
    rw [int32_eq_self] <;> push_cast at hfit ⊢ <;> omega
  have h2 : size_t (body.length : Int) = body.length := by
    apply size_t_natCast; push_cast at hfit; omega
  unfold parse_payload
  rw [hpl, h1, h2, hm]
  simp

theorem parse_mask_masked (malloc : Nat → Bool) (hdr k body : List Nat) (frame : WSFrame)
    (hk : k.length = 4) (hmasked : frame.masked ≠ 0)
    (hpl : frame.payload_len = (body.length : Int))
    (hfit : ((hdr.length + 4 + body.length : Nat) : Int) ≤ INT_MAX)
    (hm : malloc body.length = true) :
    parse_mask malloc (hdr ++ k ++ body) ((hdr.length + 4 + body.length : Nat) : Int) frame hdr.length
      = (((hdr.length + 4 + body.length : Nat) : Int),
         { frame with mask := k, payload := some (unmask_from k (body.length : Int) 0 body) }) := by
  have hI : INT_MAX = 2147483647 := rfl
  unfold parse_mask
  rw [if_pos hmasked, if_neg (by push_cast; omega)]
  have hmk : (List.drop (hdr.length : Int).toNat (hdr ++ k ++ body)).take 4 = k := by
    simp [List.append_assoc, ← hk]
  rw [hmk]
  have := parse_payload_complete malloc (hdr ++ k) body { frame with mask := k } hpl
    (by simpa [hk] using hfit) hm
  simp only [List.length_append, hk] at this
  push_cast at this ⊢
  rw [this]
  simp [hmasked]

theorem shl8 (x : Int) : x <<< (8 : Int) = x * 256 := by
  have h := Int.shiftLeft_eq_mul_pow x 8
  simpa using h

theorem shr_natCast (a s : Nat) : (a : Int) >>> s = ((a >>> s : Nat) : Int) := rfl

theorem lor_shl8_natCast (a b : Nat) (hb : b < 256) :
    Int.lor ((a : Int) <<< (8 : Int)) (b : Int) = ((a * 256 + b : Nat) : Int) := by
  rw [shl8]
  have h : ((a : Int) * 256) = ((a * 256 : Nat) : Int) := by push_cast; rfl
  rw [h, lor_natCast]
  congr 1
  have h2 := Nat.mul_add_lt_is_or (i := 8) (b := b) (by simpa using hb) a
  rw [Nat.mul_comm a 256]
  exact h2.symm

theorem byte_low7 : ∀ m < 2, ∀ c < 128, (128 * m + c) &&& 0x7F = c := by decide
theorem byte_maskbit : ∀ m < 2, ∀ c < 128, ((128 * m + c) &&& 0x80) >>> 7 = m := by decide

theorem len64_step_nat (data : List Nat) (a i : Nat) (hb : data.getD (2 + i) 0 < 256)
    (h : a * 256 + data.getD (2 + i) 0 ≤ 2147483647) :
    len64_step data (a : Int) i = ((a * 256 + data.getD (2 + i) 0 : Nat) : Int) := by
  unfold len64_step byteAt
  rw [lor_shl8_natCast a _ hb, int32_eq_self] <;> omega

theorem be_bytes_8 (n : Nat) : be_bytes 8 n =
    [n / 72057594037927936 % 256, n / 281474976710656 % 256, n / 1099511627776 % 256,
     n / 4294967296 % 256, n / 16777216 % 256, n / 65536 % 256, n / 256 % 256, n % 256] := by
  simp only [be_bytes, Nat.reducePow, Nat.div_one]

theorem be_bytes_2 (n : Nat) : be_bytes 2 n = [n / 256 % 256, n % 256] := by
  simp only [be_bytes, Nat.reducePow, Nat.div_one, pow_one]

theorem read_len64_unfold (data : List Nat) : read_len64 data =
    len64_step data (len64_step data (len64_step data (len64_step data (len64_step data
      (len64_step data (len64_step data (len64_step data 0 0) 1) 2) 3) 4) 5) 6) 7 := by
  have hr : List.range 8 = [0, 1, 2, 3, 4, 5, 6, 7] := by decide
  rw [read_len64, hr]
  rw [List.foldl_cons, List.foldl_cons, List.foldl_cons, List.foldl_cons, List.foldl_cons, List.foldl_cons, List.foldl_cons, List.foldl_cons, List.foldl_nil]

theorem read_len64_be (b0 b1 n : Nat) (rest : List Nat) (hn : (n : Int) ≤ INT_MAX) :
    read_len64 (b0 :: b1 :: (be_bytes 8 n ++ rest)) = (n : Int) := by
  have hI : INT_MAX = 2147483647 := rfl
  have hn2 : n ≤ 2147483647 := by omega
  have e0 : n / 72057594037927936 % 256 = 0 := by omega
  have e1 : n / 281474976710656 % 256 = 0 := by omega
  have e2 : n / 1099511627776 % 256 = 0 := by omega
  have e3 : n / 4294967296 % 256 = 0 := by omega
  have z : (0 : Int) = ((0 : Nat) : Int) := rfl
  rw [read_len64_unfold, be_bytes_8, e0, e1, e2, e3]
  generalize hd : (b0 :: b1 :: ([0, 0, 0, 0, n / 16777216 % 256, n / 65536 % 256, n / 256 % 256,
    n % 256] ++ rest)) = d
  have g0 : d.getD (2 + 0) 0 = 0 := by subst hd; rfl
  have g1 : d.getD (2 + 1) 0 = 0 := by subst hd; rfl
  have g2 : d.getD (2 + 2) 0 = 0 := by subst hd; rfl
  have g3 : d.getD (2 + 3) 0 = 0 := by subst hd; rfl
  have g4 : d.getD (2 + 4) 0 = n / 16777216 % 256 := by subst hd; rfl
  have g5 : d.getD (2 + 5) 0 = n / 65536 % 256 := by subst hd; rfl
  have g6 : d.getD (2 + 6) 0 = n / 256 % 256 := by subst hd; rfl
  have g7 : d.getD (2 + 7) 0 = n % 256 := by subst hd; rfl
  rw [z, len64_step_nat d 0 0 (by omega) (by omega), g0,
    len64_step_nat d _ 1 (by omega) (by omega), g1,
    len64_step_nat d _ 2 (by omega) (by omega), g2,
    len64_step_nat d _ 3 (by omega) (by omega), g3,
    len64_step_nat d _ 4 (by omega) (by omega), g4,
    len64_step_nat d _ 5 (by omega) (by omega), g5,
    len64_step_nat d _ 6 (by omega) (by omega), g6,
    len64_step_nat d _ 7 (by omega) (by omega), g7]
  congr 1
  omega

theorem byteAt_zero (b : Nat) (l : List Nat) : byteAt (b :: l) 0 = (b : Int) := rfl
theorem byteAt_one (a b : Nat) (l : List Nat) : byteAt (a :: b :: l) 1 = (b : Int) := rfl
theorem byteAt_two (a b c : Nat) (l : List Nat) : byteAt (a :: b :: c :: l) 2 = (c : Int) := rfl
theorem byteAt_three (a b c d : Nat) (l : List Nat) :
    byteAt (a :: b :: c :: d :: l) 3 = (d : Int) := rfl

theorem land_7F (a : Nat) : Int.land (a : Int) 0x7F = ((a &&& 0x7F : Nat) : Int) := rfl
theorem land_80_shr (a : Nat) :
    (Int.land (a : Int) 0x80) >>> (7 : Nat) = (((a &&& 0x80) >>> 7 : Nat) : Int) := rfl

theorem length_code_lt (n : Nat) : length_code n < 128 := by
  unfold length_code; split_ifs <;> omega

theorem parse_header (malloc : Nat → Bool) (b0 mbit n : Nat) (rest : List Nat) (data_len : Int)
    (frame0 : WSFrame) (hmb : mbit < 2) (hn : (n : Int) ≤ INT_MAX)
    (hdl : (((b0 :: (128 * mbit + length_code n) :: length_ext n).length : Nat) : Int) ≤ data_len) :
    parse_ws_frame malloc (b0 :: (128 * mbit + length_code n) :: (length_ext n ++ rest)) data_len frame0
      = parse_mask malloc (b0 :: (128 * mbit + length_code n) :: (length_ext n ++ rest)) data_len
          (header_frame b0 mbit n frame0)
          (((b0 :: (128 * mbit + length_code n) :: length_ext n).length : Nat) : Int) := by
  have hI : INT_MAX = 2147483647 := rfl
  have hc := length_code_lt n
  unfold parse_ws_frame
  rw [if_neg (by simp only [List.length_cons] at hdl; push_cast at hdl; omega)]
  simp only [byteAt_zero, byteAt_one, land_7F, land_80_shr, byte_low7 _ hmb _ hc,
    byte_maskbit _ hmb _ hc]
  by_cases h1 : n < 126
  · have hcode : length_code n = n := by simp [length_code, h1]
    have hext : length_ext n = [] := by simp [length_ext, h1]
    rw [hcode, hext]
    rw [if_neg (by omega), if_neg (by omega)]
    rfl
  · by_cases h2 : n < 65536
    · have hcode : length_code n = 126 := by simp [length_code, h1, h2]
      have hext : length_ext n = [n / 256 % 256, n % 256] := by
        simp [length_ext, h1, h2, be_bytes_2]
      rw [hcode, hext] at hdl ⊢
      rw [if_pos (by rfl), if_neg (by simp only [List.length_cons, List.length_nil] at hdl; push_cast at hdl; omega)]
      simp only [List.cons_append, List.nil_append, byteAt_two, byteAt_three]
      rw [lor_shl8_natCast _ _ (by omega)]
      have : n / 256 % 256 * 256 + n % 256 = n := by omega
      rw [this]
      rfl
    · have hcode : length_code n = 127 := by simp [length_code, h1, h2]
      have hext : length_ext n = be_bytes 8 n := by simp [length_ext, h1, h2]
      rw [hcode, hext] at hdl ⊢
      rw [if_neg (by decide), if_pos (by rfl), if_neg (by rw [be_bytes_8] at hdl; simp only [List.length_cons, List.length_nil] at hdl; push_cast at hdl; omega)]
      rw [read_len64_be _ _ _ _ hn]
      rw [be_bytes_8]
      rfl

theorem length_ext_le (n : Nat) : (length_ext n).length ≤ 8 := by
  unfold length_ext; split_ifs <;> simp [be_bytes]

theorem length_masked_frame (b0 : Nat) (k p : List Nat) (hk : k.length = 4) :
    (masked_frame b0 k p).length = 2 + (length_ext p.length).length + 4 + p.length := by
  simp [masked_frame, length_mask_from, hk]; omega

theorem parse_masked_frame (malloc : Nat → Bool) (b0 : Nat) (k p : List Nat) (frame0 : WSFrame)
    (hk : k.length = 4) (hp : ∀ b ∈ p, b < 256)
    (hfit : ((masked_frame b0 k p).length : Int) ≤ INT_MAX)
    (hm : malloc p.length = true) :
    parse_ws_frame malloc (masked_frame b0 k p) ((masked_frame b0 k p).length : Int) frame0
      = (((masked_frame b0 k p).length : Int),
         { fin := (Int.land (b0 : Int) 0x80) >>> (7 : Nat), opcode := Int.land (b0 : Int) 0x0F,
           masked := 1, payload_len := (p.length : Int), mask := k, payload := some p }) := by
  have hI : INT_MAX = 2147483647 := rfl
  have hbl := length_mask_from k 0 p
  have hlen := length_masked_frame b0 k p hk
  have hform : masked_frame b0 k p
      = b0 :: (128 * 1 + length_code p.length) :: (length_ext p.length ++ (k ++ mask_from k 0 p)) := by
    simp [masked_frame]
  have hform2 : masked_frame b0 k p
      = (b0 :: (128 * 1 + length_code p.length) :: length_ext p.length) ++ k ++ mask_from k 0 p := by
    simp [masked_frame]
  have hl2 : (masked_frame b0 k p).length
      = (b0 :: (128 * 1 + length_code p.length) :: length_ext p.length).length + 4
          + (mask_from k 0 p).length := by
    rw [hlen, hbl]; simp only [List.length_cons]; omega
  rw [hlen] at hfit
  push_cast at hfit
  have h1 := parse_header malloc b0 1 p.length (k ++ mask_from k 0 p)
    ((masked_frame b0 k p).length : Int) frame0 (by decide) (by omega)
    (by rw [hlen]; simp only [List.length_cons]; push_cast; omega)
  rw [← hform] at h1
  rw [h1, hl2, hform2]
  have h2 := parse_mask_masked malloc (b0 :: (128 * 1 + length_code p.length) :: length_ext p.length)
    k (mask_from k 0 p) (header_frame b0 1 p.length frame0) hk (by simp [header_frame])
    (by simp [header_frame, hbl])
    (by rw [hbl]; simp only [List.length_cons]; push_cast; omega) (by rw [hbl]; exact hm)
  rw [h2, hbl, unmask_mask_from k _ 0 p hp (by simp)]
  rfl

theorem to_uchar_natCast {a : Nat} (h : a < 256) : to_uchar (a : Int) = a := by
  unfold to_uchar; omega

theorem uchar_shr_land (n s : Nat) :
    to_uchar (Int.land ((n : Int) >>> s) 0xFF) = n / 2 ^ s % 256 := by
  have h1 : Int.land ((n : Int) >>> s) 0xFF = (((n >>> s) &&& (2 ^ 8 - 1) : Nat) : Int) := rfl
  rw [h1, Nat.and_pow_two_sub_one_eq_mod, Nat.shiftRight_eq_div_pow]
  exact to_uchar_natCast (Nat.mod_lt _ (by norm_num))

theorem uchar_land_FF (n : Nat) : to_uchar (Int.land (n : Int) 0xFF) = n % 256 := by
  have h1 : Int.land (n : Int) 0xFF = ((n &&& (2 ^ 8 - 1) : Nat) : Int) := rfl
  rw [h1, Nat.and_pow_two_sub_one_eq_mod]
  exact to_uchar_natCast (Nat.mod_lt _ (by norm_num))

theorem uchar_land_7F (n : Nat) : to_uchar (Int.land (n : Int) 0x7F) = n % 128 := by
  have h1 : Int.land (n : Int) 0x7F = ((n &&& (2 ^ 7 - 1) : Nat) : Int) := rfl
  rw [h1, Nat.and_pow_two_sub_one_eq_mod]
  exact to_uchar_natCast (by have := Nat.mod_lt n (show 0 < 2 ^ 7 by norm_num); omega)

theorem be_bytes_4 (n : Nat) :
    be_bytes 4 n = [n / 16777216 % 256, n / 65536 % 256, n / 256 % 256, n % 256] := by
  simp only [be_bytes, Nat.reducePow, Nat.div_one, pow_one]

theorem len64_bytes_natCast (n : Nat) : len64_bytes (n : Int) = be_bytes 4 n ++ be_bytes 4 n := by
  unfold len64_bytes
  simp only [List.map_cons, List.map_nil, uchar_shr_land, be_bytes_4]
  norm_num

theorem ws_header_natCast (n : Nat) (hshort : n < 65536) :
    ws_header (n : Int) = 0x81 :: length_code n :: length_ext n := by
  unfold ws_header length_code length_ext
  by_cases h1 : n < 126
  · rw [if_pos (by omega), if_pos h1, if_pos h1, uchar_land_7F]
    congr 2; omega
  · rw [if_neg (by omega), if_pos (by omega), if_neg h1, if_pos hshort, if_neg h1, if_pos hshort,
      uchar_shr_land, uchar_land_FF, be_bytes_2]
    norm_num

theorem ws_header_long (n : Nat) (hlong : 65536 ≤ n) :
    ws_header (n : Int) = 0x81 :: 127 :: (be_bytes 4 n ++ be_bytes 4 n) := by
  unfold ws_header
  rw [if_neg (by omega), if_neg (by omega), len64_bytes_natCast]
  rfl

theorem create_ws_frame_natCast (data : List Nat) (n : Nat) (frame_size : Int)
    (hfit : ((2 + (length_ext n).length + n : Nat) : Int) ≤ INT_MAX)
    (hguard : 2 + (n : Int) ≤ frame_size) (hshort : n < 65536) :
    create_ws_frame data (n : Int) frame_size
      = (((2 + (length_ext n).length + n : Nat) : Int),
         0x81 :: length_code n :: (length_ext n ++ data.take n)) := by
  have hI : INT_MAX = 2147483647 := rfl
  have hle := length_ext_le n
  push_cast at hfit
  unfold create_ws_frame
  rw [int32_eq_self (by omega) (by omega), if_neg (by omega)]
  simp only [ws_header_natCast n hshort, List.length_cons]
  rw [int32_eq_self (by push_cast; omega) (by push_cast; omega), size_t_natCast (by omega)]
  simp only [List.cons_append, Prod.mk.injEq, and_true]
  push_cast; omega

/-- The frame that `create_ws_frame` writes in the 64-bit length form: after `0x81` and 127,
the four low-order bytes of the length twice, then the payload. -/
theorem create_ws_frame_long (data : List Nat) (n : Nat) (frame_size : Int)
    (hlong : 65536 ≤ n) (hfit : ((10 + n : Nat) : Int) ≤ INT_MAX)
    (hguard : 2 + (n : Int) ≤ frame_size) :
    create_ws_frame data (n : Int) frame_size
      = (((10 + n : Nat) : Int),
         0x81 :: 127 :: (be_bytes 4 n ++ be_bytes 4 n ++ data.take n)) := by
  have hI : INT_MAX = 2147483647 := rfl
  push_cast at hfit
  unfold create_ws_frame
  rw [int32_eq_self (by omega) (by omega), if_neg (by omega)]
  simp only [ws_header_long n hlong, List.length_cons, List.length_append, be_bytes_4,
    List.length_nil]
  rw [int32_eq_self (by push_cast; omega) (by push_cast; omega), size_t_natCast (by omega)]
  simp only [List.cons_append, List.append_assoc, Prod.mk.injEq, and_true]
  push_cast; omega

theorem parse_mask_unmasked (malloc : Nat → Bool) (hdr body : List Nat) (frame : WSFrame)
    (hmasked : frame.masked = 0)
    (hpl : frame.payload_len = (body.length : Int))
    (hfit : ((hdr.length + body.length : Nat) : Int) ≤ INT_MAX)
    (hm : malloc body.length = true) :
    parse_mask malloc (hdr ++ body) ((hdr.length + body.length : Nat) : Int) frame hdr.length
      = (((hdr.length + body.length : Nat) : Int), { frame with payload := some body }) := by
  unfold parse_mask
  rw [if_neg (by simp [hmasked]), parse_payload_complete malloc hdr body frame hpl hfit hm]
  simp [hmasked]

theorem parse_unmasked_frame (malloc : Nat → Bool) (b0 : Nat) (p : List Nat) (frame0 : WSFrame)
    (hfit : ((2 + (length_ext p.length).length + p.length : Nat) : Int) ≤ INT_MAX)
    (hm : malloc p.length = true) :
    parse_ws_frame malloc (b0 :: length_code p.length :: (length_ext p.length ++ p))
        ((2 + (length_ext p.length).length + p.length : Nat) : Int) frame0
      = (((2 + (length_ext p.length).length + p.length : Nat) : Int),
         { fin := (Int.land (b0 : Int) 0x80) >>> (7 : Nat), opcode := Int.land (b0 : Int) 0x0F,
           masked := 0, payload_len := (p.length : Int), mask := frame0.mask,
           payload := some p }) := by
  have hI : INT_MAX = 2147483647 := rfl
  have hc : length_code p.length = 128 * 0 + length_code p.length := by omega
  have hl : 2 + (length_ext p.length).length + p.length
      = (b0 :: (128 * 0 + length_code p.length) :: length_ext p.length).length + p.length := by
    simp only [List.length_cons]; omega
  push_cast at hfit
  have h1 := parse_header malloc b0 0 p.length p
    ((2 + (length_ext p.length).length + p.length : Nat) : Int) frame0 (by decide) (by omega)
    (by simp only [List.length_cons]; push_cast; omega)
  rw [hc, h1, hl]
  have h2 := parse_mask_unmasked malloc
    (b0 :: (128 * 0 + length_code p.length) :: length_ext p.length) p
    (header_frame b0 0 p.length frame0) (by simp [header_frame]) (by simp [header_frame])
    (by simp only [List.length_cons]; push_cast; omega) hm
  rw [List.cons_append, List.cons_append] at h2
  rw [h2]
  rfl

/-! ## Theorems: the 64-bit length form -/

set_option maxRecDepth 100000 in
theorem ldiff_byte : ∀ b < 256, ∀ j < 8, (Nat.testBit 255 j && !Nat.testBit b j)
    = Nat.testBit (255 - b) j := by decide

theorem ldiff_low_byte (m b : Nat) (hb : b < 256) :
    Nat.ldiff (2 ^ 8 * m + 255) b = 2 ^ 8 * m + (255 - b) := by
  apply Nat.eq_of_testBit_eq
  intro j
  rw [Nat.testBit_ldiff, Nat.testBit_mul_pow_two_add m (by norm_num : 255 < 2 ^ 8),
    Nat.testBit_mul_pow_two_add m (by omega : 255 - b < 2 ^ 8)]
  by_cases hj : j < 8
  · rw [if_pos hj, if_pos hj]
    exact ldiff_byte b hb j hj
  · rw [if_neg hj, if_neg hj]
    have hbj : b.testBit j = false :=
      Nat.testBit_lt_two_pow (lt_of_lt_of_le hb (by
        calc 256 = 2 ^ 8 := by norm_num
          _ ≤ 2 ^ j := Nat.pow_le_pow_right (by norm_num) (by omega)))
    rw [hbj]
    simp

theorem lor_shl8_int (a : Int) (b : Nat) (hb : b < 256) :
    Int.lor (a <<< (8 : Int)) (b : Int) = a * 256 + (b : Int) := by
  cases a with
  | ofNat m =>
    have := lor_shl8_natCast m b hb
    push_cast at this
    exact this
  | negSucc m =>
    rw [shl8]
    have e : Int.negSucc m * 256 = Int.negSucc (2 ^ 8 * m + 255) := by
      rw [Int.negSucc_eq, Int.negSucc_eq]
      push_cast
      ring
    rw [e]
    show Int.negSucc (Nat.ldiff (2 ^ 8 * m + 255) b) = _
    rw [ldiff_low_byte m b hb, Int.negSucc_eq, Int.negSucc_eq]
    push_cast
    omega

theorem len64_step_int (data : List Nat) (a : Int) (i : Nat) (hb : data.getD (2 + i) 0 < 256) :
    len64_step data a i = int32 (a * 256 + (data.getD (2 + i) 0 : Nat)) := by
  unfold len64_step byteAt
  rw [lor_shl8_int a _ hb]

theorem int32_step (x : Int) (b : Int) : int32 (int32 x * 256 + b) = int32 (x * 256 + b) := by
  unfold int32; omega

theorem int32_mod (x : Int) : int32 x % 4294967296 = x % 4294967296 := by
  unfold int32; omega

theorem int32_congr {x y : Int} (h : x % 4294967296 = y % 4294967296) : int32 x = int32 y := by
  unfold int32; omega

/-- The 64-bit length loop keeps the value of the eight bytes modulo 2^32. -/
theorem read_len64_value (data : List Nat) (g : ∀ i < 8, data.getD (2 + i) 0 < 256) :
    read_len64 data = int32 ((data.getD 6 0 * 16777216 + data.getD 7 0 * 65536
      + data.getD 8 0 * 256 + data.getD 9 0 : Nat) : Int) := by
  rw [read_len64_unfold, len64_step_int data _ 0 (g 0 (by omega)),
    len64_step_int data _ 1 (g 1 (by omega)), len64_step_int data _ 2 (g 2 (by omega)),
    len64_step_int data _ 3 (g 3 (by omega)), len64_step_int data _ 4 (g 4 (by omega)),
    len64_step_int data _ 5 (g 5 (by omega)), len64_step_int data _ 6 (g 6 (by omega)),
    len64_step_int data _ 7 (g 7 (by omega))]
  have e4 : data.getD (2 + 4) 0 = data.getD 6 0 := rfl
  have e5 : data.getD (2 + 5) 0 = data.getD 7 0 := rfl
  have e6 : data.getD (2 + 6) 0 = data.getD 8 0 := rfl
  have e7 : data.getD (2 + 7) 0 = data.getD 9 0 := rfl
  rw [e4, e5, e6, e7]
  rw [int32_step (0 * 256 + ((data.getD (2 + 0) 0 : Nat) : Int)) ((data.getD (2 + 1) 0 : Nat) : Int)]
  rw [int32_step ((0 * 256 + ((data.getD (2 + 0) 0 : Nat) : Int)) * 256 + ((data.getD (2 + 1) 0 : Nat) : Int)) ((data.getD (2 + 2) 0 : Nat) : Int)]
  rw [int32_step (((0 * 256 + ((data.getD (2 + 0) 0 : Nat) : Int)) * 256 + ((data.getD (2 + 1) 0 : Nat) : Int)) * 256 + ((data.getD (2 + 2) 0 : Nat) : Int)) ((data.getD (2 + 3) 0 : Nat) : Int)]
  rw [int32_step ((((0 * 256 + ((data.getD (2 + 0) 0 : Nat) : Int)) * 256 + ((data.getD (2 + 1) 0 : Nat) : Int)) * 256 + ((data.getD (2 + 2) 0 : Nat) : Int)) * 256 + ((data.getD (2 + 3) 0 : Nat) : Int)) ((data.getD 6 0 : Nat) : Int)]
  rw [int32_step (((((0 * 256 + ((data.getD (2 + 0) 0 : Nat) : Int)) * 256 + ((data.getD (2 + 1) 0 : Nat) : Int)) * 256 + ((data.getD (2 + 2) 0 : Nat) : Int)) * 256 + ((data.getD (2 + 3) 0 : Nat) : Int)) * 256 + ((data.getD 6 0 : Nat) : Int)) ((data.getD 7 0 : Nat) : Int)]
  rw [int32_step ((((((0 * 256 + ((data.getD (2 + 0) 0 : Nat) : Int)) * 256 + ((data.getD (2 + 1) 0 : Nat) : Int)) * 256 + ((data.getD (2 + 2) 0 : Nat) : Int)) * 256 + ((data.getD (2 + 3) 0 : Nat) : Int)) * 256 + ((data.getD 6 0 : Nat) : Int)) * 256 + ((data.getD 7 0 : Nat) : Int)) ((data.getD 8 0 : Nat) : Int)]
  rw [int32_step (((((((0 * 256 + ((data.getD (2 + 0) 0 : Nat) : Int)) * 256 + ((data.getD (2 + 1) 0 : Nat) : Int)) * 256 + ((data.getD (2 + 2) 0 : Nat) : Int)) * 256 + ((data.getD (2 + 3) 0 : Nat) : Int)) * 256 + ((data.getD 6 0 : Nat) : Int)) * 256 + ((data.getD 7 0 : Nat) : Int)) * 256 + ((data.getD 8 0 : Nat) : Int)) ((data.getD 9 0 : Nat) : Int)]
  apply int32_congr
  push_cast
  omega

theorem read_len64_doubled (b0 b1 n : Nat) (rest : List Nat) (hn : (n : Int) ≤ INT_MAX) :
    read_len64 (b0 :: b1 :: (be_bytes 4 n ++ be_bytes 4 n ++ rest)) = (n : Int) := by
  have hI : INT_MAX = 2147483647 := rfl
  rw [be_bytes_4]
  generalize hd : (b0 :: b1 :: ([n / 16777216 % 256, n / 65536 % 256, n / 256 % 256, n % 256]
    ++ [n / 16777216 % 256, n / 65536 % 256, n / 256 % 256, n % 256] ++ rest)) = d
  have g0 : d.getD (2 + 0) 0 = n / 16777216 % 256 := by subst hd; rfl
  have g1 : d.getD (2 + 1) 0 = n / 65536 % 256 := by subst hd; rfl
  have g2 : d.getD (2 + 2) 0 = n / 256 % 256 := by subst hd; rfl
  have g3 : d.getD (2 + 3) 0 = n % 256 := by subst hd; rfl
  have g4 : d.getD (2 + 4) 0 = n / 16777216 % 256 := by subst hd; rfl
  have g5 : d.getD (2 + 5) 0 = n / 65536 % 256 := by subst hd; rfl
  have g6 : d.getD (2 + 6) 0 = n / 256 % 256 := by subst hd; rfl
  have g7 : d.getD (2 + 7) 0 = n % 256 := by subst hd; rfl
  have g : ∀ i < 8, d.getD (2 + i) 0 < 256 := by
    intro i hi
    interval_cases i
    · rw [g0]; omega
    · rw [g1]; omega
    · rw [g2]; omega
    · rw [g3]; omega
    · rw [g4]; omega
    · rw [g5]; omega
    · rw [g6]; omega
    · rw [g7]; omega
  have e4 : d.getD 6 0 = n / 16777216 % 256 := g4
  have e5 : d.getD 7 0 = n / 65536 % 256 := g5
  have e6 : d.getD 8 0 = n / 256 % 256 := g6
  have e7 : d.getD 9 0 = n % 256 := g7
  rw [read_len64_value d g, e4, e5, e6, e7]
  have : n / 16777216 % 256 * 16777216 + n / 65536 % 256 * 65536 + n / 256 % 256 * 256
      + n % 256 = n := by omega
  rw [this, int32_eq_self (by omega) (by omega)]

theorem parse_header_long (malloc : Nat → Bool) (n : Nat) (rest : List Nat) (data_len : Int)
    (frame0 : WSFrame) (hn : (n : Int) ≤ INT_MAX)
    (hdl : (((0x81 :: (128 * 0 + 127) :: (be_bytes 4 n ++ be_bytes 4 n)).length : Nat) : Int)
      ≤ data_len) :
    parse_ws_frame malloc (0x81 :: (128 * 0 + 127) :: (be_bytes 4 n ++ be_bytes 4 n ++ rest))
        data_len frame0
      = parse_mask malloc (0x81 :: (128 * 0 + 127) :: (be_bytes 4 n ++ be_bytes 4 n ++ rest))
          data_len (header_frame 0x81 0 n frame0)
          (((0x81 :: (128 * 0 + 127) :: (be_bytes 4 n ++ be_bytes 4 n)).length : Nat) : Int) := by
  have hI : INT_MAX = 2147483647 := rfl
  rw [be_bytes_4] at hdl
  simp only [List.length_cons, List.length_append, List.length_nil] at hdl
  push_cast at hdl
  unfold parse_ws_frame
  rw [if_neg (by omega)]
  simp only [byteAt_zero, byteAt_one, land_7F, land_80_shr,
    byte_low7 0 (by decide) 127 (by decide), byte_maskbit 0 (by decide) 127 (by decide)]
  rw [if_neg (by decide), if_pos (by rfl), if_neg (by omega), read_len64_doubled _ _ _ _ hn]
  rw [be_bytes_4]
  rfl

/-- The decoder on a frame in the 64-bit length form with the four low-order length bytes
written twice: the `int` accumulator drops the first four bytes, and the payload is read
back. -/
theorem parse_long_frame (malloc : Nat → Bool) (p : List Nat) (frame0 : WSFrame)
    (hfit : ((10 + p.length : Nat) : Int) ≤ INT_MAX) (hm : malloc p.length = true) :
    parse_ws_frame malloc (0x81 :: 127 :: (be_bytes 4 p.length ++ be_bytes 4 p.length ++ p))
        ((10 + p.length : Nat) : Int) frame0
      = (((10 + p.length : Nat) : Int),
         { fin := 1, opcode := 1, masked := 0, payload_len := (p.length : Int),
           mask := frame0.mask, payload := some p }) := by
  have hI : INT_MAX = 2147483647 := rfl
  have hc : (127 : Nat) = 128 * 0 + 127 := by omega
  have hl8 : (be_bytes 4 p.length ++ be_bytes 4 p.length).length = 8 := by
    rw [be_bytes_4]; rfl
  have hl : 10 + p.length
      = (0x81 :: (128 * 0 + 127) :: (be_bytes 4 p.length ++ be_bytes 4 p.length)).length
        + p.length := by
    simp only [List.length_cons, hl8]
  push_cast at hfit
  have h1 := parse_header_long malloc p.length p ((10 + p.length : Nat) : Int) frame0
    (by omega) (by simp only [List.length_cons, hl8]; push_cast; omega)
  rw [hc, h1, hl]
  have h2 := parse_mask_unmasked malloc
    (0x81 :: (128 * 0 + 127) :: (be_bytes 4 p.length ++ be_bytes 4 p.length)) p
    (header_frame 0x81 0 p.length frame0) (by simp [header_frame]) (by simp [header_frame])
    (by simp only [List.length_cons, hl8]; push_cast; omega) hm
  rw [List.cons_append, List.cons_append] at h2
  rw [h2]
  rfl

theorem parse_payload_fields (malloc : Nat → Bool) (data : List Nat) (data_len : Int)
    (frame : WSFrame) (hs : Int) :
    (parse_payload malloc data data_len frame hs).2.fin = frame.fin ∧
    (parse_payload malloc data data_len frame hs).2.opcode = frame.opcode ∧
    (parse_payload malloc data data_len frame hs).2.masked = frame.masked ∧
    (parse_payload malloc data data_len frame hs).2.payload_len = frame.payload_len ∧
    (parse_payload malloc data data_len frame hs).2.mask = frame.mask := by
  unfold parse_payload
  split_ifs <;> simp

theorem parse_mask_fields (malloc : Nat → Bool) (data : List Nat) (data_len : Int)
    (frame : WSFrame) (hs : Int) :
    (parse_mask malloc data data_len frame hs).2.fin = frame.fin ∧
    (parse_mask malloc data data_len frame hs).2.opcode = frame.opcode ∧
    (parse_mask malloc data data_len frame hs).2.masked = frame.masked ∧
    (parse_mask malloc data data_len frame hs).2.payload_len = frame.payload_len := by
  unfold parse_mask
  split_ifs
  · simp
  · have h := parse_payload_fields malloc data data_len
      { frame with mask := (data.drop hs.toNat).take 4 } (hs + 4)
    exact ⟨h.1, h.2.1, h.2.2.1, h.2.2.2.1⟩
  · have h := parse_payload_fields malloc data data_len frame hs
    exact ⟨h.1, h.2.1, h.2.2.1, h.2.2.2.1⟩

theorem parse_ws_frame_fin_opcode (malloc : Nat → Bool) (data : List Nat) (data_len : Int)
    (frame0 : WSFrame) (h2 : 2 ≤ data_len) :
    (parse_ws_frame malloc data data_len frame0).2.fin
        = (Int.land (byteAt data 0) 0x80) >>> (7 : Nat) ∧
    (parse_ws_frame malloc data data_len frame0).2.opcode = Int.land (byteAt data 0) 0x0F ∧
    (parse_ws_frame malloc data data_len frame0).2.masked
        = (Int.land (byteAt data 1) 0x80) >>> (7 : Nat) := by
  unfold parse_ws_frame
  rw [if_neg (by omega)]
  simp only []
  split_ifs
  · simp
  · have h := parse_mask_fields malloc data data_len
      { fin := (Int.land (byteAt data 0) 0x80) >>> (7 : Nat),
        opcode := Int.land (byteAt data 0) 0x0F,
        masked := (Int.land (byteAt data 1) 0x80) >>> (7 : Nat),
        payload_len := Int.lor (byteAt data 2 <<< (8 : Int)) (byteAt data 3),
        mask := frame0.mask, payload := frame0.payload } 4
    exact ⟨h.1, h.2.1, h.2.2.1⟩
  · simp
  · have h := parse_mask_fields malloc data data_len
      { fin := (Int.land (byteAt data 0) 0x80) >>> (7 : Nat),
        opcode := Int.land (byteAt data 0) 0x0F,
        masked := (Int.land (byteAt data 1) 0x80) >>> (7 : Nat),
        payload_len := read_len64 data,
        mask := frame0.mask, payload := frame0.payload } 10
    exact ⟨h.1, h.2.1, h.2.2.1⟩
  · have h := parse_mask_fields malloc data data_len
      { fin := (Int.land (byteAt data 0) 0x80) >>> (7 : Nat),
        opcode := Int.land (byteAt data 0) 0x0F,
        masked := (Int.land (byteAt data 1) 0x80) >>> (7 : Nat),
        payload_len := Int.land (byteAt data 1) 0x7F,
        mask := frame0.mask, payload := frame0.payload } 2
    exact ⟨h.1, h.2.1, h.2.2.1⟩

theorem parse_ws_frame_short (malloc : Nat → Bool) (data : List Nat) (data_len : Int)
    (frame0 : WSFrame) (h2 : data_len < 2) :
    parse_ws_frame malloc data data_len frame0 = (-1, frame0) := by
  unfold parse_ws_frame
  rw [if_pos h2]

set_option maxRecDepth 100000 in
theorem byte_bit7 : ∀ b < 256, (b &&& 0x80) >>> 7 = b / 128 := by decide

theorem land_0F (a : Nat) : Int.land (a : Int) 0x0F = ((a % 16 : Nat) : Int) := by
  have h1 : Int.land (a : Int) 0x0F = ((a &&& (2 ^ 4 - 1) : Nat) : Int) := rfl
  rw [h1, Nat.and_pow_two_sub_one_eq_mod]

theorem int32_range (x : Int) : -2147483648 ≤ int32 x ∧ int32 x ≤ 2147483647 := by
  unfold int32; omega

theorem int32_nonneg {x : Int} (h1 : -2147483648 ≤ x) (h2 : x < 4294967296)
    (h : 0 ≤ int32 x) : 0 ≤ x ∧ x ≤ 2147483647 ∧ int32 x = x := by
  unfold int32 at h ⊢; omega

theorem getElem?_unmask_from (mask : List Nat) (len : Int) (j : Nat) (l : List Nat) (i : Nat) :
    (unmask_from mask len j l)[i]?
      = (l[i]?).map (fun b => if ((j + i : Nat) : Int) < len
          then (b ^^^ mask.getD ((j + i) % 4) 0) % 256 else b) := by
  induction l generalizing j i with
  | nil => simp [unmask_from]
  | cons b bs ih =>
    cases i with
    | zero => simp [unmask_from]
    | succ i =>
      simp only [unmask_from, List.getElem?_cons_succ, ih]
      have : j + 1 + i = j + (i + 1) := by omega
      rw [this]

theorem getElem?_copied (data : List Nat) (hs n i : Nat) (hi : i < n)
    (hlen : hs + n ≤ data.length) :
    ((data.drop hs).take n)[i]? = some (data.getD (hs + i) 0) := by
  rw [List.getElem?_take_of_lt hi, List.getElem?_drop, List.getD_eq_getElem?_getD]
  have : hs + i < data.length := by omega
  rw [List.getElem?_eq_getElem this]
  rfl

theorem parse_payload_success (malloc : Nat → Bool) (data : List Nat) (data_len : Int)
    (frame : WSFrame) (hs : Nat) (hs14 : hs ≤ 14)
    (hr1 : -2147483648 ≤ frame.payload_len) (hr2 : frame.payload_len ≤ 2147483647)
    (hbuf : data_len ≤ (data.length : Int))
    (hok : 0 ≤ (parse_payload malloc data data_len frame (hs : Int)).1) :
    ∃ pl, (parse_payload malloc data data_len frame (hs : Int)).2
          = { frame with payload := some pl } ∧
      (parse_payload malloc data data_len frame (hs : Int)).1 = (hs : Int) + frame.payload_len ∧
      (hs : Int) + frame.payload_len ≤ data_len ∧
      ∀ i : Nat, (i : Int) < frame.payload_len →
        pl[i]? = some (if frame.masked ≠ 0
          then (data.getD (hs + i) 0 ^^^ frame.mask.getD (i % 4) 0) % 256
          else data.getD (hs + i) 0) := by
  unfold parse_payload at hok ⊢
  by_cases h1 : data_len < int32 ((hs : Int) + frame.payload_len)
  · rw [if_pos h1] at hok; simp at hok
  · rw [if_neg h1] at hok ⊢
    by_cases h2 : malloc (size_t frame.payload_len) = false
    · rw [if_pos h2] at hok; simp at hok
    · rw [if_neg h2] at hok ⊢
      simp only [] at hok ⊢
      obtain ⟨h3, h4, h5⟩ := int32_nonneg (by omega) (by omega) hok
      rw [h5] at h1 ⊢
      refine ⟨_, rfl, rfl, by omega, ?_⟩
      intro i hi
      have hsz : size_t frame.payload_len = frame.payload_len.toNat := by
        unfold size_t; omega
      have hcp := getElem?_copied data hs frame.payload_len.toNat i (by omega) (by omega)
      rw [hsz, Int.toNat_ofNat]
      by_cases hm : frame.masked ≠ 0
      · rw [if_pos hm, if_pos hm, getElem?_unmask_from, hcp]
        simp [hi]
      · rw [if_neg hm, if_neg hm, hcp]

theorem parse_mask_success (malloc : Nat → Bool) (data : List Nat) (data_len : Int)
    (frame : WSFrame) (hs : Nat) (hs10 : hs ≤ 10)
    (hr1 : -2147483648 ≤ frame.payload_len) (hr2 : frame.payload_len ≤ 2147483647)
    (hbytes : ∀ b ∈ data, b < 256) (hbuf : data_len ≤ (data.length : Int))
    (hok : 0 ≤ (parse_mask malloc data data_len frame (hs : Int)).1) :
    ∃ pl, (parse_mask malloc data data_len frame (hs : Int)).2.payload = some pl ∧
      (frame.masked ≠ 0 →
        (parse_mask malloc data data_len frame (hs : Int)).2.mask = (data.drop hs).take 4) ∧
      ∀ i : Nat, (i : Int) < frame.payload_len →
        pl[i]? = some (if frame.masked ≠ 0
          then data.getD (hs + 4 + i) 0 ^^^ data.getD (hs + i % 4) 0
          else data.getD (hs + i) 0) := by
  have hgd : ∀ j, data.getD j 0 < 256 := by
    intro j
    rw [List.getD_eq_getElem?_getD]
    cases hj : data[j]? with
    | none => simp
    | some b => simpa using hbytes b (List.getElem?_mem hj)
  unfold parse_mask at hok ⊢
  by_cases hm : frame.masked ≠ 0
  · rw [if_pos hm] at hok ⊢
    by_cases h1 : data_len < (hs : Int) + 4
    · rw [if_pos h1] at hok; simp at hok
    · rw [if_neg h1] at hok ⊢
      have hcast : (hs : Int) + 4 = ((hs + 4 : Nat) : Int) := by push_cast; rfl
      rw [hcast] at hok ⊢
      obtain ⟨pl, e1, -, -, e4⟩ := parse_payload_success malloc data data_len
        { frame with mask := (data.drop (hs : Int).toNat).take 4 } (hs + 4) (by omega)
        hr1 hr2 hbuf hok
      refine ⟨pl, by rw [e1], fun _ => by rw [e1]; simp, ?_⟩
      intro i hi
      rw [e4 i hi]
      simp only [hm, ne_eq, not_false_eq_true, if_true]
      have hk : ((data.drop (hs : Int).toNat).take 4).getD (i % 4) 0 = data.getD (hs + i % 4) 0 := by
        have h4 : i % 4 < 4 := Nat.mod_lt _ (by norm_num)
        have := getElem?_copied data hs 4 (i % 4) h4 (by omega)
        rw [List.getD_eq_getElem?_getD]
        simp only [Int.toNat_ofNat]
        rw [this]; rfl
      rw [hk, Nat.mod_eq_of_lt (xor_byte_lt (hgd _) (hgd _))]
  · rw [if_neg hm] at hok ⊢
    obtain ⟨pl, e1, -, -, e4⟩ := parse_payload_success malloc data data_len frame hs (by omega)
      hr1 hr2 hbuf hok
    refine ⟨pl, by rw [e1], fun h => absurd h hm, ?_⟩
    intro i hi
    rw [e4 i hi, if_neg hm, if_neg hm]

theorem getD_lt_of_bytes {data : List Nat} (hbytes : ∀ b ∈ data, b < 256) (j : Nat) :
    data.getD j 0 < 256 := by
  rw [List.getD_eq_getElem?_getD]
  cases hj : data[j]? with
  | none => simp
  | some b => simpa using hbytes b (List.getElem?_mem hj)

theorem land_7F_mod (a : Nat) : Int.land (a : Int) 0x7F = ((a % 128 : Nat) : Int) := by
  have h1 : Int.land (a : Int) 0x7F = ((a &&& (2 ^ 7 - 1) : Nat) : Int) := rfl
  rw [h1, Nat.and_pow_two_sub_one_eq_mod]

theorem parse_ws_frame_stages (malloc : Nat → Bool) (data : List Nat) (data_len : Int)
    (frame0 : WSFrame) (hbytes : ∀ b ∈ data, b < 256) (h2 : 2 ≤ data_len) :
    parse_ws_frame malloc data data_len frame0 =
      if wire_len7 data = 126 then
        if data_len < 4 then (-1, wire_frame data frame0 126)
        else parse_mask malloc data data_len
          (wire_frame data frame0 ((data.getD 2 0 * 256 + data.getD 3 0 : Nat) : Int)) 4
      else if wire_len7 data = 127 then
        if data_len < 10 then (-1, wire_frame data frame0 127)
        else parse_mask malloc data data_len (wire_frame data frame0 (read_len64 data)) 10
      else parse_mask malloc data data_len
          (wire_frame data frame0 ((wire_len7 data : Nat) : Int)) 2 := by
  have hb0 := getD_lt_of_bytes hbytes 0
  have hb1 := getD_lt_of_bytes hbytes 1
  have hb3 := getD_lt_of_bytes hbytes 3
  have hmb : wire_mask_bit data = data.getD 1 0 / 128 := by unfold wire_mask_bit; omega
  unfold parse_ws_frame
  rw [if_neg (by omega)]
  unfold byteAt wire_frame wire_len7
  simp only [land_7F_mod, land_80_shr, land_0F, byte_bit7 _ hb0, byte_bit7 _ hb1, hmb,
    lor_shl8_natCast _ _ hb3]
  by_cases c1 : data.getD 1 0 % 128 = 126
  · rw [if_pos (by rw [c1]; rfl), if_pos c1]
    by_cases c2 : data_len < 4
    · rw [if_pos c2, if_pos c2, c1]; rfl
    · rw [if_neg c2, if_neg c2]
  · rw [if_neg (by intro h; exact c1 (by exact_mod_cast h)), if_neg c1]
    by_cases c3 : data.getD 1 0 % 128 = 127
    · rw [if_pos (by rw [c3]; rfl), if_pos c3]
      by_cases c4 : data_len < 10
      · rw [if_pos c4, if_pos c4, c3]; rfl
      · rw [if_neg c4, if_neg c4]
    · rw [if_neg (by intro h; exact c3 (by exact_mod_cast h)), if_neg c3]

theorem len64_step_range (data : List Nat) (a : Int) (i : Nat) :
    -2147483648 ≤ len64_step data a i ∧ len64_step data a i ≤ 2147483647 := by
  unfold len64_step
  exact int32_range _

theorem read_len64_range (data : List Nat) :
    -2147483648 ≤ read_len64 data ∧ read_len64 data ≤ 2147483647 := by
  rw [read_len64_unfold]
  exact len64_step_range data _ 7

theorem unmasking_branch (malloc : Nat → Bool) (data : List Nat) (data_len : Int)
    (frame0 : WSFrame) (len : Int) (hsI : Int) (hs : Nat) (hcast : hsI = (hs : Int))
    (hs10 : hs ≤ 10) (hbase : wire_base_size data = hs)
    (hr1 : -2147483648 ≤ len) (hr2 : len ≤ 2147483647)
    (hbytes : ∀ b ∈ data, b < 256) (hbuf : data_len ≤ (data.length : Int))
    (hok : 0 ≤ (parse_mask malloc data data_len (wire_frame data frame0 len) hsI).1) :
    ∃ payload,
      (parse_mask malloc data data_len (wire_frame data frame0 len) hsI).2.payload
        = some payload ∧
      (wire_mask_bit data = 1 →
        (parse_mask malloc data data_len (wire_frame data frame0 len) hsI).2.mask
          = (data.drop (wire_header_size data - 4)).take 4) ∧
      ∀ i : Nat,
        (i : Int) < (parse_mask malloc data data_len (wire_frame data frame0 len) hsI).2.payload_len →
        payload[i]? = some (if wire_mask_bit data = 1
          then data.getD (wire_header_size data + i) 0
                ^^^ data.getD (wire_header_size data - 4 + i % 4) 0
          else data.getD (wire_header_size data + i) 0) := by
  subst hcast
  have hmb2 : wire_mask_bit data < 2 := by unfold wire_mask_bit; omega
  have hm : (wire_frame data frame0 len).masked ≠ 0 ↔ wire_mask_bit data = 1 := by
    simp only [wire_frame]; omega
  obtain ⟨pl, e1, e2, e3⟩ := parse_mask_success malloc data data_len
    (wire_frame data frame0 len) hs hs10 hr1 hr2 hbytes hbuf hok
  have hpl := (parse_mask_fields malloc data data_len (wire_frame data frame0 len) (hs : Int)).2.2.2
  refine ⟨pl, e1, ?_, ?_⟩
  · intro h1
    rw [e2 (hm.mpr h1)]
    unfold wire_header_size
    rw [hbase, if_pos h1, Nat.add_sub_cancel]
  · intro i hi
    rw [hpl] at hi
    rw [e3 i hi]
    unfold wire_header_size
    rw [hbase]
    by_cases h1 : wire_mask_bit data = 1
    · rw [if_pos (hm.mpr h1), if_pos h1, if_pos h1, Nat.add_sub_cancel]
    · rw [if_neg (fun h => h1 (hm.mp h)), if_neg h1, if_neg h1, Nat.add_zero]

theorem wire_len64_unfold (data : List Nat) : wire_len64 data =
    ((((((((0 * 256 + data.getD (2 + 0) 0) * 256 + data.getD (2 + 1) 0) * 256
      + data.getD (2 + 2) 0) * 256 + data.getD (2 + 3) 0) * 256 + data.getD (2 + 4) 0) * 256
      + data.getD (2 + 5) 0) * 256 + data.getD (2 + 6) 0) * 256 + data.getD (2 + 7) 0)
      % 9223372036854775808 := by
  have hr : List.range 8 = [0, 1, 2, 3, 4, 5, 6, 7] := by decide
  rw [wire_len64, hr]
  rw [List.foldl_cons, List.foldl_cons, List.foldl_cons, List.foldl_cons, List.foldl_cons,
    List.foldl_cons, List.foldl_cons, List.foldl_cons, List.foldl_nil]

/-- For declared 64-bit lengths that fit an `int`, the decoder reads the declared length. -/
theorem read_len64_small (data : List Nat) (hbytes : ∀ b ∈ data, b < 256)
    (h : (wire_len64 data : Int) ≤ INT_MAX)
    (htop : data.getD 2 0 < 128) :
    read_len64 data = (wire_len64 data : Int) := by
  have hI : INT_MAX = 2147483647 := rfl
  have g0 := getD_lt_of_bytes hbytes (2 + 0)
  have g1 := getD_lt_of_bytes hbytes (2 + 1)
  have g2 := getD_lt_of_bytes hbytes (2 + 2)
  have g3 := getD_lt_of_bytes hbytes (2 + 3)
  have g4 := getD_lt_of_bytes hbytes (2 + 4)
  have g5 := getD_lt_of_bytes hbytes (2 + 5)
  have g6 := getD_lt_of_bytes hbytes (2 + 6)
  have g7 := getD_lt_of_bytes hbytes (2 + 7)
  have ht : data.getD (2 + 0) 0 < 128 := htop
  have z : (0 : Int) = ((0 : Nat) : Int) := rfl
  rw [wire_len64_unfold] at h ⊢
  rw [read_len64_unfold, z,
    len64_step_nat data _ 0 g0 (by omega), len64_step_nat data _ 1 g1 (by omega),
    len64_step_nat data _ 2 g2 (by omega), len64_step_nat data _ 3 g3 (by omega),
    len64_step_nat data _ 4 g4 (by omega), len64_step_nat data _ 5 g5 (by omega),
    len64_step_nat data _ 6 g6 (by omega), len64_step_nat data _ 7 g7 (by omega)]
  congr 1
  omega

theorem parse_payload_incomplete (malloc : Nat → Bool) (data : List Nat) (data_len : Int)
    (frame : WSFrame) (hs len : Nat) (hs14 : hs ≤ 14) (hpl : frame.payload_len = (len : Int))
    (hlen : (len : Int) ≤ INT_MAX - 14) (hinc : data_len < ((hs + len : Nat) : Int)) :
    (parse_payload malloc data data_len frame (hs : Int)).1 = -1 := by
  have hI : INT_MAX = 2147483647 := rfl
  unfold parse_payload
  rw [hpl, int32_eq_self (by omega) (by omega), if_pos (by push_cast at hinc; omega)]

theorem parse_mask_incomplete (malloc : Nat → Bool) (data : List Nat) (data_len : Int)
    (frame : WSFrame) (hsI : Int) (hs len : Nat) (hcast : hsI = (hs : Int)) (hs10 : hs ≤ 10)
    (hpl : frame.payload_len = (len : Int)) (hlen : (len : Int) ≤ INT_MAX - 14)
    (hinc : data_len < ((hs + (if frame.masked ≠ 0 then 4 else 0) + len : Nat) : Int)) :
    (parse_mask malloc data data_len frame hsI).1 = -1 := by
  subst hcast
  unfold parse_mask
  by_cases hm : frame.masked ≠ 0
  · rw [if_pos hm] at hinc ⊢
    by_cases h1 : data_len < (hs : Int) + 4
    · rw [if_pos h1]
    · rw [if_neg h1]
      have hcast : (hs : Int) + 4 = ((hs + 4 : Nat) : Int) := by push_cast; rfl
      rw [hcast]
      exact parse_payload_incomplete malloc data data_len _ (hs + 4) len (by omega) hpl hlen hinc
  · rw [if_neg hm] at hinc ⊢
    exact parse_payload_incomplete malloc data data_len _ hs len (by omega) hpl hlen
      (by simpa using hinc)

/-- Incomplete input is rejected whenever the declared payload length leaves room for the header
in an `int` (for the 64-bit form: most significant bit clear and value at most INT_MAX - 14). -/
theorem incomplete_rejected_small (malloc : Nat → Bool) (data : List Nat) (data_len : Int)
    (frame0 : WSFrame) (hbytes : ∀ b ∈ data, b < 256)
    (h64 : wire_len7 data = 127 →
      data.getD 2 0 < 128 ∧ (wire_len64 data : Int) ≤ INT_MAX - 14)
    (hinc : data_len < (wire_total_len data : Int)) :
    (parse_ws_frame malloc data data_len frame0).1 = -1 := by
  have hI : INT_MAX = 2147483647 := rfl
  have hb2 := getD_lt_of_bytes hbytes 2
  have hb3 := getD_lt_of_bytes hbytes 3
  have hmb2 : wire_mask_bit data < 2 := by unfold wire_mask_bit; omega
  have hm : ∀ len, ((wire_frame data frame0 len).masked ≠ 0) ↔ wire_mask_bit data = 1 := by
    intro len; simp only [wire_frame]; omega
  have hif : ∀ len, (if (wire_frame data frame0 len).masked ≠ 0 then 4 else 0)
      = (if wire_mask_bit data = 1 then 4 else 0) := by
    intro len
    by_cases h : wire_mask_bit data = 1
    · rw [if_pos ((hm len).mpr h), if_pos h]
    · rw [if_neg (fun h' => h ((hm len).mp h')), if_neg h]
  unfold wire_total_len wire_header_size wire_base_size wire_payload_len at hinc
  by_cases h2 : data_len < 2
  · rw [parse_ws_frame_short malloc data data_len frame0 h2]
  · rw [parse_ws_frame_stages malloc data data_len frame0 hbytes (by omega)]
    by_cases c1 : wire_len7 data = 126
    · rw [if_pos c1] at hinc ⊢
      rw [if_pos c1] at hinc
      by_cases c2 : data_len < 4
      · rw [if_pos c2]
      · rw [if_neg c2]
        refine parse_mask_incomplete malloc data data_len _ 4 4 _ rfl (by omega) rfl
          (by push_cast; omega) ?_
        rw [hif]
        calc data_len < _ := hinc
          _ = _ := by congr 1
    · rw [if_neg c1] at hinc ⊢
      rw [if_neg c1] at hinc
      by_cases c3 : wire_len7 data = 127
      · rw [if_pos c3] at hinc ⊢
        rw [if_pos c3] at hinc
        obtain ⟨ht, hv⟩ := h64 c3
        by_cases c4 : data_len < 10
        · rw [if_pos c4]
        · rw [if_neg c4]
          refine parse_mask_incomplete malloc data data_len _ 10 10 (wire_len64 data) rfl
            (by omega) (read_len64_small data hbytes (by omega) ht) hv ?_
          rw [hif]
          exact hinc
      · rw [if_neg c3] at hinc ⊢
        rw [if_neg c3] at hinc
        have h7 : wire_len7 data < 128 := by unfold wire_len7; omega
        refine parse_mask_incomplete malloc data data_len _ 2 2 (wire_len7 data) rfl
          (by omega) rfl (by omega) ?_
        rw [hif]
        exact hinc

/-- The decoded payload length equals the declared one for the 7-bit and 16-bit forms, and for
the 64-bit form when the declared value fits an `int`. -/
theorem decoded_length_small (malloc : Nat → Bool) (data : List Nat) (data_len : Int)
    (frame0 : WSFrame) (hbytes : ∀ b ∈ data, b < 256) (h2 : 2 ≤ data_len)
    (h16 : wire_len7 data = 126 → 4 ≤ data_len)
    (h64 : wire_len7 data = 127 →
      10 ≤ data_len ∧ data.getD 2 0 < 128 ∧ (wire_len64 data : Int) ≤ INT_MAX) :
    (parse_ws_frame malloc data data_len frame0).2.payload_len
      = (wire_payload_len data : Int) := by
  rw [parse_ws_frame_stages malloc data data_len frame0 hbytes h2]
  unfold wire_payload_len
  by_cases c1 : wire_len7 data = 126
  · rw [if_pos c1, if_pos c1, if_neg (by have := h16 c1; omega),
      (parse_mask_fields malloc data data_len _ 4).2.2.2]
    rfl
  · rw [if_neg c1, if_neg c1]
    by_cases c3 : wire_len7 data = 127
    · obtain ⟨h10, ht, hv⟩ := h64 c3
      rw [if_pos c3, if_pos c3, if_neg (by omega),
        (parse_mask_fields malloc data data_len _ 10).2.2.2]
      exact read_len64_small data hbytes hv ht
    · rw [if_neg c3, if_neg c3, (parse_mask_fields malloc data data_len _ 2).2.2.2]
      rfl

/-! ## Theorems: handshake -/

theorem strstr_crlf_spec : ∀ s : List Nat,
    (strstr_crlf s = none → crlf_lines s = [s]) ∧
    (∀ i, strstr_crlf s = some i →
      crlf_lines s = s.take i :: crlf_lines (s.drop (i + 2)) ∧ i + 2 ≤ s.length ∧
      s[i]? = some 13)
  | [] => by simp [strstr_crlf, crlf_lines]
  | [c] => by simp [strstr_crlf, crlf_lines]
  | c :: d :: rest => by
    have ih := strstr_crlf_spec (d :: rest)
    by_cases h : c = 13 ∧ d = 10
    · constructor
      · intro h0; simp [strstr_crlf, h] at h0
      · intro i hi
        simp only [strstr_crlf, if_pos h, Option.some.injEq] at hi
        subst hi
        simp [crlf_lines, h]
    · constructor
      · intro h0
        simp only [strstr_crlf, if_neg h, Option.map_eq_none'] at h0
        simp only [crlf_lines, if_neg h, ih.1 h0]
      · intro i hi
        simp only [strstr_crlf, if_neg h, Option.map_eq_some'] at hi
        obtain ⟨j, hj, rfl⟩ := hi
        obtain ⟨e1, e2, e3⟩ := ih.2 j hj
        simp only [crlf_lines, if_neg h, e1]
        refine ⟨by simp, by simp at e2 ⊢; omega, by simpa using e3⟩

theorem same_letter_iff (a b : Nat) : same_letter a b = true ↔ tolower a = tolower b := by
  unfold same_letter tolower
  simp only [Bool.or_eq_true, Bool.and_eq_true, decide_eq_true_eq]
  split_ifs <;> omega

theorem strncasecmp_eq_zipWith : ∀ (n : Nat) (s pat : List Nat), pat.length = n →
    strncasecmp_eq n s pat
      = (decide (pat.length ≤ s.length) && (List.zipWith same_letter s pat).all id)
  | 0, s, pat, h => by
    have : pat = [] := List.length_eq_zero.mp h
    simp [strncasecmp_eq, this]
  | n + 1, s, [], h => by simp at h
  | n + 1, [], b :: t, _ => by simp [strncasecmp_eq]
  | n + 1, a :: s, b :: t, h => by
    have ih := strncasecmp_eq_zipWith n s t (by simpa using h)
    have hab : decide (tolower a = tolower b) = same_letter a b := by
      by_cases hs : same_letter a b = true
      · rw [hs]; exact decide_eq_true ((same_letter_iff a b).mp hs)
      · have hn : ¬ tolower a = tolower b := fun h => hs ((same_letter_iff a b).mpr h)
        rw [Bool.not_eq_true] at hs
        rw [hs]; exact decide_eq_false hn
    simp only [strncasecmp_eq, ih, hab, List.length_cons, List.zipWith_cons_cons, List.all_cons,
      id_eq, Nat.add_le_add_iff_right]
    cases same_letter a b <;> simp

theorem strncasecmp_SEC_KEY (s : List Nat) :
    strncasecmp_eq 18 s SEC_KEY = starts_with_ci s SEC_KEY :=
  strncasecmp_eq_zipWith 18 s SEC_KEY (by decide)

theorem starts_with_ci_length {l : List Nat} (h : starts_with_ci l SEC_KEY = true) :
    18 ≤ l.length := by
  unfold starts_with_ci at h
  have hl : SEC_KEY.length = 18 := by decide
  rw [Bool.and_eq_true, decide_eq_true_eq, hl] at h
  exact h.1

theorem zipWith_take_of_le (f : Nat → Nat → Bool) : ∀ (l pat : List Nat) (i : Nat),
    pat.length ≤ i → List.zipWith f (l.take i) pat = List.zipWith f l pat
  | [], pat, i, _ => by simp
  | a :: l, [], i, _ => by simp
  | a :: l, b :: pat, 0, h => by simp at h
  | a :: l, b :: pat, i + 1, h => by
    simp only [List.take_succ_cons, List.zipWith_cons_cons]
    rw [zipWith_take_of_le f l pat i (by simpa using h)]

theorem starts_with_ci_take {s : List Nat} {i : Nat} (hi : 18 ≤ i) :
    starts_with_ci (s.take i) SEC_KEY = starts_with_ci s SEC_KEY := by
  have hl : SEC_KEY.length = 18 := by decide
  unfold starts_with_ci
  rw [zipWith_take_of_le same_letter s SEC_KEY i (by omega), hl, List.length_take]
  congr 1
  by_cases h : 18 ≤ s.length
  · rw [decide_eq_true h, decide_eq_true (by omega)]
  · rw [decide_eq_false h, decide_eq_false (by omega)]

theorem zipWith_all_getElem (f : Nat → Nat → Bool) : ∀ (l pat : List Nat),
    (List.zipWith f l pat).all id = true → ∀ (j : Nat) (a b : Nat),
    l[j]? = some a → pat[j]? = some b → f a b = true
  | [], _, _, j, a, b, ha, _ => by simp at ha
  | _ :: _, [], _, j, a, b, _, hb => by simp at hb
  | x :: l, y :: pat, h, 0, a, b, ha, hb => by
    simp only [List.zipWith_cons_cons, List.all_cons, id_eq, Bool.and_eq_true] at h
    simp only [List.getElem?_cons_zero, Option.some.injEq] at ha hb
    rw [← ha, ← hb]; exact h.1
  | x :: l, y :: pat, h, j + 1, a, b, ha, hb => by
    simp only [List.zipWith_cons_cons, List.all_cons, id_eq, Bool.and_eq_true] at h
    simp only [List.getElem?_cons_succ] at ha hb
    exact zipWith_all_getElem f l pat h.2 j a b ha hb

theorem cr_not_in_key : ∀ j < 18, ∀ b, SEC_KEY[j]? = some b → same_letter 13 b = false := by
  decide

theorem crlf_after_key {s : List Nat} {i : Nat} (hs : starts_with_ci s SEC_KEY = true)
    (hi : s[i]? = some 13) : 18 ≤ i := by
  by_contra hlt
  have hlt : i < 18 := by omega
  have hl : SEC_KEY.length = 18 := by decide
  unfold starts_with_ci at hs
  rw [Bool.and_eq_true] at hs
  have hb : SEC_KEY[i]? = some (SEC_KEY[i]) := List.getElem?_eq_getElem (by omega)
  have h1 := zipWith_all_getElem same_letter s SEC_KEY hs.2 i 13 _ hi hb
  rw [cr_not_in_key i hlt _ hb] at h1
  exact Bool.false_ne_true h1

theorem isspace_eq_is_blank (c : Nat) : isspace c = is_blank c := by
  unfold isspace is_blank
  by_cases h : c ∈ [9, 10, 11, 12, 13, 32]
  · rw [decide_eq_true h]
    simp only [List.mem_cons, List.mem_singleton, List.not_mem_nil, or_false] at h
    rcases h with h | h | h | h | h | h <;> subst h <;> rfl
  · rw [decide_eq_false h]
    simp only [List.mem_cons, List.mem_singleton, List.not_mem_nil, or_false] at h
    simp only [Bool.or_eq_false_iff, Bool.and_eq_false_iff, decide_eq_false_iff_not]
    omega

theorem skip_space_eq_dropWhile : ∀ l : List Nat, skip_space l = l.dropWhile is_blank
  | [] => rfl
  | c :: rest => by
    unfold skip_space
    rw [List.dropWhile_cons, isspace_eq_is_blank, skip_space_eq_dropWhile rest]

/-- The line loop, in terms of the lines of the request: with no line that begins with the
header name the result is 0 and the key buffer is left as it was; otherwise the value of the
first such line is copied to the key buffer. -/
theorem handshake_loop_eq (key_size : Nat) : ∀ (fuel : Nat) (s key : List Nat), s.length < fuel →
    handshake_loop key_size fuel s key
      = match (crlf_lines s).find? (fun l => starts_with_ci l SEC_KEY) with
        | none => some (0, key)
        | some l => (copy_key key_size (line_value l)).map (fun k => (1, k))
  | 0, s, key, h => by omega
  | fuel + 1, s, key, h => by
    unfold handshake_loop
    by_cases hnil : s = []
    · subst hnil
      have : starts_with_ci [] SEC_KEY = false := by decide
      simp [crlf_lines, List.find?, this]
    · rw [if_neg hnil]
      have hspec := strstr_crlf_spec s
      rw [strncasecmp_SEC_KEY]
      cases hc : strstr_crlf s with
      | none =>
        have hl := hspec.1 hc
        simp only []
        rw [hl]
        by_cases hm : starts_with_ci s SEC_KEY = true
        · rw [if_pos hm, List.take_length]
          simp only [List.find?, hm, line_value, skip_space_eq_dropWhile]
        · rw [if_neg hm, if_pos trivial]
          rw [Bool.not_eq_true] at hm
          simp only [List.find?, hm]
      | some i =>
        obtain ⟨hl, hlen, h13⟩ := hspec.2 i hc
        simp only []
        rw [hl]
        by_cases hm : starts_with_ci s SEC_KEY = true
        · have h18 := crlf_after_key hm h13
          rw [if_pos hm]
          simp only [List.find?, starts_with_ci_take h18, hm, line_value,
            skip_space_eq_dropWhile]
        · have hm2 : starts_with_ci (s.take i) SEC_KEY = false := by
            rw [← Bool.not_eq_true]
            intro h1
            have h18 := starts_with_ci_length h1
            have : 18 ≤ i := by simp at h18; omega
            rw [starts_with_ci_take this] at h1
            exact hm h1
          have hne : i ≠ s.length := by omega
          rw [if_neg hm, if_neg hne]
          simp only [List.find?, hm2]
          exact handshake_loop_eq key_size fuel (s.drop (i + 2)) key (by simp; omega)

/-- The function `parse_websocket_handshake` in terms of the lines of the request. -/
theorem parse_websocket_handshake_eq (key_size : Nat) (request key : List Nat) :
    parse_websocket_handshake key_size request key
      = match key_line request with
        | none => some (0, key)
        | some l => (copy_key key_size (line_value l)).map (fun k => (1, k)) := by
  unfold parse_websocket_handshake key_line
  exact handshake_loop_eq key_size _ (c_str request) key (Nat.lt_succ_self _)

theorem key_line_none_iff (request : List Nat) :
    key_line request = none ↔ ¬ has_key_line request := by
  unfold key_line has_key_line
  rw [List.find?_eq_none]
  constructor
  · rintro h ⟨l, hl, hs⟩
    exact h l hl hs
  · intro h l hl hs
    exact h ⟨l, hl, hs⟩

/-- Key detection and key value for the requests whose key fits the buffer: the function
returns 1 if and only if some line begins with the header name, 0 with the key buffer left as
it was when none does, and with 1 the key is the value of the first such line. When the value
of the first such line has `key_size` characters or more, the function writes beyond the end of
the key buffer. -/
theorem handshake_within_buffer (key_size : Nat) (request key : List Nat) :
    (¬ has_key_line request → parse_websocket_handshake key_size request key = some (0, key)) ∧
    (∀ l, key_line request = some l →
      has_key_line request ∧
      ((line_value l).length < key_size →
        parse_websocket_handshake key_size request key = some (1, line_value l)) ∧
      (key_size ≤ (line_value l).length →
        parse_websocket_handshake key_size request key = none)) := by
  rw [parse_websocket_handshake_eq]
  constructor
  · intro h
    rw [(key_line_none_iff request).mpr h]
  · intro l hl
    rw [hl]
    refine ⟨?_, fun h => ?_, fun h => ?_⟩
    · by_contra hn
      rw [(key_line_none_iff request).mpr hn] at hl
      cases hl
    · simp only [copy_key]
      rw [if_pos (by omega)]
      rfl
    · simp only [copy_key]
      rw [if_neg (by omega)]
      rfl

/-- The value of a line is what follows the header name once the leading white space is
taken away: the text after the 18 characters is white space followed by the value, and the
value does not begin with white space. -/
theorem line_value_spec (l : List Nat) :
    ∃ ws, l.drop 18 = ws ++ line_value l ∧ (∀ c ∈ ws, c ∈ [9, 10, 11, 12, 13, 32]) ∧
      ∀ c, (line_value l).head? = some c → c ∉ [9, 10, 11, 12, 13, 32] := by
  refine ⟨(l.drop 18).takeWhile is_blank, (List.takeWhile_append_dropWhile _ _).symm, ?_, ?_⟩
  · intro c hc
    have := List.mem_takeWhile_imp hc
    unfold is_blank at this
    exact of_decide_eq_true this
  · intro c hc
    unfold line_value at hc
    have := List.head?_dropWhile_not is_blank (l.drop 18)
    rw [hc] at this
    simp only [Option.all_some, Bool.not_eq_eq_eq_not, Bool.not_true] at this
    unfold is_blank at this
    exact of_decide_eq_false this

theorem c_str_of_no_nul {l : List Nat} (h : 0 ∉ l) : c_str l = l := by
  unfold c_str
  rw [List.takeWhile_eq_self_iff]
  intro x hx
  have : x ≠ 0 := fun h0 => h (h0 ▸ hx)
  simpa using this

theorem ws_guid_no_nul : 0 ∉ WS_GUID := by decide

theorem ws_guid_length : WS_GUID.length = 36 := by decide

/-! ## Frame codec: the claims -/

/-- C1 (masked frame round trip): for every 4-byte mask key `k` and every byte string `p`
of any length (0, 1, 125, 126, 65535, 65536, ...) such that the whole frame length fits the
`int` argument `data_len`, the masked text frame built from `k` and `p` (mask bit set, minimal
length prefix, key, payload XOR-ed with `k[i mod 4]`) is decoded by `parse_ws_frame`, given the
whole string, into a frame with payload `p` and `payload_len = |p|`, and the return value is
the length of the whole string. The payload allocation is assumed to succeed. -/
theorem masked_frame_round_trip (malloc : Nat → Bool) (k p : List Nat) (frame0 : WSFrame)
    (hk : k.length = 4) (hp : ∀ b ∈ p, b < 256)
    (hfit : ((masked_text_frame k p).length : Int) ≤ INT_MAX)
    (hm : malloc p.length = true) :
    parse_ws_frame malloc (masked_text_frame k p) ((masked_text_frame k p).length : Int) frame0
      = (((masked_text_frame k p).length : Int),
         { fin := 1, opcode := 1, masked := 1, payload_len := (p.length : Int), mask := k,
           payload := some p }) :=
  parse_masked_frame malloc 0x81 k p frame0 hk hp hfit hm

/-- Witness for C1 at a 65536-byte payload (64-bit length form) and the key 1,2,3,4. -/
theorem masked_frame_round_trip_witness :
    parse_ws_frame (fun _ => true) (masked_text_frame [1, 2, 3, 4] (List.replicate 65536 65))
        ((masked_text_frame [1, 2, 3, 4] (List.replicate 65536 65)).length : Int) WSFrame.zero
      = (((masked_text_frame [1, 2, 3, 4] (List.replicate 65536 65)).length : Int),
         { fin := 1, opcode := 1, masked := 1,
           payload_len := ((List.replicate 65536 65).length : Int), mask := [1, 2, 3, 4],
           payload := some (List.replicate 65536 65) }) :=
  masked_frame_round_trip (fun _ => true) [1, 2, 3, 4] (List.replicate 65536 65) WSFrame.zero
    rfl (fun b hb => by rw [(List.mem_replicate.mp hb).2]; decide)
    (by
      have h := length_masked_frame 0x81 [1, 2, 3, 4] (List.replicate 65536 65) rfl
      have h8 : (length_ext 65536).length = 8 := by decide
      rw [List.length_replicate, h8] at h
      unfold masked_text_frame
      rw [h]; decide)
    rfl

/-- C3 (failing input): the 12-byte buffer `81 7F 00 00 00 01 00 00 00 02 48 69` declares a
payload of 2^32 + 2 bytes, so the frame is incomplete (the declared total length 10 + 2^32 + 2
exceeds `data_len = 12`), yet `parse_ws_frame` does not return -1: the declared length wraps to 2
in the `int` accumulator and the buffer is accepted as a complete 12-byte frame with payload
`48 69`. -/
theorem incomplete_frame_accepted :
    (12 : Int) < (wire_total_len [0x81, 0x7F, 0, 0, 0, 1, 0, 0, 0, 2, 0x48, 0x69] : Int) ∧
    wire_total_len [0x81, 0x7F, 0, 0, 0, 1, 0, 0, 0, 2, 0x48, 0x69] = 10 + (4294967296 + 2) ∧
    parse_ws_frame (fun _ => true) [0x81, 0x7F, 0, 0, 0, 1, 0, 0, 0, 2, 0x48, 0x69] 12
        WSFrame.zero
      = (12, { fin := 1, opcode := 1, masked := 0, payload_len := 2, mask := [0, 0, 0, 0],
               payload := some [0x48, 0x69] }) := by
  decide

/-- C4 (unmasking definition): for every byte buffer holding at least `data_len` bytes on which
`parse_ws_frame` succeeds (returns a non-negative value), with `h` the header size (2, 4 or 10,
plus 4 when the mask bit is set), the decoded payload satisfies
`payload[i] = data[h + i] XOR mask[i mod 4]` for every `0 ≤ i < payload_len` when the mask bit
is set, where `mask` is the 4 bytes preceding the payload (also stored in `frame.mask`), and
`payload[i] = data[h + i]` when the mask bit is clear. -/
theorem unmasking_definition (malloc : Nat → Bool) (data : List Nat) (data_len : Int)
    (frame0 : WSFrame) (hbytes : ∀ b ∈ data, b < 256) (hbuf : data_len ≤ (data.length : Int))
    (hok : 0 ≤ (parse_ws_frame malloc data data_len frame0).1) :
    ∃ payload,
      (parse_ws_frame malloc data data_len frame0).2.payload = some payload ∧
      (wire_mask_bit data = 1 →
        (parse_ws_frame malloc data data_len frame0).2.mask
          = (data.drop (wire_header_size data - 4)).take 4) ∧
      ∀ i : Nat, (i : Int) < (parse_ws_frame malloc data data_len frame0).2.payload_len →
        payload[i]? = some (if wire_mask_bit data = 1
          then data.getD (wire_header_size data + i) 0
                ^^^ data.getD (wire_header_size data - 4 + i % 4) 0
          else data.getD (wire_header_size data + i) 0) := by
  by_cases h2 : data_len < 2
  · rw [parse_ws_frame_short malloc data data_len frame0 h2] at hok
    simp at hok
  · have hb2 := getD_lt_of_bytes hbytes 2
    have hb3 := getD_lt_of_bytes hbytes 3
    rw [parse_ws_frame_stages malloc data data_len frame0 hbytes (by omega)] at hok ⊢
    by_cases c1 : wire_len7 data = 126
    · rw [if_pos c1] at hok ⊢
      by_cases c2 : data_len < 4
      · rw [if_pos c2] at hok; simp at hok
      · rw [if_neg c2] at hok ⊢
        exact unmasking_branch malloc data data_len frame0 _ 4 4 rfl (by omega)
          (by unfold wire_base_size; rw [if_pos c1]) (by omega) (by omega) hbytes hbuf hok
    · rw [if_neg c1] at hok ⊢
      by_cases c3 : wire_len7 data = 127
      · rw [if_pos c3] at hok ⊢
        by_cases c4 : data_len < 10
        · rw [if_pos c4] at hok; simp at hok
        · rw [if_neg c4] at hok ⊢
          exact unmasking_branch malloc data data_len frame0 _ 10 10 rfl (by omega)
            (by unfold wire_base_size; rw [if_neg c1, if_pos c3])
            (read_len64_range data).1 (read_len64_range data).2 hbytes hbuf hok
      · rw [if_neg c3] at hok ⊢
        have h7 : wire_len7 data < 128 := by unfold wire_len7; omega
        exact unmasking_branch malloc data data_len frame0 _ 2 2 rfl (by omega)
          (by unfold wire_base_size; rw [if_neg c1, if_neg c3]) (by omega) (by omega)
          hbytes hbuf hok

/-- Witness for C4: the masked text frame with key 1,2,3,4 carrying "Hi". -/
theorem unmasking_definition_witness :
    ∃ payload,
      (parse_ws_frame (fun _ => true) [0x81, 0x82, 1, 2, 3, 4, 73, 107] 8 WSFrame.zero).2.payload
        = some payload ∧
      (wire_mask_bit [0x81, 0x82, 1, 2, 3, 4, 73, 107] = 1 →
        (parse_ws_frame (fun _ => true) [0x81, 0x82, 1, 2, 3, 4, 73, 107] 8 WSFrame.zero).2.mask
          = (List.drop (wire_header_size [0x81, 0x82, 1, 2, 3, 4, 73, 107] - 4)
              [0x81, 0x82, 1, 2, 3, 4, 73, 107]).take 4) ∧
      ∀ i : Nat,
        (i : Int) < (parse_ws_frame (fun _ => true) [0x81, 0x82, 1, 2, 3, 4, 73, 107] 8
            WSFrame.zero).2.payload_len →
        payload[i]? = some (if wire_mask_bit [0x81, 0x82, 1, 2, 3, 4, 73, 107] = 1
          then List.getD [0x81, 0x82, 1, 2, 3, 4, 73, 107]
                  (wire_header_size [0x81, 0x82, 1, 2, 3, 4, 73, 107] + i) 0
                ^^^ List.getD [0x81, 0x82, 1, 2, 3, 4, 73, 107]
                  (wire_header_size [0x81, 0x82, 1, 2, 3, 4, 73, 107] - 4 + i % 4) 0
          else List.getD [0x81, 0x82, 1, 2, 3, 4, 73, 107]
                  (wire_header_size [0x81, 0x82, 1, 2, 3, 4, 73, 107] + i) 0) :=
  unmasking_definition (fun _ => true) [0x81, 0x82, 1, 2, 3, 4, 73, 107] 8 WSFrame.zero
    (by decide) (by decide) (by decide)

/-- C5 (failing input): for the buffer `81 7F 00 00 00 01 00 00 00 02 48 69` the 7-bit length
field is 127 and the unsigned 64-bit big-endian value of bytes 2..9 is 2^32 + 2, but the payload
length that `parse_ws_frame` decodes, compares against `data_len = 12` and stores in the frame
is 2. -/
theorem length64_truncated :
    wire_len7 [0x81, 0x7F, 0, 0, 0, 1, 0, 0, 0, 2, 0x48, 0x69] = 127 ∧
    wire_len64 [0x81, 0x7F, 0, 0, 0, 1, 0, 0, 0, 2, 0x48, 0x69] = 4294967296 + 2 ∧
    read_len64 [0x81, 0x7F, 0, 0, 0, 1, 0, 0, 0, 2, 0x48, 0x69] = 2 ∧
    (parse_ws_frame (fun _ => true) [0x81, 0x7F, 0, 0, 0, 1, 0, 0, 0, 2, 0x48, 0x69] 12
        WSFrame.zero).2.payload_len = 2 := by
  decide

/-- C6 (server frames are unmasked text frames that the decoder reads back): for every payload
`p` and every `int` `frame_size` large enough to hold the encoded frame, `create_ws_frame`
returns `n > 0`, having written exactly `n` bytes of which the first is `0x81` and the second has
its mask bit clear, and `parse_ws_frame` applied to those `n` bytes returns `n` with `fin = 1`,
`opcode = 0x1`, `masked = 0`, `payload_len = |p|` and `payload = p`. The payload allocation is
assumed to succeed. -/
theorem create_then_parse (malloc : Nat → Bool) (p : List Nat) (frame_size : Int)
    (frame0 : WSFrame)
    (hroom : ((2 + (length_ext p.length).length + p.length : Nat) : Int) ≤ frame_size)
    (hint : frame_size ≤ INT_MAX) (hm : malloc p.length = true) :
    0 < (create_ws_frame p (p.length : Int) frame_size).1 ∧
    (create_ws_frame p (p.length : Int) frame_size).1
      = (((create_ws_frame p (p.length : Int) frame_size).2.length : Nat) : Int) ∧
    (create_ws_frame p (p.length : Int) frame_size).2.getD 0 0 = 0x81 ∧
    (create_ws_frame p (p.length : Int) frame_size).2.getD 1 0 < 0x80 ∧
    parse_ws_frame malloc (create_ws_frame p (p.length : Int) frame_size).2
        (create_ws_frame p (p.length : Int) frame_size).1 frame0
      = ((create_ws_frame p (p.length : Int) frame_size).1,
         { fin := 1, opcode := 1, masked := 0, payload_len := (p.length : Int),
           mask := frame0.mask, payload := some p }) := by
  have hI : INT_MAX = 2147483647 := rfl
  have hle := length_ext_le p.length
  have hc := length_code_lt p.length
  push_cast at hroom
  by_cases hshort : p.length < 65536
  · have hcr := create_ws_frame_natCast p p.length frame_size (by push_cast; omega) (by omega)
      hshort
    rw [List.take_length] at hcr
    rw [hcr]
    refine ⟨by push_cast; omega, by simp; omega, rfl, hc, ?_⟩
    exact parse_unmasked_frame malloc 0x81 p frame0 (by push_cast; omega) hm
  · have he : (length_ext p.length).length = 8 := by
      unfold length_ext
      rw [if_neg (by omega), if_neg (by omega), be_bytes_8]
      rfl
    have hcr := create_ws_frame_long p p.length frame_size (by omega) (by push_cast; omega)
      (by omega)
    rw [List.take_length] at hcr
    rw [hcr]
    refine ⟨by push_cast; omega, ?_, rfl, (by show (127 : Nat) < 0x80; decide), ?_⟩
    · simp only [List.length_cons, List.length_append, be_bytes_4, List.length_nil]
      push_cast; omega
    · exact parse_long_frame malloc p frame0 (by push_cast; omega) hm

/-- Witness for C6 in the three length forms: the payload "Hi" with the 65536-byte buffer the
callers use (inline form), a payload of 126 bytes with the same buffer (16-bit form), and a
payload of 65536 bytes with a buffer of 65546 bytes (64-bit form). -/
theorem create_then_parse_witness :
    (0 < (create_ws_frame ([72, 105] : List Nat) ((([72, 105] : List Nat)).length : Int) 65536).1 ∧
    (create_ws_frame ([72, 105] : List Nat) ((([72, 105] : List Nat)).length : Int) 65536).1
      = (((create_ws_frame ([72, 105] : List Nat) ((([72, 105] : List Nat)).length : Int) 65536).2.length : Nat) : Int) ∧
    (create_ws_frame ([72, 105] : List Nat) ((([72, 105] : List Nat)).length : Int) 65536).2.getD 0 0 = 0x81 ∧
    (create_ws_frame ([72, 105] : List Nat) ((([72, 105] : List Nat)).length : Int) 65536).2.getD 1 0 < 0x80 ∧
    parse_ws_frame (fun _ => true)
        (create_ws_frame ([72, 105] : List Nat) ((([72, 105] : List Nat)).length : Int) 65536).2
        (create_ws_frame ([72, 105] : List Nat) ((([72, 105] : List Nat)).length : Int) 65536).1 WSFrame.zero
      = ((create_ws_frame ([72, 105] : List Nat) ((([72, 105] : List Nat)).length : Int) 65536).1,
         { fin := 1, opcode := 1, masked := 0, payload_len := (((([72, 105] : List Nat)).length : Nat) : Int),
           mask := WSFrame.zero.mask, payload := some ([72, 105] : List Nat) })) ∧
    (0 < (create_ws_frame (List.replicate 126 65 : List Nat) (((List.replicate 126 65 : List Nat)).length : Int) 65536).1 ∧
    (create_ws_frame (List.replicate 126 65 : List Nat) (((List.replicate 126 65 : List Nat)).length : Int) 65536).1
      = (((create_ws_frame (List.replicate 126 65 : List Nat) (((List.replicate 126 65 : List Nat)).length : Int) 65536).2.length : Nat) : Int) ∧
    (create_ws_frame (List.replicate 126 65 : List Nat) (((List.replicate 126 65 : List Nat)).length : Int) 65536).2.getD 0 0 = 0x81 ∧
    (create_ws_frame (List.replicate 126 65 : List Nat) (((List.replicate 126 65 : List Nat)).length : Int) 65536).2.getD 1 0 < 0x80 ∧
    parse_ws_frame (fun _ => true)
        (create_ws_frame (List.replicate 126 65 : List Nat) (((List.replicate 126 65 : List Nat)).length : Int) 65536).2
        (create_ws_frame (List.replicate 126 65 : List Nat) (((List.replicate 126 65 : List Nat)).length : Int) 65536).1 WSFrame.zero
      = ((create_ws_frame (List.replicate 126 65 : List Nat) (((List.replicate 126 65 : List Nat)).length : Int) 65536).1,
         { fin := 1, opcode := 1, masked := 0, payload_len := ((((List.replicate 126 65 : List Nat)).length : Nat) : Int),
           mask := WSFrame.zero.mask, payload := some (List.replicate 126 65 : List Nat) })) ∧
    (0 < (create_ws_frame (List.replicate 65536 65 : List Nat) (((List.replicate 65536 65 : List Nat)).length : Int) 65546).1 ∧
    (create_ws_frame (List.replicate 65536 65 : List Nat) (((List.replicate 65536 65 : List Nat)).length : Int) 65546).1
      = (((create_ws_frame (List.replicate 65536 65 : List Nat) (((List.replicate 65536 65 : List Nat)).length : Int) 65546).2.length : Nat) : Int) ∧
    (create_ws_frame (List.replicate 65536 65 : List Nat) (((List.replicate 65536 65 : List Nat)).length : Int) 65546).2.getD 0 0 = 0x81 ∧
    (create_ws_frame (List.replicate 65536 65 : List Nat) (((List.replicate 65536 65 : List Nat)).length : Int) 65546).2.getD 1 0 < 0x80 ∧
    parse_ws_frame (fun _ => true)
        (create_ws_frame (List.replicate 65536 65 : List Nat) (((List.replicate 65536 65 : List Nat)).length : Int) 65546).2
        (create_ws_frame (List.replicate 65536 65 : List Nat) (((List.replicate 65536 65 : List Nat)).length : Int) 65546).1 WSFrame.zero
      = ((create_ws_frame (List.replicate 65536 65 : List Nat) (((List.replicate 65536 65 : List Nat)).length : Int) 65546).1,
         { fin := 1, opcode := 1, masked := 0, payload_len := ((((List.replicate 65536 65 : List Nat)).length : Nat) : Int),
           mask := WSFrame.zero.mask, payload := some (List.replicate 65536 65 : List Nat) })) :=
  ⟨create_then_parse (fun _ => true) [72, 105] 65536 WSFrame.zero (by decide) (by decide) rfl,
   create_then_parse (fun _ => true) (List.replicate 126 65) 65536 WSFrame.zero
     (by rw [List.length_replicate]; decide) (by decide) rfl,
   create_then_parse (fun _ => true) (List.replicate 65536 65) 65546 WSFrame.zero
     (by rw [List.length_replicate]; decide) (by decide) rfl⟩

/-- C7 (opcode and FIN are surfaced unchanged): whenever `parse_ws_frame` succeeds (returns a
non-negative value), `frame.opcode` is the low 4 bits of byte 0 and `frame.fin` is bit 7 of
byte 0. In particular a complete masked frame with opcode 0x0 (continuation), with either value
`f` of the FIN bit, is decoded successfully with `opcode = 0`, neither rejected nor rewritten. -/
theorem opcode_and_fin_surfaced (malloc : Nat → Bool) (data : List Nat) (data_len : Int)
    (frame0 : WSFrame) (f : Nat) (k p : List Nat)
    (hb0 : data.getD 0 0 < 256)
    (hok : 0 ≤ (parse_ws_frame malloc data data_len frame0).1)
    (hf : f < 2) (hk : k.length = 4) (hp : ∀ b ∈ p, b < 256)
    (hfit : ((masked_frame (128 * f) k p).length : Int) ≤ INT_MAX)
    (hm : malloc p.length = true) :
    ((parse_ws_frame malloc data data_len frame0).2.opcode = ((data.getD 0 0 % 16 : Nat) : Int) ∧
     (parse_ws_frame malloc data data_len frame0).2.fin = ((data.getD 0 0 / 128 : Nat) : Int)) ∧
    parse_ws_frame malloc (masked_frame (128 * f) k p)
        ((masked_frame (128 * f) k p).length : Int) frame0
      = (((masked_frame (128 * f) k p).length : Int),
         { fin := (f : Int), opcode := 0, masked := 1, payload_len := (p.length : Int),
           mask := k, payload := some p }) := by
  constructor
  · by_cases h2 : data_len < 2
    · rw [parse_ws_frame_short malloc data data_len frame0 h2] at hok
      simp at hok
    · have h := parse_ws_frame_fin_opcode malloc data data_len frame0 (by omega)
      rw [h.1, h.2.1]
      unfold byteAt
      rw [land_0F, land_80_shr, byte_bit7 _ hb0]
      exact ⟨rfl, rfl⟩
  · rw [parse_masked_frame malloc (128 * f) k p frame0 hk hp hfit hm]
    have hf2 : f = 0 ∨ f = 1 := by omega
    rcases hf2 with rfl | rfl <;> rfl

/-- Witness for C7: the unmasked two-byte continuation frame `00 00` as the received buffer, and
the masked continuation frame with FIN clear, key 1,2,3,4 and payload "Hi". -/
theorem opcode_and_fin_surfaced_witness :
    ((parse_ws_frame (fun _ => true) [0, 0] 2 WSFrame.zero).2.opcode
        = (((([0, 0] : List Nat).getD 0 0) % 16 : Nat) : Int) ∧
     (parse_ws_frame (fun _ => true) [0, 0] 2 WSFrame.zero).2.fin
        = (((([0, 0] : List Nat).getD 0 0) / 128 : Nat) : Int)) ∧
    parse_ws_frame (fun _ => true) (masked_frame (128 * 0) [1, 2, 3, 4] [72, 105])
        ((masked_frame (128 * 0) [1, 2, 3, 4] [72, 105]).length : Int) WSFrame.zero
      = (((masked_frame (128 * 0) [1, 2, 3, 4] [72, 105]).length : Int),
         { fin := ((0 : Nat) : Int), opcode := 0, masked := 1,
           payload_len := (([72, 105] : List Nat).length : Int),
           mask := [1, 2, 3, 4], payload := some [72, 105] }) :=
  opcode_and_fin_surfaced (fun _ => true) [0, 0] 2 WSFrame.zero 0 [1, 2, 3, 4] [72, 105]
    (by decide) (by decide) (by decide) rfl (by decide) (by decide) rfl

/-! ## Handshake: the claims -/

set_option maxRecDepth 1000000 in
/-- C8 (failing input): a request whose line `sec-websocket-KEY:` carries a value of 256
characters `A`. Some line of it begins with the header name compared case-insensitively, so
the result asked for is 1; with the key buffer of 256 characters that
`websocket_client_handler` passes, `parse_websocket_handshake` writes 257 characters, the last
one behind the end of the buffer, because it has no test on the length of the value. With 255
characters on the same line it returns 1, and for a request with no such line it returns 0 and
leaves the key buffer as it was. -/
theorem handshake_detection_overrun :
    has_key_line (str_bytes "GET /chat HTTP/1.1\r\nsec-websocket-KEY: " ++ List.replicate 256 65
      ++ str_bytes "\r\n\r\n") ∧
    parse_websocket_handshake KEY_SIZE
      (str_bytes "GET /chat HTTP/1.1\r\nsec-websocket-KEY: " ++ List.replicate 256 65
        ++ str_bytes "\r\n\r\n") [] = none ∧
    has_key_line (str_bytes "GET /chat HTTP/1.1\r\nsec-websocket-KEY: " ++ List.replicate 255 65
      ++ str_bytes "\r\n\r\n") ∧
    (parse_websocket_handshake KEY_SIZE
      (str_bytes "GET /chat HTTP/1.1\r\nsec-websocket-KEY: " ++ List.replicate 255 65
        ++ str_bytes "\r\n\r\n") []).map Prod.fst = some 1 ∧
    ¬ has_key_line (str_bytes "GET /chat HTTP/1.1\r\nHost: a\r\nX-Sec-WebSocket-Key: b\r\n\r\n") ∧
    parse_websocket_handshake KEY_SIZE
      (str_bytes "GET /chat HTTP/1.1\r\nHost: a\r\nX-Sec-WebSocket-Key: b\r\n\r\n") [7]
      = some (0, [7]) ∧
    KEY_SIZE = 256 := by
  decide

/-- C9 (handshake test vector): `generate_accept_header` applied to the key
`dGhlIHNhbXBsZSBub25jZQ==` produces exactly the string `s3pPLMBiTxaQ9kYGzzhZRbK+xOo=`. -/
theorem accept_test_vector :
    generate_accept_header (str_bytes "dGhlIHNhbXBsZSBub25jZQ==")
      = str_bytes "s3pPLMBiTxaQ9kYGzzhZRbK+xOo=" := by
  set_option maxRecDepth 1000000 in decide

/-- C10 as stated fails at a 220-character key (220 times `A`): the 256-byte `concat` buffer
holds only the first 255 characters of key ++ GUID, so the last GUID character is not hashed and
the token differs from base64(SHA-1(key ++ GUID)). -/
theorem accept_long_key_truncated :
    (List.replicate 220 65).length ≤ 255 ∧ 0 ∉ List.replicate 220 65 ∧
    generate_accept_header (List.replicate 220 65)
      ≠ base64_encode (SHA1 (List.replicate 220 65 ++ WS_GUID)) := by
  set_option maxRecDepth 10000000 in decide

/-- C10 (amended): for every key string of at most 219 characters, so that key ++ GUID fits the
256-byte `concat` buffer, `generate_accept_header` outputs
base64(SHA-1(key ++ "258EAFA5-E914-47DA-95CA-C5AB0DC85B11")). -/
theorem accept_token_algorithm (key : List Nat) (hstr : 0 ∉ key) (hlen : key.length ≤ 219) :
    generate_accept_header key = base64_encode (SHA1 (key ++ WS_GUID)) := by
  have hcat : 0 ∉ key ++ WS_GUID := by
    intro h
    rcases List.mem_append.mp h with h | h
    · exact hstr h
    · exact ws_guid_no_nul h
  unfold generate_accept_header snprintf_ss
  simp only []
  rw [c_str_of_no_nul hstr, c_str_of_no_nul ws_guid_no_nul,
    List.take_of_length_le (by rw [List.length_append, ws_guid_length]; omega),
    c_str_of_no_nul hcat]

/-- Witness for C10 (amended) at the 24-character key of the protocol test vector. -/
theorem accept_token_algorithm_witness :
    generate_accept_header (str_bytes "dGhlIHNhbXBsZSBub25jZQ==")
      = base64_encode (SHA1 (str_bytes "dGhlIHNhbXBsZSBub25jZQ==" ++ WS_GUID)) :=
  accept_token_algorithm (str_bytes "dGhlIHNhbXBsZSBub25jZQ==") (by decide) (by decide)

/-! ## Theorems: arrays and loops -/

theorem array_get_natCast {α : Type} [Inhabited α] (a : List α) (i : Nat) :
    array_get a (i : Int) = a.getD i default := by
  unfold array_get
  rw [if_pos (Int.ofNat_nonneg i)]
  rfl

theorem array_set_natCast {α : Type} (a : List α) (i : Nat) (v : α) :
    array_set a (i : Int) v = a.set i v := by
  unfold array_set
  rw [if_pos (Int.ofNat_nonneg i)]
  rfl

theorem array_get_of_getElem? {α : Type} [Inhabited α] {a : List α} {i : Nat} {v : α}
    (h : a[i]? = some v) : array_get a (i : Int) = v := by
  rw [array_get_natCast, List.getD_eq_getElem?_getD, h]
  rfl

/-- What the search loop returns: the least index from `i` on that satisfies `p`, if any. -/
theorem first_index_spec (p : Int → Bool) (n : Int) :
    ∀ (fuel : Nat) (i : Int), n - i ≤ (fuel : Int) →
      (∀ j, first_index p n fuel i = some j →
        i ≤ j ∧ j < n ∧ p j = true ∧ ∀ k, i ≤ k → k < j → p k = false) ∧
      (first_index p n fuel i = none → ∀ k, i ≤ k → k < n → p k = false)
  | 0, i, h => by
    constructor
    · intro j hj; simp [first_index] at hj
    · intro _ k h1 h2; omega
  | fuel + 1, i, h => by
    have ih := first_index_spec p n fuel (i + 1) (by push_cast at h; omega)
    unfold first_index
    by_cases hin : i < n
    · rw [if_pos hin]
      by_cases hp : p i = true
      · rw [if_pos hp]
        constructor
        · intro j hj
          simp only [Option.some.injEq] at hj
          subst hj
          exact ⟨le_refl _, hin, hp, fun k h1 h2 => by omega⟩
        · intro h0; simp at h0
      · rw [if_neg hp]
        have hpf : p i = false := by simpa using hp
        constructor
        · intro j hj
          obtain ⟨a, b, c, d⟩ := ih.1 j hj
          refine ⟨by omega, b, c, ?_⟩
          intro k h1 h2
          by_cases hk : k = i
          · rw [hk]; exact hpf
          · exact d k (by omega) h2
        · intro h0 k h1 h2
          by_cases hk : k = i
          · rw [hk]; exact hpf
          · exact ih.2 h0 k (by omega) h2
    · rw [if_neg hin]
      constructor
      · intro j hj; simp at hj
      · intro _ k h1 h2; omega

/-- What the compaction loop leaves in the array: the elements at `k .. n - 2` are replaced by
their right neighbours, all others are kept. -/
theorem getElem?_shift_down {α : Type} [Inhabited α] (n : Nat) :
    ∀ (fuel : Nat) (k : Nat) (a : List α), n ≤ a.length → n ≤ 2147483647 → n - 1 - k ≤ fuel →
      (shift_down (n : Int) fuel (k : Int) a).length = a.length ∧
      ∀ j, (shift_down (n : Int) fuel (k : Int) a)[j]?
        = if k ≤ j ∧ j + 1 < n then a[j + 1]? else a[j]?
  | 0, k, a, hn, hmax, hfuel => by
    refine ⟨rfl, fun j => ?_⟩
    simp only [shift_down]
    rw [if_neg (by omega)]
  | fuel + 1, k, a, hn, hmax, hfuel => by
    unfold shift_down
    have e : int32 ((n : Int) - 1) = (n : Int) - 1 := int32_eq_self (by omega) (by omega)
    rw [e]
    by_cases hk : (k : Int) < (n : Int) - 1
    · rw [if_pos hk]
      have hk' : k + 1 < n := by omega
      have hcast : (k : Int) + 1 = ((k + 1 : Nat) : Int) := by push_cast; rfl
      rw [hcast, array_get_natCast, array_set_natCast]
      obtain ⟨hl, hget⟩ := getElem?_shift_down n fuel (k + 1) (a.set k (a.getD (k + 1) default))
        (by simpa using hn) hmax (by omega)
      refine ⟨by simpa using hl, fun j => ?_⟩
      rw [hget j]
      have hk1 : a[k + 1]? = some (a.getD (k + 1) default) := by
        rw [List.getD_eq_getElem?_getD, List.getElem?_eq_getElem (by omega)]
        rfl
      by_cases hj : k + 1 ≤ j ∧ j + 1 < n
      · rw [if_pos hj, if_pos (by omega), List.getElem?_set_ne (by omega)]
      · rw [if_neg hj]
        by_cases hjk : j = k
        · subst hjk
          rw [if_pos (by omega), List.getElem?_set_self (by omega), hk1]
        · rw [List.getElem?_set_ne (by omega), if_neg (by omega)]
    · rw [if_neg hk]
      refine ⟨rfl, fun j => ?_⟩
      rw [if_neg (by omega)]

/-- The compaction loop started at index `k` removes element `k` from the first `n` elements. -/
theorem take_shift_down {α : Type} [Inhabited α] (n k : Nat) (a : List α) (hn : n ≤ a.length)
    (hmax : n ≤ 2147483647) (hk : k < n) :
    (shift_down (n : Int) n (k : Int) a).take (n - 1) = (a.take n).eraseIdx k := by
  obtain ⟨hl, hget⟩ := getElem?_shift_down n n k a hn hmax (by omega)
  apply List.ext_getElem?
  intro j
  rw [List.getElem?_take, List.getElem?_eraseIdx, hget j]
  by_cases hj : j < n - 1
  · rw [if_pos hj]
    by_cases hjk : j < k
    · rw [if_neg (by omega), if_pos hjk, List.getElem?_take, if_pos (by omega)]
    · rw [if_pos (by omega), if_neg hjk, List.getElem?_take, if_pos (by omega)]
  · rw [if_neg hj]
    by_cases hjk : j < k
    · omega
    · rw [if_neg hjk, List.getElem?_take, if_neg (by omega)]

/-! ## Theorems: worker pool -/

theorem ring_read_mod (q : List WorkItem) (size : Nat) (c f : Nat) :
    ring_read q size (f % size) c = ring_read q size f c := by
  induction c generalizing f with
  | zero => rfl
  | succ c ih =>
    simp only [ring_read, Nat.mod_mod]
    rw [← ih (f % size + 1), ← ih (f + 1), Nat.add_mod, Nat.mod_mod, ← Nat.add_mod]

theorem ring_read_snoc (q : List WorkItem) (size : Nat) (c f : Nat) :
    ring_read q size f (c + 1)
      = ring_read q size f c ++ [q.getD ((f + c) % size) default] := by
  induction c generalizing f with
  | zero => simp [ring_read]
  | succ c ih =>
    have h := ih (f + 1)
    have e : f + 1 + c = f + (c + 1) := by omega
    rw [e] at h
    conv_lhs => rw [ring_read]
    rw [h]
    simp [ring_read]

theorem ring_read_set (q : List WorkItem) (size : Nat) (w : WorkItem) (c f k : Nat)
    (hk : ∀ i, i < c → (f + i) % size ≠ k) :
    ring_read (q.set k w) size f c = ring_read q size f c := by
  induction c generalizing f with
  | zero => rfl
  | succ c ih =>
    have h0 : f % size ≠ k := by simpa using hk 0 (by omega)
    have hrest : ∀ i, i < c → (f + 1 + i) % size ≠ k := by
      intro i hi
      have := hk (i + 1) (by omega)
      have e : f + 1 + i = f + (i + 1) := by omega
      rw [e]; exact this
    simp only [ring_read, ih (f + 1) hrest]
    congr 1
    simp [List.getD_eq_getElem?_getD, List.getElem?_set_ne (Ne.symm h0)]

theorem ring_index_ne {size f c i : Nat} (hf : f < size) (hc : c < size) (hi : i < c) :
    (f + i) % size ≠ (f + c) % size := by
  intro h
  by_cases h1 : f + i < size
  · rw [Nat.mod_eq_of_lt h1] at h
    by_cases h2 : f + c < size
    · rw [Nat.mod_eq_of_lt h2] at h; omega
    · have e : (f + c) % size = f + c - size := by
        rw [Nat.mod_eq_sub_mod (by omega), Nat.mod_eq_of_lt (by omega)]
      omega
  · have e1 : (f + i) % size = f + i - size := by
      rw [Nat.mod_eq_sub_mod (by omega), Nat.mod_eq_of_lt (by omega)]
    have e2 : (f + c) % size = f + c - size := by
      rw [Nat.mod_eq_sub_mod (by omega), Nat.mod_eq_of_lt (by omega)]
    omega

theorem c_rem_nonneg {a b : Int} (ha : 0 ≤ a) (hb : 0 < b) : c_rem a b = a % b := by
  unfold c_rem
  exact Int.tmod_eq_emod ha (le_of_lt hb)

theorem submit_full (s : ThreadPool) (task arg : Nat) (h : s.queue_count ≥ s.queue_size) :
    thread_pool_submit s task arg = (-1, s) := by
  unfold thread_pool_submit
  rw [if_pos h]

theorem submit_room (s : ThreadPool) (task arg : Nat) (hsize : s.queue_size ≤ INT_MAX)
    (hf : 0 ≤ s.queue_front)
    (hc : 0 ≤ s.queue_count) (hsum : s.queue_front + s.queue_count ≤ INT_MAX)
    (h : s.queue_count < s.queue_size) :
    thread_pool_submit s task arg
      = (0, { s with
          queue := s.queue.set ((s.queue_front + s.queue_count) % s.queue_size).toNat
            { task := task, arg := arg },
          queue_count := s.queue_count + 1 }) := by
  have hI : INT_MAX = 2147483647 := rfl
  unfold thread_pool_submit
  rw [if_neg (by omega), int32_eq_self (by omega) (by omega),
    c_rem_nonneg (by omega) (by omega)]
  have hpos : 0 ≤ (s.queue_front + s.queue_count) % s.queue_size :=
    Int.emod_nonneg _ (by omega)
  have hcnt : int32 (s.queue_count + 1) = s.queue_count + 1 := by
    unfold int32; omega
  simp only [array_set, if_pos hpos, hcnt]

theorem ring_contents_submit (s : ThreadPool) (task arg : Nat) (hinv : RingInv s)
    (h : s.queue_count < s.queue_size) :
    RingInv (thread_pool_submit s task arg).2 ∧
    ring_contents (thread_pool_submit s task arg).2
      = ring_contents s ++ [{ task := task, arg := arg }] := by
  obtain ⟨hlen, hpos, hbig, hf0, hf1, hc0, hc1⟩ := hinv
  have hI : INT_MAX = 2147483647 := rfl
  rw [submit_room s task arg (by omega) hf0 hc0 (by omega) h]
  constructor
  · refine ⟨?_, hpos, hbig, hf0, hf1, ?_, ?_⟩
    · simpa using hlen
    · show 0 ≤ s.queue_count + 1
      omega
    · show s.queue_count + 1 ≤ s.queue_size
      omega
  · unfold ring_contents
    simp only []
    obtain ⟨n, hn⟩ := Int.eq_ofNat_of_zero_le (le_of_lt hpos)
    obtain ⟨f, hf⟩ := Int.eq_ofNat_of_zero_le hf0
    obtain ⟨c, hc⟩ := Int.eq_ofNat_of_zero_le hc0
    have hlen' : s.queue.length = n := by omega
    have hfn : f < n := by omega
    have hcn : c < n := by omega
    rw [hn, hf, hc]
    have e1 : ((f : Int) + (c : Int)) % (n : Int) = (((f + c) % n : Nat) : Int) := by
      push_cast; rfl
    have e2 : ((c : Int) + 1).toNat = c + 1 := by omega
    rw [e1, e2]
    simp only [Int.toNat_ofNat]
    rw [ring_read_snoc, ring_read_set _ _ _ _ _ _ (fun i hi => ring_index_ne hfn hcn hi)]
    congr 1
    have hlt : (f + c) % n < s.queue.length := by
      rw [hlen']; exact Nat.mod_lt _ (by omega)
    simp [List.getD_eq_getElem?_getD, List.getElem?_set_self hlt]

theorem ring_contents_dequeue (s : ThreadPool) (hinv : RingInv s) (h : 0 < s.queue_count) :
    RingInv (worker_dequeue s).2 ∧
    ring_contents s = (worker_dequeue s).1 :: ring_contents (worker_dequeue s).2 := by
  obtain ⟨hlen, hpos, hbig, hf0, hf1, hc0, hc1⟩ := hinv
  unfold worker_dequeue
  have h1 : int32 (s.queue_front + 1) = s.queue_front + 1 := int32_eq_self (by omega) (by omega)
  have h2 : int32 (s.queue_count - 1) = s.queue_count - 1 := int32_eq_self (by omega) (by omega)
  have h3 : c_rem (s.queue_front + 1) s.queue_size = (s.queue_front + 1) % s.queue_size :=
    c_rem_nonneg (by omega) hpos
  rw [h1, h2, h3]
  have hm0 : 0 ≤ (s.queue_front + 1) % s.queue_size := Int.emod_nonneg _ (by omega)
  have hm1 : (s.queue_front + 1) % s.queue_size < s.queue_size := Int.emod_lt_of_pos _ hpos
  constructor
  · exact ⟨hlen, hpos, hbig, hm0, hm1, by show 0 ≤ s.queue_count - 1; omega,
      by show s.queue_count - 1 ≤ s.queue_size; omega⟩
  · unfold ring_contents array_get
    simp only [if_pos hf0]
    obtain ⟨n, hn⟩ := Int.eq_ofNat_of_zero_le (le_of_lt hpos)
    obtain ⟨f, hf⟩ := Int.eq_ofNat_of_zero_le hf0
    obtain ⟨c, hc⟩ := Int.eq_ofNat_of_zero_le hc0
    have hfn : f < n := by omega
    have hcp : 0 < c := by omega
    rw [hn, hf, hc]
    have e1 : ((f : Int) + 1) % (n : Int) = (((f + 1) % n : Nat) : Int) := by
      push_cast; rfl
    rw [e1]
    simp only [Int.toNat_ofNat]
    obtain ⟨c', rfl⟩ : ∃ c', c = c' + 1 := ⟨c - 1, by omega⟩
    have e2 : (((c' + 1 : Nat) : Int) - 1).toNat = c' := by omega
    rw [e2, ring_read, ring_read_mod, Nat.mod_eq_of_lt (by omega)]

theorem worker_iteration_exit (s : ThreadPool)
    (h : (worker_iteration s).1 = WorkerAction.exit) :
    s.is_shutdown ≠ 0 ∧ s.queue_count = 0 ∧ (worker_iteration s).2 = s := by
  unfold worker_iteration at h ⊢
  by_cases h1 : s.queue_count = 0 ∧ s.is_shutdown = 0
  · rw [if_pos h1] at h; simp at h
  · rw [if_neg h1] at h ⊢
    by_cases h2 : s.is_shutdown ≠ 0 ∧ s.queue_count = 0
    · rw [if_pos h2]; exact ⟨h2.1, h2.2, rfl⟩
    · rw [if_neg h2] at h; simp at h

theorem worker_iteration_run (s : ThreadPool) (w : WorkItem)
    (h : (worker_iteration s).1 = WorkerAction.run w) :
    s.queue_count ≠ 0 ∧ w = (worker_dequeue s).1 ∧ (worker_iteration s).2 = (worker_dequeue s).2 := by
  unfold worker_iteration at h ⊢
  by_cases h1 : s.queue_count = 0 ∧ s.is_shutdown = 0
  · rw [if_pos h1] at h; simp at h
  · rw [if_neg h1] at h ⊢
    by_cases h2 : s.is_shutdown ≠ 0 ∧ s.queue_count = 0
    · rw [if_pos h2] at h; simp at h
    · rw [if_neg h2] at h ⊢
      simp only [WorkerAction.run.injEq] at h
      refine ⟨?_, h.symm, rfl⟩
      intro h0
      by_cases h3 : s.is_shutdown = 0
      · exact h1 ⟨h0, h3⟩
      · exact h2 ⟨h3, h0⟩

theorem worker_iteration_wait (s : ThreadPool)
    (h : (worker_iteration s).1 = WorkerAction.wait) : (worker_iteration s).2 = s := by
  unfold worker_iteration at h ⊢
  by_cases h1 : s.queue_count = 0 ∧ s.is_shutdown = 0
  · rw [if_pos h1]
  · rw [if_neg h1] at h ⊢
    by_cases h2 : s.is_shutdown ≠ 0 ∧ s.queue_count = 0
    · rw [if_pos h2]
    · rw [if_neg h2] at h; simp at h

theorem pool_inv_nonempty {s : ThreadPool} (hinv : PoolInv s) (h : s.queue_count ≠ 0) :
    RingInv s ∧ 0 < s.queue_count := by
  rcases hinv with hr | hd
  · exact ⟨hr, by have := hr.2.2.2.2.2.1; omega⟩
  · exact absurd hd.2 h

theorem pool_inv_room {s : ThreadPool} (hinv : PoolInv s) (h : s.queue_count < s.queue_size) :
    RingInv s := by
  rcases hinv with hr | hd
  · exact hr
  · omega

/-- Bookkeeping of one step: the new items accepted and handed out, and the ring contents. -/
theorem pool_step_accounting (y : PoolSys) (ev : PoolEvent) (hinv : PoolInv y.pool) :
    PoolInv (pool_step y ev).pool ∧
    ∃ new out, (pool_step y ev).accepted = y.accepted ++ new ∧
      (pool_step y ev).handed = y.handed ++ out ∧
      (pool_step y ev).executed = y.executed ++ out.filter (fun w => w.task ≠ 0) ∧
      (pool_step y ev).exited ≥ y.exited ∧
      out ++ ring_contents (pool_step y ev).pool = ring_contents y.pool ++ new := by
  cases ev with
  | submit task arg =>
    by_cases hfull : y.pool.queue_count ≥ y.pool.queue_size
    · have e := submit_full y.pool task arg hfull
      simp only [pool_step, e]
      exact ⟨hinv, [], [], by simp⟩
    · have hr := pool_inv_room hinv (by omega)
      obtain ⟨h1, h2⟩ := ring_contents_submit y.pool task arg hr (by omega)
      have hI : INT_MAX = 2147483647 := rfl
      obtain ⟨-, -, hbig, hf0, hf1, hc0, hc1⟩ := hr
      have e0 : (thread_pool_submit y.pool task arg).1 = 0 := by
        rw [submit_room y.pool task arg (by omega) hf0 hc0 (by omega) (by omega)]
      simp only [pool_step, e0, if_true]
      exact ⟨Or.inl h1, [{ task := task, arg := arg }], [], by simp [h2]⟩
  | worker =>
    simp only [pool_step]
    cases hw : worker_iteration y.pool with
    | mk act p =>
      have hp : p = (worker_iteration y.pool).2 := by rw [hw]
      cases act with
      | wait =>
        have := worker_iteration_wait y.pool (by rw [hw])
        rw [← hp] at this; subst this
        exact ⟨hinv, [], [], by simp⟩
      | exit =>
        have := (worker_iteration_exit y.pool (by rw [hw])).2.2
        rw [← hp] at this; subst this
        exact ⟨hinv, [], [], by simp⟩
      | run work =>
        obtain ⟨hne, hwk, hst⟩ := worker_iteration_run y.pool work (by rw [hw])
        rw [← hp] at hst
        obtain ⟨hr, hpos⟩ := pool_inv_nonempty hinv hne
        obtain ⟨h1, h2⟩ := ring_contents_dequeue y.pool hr hpos
        subst hst
        refine ⟨Or.inl h1, [], [work], by simp, rfl, ?_, le_refl _, ?_⟩
        · simp only []
          by_cases ht : work.task ≠ 0
          · simp [ht]
          · simp [ht]
        · simp [h2, hwk]
  | shutdown =>
    simp only [pool_step, thread_pool_shutdown]
    refine ⟨?_, [], [], by simp, by simp, by simp, le_refl _, by simp [ring_contents]⟩
    rcases hinv with hr | hd
    · exact Or.inl hr
    · exact Or.inr hd

theorem pool_run_accounting (evs : List PoolEvent) (y : PoolSys) (hinv : PoolInv y.pool) :
    PoolInv (pool_run y evs).pool ∧
    ∃ new out, (pool_run y evs).accepted = y.accepted ++ new ∧
      (pool_run y evs).handed = y.handed ++ out ∧
      (pool_run y evs).executed = y.executed ++ out.filter (fun w => w.task ≠ 0) ∧
      (pool_run y evs).exited ≥ y.exited ∧
      out ++ ring_contents (pool_run y evs).pool = ring_contents y.pool ++ new := by
  induction evs generalizing y with
  | nil => exact ⟨hinv, [], [], by simp [pool_run]⟩
  | cons ev evs ih =>
    obtain ⟨hi1, n1, o1, a1, b1, c1, x1, d1⟩ := pool_step_accounting y ev hinv
    obtain ⟨hi2, n2, o2, a2, b2, c2, x2, d2⟩ := ih (pool_step y ev) hi1
    have e : pool_run y (ev :: evs) = pool_run (pool_step y ev) evs := rfl
    rw [e]
    refine ⟨hi2, n1 ++ n2, o1 ++ o2, ?_, ?_, ?_, le_trans x1 x2, ?_⟩
    · rw [a2, a1, List.append_assoc]
    · rw [b2, b1, List.append_assoc]
    · rw [c2, c1, List.filter_append, List.append_assoc]
    · rw [List.append_assoc, d2, ← List.append_assoc, d1, List.append_assoc]

/-! ## Worker pool: the claims -/

/-- C11 (worker-pool backpressure): in a pool state whose `int` fields are well formed
(`queue_size` is an `int`, front index and count non-negative, their sum fits an `int`),
`thread_pool_submit` returns -1 if and only if `queue_count >= queue_size`, and then the pool
(queue contents, `queue_front`, `queue_count`) is unchanged; otherwise it returns 0, stores the
task at ring position `(queue_front + queue_count) mod queue_size`, which lies inside the ring,
increases `queue_count` by exactly one and changes nothing else. -/
theorem submit_backpressure (s : ThreadPool) (task arg : Nat) (hsize : s.queue_size ≤ INT_MAX)
    (hf : 0 ≤ s.queue_front) (hc : 0 ≤ s.queue_count)
    (hsum : s.queue_front + s.queue_count ≤ INT_MAX) :
    ((thread_pool_submit s task arg).1 = -1 ↔ s.queue_count ≥ s.queue_size) ∧
    (s.queue_count ≥ s.queue_size → (thread_pool_submit s task arg).2 = s) ∧
    (s.queue_count < s.queue_size →
      (thread_pool_submit s task arg).1 = 0 ∧
      0 ≤ (s.queue_front + s.queue_count) % s.queue_size ∧
      (s.queue_front + s.queue_count) % s.queue_size < s.queue_size ∧
      (thread_pool_submit s task arg).2
        = { s with
            queue := s.queue.set ((s.queue_front + s.queue_count) % s.queue_size).toNat
              { task := task, arg := arg },
            queue_count := s.queue_count + 1 }) := by
  refine ⟨?_, ?_, ?_⟩
  · constructor
    · intro h
      by_contra hlt
      rw [submit_room s task arg hsize hf hc hsum (by omega)] at h
      simp at h
    · intro h
      rw [submit_full s task arg h]
  · intro h
    rw [submit_full s task arg h]
  · intro h
    rw [submit_room s task arg hsize hf hc hsum h]
    exact ⟨rfl, Int.emod_nonneg _ (by omega), Int.emod_lt_of_pos _ (by omega), rfl⟩

/-- Witness for C11: a ring of 3 slots holding one item at index 2 accepts a task at index 0;
the same ring holding three items refuses it. -/
theorem submit_backpressure_witness :
    ((thread_pool_submit
        { thread_count := 1, queue := [⟨0, 0⟩, ⟨0, 0⟩, ⟨5, 6⟩], queue_size := 3, queue_front := 2,
          queue_rear := 0, queue_count := 1, is_running := 1, is_shutdown := 0 } 7 8).1 = 0 ∧
      0 ≤ ((2 : Int) + 1) % 3 ∧ ((2 : Int) + 1) % 3 < 3 ∧
      (thread_pool_submit
        { thread_count := 1, queue := [⟨0, 0⟩, ⟨0, 0⟩, ⟨5, 6⟩], queue_size := 3, queue_front := 2,
          queue_rear := 0, queue_count := 1, is_running := 1, is_shutdown := 0 } 7 8).2
      = { thread_count := 1,
          queue := List.set [⟨0, 0⟩, ⟨0, 0⟩, ⟨5, 6⟩] (((2 : Int) + 1) % 3).toNat ⟨7, 8⟩,
          queue_size := 3, queue_front := 2, queue_rear := 0, queue_count := 1 + 1,
          is_running := 1, is_shutdown := 0 }) ∧
    ((thread_pool_submit
        { thread_count := 1, queue := [⟨3, 4⟩, ⟨4, 5⟩, ⟨5, 6⟩], queue_size := 3, queue_front := 2,
          queue_rear := 0, queue_count := 3, is_running := 1, is_shutdown := 0 } 7 8).1 = -1
      ↔ (3 : Int) ≥ 3) :=
  ⟨(submit_backpressure
      { thread_count := 1, queue := [⟨0, 0⟩, ⟨0, 0⟩, ⟨5, 6⟩], queue_size := 3, queue_front := 2,
        queue_rear := 0, queue_count := 1, is_running := 1, is_shutdown := 0 } 7 8
      (by decide) (by decide) (by decide) (by decide)).2.2 (by decide),
   (submit_backpressure
      { thread_count := 1, queue := [⟨3, 4⟩, ⟨4, 5⟩, ⟨5, 6⟩], queue_size := 3, queue_front := 2,
        queue_rear := 0, queue_count := 3, is_running := 1, is_shutdown := 0 } 7 8
      (by decide) (by decide) (by decide) (by decide)).1⟩

/-- C12 (worker-pool FIFO): the ring buffer refines a list queue. Under the abstraction
`ring_contents` that reads `queue_count` items from `queue_front` on modulo `queue_size`, in
every well-formed pool (queue size at most 2^30, so that index sums fit an `int`)
a successful `thread_pool_submit` appends its task at the end of the list, a worker's dequeue
step removes and returns the head of the list, and after every interleaving `evs` of submits,
worker iterations and shutdown the accepted tasks are the tasks handed to workers, in the same
order, followed by the tasks still queued. -/
theorem ring_refines_fifo (y : PoolSys) (evs : List PoolEvent) (task arg : Nat)
    (hinv : PoolInv y.pool) (hacc : y.accepted = y.handed ++ ring_contents y.pool) :
    ((thread_pool_submit y.pool task arg).1 = 0 →
      ring_contents (thread_pool_submit y.pool task arg).2
        = ring_contents y.pool ++ [{ task := task, arg := arg }]) ∧
    (y.pool.queue_count ≠ 0 →
      ring_contents y.pool = (worker_dequeue y.pool).1 :: ring_contents (worker_dequeue y.pool).2) ∧
    (pool_run y evs).accepted
      = (pool_run y evs).handed ++ ring_contents (pool_run y evs).pool := by
  refine ⟨?_, ?_, ?_⟩
  · intro h0
    by_cases hfull : y.pool.queue_count ≥ y.pool.queue_size
    · rw [submit_full y.pool task arg hfull] at h0
      simp at h0
    · exact (ring_contents_submit y.pool task arg (pool_inv_room hinv (by omega)) (by omega)).2
  · intro hne
    obtain ⟨hr, hpos⟩ := pool_inv_nonempty hinv hne
    exact (ring_contents_dequeue y.pool hr hpos).2
  · obtain ⟨-, new, out, a, b, -, -, d⟩ := pool_run_accounting evs y hinv
    rw [a, b, hacc, List.append_assoc, List.append_assoc, d]

set_option maxRecDepth 100000 in
/-- Witness for C12: in the pool of `main` with two tasks queued, a third submit appends, a
dequeue takes the head, and after a worker iteration, a submit and a second worker iteration
the accepted tasks are those handed out followed by the one still queued. -/
theorem ring_refines_fifo_witness :
    ring_contents (thread_pool_submit pool_two_queued.pool 7 8).2
      = ring_contents pool_two_queued.pool ++ [{ task := 7, arg := 8 }] ∧
    ring_contents pool_two_queued.pool
      = (worker_dequeue pool_two_queued.pool).1
          :: ring_contents (worker_dequeue pool_two_queued.pool).2 ∧
    (pool_run pool_two_queued
        [PoolEvent.worker, PoolEvent.submit 3 3, PoolEvent.worker]).accepted
      = (pool_run pool_two_queued
          [PoolEvent.worker, PoolEvent.submit 3 3, PoolEvent.worker]).handed
        ++ ring_contents (pool_run pool_two_queued
          [PoolEvent.worker, PoolEvent.submit 3 3, PoolEvent.worker]).pool :=
  have h := ring_refines_fifo pool_two_queued
    [PoolEvent.worker, PoolEvent.submit 3 3, PoolEvent.worker] 7 8 (by decide) (by decide)
  ⟨h.1 (by decide), h.2.1 (by decide), h.2.2⟩

/-- C13 (shutdown drains the queue): in the step model of the pool, a worker takes its exit
step only in a state where `is_shutdown` is set and `queue_count = 0`; each dequeue step hands
the head of the queue to the worker that takes it and removes it from the queue; hence, when
`thread_pool_shutdown` sets the flag in state `y` and a worker is about to exit after any further
steps `evs`, the items handed to workers since then are exactly the items that were queued in
`y`, in order and once each, followed by the items `new` accepted later, and the tasks run are
those of them with a non-null function pointer. -/
theorem shutdown_drains (y : PoolSys) (evs : List PoolEvent) (s : ThreadPool) (work : WorkItem)
    (hinv : PoolInv y.pool) (hs : PoolInv s)
    (hexit : (worker_iteration
      (pool_run (pool_step y PoolEvent.shutdown) evs).pool).1 = WorkerAction.exit) :
    ((worker_iteration s).1 = WorkerAction.exit → s.is_shutdown ≠ 0 ∧ s.queue_count = 0) ∧
    ((worker_iteration s).1 = WorkerAction.run work →
      ring_contents s = work :: ring_contents (worker_iteration s).2) ∧
    (pool_run (pool_step y PoolEvent.shutdown) evs).pool.is_shutdown ≠ 0 ∧
    (pool_run (pool_step y PoolEvent.shutdown) evs).pool.queue_count = 0 ∧
    ∃ new,
      (pool_run (pool_step y PoolEvent.shutdown) evs).accepted = y.accepted ++ new ∧
      (pool_run (pool_step y PoolEvent.shutdown) evs).handed
        = y.handed ++ (ring_contents y.pool ++ new) ∧
      (pool_run (pool_step y PoolEvent.shutdown) evs).executed
        = y.executed ++ (ring_contents y.pool ++ new).filter (fun w => w.task ≠ 0) := by
  refine ⟨fun h => ⟨(worker_iteration_exit s h).1, (worker_iteration_exit s h).2.1⟩, ?_, ?_⟩
  · intro h
    obtain ⟨hne, hw, hst⟩ := worker_iteration_run s work h
    obtain ⟨hr, hpos⟩ := pool_inv_nonempty hs hne
    rw [hst, hw]
    exact (ring_contents_dequeue s hr hpos).2
  · obtain ⟨e1, e2, -⟩ := worker_iteration_exit _ hexit
    refine ⟨e1, e2, ?_⟩
    have hinv' : PoolInv (pool_step y PoolEvent.shutdown).pool :=
      (pool_step_accounting y PoolEvent.shutdown hinv).1
    obtain ⟨-, new, out, a, b, c, -, d⟩ :=
      pool_run_accounting evs (pool_step y PoolEvent.shutdown) hinv'
    have hempty : ring_contents (pool_run (pool_step y PoolEvent.shutdown) evs).pool = [] := by
      unfold ring_contents
      rw [e2]
      rfl
    have hy : ring_contents (pool_step y PoolEvent.shutdown).pool = ring_contents y.pool := rfl
    rw [hempty, List.append_nil, hy] at d
    refine ⟨new, a, ?_, ?_⟩
    · rw [b, d]; rfl
    · rw [c, d]; rfl

set_option maxRecDepth 100000 in
/-- Witness for C13: two tasks are queued when the flag is set; the first worker iteration
takes the task (1, 1), and after the second one a worker is about to exit. -/
theorem shutdown_drains_witness :
    ring_contents pool_two_queued.pool
      = ⟨1, 1⟩ :: ring_contents (worker_iteration pool_two_queued.pool).2 ∧
    (pool_run (pool_step pool_two_queued PoolEvent.shutdown)
        [PoolEvent.worker, PoolEvent.worker]).pool.is_shutdown ≠ 0 ∧
    (pool_run (pool_step pool_two_queued PoolEvent.shutdown)
        [PoolEvent.worker, PoolEvent.worker]).pool.queue_count = 0 ∧
    ∃ new,
      (pool_run (pool_step pool_two_queued PoolEvent.shutdown)
        [PoolEvent.worker, PoolEvent.worker]).accepted = pool_two_queued.accepted ++ new ∧
      (pool_run (pool_step pool_two_queued PoolEvent.shutdown)
        [PoolEvent.worker, PoolEvent.worker]).handed
        = pool_two_queued.handed ++ (ring_contents pool_two_queued.pool ++ new) ∧
      (pool_run (pool_step pool_two_queued PoolEvent.shutdown)
        [PoolEvent.worker, PoolEvent.worker]).executed
        = pool_two_queued.executed
          ++ (ring_contents pool_two_queued.pool ++ new).filter (fun w => w.task ≠ 0) :=
  have h := shutdown_drains pool_two_queued [PoolEvent.worker, PoolEvent.worker]
    pool_two_queued.pool ⟨1, 1⟩ (by decide) (by decide) (by decide)
  ⟨h.2.1 (by decide), h.2.2⟩

/-! ## Theorems: connection registry -/

theorem live_clients_getElem? (s : WebSocketServer) (hinv : RegistryInv s) (i : Nat)
    (hi : (i : Int) < s.client_count) :
    (live_clients s)[i]? = some (array_get s.clients (i : Int)) := by
  obtain ⟨hl, h0, h1⟩ := hinv
  unfold live_clients
  rw [List.getElem?_take, if_pos (by omega), array_get_natCast, List.getD_eq_getElem?_getD,
    List.getElem?_eq_getElem (by omega)]
  rfl

theorem live_clients_length (s : WebSocketServer) (hinv : RegistryInv s) :
    ((live_clients s).length : Int) = s.client_count := by
  obtain ⟨hl, h0, h1⟩ := hinv
  unfold live_clients
  rw [List.length_take]
  omega

theorem add_client_full (s : WebSocketServer) (fd user_id room_id : Int)
    (h : s.client_count ≥ 1000) : websocket_add_client s fd user_id room_id = (-1, s) := by
  unfold websocket_add_client
  rw [if_pos h]

theorem add_client_room (s : WebSocketServer) (fd user_id room_id : Int) (hinv : RegistryInv s)
    (h : s.client_count < 1000) :
    websocket_add_client s fd user_id room_id
      = (s.client_count,
         { clients := s.clients.set s.client_count.toNat
             { fd := fd, user_id := user_id, room_id := room_id,
               thread := (s.clients.getD s.client_count.toNat default).thread,
               is_connected := 1 },
           client_count := s.client_count + 1 }) := by
  obtain ⟨hl, h0, h1⟩ := hinv
  unfold websocket_add_client
  rw [if_neg (by omega), int32_eq_self (by omega) (by omega)]
  simp only [array_set, array_get, if_pos h0]

theorem live_clients_add (s : WebSocketServer) (fd user_id room_id : Int)
    (hinv : RegistryInv s) (h : s.client_count < 1000) :
    RegistryInv (websocket_add_client s fd user_id room_id).2 ∧
    live_clients (websocket_add_client s fd user_id room_id).2
      = live_clients s ++ [{ fd := fd, user_id := user_id, room_id := room_id,
                             thread := (s.clients.getD s.client_count.toNat default).thread,
                             is_connected := 1 }] := by
  rw [add_client_room s fd user_id room_id hinv h]
  obtain ⟨hl, h0, h1⟩ := hinv
  obtain ⟨n, hn⟩ := Int.eq_ofNat_of_zero_le h0
  constructor
  · refine ⟨by simpa using hl, ?_, ?_⟩
    · show 0 ≤ s.client_count + 1
      omega
    · show s.client_count + 1 ≤ 1000
      omega
  · unfold live_clients
    simp only [hn]
    have e : ((n : Int) + 1).toNat = n + 1 := by omega
    rw [e, Int.toNat_ofNat]
    apply List.ext_getElem?
    intro j
    rw [List.getElem?_take, List.getElem?_append, List.length_take, List.getElem?_take,
      Nat.min_eq_left (by omega)]
    by_cases hj : j < n
    · rw [if_pos (by omega), if_pos hj, if_pos hj, List.getElem?_set_ne (by omega)]
    · rw [if_neg hj]
      by_cases hjn : j = n
      · subst hjn
        rw [if_pos (by omega), List.getElem?_set_self (by omega)]
        simp
      · rw [if_neg (by omega)]
        have : 0 < j - n := by omega
        rw [List.getElem?_eq_none]
        simp; omega

theorem eraseIdx_take_set {α : Type} (l : List α) (n i : Nat) (v : α) :
    ((l.set i v).take n).eraseIdx i = (l.take n).eraseIdx i := by
  apply List.ext_getElem?
  intro j
  rw [List.getElem?_eraseIdx, List.getElem?_eraseIdx]
  by_cases hj : j < i
  · rw [if_pos hj, if_pos hj, List.getElem?_take, List.getElem?_take,
      List.getElem?_set_ne (by omega)]
  · rw [if_neg hj, if_neg hj, List.getElem?_take, List.getElem?_take,
      List.getElem?_set_ne (by omega)]

theorem get_client_index_none (s : WebSocketServer) (fd : Int) (hinv : RegistryInv s)
    (h : ∀ c ∈ live_clients s, c.fd ≠ fd) : websocket_get_client_index s fd = -1 := by
  have hspec := first_index_spec
    (fun i => (array_get s.clients i).fd = fd ∧ (array_get s.clients i).is_connected ≠ 0)
    s.client_count s.client_count.toNat 0 (by omega)
  unfold websocket_get_client_index
  cases hfi : first_index
      (fun i => (array_get s.clients i).fd = fd ∧ (array_get s.clients i).is_connected ≠ 0)
      s.client_count s.client_count.toNat 0 with
  | none => rfl
  | some j =>
    exfalso
    obtain ⟨h0, h1, hp, -⟩ := hspec.1 j hfi
    obtain ⟨k, hk⟩ := Int.eq_ofNat_of_zero_le h0
    subst hk
    have hmem := List.getElem?_mem (live_clients_getElem? s hinv k h1)
    simp only [decide_eq_true_eq] at hp
    exact h _ hmem hp.1

theorem get_client_index_first (s : WebSocketServer) (fd : Int) (hinv : RegistryInv s)
    (hconn : ∀ c ∈ live_clients s, c.is_connected ≠ 0) (i : Nat) (c : WebSocketClient)
    (hi : (live_clients s)[i]? = some c) (hfd : c.fd = fd)
    (hfirst : ∀ j d, j < i → (live_clients s)[j]? = some d → d.fd ≠ fd) :
    websocket_get_client_index s fd = (i : Int) ∧ (i : Int) < s.client_count := by
  have hspec := first_index_spec
    (fun i => (array_get s.clients i).fd = fd ∧ (array_get s.clients i).is_connected ≠ 0)
    s.client_count s.client_count.toNat 0 (by omega)
  have hlen := live_clients_length s hinv
  have hilt : i < (live_clients s).length := by
    by_contra hge
    rw [List.getElem?_eq_none (by omega)] at hi
    simp at hi
  have hic : (i : Int) < s.client_count := by omega
  have hci : array_get s.clients (i : Int) = c := by
    have := live_clients_getElem? s hinv i hic
    rw [hi] at this
    exact (Option.some.inj this).symm
  have hpi : (fun i => decide ((array_get s.clients i).fd = fd ∧
      (array_get s.clients i).is_connected ≠ 0)) (i : Int) = true := by
    simp only [decide_eq_true_eq, hci]
    exact ⟨hfd, hconn c (List.getElem?_mem hi)⟩
  unfold websocket_get_client_index
  cases hfi : first_index
      (fun i => (array_get s.clients i).fd = fd ∧ (array_get s.clients i).is_connected ≠ 0)
      s.client_count s.client_count.toNat 0 with
  | none =>
    exfalso
    have := hspec.2 hfi (i : Int) (by omega) hic
    rw [hpi] at this
    exact Bool.noConfusion this
  | some j =>
    obtain ⟨h0, h1, hp, hmin⟩ := hspec.1 j hfi
    obtain ⟨k, hk⟩ := Int.eq_ofNat_of_zero_le h0
    subst hk
    refine ⟨?_, hic⟩
    show ((k : Int)) = (i : Int)
    by_cases hlt : k < i
    · exfalso
      simp only [decide_eq_true_eq] at hp
      exact hfirst k _ hlt (live_clients_getElem? s hinv k h1) hp.1
    · by_cases hgt : i < k
      · exfalso
        have := hmin (i : Int) (by omega) (by omega)
        rw [hpi] at this
        exact Bool.noConfusion this
      · have : k = i := by omega
        rw [this]

theorem remove_client_found (s : WebSocketServer) (fd : Int) (hinv : RegistryInv s) (i : Nat)
    (hidx : websocket_get_client_index s fd = (i : Int)) (hi : (i : Int) < s.client_count) :
    (websocket_remove_client s fd).1 = (i : Int) ∧
    (websocket_remove_client s fd).2.client_count = s.client_count - 1 ∧
    RegistryInv (websocket_remove_client s fd).2 ∧
    live_clients (websocket_remove_client s fd).2 = (live_clients s).eraseIdx i := by
  obtain ⟨hl, h0, h1⟩ := hinv
  obtain ⟨n, hn⟩ := Int.eq_ofNat_of_zero_le h0
  have hin : i < n := by omega
  unfold websocket_remove_client
  simp only [hidx]
  rw [if_pos (by omega), int32_eq_self (by omega) (by omega)]
  simp only [array_set_natCast, array_get_natCast, hn, Int.toNat_ofNat]
  obtain ⟨hlen, -⟩ := getElem?_shift_down n n i
    (s.clients.set i { s.clients.getD i default with is_connected := 0 })
    (by simp; omega) (by omega) (by omega)
  refine ⟨trivial, trivial, ⟨?_, ?_, ?_⟩, ?_⟩
  · simpa [hl] using hlen
  · show 0 ≤ (n : Int) - 1
    omega
  · show (n : Int) - 1 ≤ 1000
    omega
  · unfold live_clients
    simp only [hn, Int.toNat_ofNat]
    have e : ((n : Int) - 1).toNat = n - 1 := by omega
    rw [e, take_shift_down n i _ (by simp; omega) (by omega) hin, eraseIdx_take_set]

theorem sends_succeeded_succ (send : Nat → Int) (start n : Nat) :
    sends_succeeded send start (n + 1)
      = (if send start > 0 then 1 else 0) + sends_succeeded send (start + 1) n := by
  unfold sends_succeeded
  rw [List.range_succ_eq_map, List.filter_cons, List.filter_map]
  have e : ((fun k => decide (send (start + k) > 0)) ∘ Nat.succ)
      = (fun k => decide (send (start + 1 + k) > 0)) := by
    funext k
    simp only [Function.comp, Nat.succ_eq_add_one]
    congr 3
    omega
  rw [e]
  by_cases h : send start > 0
  · rw [if_pos (by simpa using h), if_pos h, List.length_cons, List.length_map]
    omega
  · rw [if_neg (by simpa using h), if_neg h, List.length_map]
    omega

/-- The list form of the send loop reaches exactly the targets, in order, and counts the
successful calls. -/
theorem fan_out_spec (room_id : Int) (frame : List Nat) (send : Nat → Int) :
    ∀ (l : List WebSocketClient) (log : List (Int × List Nat)) (cnt : Int),
      0 ≤ cnt → cnt + (l.length : Int) ≤ 2147483647 →
      fan_out room_id frame send l log cnt
        = (cnt + (sends_succeeded send log.length
              (l.filter (fun c => c.is_connected ≠ 0 ∧ c.room_id = room_id)).length : Nat),
           log ++ (l.filter (fun c => c.is_connected ≠ 0 ∧ c.room_id = room_id)).map
              (fun c => (c.fd, frame)))
  | [], log, cnt, _, _ => by simp [fan_out, sends_succeeded]
  | c :: rest, log, cnt, h0, h1 => by
    unfold fan_out
    simp only [List.length_cons] at h1
    push_cast at h1
    by_cases hc : c.is_connected ≠ 0 ∧ c.room_id = room_id
    · rw [if_pos hc]
      have hf : List.filter (fun c => decide (c.is_connected ≠ 0 ∧ c.room_id = room_id)) (c :: rest)
          = c :: List.filter (fun c => decide (c.is_connected ≠ 0 ∧ c.room_id = room_id)) rest := by
        rw [List.filter_cons, if_pos (by simpa using hc)]
      have hlen := List.length_filter_le
        (fun c : WebSocketClient => decide (c.is_connected ≠ 0 ∧ c.room_id = room_id)) rest
      rw [hf]
      simp only [List.length_cons, List.map_cons]
      rw [sends_succeeded_succ]
      by_cases hs : send log.length > 0
      · rw [if_pos hs, if_pos hs, int32_eq_self (by omega) (by omega),
          fan_out_spec room_id frame send rest _ _ (by omega) (by omega)]
        simp only [List.length_append, List.length_singleton, List.append_assoc,
          List.singleton_append, Prod.mk.injEq, and_true]
        push_cast; omega
      · rw [if_neg hs, if_neg hs,
          fan_out_spec room_id frame send rest _ _ h0 (by omega)]
        simp only [List.length_append, List.length_singleton, List.append_assoc,
          List.singleton_append, Prod.mk.injEq, and_true]
        push_cast; omega
    · rw [if_neg hc]
      have hf : List.filter (fun c => decide (c.is_connected ≠ 0 ∧ c.room_id = room_id)) (c :: rest)
          = List.filter (fun c => decide (c.is_connected ≠ 0 ∧ c.room_id = room_id)) rest := by
        rw [List.filter_cons, if_neg (by simpa using hc)]
      rw [hf, fan_out_spec room_id frame send rest _ _ h0 (by omega)]

/-- The array loop is the list loop on the live entries from index `i` on. -/
theorem broadcast_loop_eq_fan_out (s : WebSocketServer) (room_id : Int) (frame : List Nat)
    (send : Nat → Int) (hinv : RegistryInv s) :
    ∀ (fuel i : Nat) (log : List (Int × List Nat)) (cnt : Int),
      s.client_count - (i : Int) ≤ (fuel : Int) →
      broadcast_loop s room_id frame send fuel (i : Int) log cnt
        = fan_out room_id frame send ((live_clients s).drop i) log cnt
  | 0, i, log, cnt, h => by
    have hlen := live_clients_length s hinv
    rw [List.drop_of_length_le (by omega)]
    rfl
  | fuel + 1, i, log, cnt, h => by
    have hlen := live_clients_length s hinv
    unfold broadcast_loop
    by_cases hi : (i : Int) < s.client_count
    · rw [if_pos hi]
      have hget := live_clients_getElem? s hinv i hi
      have hdrop : (live_clients s).drop i
          = array_get s.clients (i : Int) :: (live_clients s).drop (i + 1) := by
        have hlt : i < (live_clients s).length := by omega
        rw [List.drop_eq_getElem_cons hlt]
        congr 1
        rw [List.getElem?_eq_getElem hlt] at hget
        exact Option.some.inj hget
      have hcast : (i : Int) + 1 = ((i + 1 : Nat) : Int) := by push_cast; rfl
      rw [hdrop, hcast]
      conv_rhs => unfold fan_out
      by_cases hc : (array_get s.clients (i : Int)).is_connected ≠ 0 ∧
          (array_get s.clients (i : Int)).room_id = room_id
      · rw [if_pos hc, if_pos hc]
        exact broadcast_loop_eq_fan_out s room_id frame send hinv fuel (i + 1) _ _
          (by push_cast at h ⊢; omega)
      · rw [if_neg hc, if_neg hc]
        exact broadcast_loop_eq_fan_out s room_id frame send hinv fuel (i + 1) _ _
          (by push_cast at h ⊢; omega)
    · rw [if_neg hi, List.drop_of_length_le (by omega)]
      rfl

/-! ## Connection registry: the claims -/

/-- C14 (registry add): in a well-formed registry, when `client_count < 1000`,
`websocket_add_client(fd, u, r)` returns the previous `client_count` as the index, stores an
entry with that `fd`, `user_id = u`, `room_id = r` and `is_connected = 1` at that index,
increases `client_count` by one and leaves every other entry unchanged, so that the live table
is the previous one with the new entry appended; when `client_count >= 1000` it returns -1 and
the registry is unchanged. -/
theorem add_client_spec (s : WebSocketServer) (fd user_id room_id : Int)
    (hinv : RegistryInv s) :
    (s.client_count < 1000 →
      (websocket_add_client s fd user_id room_id).1 = s.client_count ∧
      (websocket_add_client s fd user_id room_id).2.client_count = s.client_count + 1 ∧
      array_get (websocket_add_client s fd user_id room_id).2.clients s.client_count
        = { fd := fd, user_id := user_id, room_id := room_id,
            thread := (array_get s.clients s.client_count).thread, is_connected := 1 } ∧
      (∀ j : Nat, (j : Int) ≠ s.client_count →
        (websocket_add_client s fd user_id room_id).2.clients[j]? = s.clients[j]?) ∧
      live_clients (websocket_add_client s fd user_id room_id).2
        = live_clients s ++
            [{ fd := fd, user_id := user_id, room_id := room_id,
               thread := (array_get s.clients s.client_count).thread, is_connected := 1 }]) ∧
    (s.client_count ≥ 1000 → websocket_add_client s fd user_id room_id = (-1, s)) := by
  refine ⟨fun h => ?_, add_client_full s fd user_id room_id⟩
  have hlive := (live_clients_add s fd user_id room_id hinv h).2
  have heq := add_client_room s fd user_id room_id hinv h
  obtain ⟨hl, h0, h1⟩ := hinv
  obtain ⟨n, hn⟩ := Int.eq_ofNat_of_zero_le h0
  have hth : (array_get s.clients s.client_count).thread
      = (s.clients.getD s.client_count.toNat default).thread := by
    rw [hn, array_get_natCast]; rfl
  rw [hth]
  refine ⟨by rw [heq], by rw [heq], ?_, ?_, hlive⟩
  · rw [heq, hn, array_get_natCast]
    simp only [Int.toNat_ofNat]
    rw [List.getD_eq_getElem?_getD, List.getElem?_set_self (by omega)]
    rfl
  · intro j hj
    rw [heq, hn]
    simp only [Int.toNat_ofNat]
    rw [List.getElem?_set_ne (by omega)]

set_option maxRecDepth 100000 in
/-- Witness for C14: the first connection (fd 5) added to the empty registry. -/
theorem add_client_spec_witness :
    (websocket_add_client websocket_server_zero 5 0 0).1 = websocket_server_zero.client_count ∧
    (websocket_add_client websocket_server_zero 5 0 0).2.client_count
      = websocket_server_zero.client_count + 1 ∧
    array_get (websocket_add_client websocket_server_zero 5 0 0).2.clients
        websocket_server_zero.client_count
      = { fd := 5, user_id := 0, room_id := 0,
          thread := (array_get websocket_server_zero.clients
            websocket_server_zero.client_count).thread, is_connected := 1 } ∧
    (∀ j : Nat, (j : Int) ≠ websocket_server_zero.client_count →
      (websocket_add_client websocket_server_zero 5 0 0).2.clients[j]?
        = websocket_server_zero.clients[j]?) ∧
    live_clients (websocket_add_client websocket_server_zero 5 0 0).2
      = live_clients websocket_server_zero ++
          [{ fd := 5, user_id := 0, room_id := 0,
             thread := (array_get websocket_server_zero.clients
               websocket_server_zero.client_count).thread,
             is_connected := 1 }] :=
  (add_client_spec websocket_server_zero 5 0 0 (by decide)).1 (by decide)

/-- C15 (registry remove): in a well-formed registry whose live entries all have `is_connected`
set, if no live entry has the given `fd`, `websocket_remove_client` returns -1 and the registry
is unchanged; if entry `i` is the first live entry with that `fd`, it returns `i`,
`client_count` decreases by exactly one, and the live entries afterwards are the previous live
entries with entry `i` deleted, in the same relative order. -/
theorem remove_client_spec (s : WebSocketServer) (fd : Int) (hinv : RegistryInv s)
    (hconn : ∀ c ∈ live_clients s, c.is_connected ≠ 0) :
    ((∀ c ∈ live_clients s, c.fd ≠ fd) → websocket_remove_client s fd = (-1, s)) ∧
    (∀ (i : Nat) (c : WebSocketClient), (live_clients s)[i]? = some c → c.fd = fd →
      (∀ j d, j < i → (live_clients s)[j]? = some d → d.fd ≠ fd) →
      (websocket_remove_client s fd).1 = (i : Int) ∧
      (websocket_remove_client s fd).2.client_count = s.client_count - 1 ∧
      live_clients (websocket_remove_client s fd).2 = (live_clients s).eraseIdx i) := by
  constructor
  · intro h
    have hidx := get_client_index_none s fd hinv h
    unfold websocket_remove_client
    simp only [hidx]
    rfl
  · intro i c hi hfd hfirst
    obtain ⟨hidx, hlt⟩ := get_client_index_first s fd hinv hconn i c hi hfd hfirst
    obtain ⟨a, b, -, d⟩ := remove_client_found s fd hinv i hidx hlt
    exact ⟨a, b, d⟩

set_option maxRecDepth 100000 in
/-- Witness for C15: the registry holding fd 5, 6, 7, from which fd 6, the entry at index 1,
is removed. -/
theorem remove_client_spec_witness :
    (websocket_remove_client registry_567 6).1 = ((1 : Nat) : Int) ∧
    (websocket_remove_client registry_567 6).2.client_count = registry_567.client_count - 1 ∧
    live_clients (websocket_remove_client registry_567 6).2
      = (live_clients registry_567).eraseIdx 1 :=
  (remove_client_spec registry_567 6 (by decide) (by decide)).2 1
    { fd := 6, user_id := 0, room_id := 1, thread := 0, is_connected := 1 }
    (by decide) (by decide)
    (fun j d hj hd => by
      obtain rfl : j = 0 := by omega
      have e : (live_clients registry_567)[0]?
          = some { fd := 5, user_id := 0, room_id := 0, thread := 0, is_connected := 1 } := by
        decide
      rw [e] at hd
      cases hd
      decide)

/-- C16 (registry fan-out): with `send k` the result of the `k`-th `send` call, for a non-null
message whose encoded frame fits the 65536-byte buffer, `websocket_broadcast_to_room(R, m)` in a
well-formed registry calls `send` exactly once, with the text frame of `m`, for each live entry
whose `is_connected` flag is set and whose `room_id` is `R`, in table order, and for no other
entry; it goes on after failed calls, returns the number of calls that returned a positive
value, and leaves the registry unchanged. -/
theorem broadcast_fan_out (s : WebSocketServer) (room_id : Int) (message : List Nat)
    (send : Nat → Int) (hinv : RegistryInv s)
    (hfit : 2 + (length_ext (c_str message).length).length + (c_str message).length ≤ 65536) :
    websocket_broadcast_to_room s room_id message send
      = (((sends_succeeded send 0 (room_targets s room_id).length : Nat) : Int),
         (room_targets s room_id).map (fun c =>
           (c.fd, 0x81 :: length_code (c_str message).length
                    :: (length_ext (c_str message).length ++ c_str message))),
         s) := by
  have hI : INT_MAX = 2147483647 := rfl
  have hM : MAX_FRAME_SIZE = 65536 := rfl
  have hlen := live_clients_length s hinv
  have hcr := create_ws_frame_natCast (c_str message) (c_str message).length MAX_FRAME_SIZE
    (by push_cast; omega) (by omega) (by omega)
  rw [List.take_length] at hcr
  unfold websocket_broadcast_to_room
  simp only []
  rw [int32_eq_self (by omega) (by omega), hcr]
  simp only []
  rw [if_neg (by omega)]
  have htake : (0x81 :: length_code (c_str message).length
        :: (length_ext (c_str message).length ++ c_str message)).take
        ((2 + (length_ext (c_str message).length).length + (c_str message).length : Nat) : Int).toNat
      = 0x81 :: length_code (c_str message).length
        :: (length_ext (c_str message).length ++ c_str message) := by
    apply List.take_of_length_le
    simp only [List.length_cons, List.length_append, Int.toNat_ofNat]
    omega
  rw [htake]
  have hz : (0 : Int) = ((0 : Nat) : Int) := rfl
  obtain ⟨hl, h0, h1⟩ := hinv
  have hloop := broadcast_loop_eq_fan_out s room_id
    (0x81 :: length_code (c_str message).length
        :: (length_ext (c_str message).length ++ c_str message)) send ⟨hl, h0, h1⟩
    s.client_count.toNat 0 [] 0 (by omega)
  rw [← hz] at hloop
  rw [hloop, List.drop_zero, fan_out_spec _ _ _ _ _ _ (le_refl _) (by omega)]
  simp [room_targets]

set_option maxRecDepth 100000 in
/-- Witness for C16: broadcast of "hi" to room 1, where the first `send` fails and the second
succeeds. -/
theorem broadcast_fan_out_witness :
    websocket_broadcast_to_room registry_rooms 1 [104, 105] (fun k => if k = 0 then -1 else 4)
      = (((sends_succeeded (fun k => if k = 0 then -1 else 4) 0
            (room_targets registry_rooms 1).length : Nat) : Int),
         (room_targets registry_rooms 1).map (fun c =>
           (c.fd, 0x81 :: length_code (c_str [104, 105]).length
                    :: (length_ext (c_str [104, 105]).length ++ c_str [104, 105]))),
         registry_rooms) :=
  broadcast_fan_out registry_rooms 1 [104, 105] (fun k => if k = 0 then -1 else 4)
    (by decide) (by decide)

/-! ## Theorems: in-memory store -/

theorem find?_of_first {α : Type} (q : α → Bool) :
    ∀ (l : List α) (k : Nat) (x : α), l[k]? = some x → q x = true →
      (∀ j y, j < k → l[j]? = some y → q y = false) → l.find? q = some x
  | [], k, x, hk, _, _ => by simp at hk
  | y :: l, 0, x, hk, hq, _ => by
    simp only [List.getElem?_cons_zero, Option.some.injEq] at hk
    subst hk
    exact List.find?_cons_of_pos l hq
  | y :: l, k + 1, x, hk, hq, hfirst => by
    have hy : q y = false := hfirst 0 y (by omega) (List.getElem?_cons_zero)
    rw [List.find?_cons_of_neg l (by simp [hy])]
    exact find?_of_first q l k x (by simpa using hk) hq
      (fun j z hj hz => hfirst (j + 1) z (by omega) (by simpa using hz))

/-- The search loop over the first `n` elements of an array finds what `List.find?` finds. -/
theorem first_index_array {α : Type} [Inhabited α] (a : List α) (n : Nat) (hn : n ≤ a.length)
    (q : α → Bool) :
    (first_index (fun i => q (array_get a i)) (n : Int) n 0 = none ∧
      ∀ x ∈ a.take n, q x = false) ∨
    ∃ (k : Nat) (x : α),
      first_index (fun i => q (array_get a i)) (n : Int) n 0 = some (k : Int) ∧ k < n ∧
      a[k]? = some x ∧ q x = true ∧ (a.take n).find? q = some x ∧
      ∀ j y, j < k → a[j]? = some y → q y = false := by
  have hspec := first_index_spec (fun i => q (array_get a i)) (n : Int) n 0 (by omega)
  cases hfi : first_index (fun i => q (array_get a i)) (n : Int) n 0 with
  | none =>
    left
    refine ⟨rfl, fun x hx => ?_⟩
    obtain ⟨j, hj, hjx⟩ := List.getElem_of_mem hx
    rw [List.length_take] at hj
    have hj' : j < n := by omega
    have hget : a[j]? = some x := by
      rw [← hjx, List.getElem_take, List.getElem?_eq_getElem]
    have := hspec.2 hfi (j : Int) (by omega) (by omega)
    simp only [array_get_of_getElem? hget] at this
    exact this
  | some i =>
    right
    obtain ⟨h0, h1, hp, hmin⟩ := hspec.1 i hfi
    obtain ⟨k, rfl⟩ := Int.eq_ofNat_of_zero_le h0
    have hk : k < n := by omega
    have hx : a[k]? = some (a[k]) := List.getElem?_eq_getElem (by omega)
    have hq : q a[k] = true := by
      simp only [array_get_of_getElem? hx] at hp
      exact hp
    have hfirst : ∀ j y, j < k → a[j]? = some y → q y = false := by
      intro j y hj hy
      have := hmin (j : Int) (by omega) (by omega)
      simp only [array_get_of_getElem? hy] at this
      exact this
    refine ⟨k, a[k], rfl, hk, hx, hq, ?_, hfirst⟩
    apply find?_of_first q _ k a[k] _ hq
    · intro j y hj hy
      rw [List.getElem?_take, if_pos (by omega)] at hy
      exact hfirst j y hj hy
    · rw [List.getElem?_take, if_pos hk, hx]

/-- The inner loop of the room functions decides membership in the member list. -/
theorem member_index (r : ChatRoom) (user_id : Int) (h0 : 0 ≤ r.current_user_count)
    (hlen : r.current_user_count ≤ (r.user_ids.length : Int)) :
    (first_index (fun j => array_get r.user_ids j = user_id)
        r.current_user_count r.current_user_count.toNat 0 = none ∧
      user_id ∉ room_members r) ∨
    ∃ j : Nat,
      first_index (fun j => array_get r.user_ids j = user_id)
        r.current_user_count r.current_user_count.toNat 0 = some (j : Int) ∧
      (j : Int) < r.current_user_count ∧ user_id ∈ room_members r := by
  obtain ⟨n, hn⟩ := Int.eq_ofNat_of_zero_le h0
  have h := first_index_array r.user_ids n (by omega) (fun u => decide (u = user_id))
  unfold room_members
  rw [hn, Int.toNat_ofNat]
  rcases h with ⟨h1, h2⟩ | ⟨k, x, h1, h2, h3, h4, h5, -⟩
  · left
    refine ⟨h1, fun hmem => ?_⟩
    have := h2 user_id hmem
    simp at this
  · right
    refine ⟨k, h1, by omega, ?_⟩
    have hx : x = user_id := by simpa using h4
    rw [← hx]
    exact List.mem_of_find?_eq_some h5

theorem take_succ_set {α : Type} (l : List α) (n : Nat) (v : α) (hn : n < l.length) :
    (l.set n v).take (n + 1) = l.take n ++ [v] := by
  apply List.ext_getElem?
  intro j
  rw [List.getElem?_take, List.getElem?_append, List.length_take, List.getElem?_take,
    Nat.min_eq_left (by omega)]
  by_cases hj : j < n
  · rw [if_pos (by omega), if_pos hj, if_pos hj, List.getElem?_set_ne (by omega)]
  · rw [if_neg hj]
    by_cases hjn : j = n
    · subst hjn
      rw [if_pos (by omega), List.getElem?_set_self (by omega)]
      simp
    · rw [if_neg (by omega)]
      have : 0 < j - n := by omega
      rw [List.getElem?_eq_none]
      simp; omega

theorem live_rooms_mem (db : Database) (k : Nat) (r : ChatRoom)
    (hk : (k : Int) < db.room_count) (hr : db.rooms[k]? = some r) : r ∈ live_rooms db := by
  unfold live_rooms
  apply List.getElem?_mem (n := k)
  rw [List.getElem?_take, if_pos (by omega), hr]

/-- The outer loop of `db_add_user_to_room`: either no stored room has the id, or the loop
stops at the first one. -/
theorem room_lookup (db : Database) (room_id : Int) (hwf : StoreWF db) :
    (first_index (fun i => (array_get db.rooms i).room_id = room_id)
        db.room_count db.room_count.toNat 0 = none ∧ db_room db room_id = none) ∨
    ∃ (k : Nat) (r : ChatRoom),
      first_index (fun i => (array_get db.rooms i).room_id = room_id)
        db.room_count db.room_count.toNat 0 = some (k : Int) ∧
      (k : Int) < db.room_count ∧ db.rooms[k]? = some r ∧ r.room_id = room_id ∧
      db_room db room_id = some r ∧
      ∀ j y, j < k → db.rooms[j]? = some y → y.room_id ≠ room_id := by
  obtain ⟨hl, h0, h1, -, -⟩ := hwf
  obtain ⟨n, hn⟩ := Int.eq_ofNat_of_zero_le h0
  have h := first_index_array db.rooms n (by omega) (fun r => decide (r.room_id = room_id))
  unfold db_room live_rooms
  rw [hn, Int.toNat_ofNat]
  rcases h with ⟨h1, h2⟩ | ⟨k, x, h1, h2, h3, h4, h5, h6⟩
  · left
    refine ⟨h1, ?_⟩
    rw [List.find?_eq_none]
    intro x hx
    have := h2 x hx
    simpa using this
  · right
    refine ⟨k, x, h1, by omega, h3, by simpa using h4, h5, ?_⟩
    intro j y hj hy
    have := h6 j y hj hy
    simpa using this

/-- The value of `db_add_user_to_room` when the outer loop stops at room `r` of index `k`. -/
theorem add_user_eq (db : Database) (room_id user_id : Int) (hwf : StoreWF db) (k : Nat)
    (r : ChatRoom)
    (hfi : first_index (fun i => (array_get db.rooms i).room_id = room_id)
        db.room_count db.room_count.toNat 0 = some (k : Int))
    (hk : (k : Int) < db.room_count) (hr : db.rooms[k]? = some r) :
    db_add_user_to_room db room_id user_id
      = if r.current_user_count ≥ r.max_users then (-1, db)
        else if user_id ∈ room_members r then (-2, db)
        else (0, { db with
                   rooms := db.rooms.set k { r with
                     user_ids := r.user_ids.set r.current_user_count.toNat user_id,
                     current_user_count := r.current_user_count + 1 } }) := by
  have hmem := live_rooms_mem db k r hk hr
  obtain ⟨hl, h0, h1, hids, hlive⟩ := hwf
  obtain ⟨hmax, hc0, hc1⟩ := hlive r hmem
  have hlen := hids r (List.getElem?_mem hr)
  unfold db_add_user_to_room
  rw [hfi]
  simp only [array_get_of_getElem? hr]
  by_cases hfull : r.current_user_count ≥ r.max_users
  · rw [if_pos hfull, if_pos hfull]
  · rw [if_neg hfull, if_neg hfull]
    rcases member_index r user_id hc0 (by omega) with ⟨e, hnot⟩ | ⟨j, e, -, hin⟩
    · rw [e, if_neg hnot, int32_eq_self (by omega) (by omega)]
      simp only [array_set, if_pos hc0, if_pos (Int.ofNat_nonneg k), Int.toNat_ofNat]
    · rw [e, if_pos hin]

theorem live_rooms_set (db : Database) (k : Nat) (r' : ChatRoom) :
    live_rooms { db with rooms := db.rooms.set k r' } = (live_rooms db).set k r' := by
  unfold live_rooms
  exact List.set_take

/-- Replacing a stored room by one of the same shape keeps the table well formed. -/
theorem store_wf_set (db : Database) (hwf : StoreWF db) (k : Nat) (r' : ChatRoom)
    (hlen : r'.user_ids.length = 50) (hmax : r'.max_users = 50)
    (h0 : 0 ≤ r'.current_user_count) (h1 : r'.current_user_count ≤ 50) :
    StoreWF { db with rooms := db.rooms.set k r' } := by
  obtain ⟨hl, hc0, hc1, hids, hlive⟩ := hwf
  refine ⟨by simpa using hl, hc0, hc1, ?_, ?_⟩
  · intro r hr
    rcases List.mem_or_eq_of_mem_set hr with h | h
    · exact hids r h
    · rw [h]; exact hlen
  · intro r hr
    rw [live_rooms_set] at hr
    rcases List.mem_or_eq_of_mem_set hr with h | h
    · exact hlive r h
    · rw [h]; exact ⟨hmax, h0, h1⟩

/-- After the first room with an id is replaced by a room of the same id, a lookup of the id
finds the new room. -/
theorem db_room_set (db : Database) (room_id : Int) (hwf : StoreWF db) (k : Nat)
    (r' : ChatRoom) (hk : (k : Int) < db.room_count)
    (hfirst : ∀ j y, j < k → db.rooms[j]? = some y → y.room_id ≠ room_id)
    (hid : r'.room_id = room_id) :
    db_room { db with rooms := db.rooms.set k r' } room_id = some r' := by
  obtain ⟨hl, hc0, hc1, -, -⟩ := hwf
  unfold db_room
  rw [live_rooms_set]
  have hlen : k < (live_rooms db).length := by
    unfold live_rooms
    rw [List.length_take]
    omega
  apply find?_of_first _ _ k r' (List.getElem?_set_self hlen) (by simpa using hid)
  intro j y hj hy
  rw [List.getElem?_set_ne (by omega)] at hy
  unfold live_rooms at hy
  rw [List.getElem?_take, if_pos (by omega)] at hy
  simpa using hfirst j y hj hy

/-- The call `db_add_user_to_room` when no stored room has the id. -/
theorem add_user_none (db : Database) (room_id user_id : Int) (hwf : StoreWF db)
    (h : db_room db room_id = none) : db_add_user_to_room db room_id user_id = (-3, db) := by
  rcases room_lookup db room_id hwf with ⟨e, -⟩ | ⟨k, r, -, -, -, -, e, -⟩
  · unfold db_add_user_to_room
    rw [e]
  · rw [h] at e
    cases e

/-- The call `db_add_user_to_room` when `r`, at index `k`, is the first stored room with the
id. -/
theorem add_user_some (db : Database) (room_id user_id : Int) (hwf : StoreWF db)
    (r : ChatRoom) (h : db_room db room_id = some r) :
    ∃ k : Nat, (k : Int) < db.room_count ∧ db.rooms[k]? = some r ∧ r.room_id = room_id ∧
      (∀ j y, j < k → db.rooms[j]? = some y → y.room_id ≠ room_id) ∧
      db_add_user_to_room db room_id user_id
        = if r.current_user_count ≥ r.max_users then (-1, db)
          else if user_id ∈ room_members r then (-2, db)
          else (0, { db with
                     rooms := db.rooms.set k { r with
                       user_ids := r.user_ids.set r.current_user_count.toNat user_id,
                       current_user_count := r.current_user_count + 1 } }) := by
  rcases room_lookup db room_id hwf with ⟨-, e⟩ | ⟨k, r2, hfi, hk, hr, hid, e, hfirst⟩
  · rw [h] at e
    cases e
  · rw [h] at e
    cases e
    exact ⟨k, hk, hr, hid, hfirst, add_user_eq db room_id user_id hwf k r hfi hk hr⟩

/-- A successful `db_add_user_to_room`: the table stays well formed and the room's member list
grows by the user id at its end. -/
theorem add_user_ok (db : Database) (room_id user_id : Int) (hwf : StoreWF db) (r : ChatRoom)
    (h : db_room db room_id = some r) (hlt : r.current_user_count < r.max_users)
    (hnot : user_id ∉ room_members r) :
    (db_add_user_to_room db room_id user_id).1 = 0 ∧
    StoreWF (db_add_user_to_room db room_id user_id).2 ∧
    ∃ r', db_room (db_add_user_to_room db room_id user_id).2 room_id = some r' ∧
      room_members r' = room_members r ++ [user_id] ∧
      r'.current_user_count = r.current_user_count + 1 ∧ r'.max_users = r.max_users ∧
      r'.room_id = r.room_id := by
  obtain ⟨k, hk, hr, hid, hfirst, e⟩ := add_user_some db room_id user_id hwf r h
  rw [e, if_neg (by omega), if_neg hnot]
  have hmem := live_rooms_mem db k r hk hr
  have hwf' := hwf
  obtain ⟨hl, h0, h1, hids, hlive⟩ := hwf
  obtain ⟨hmax, hc0, hc1⟩ := hlive r hmem
  have hlen := hids r (List.getElem?_mem hr)
  obtain ⟨n, hn⟩ := Int.eq_ofNat_of_zero_le hc0
  refine ⟨rfl, ?_, _, db_room_set db room_id hwf' k _ hk hfirst hid, ?_, rfl, rfl, rfl⟩
  · exact store_wf_set db hwf' k _ (by simpa using hlen) hmax
      (by show 0 ≤ r.current_user_count + 1; omega)
      (by show r.current_user_count + 1 ≤ 50; omega)
  · unfold room_members
    simp only [hn]
    have e1 : ((n : Int) + 1).toNat = n + 1 := by omega
    rw [e1, Int.toNat_ofNat]
    exact take_succ_set r.user_ids n user_id (by omega)

/-- Replacing a stored room by one of the same id and shape, with distinct members, keeps the
invariant. -/
theorem store_inv_set (db : Database) (hinv : StoreInv db) (k : Nat) (r r' : ChatRoom)
    (hk : (k : Int) < db.room_count) (hr : db.rooms[k]? = some r)
    (hlen : r'.user_ids.length = 50) (hmax : r'.max_users = 50)
    (h0 : 0 ≤ r'.current_user_count) (h1 : r'.current_user_count ≤ 50)
    (hnd : (room_members r').Nodup) (hid : r'.room_id = r.room_id) :
    StoreInv { db with rooms := db.rooms.set k r' } := by
  obtain ⟨hwf, hnext, hlive⟩ := hinv
  refine ⟨store_wf_set db hwf k r' hlen hmax h0 h1, hnext, ?_⟩
  intro x hx
  rw [live_rooms_set] at hx
  rcases List.mem_or_eq_of_mem_set hx with h | h
  · exact hlive x h
  · rw [h]
    refine ⟨hnd, ?_⟩
    rw [hid]
    exact (hlive r (live_rooms_mem db k r hk hr)).2

theorem store_inv_init : StoreInv db_init := by
  refine ⟨⟨rfl, by decide, by decide, ?_, ?_⟩, rfl, ?_⟩
  · intro r hr
    rw [List.eq_of_mem_replicate hr]
    rfl
  · intro r hr
    have e : live_rooms db_init = [] := rfl
    rw [e] at hr
    cases hr
  · intro r hr
    have e : live_rooms db_init = [] := rfl
    rw [e] at hr
    cases hr

/-- The function `db_add_user_to_room` keeps the invariant. -/
theorem add_user_inv (db : Database) (room_id user_id : Int) (hinv : StoreInv db) :
    StoreInv (db_add_user_to_room db room_id user_id).2 := by
  have hwf := hinv.1
  cases hroom : db_room db room_id with
  | none =>
    rw [add_user_none db room_id user_id hwf hroom]
    exact hinv
  | some r =>
    obtain ⟨k, hk, hr, hid, hfirst, e⟩ := add_user_some db room_id user_id hwf r hroom
    rw [e]
    by_cases hfull : r.current_user_count ≥ r.max_users
    · rw [if_pos hfull]
      exact hinv
    · rw [if_neg hfull]
      by_cases hin : user_id ∈ room_members r
      · rw [if_pos hin]
        exact hinv
      · rw [if_neg hin]
        have hmem := live_rooms_mem db k r hk hr
        obtain ⟨hmax, hc0, hc1⟩ := hwf.2.2.2.2 r hmem
        have hlen := hwf.2.2.2.1 r (List.getElem?_mem hr)
        obtain ⟨n, hn⟩ := Int.eq_ofNat_of_zero_le hc0
        refine store_inv_set db hinv k r _ hk hr (by simpa using hlen) hmax
          (by show 0 ≤ r.current_user_count + 1; omega)
          (by show r.current_user_count + 1 ≤ 50; omega) ?_ rfl
        have hm : room_members { r with
            user_ids := r.user_ids.set r.current_user_count.toNat user_id,
            current_user_count := r.current_user_count + 1 }
            = room_members r ++ [user_id] := by
          unfold room_members
          simp only [hn]
          have e1 : ((n : Int) + 1).toNat = n + 1 := by omega
          rw [e1, Int.toNat_ofNat]
          exact take_succ_set r.user_ids n user_id (by omega)
        rw [hm]
        have hnd := (hinv.2.2 r hmem).1
        rw [List.nodup_append]
        refine ⟨hnd, List.nodup_singleton _, ?_⟩
        intro x hx hx'
        rw [List.mem_singleton] at hx'
        rw [hx'] at hx
        exact hin hx

/-- The loop of `db_remove_user_from_room` keeps the invariant. -/
theorem remove_user_loop_inv (db : Database) (room_id user_id : Int) (hinv : StoreInv db) :
    ∀ (fuel : Nat) (i : Int), 0 ≤ i →
      StoreInv (remove_user_loop db room_id user_id fuel i).2
  | 0, _, _ => hinv
  | fuel + 1, i, hi => by
    unfold remove_user_loop
    by_cases hlt : i < db.room_count
    · rw [if_pos hlt]
      simp only []
      by_cases hid : (array_get db.rooms i).room_id = room_id
      · rw [if_pos hid]
        obtain ⟨k, rfl⟩ := Int.eq_ofNat_of_zero_le hi
        have hwf := hinv.1
        have hkl : k < db.rooms.length := by
          have := hwf.1
          have := hwf.2.2.1
          omega
        have hr : db.rooms[k]? = some db.rooms[k] := List.getElem?_eq_getElem hkl
        rw [array_get_of_getElem? hr]
        have hmem := live_rooms_mem db k _ hlt hr
        obtain ⟨hmax, hc0, hc1⟩ := hwf.2.2.2.2 _ hmem
        have hlen := hwf.2.2.2.1 _ (List.getElem?_mem hr)
        obtain ⟨n, hn⟩ := Int.eq_ofNat_of_zero_le hc0
        rcases member_index db.rooms[k] user_id hc0 (by omega) with ⟨e, -⟩ | ⟨j, e, hj, -⟩
        · rw [e]
          exact remove_user_loop_inv db room_id user_id hinv fuel _ (by omega)
        · rw [e]
          simp only [array_set_natCast]
          rw [int32_eq_self (by omega) (by omega)]
          have hsh := getElem?_shift_down n n j db.rooms[k].user_ids (by omega) (by omega)
            (by omega)
          have htk := take_shift_down n j db.rooms[k].user_ids (by omega) (by omega)
            (by omega)
          refine store_inv_set db hinv k db.rooms[k] _ hlt hr ?_ hmax
            (by show 0 ≤ db.rooms[k].current_user_count - 1; omega)
            (by show db.rooms[k].current_user_count - 1 ≤ 50; omega) ?_ rfl
          · show (shift_down db.rooms[k].current_user_count
              db.rooms[k].current_user_count.toNat (j : Int) db.rooms[k].user_ids).length = 50
            rw [hn, Int.toNat_ofNat, hsh.1, hlen]
          · show (List.take (db.rooms[k].current_user_count - 1).toNat
              (shift_down db.rooms[k].current_user_count
                db.rooms[k].current_user_count.toNat (j : Int) db.rooms[k].user_ids)).Nodup
            rw [hn, Int.toNat_ofNat]
            have e1 : ((n : Int) - 1).toNat = n - 1 := by omega
            rw [e1, htk]
            have hnd := (hinv.2.2 _ hmem).1
            unfold room_members at hnd
            rw [hn, Int.toNat_ofNat] at hnd
            exact List.Nodup.eraseIdx j hnd
      · rw [if_neg hid]
        exact remove_user_loop_inv db room_id user_id hinv fuel _ (by omega)
    · rw [if_neg hlt]
      exact hinv

/-- The function `db_create_room` keeps the invariant. -/
theorem create_room_inv (db : Database) (room_name : List Nat) (created_by now : Int)
    (hinv : StoreInv db) : StoreInv (db_create_room db room_name created_by now).2 := by
  unfold db_create_room
  by_cases hfull : db.room_count ≥ MAX_ROOMS
  · rw [if_pos hfull]
    exact hinv
  · rw [if_neg hfull]
    have hM : MAX_ROOMS = 100 := rfl
    obtain ⟨⟨hl, h0, h1, hids, hlive⟩, hnext, hnd⟩ := hinv
    obtain ⟨n, hn⟩ := Int.eq_ofNat_of_zero_le h0
    simp only []
    rw [int32_eq_self (by omega) (by omega), int32_eq_self (by omega) (by omega), hn,
      array_set_natCast]
    have hslot : ((array_get db.rooms (n : Int)).user_ids).length = 50 := by
      have hr : db.rooms[n]? = some db.rooms[n] := List.getElem?_eq_getElem (by omega)
      rw [array_get_of_getElem? hr]
      exact hids _ (List.getElem?_mem hr)
    have hlv : ∀ (v : ChatRoom) (c : Int),
        live_rooms { db with rooms := db.rooms.set n v, next_room_id := c,
                             room_count := (n : Int) + 1 }
          = live_rooms db ++ [v] := by
      intro v c
      unfold live_rooms
      simp only [hn]
      have e1 : ((n : Int) + 1).toNat = n + 1 := by omega
      rw [e1, Int.toNat_ofNat]
      exact take_succ_set db.rooms n v (by omega)
    refine ⟨⟨by simpa using hl, by show (0 : Int) ≤ n + 1; omega,
      by show (n : Int) + 1 ≤ 100; omega, ?_, ?_⟩, ?_, ?_⟩
    · intro r hr
      rcases List.mem_or_eq_of_mem_set hr with h | h
      · exact hids r h
      · rw [h]; exact hslot
    · intro r hr
      rw [hlv] at hr
      rcases List.mem_append.1 hr with h | h
      · exact hlive r h
      · rw [List.mem_singleton] at h
        rw [h]
        exact ⟨rfl, le_refl _, by show (0 : Int) ≤ 50; omega⟩
    · show db.next_room_id + 1 = (n : Int) + 1 + 1
      omega
    · intro r hr
      rw [hlv] at hr
      rcases List.mem_append.1 hr with h | h
      · refine ⟨(hnd r h).1, ?_⟩
        show r.room_id < db.next_room_id + 1
        have := (hnd r h).2
        omega
      · rw [List.mem_singleton] at h
        rw [h]
        refine ⟨?_, ?_⟩
        · show (List.take (0 : Int).toNat _).Nodup
          simp
        · show db.next_room_id < db.next_room_id + 1
          omega

/-- Every store reachable from `db_init` by calls of the three room functions satisfies the
invariant. -/
theorem room_calls_inv (calls : List RoomCall) :
    ∀ db, StoreInv db → StoreInv (room_calls db calls) := by
  induction calls with
  | nil => intro db h; exact h
  | cons c cs ih =>
    intro db h
    unfold room_calls
    rw [List.foldl_cons]
    apply ih
    cases c with
    | create room_name created_by now => exact create_room_inv db room_name created_by now h
    | add room_id user_id => exact add_user_inv db room_id user_id h
    | remove room_id user_id =>
      exact remove_user_loop_inv db room_id user_id h _ 0 (le_refl _)

/-- A successful `db_create_room` returns the next room id, keeps the table well formed, and a
lookup of that id finds the new, empty room of capacity 50. -/
theorem create_room_fresh (db : Database) (room_name : List Nat) (created_by now : Int)
    (hinv : StoreInv db) (hroom : db.room_count < 100) :
    (db_create_room db room_name created_by now).1 = db.next_room_id ∧
    StoreWF (db_create_room db room_name created_by now).2 ∧
    ∃ r, db_room (db_create_room db room_name created_by now).2 db.next_room_id = some r ∧
      r.current_user_count = 0 ∧ r.max_users = 50 := by
  have hwf' := (create_room_inv db room_name created_by now hinv).1
  refine ⟨?_, hwf', ?_⟩
  · unfold db_create_room
    rw [if_neg (by unfold MAX_ROOMS; omega)]
  · revert hwf'
    unfold db_create_room
    rw [if_neg (by unfold MAX_ROOMS; omega)]
    intro hwf'
    obtain ⟨⟨hl, h0, h1, hids, hlive⟩, hnext, hnd⟩ := hinv
    obtain ⟨n, hn⟩ := Int.eq_ofNat_of_zero_le h0
    simp only []
    rw [int32_eq_self (by omega) (by omega), int32_eq_self (by omega) (by omega), hn,
      array_set_natCast]
    have e1 : ((n : Int) + 1).toNat = n + 1 := by omega
    refine ⟨{ array_get db.rooms (n : Int) with
      room_id := db.next_room_id,
      room_name := strncpy (array_get db.rooms (n : Int)).room_name room_name 99,
      created_by := created_by,
      max_users := MAX_USERS_PER_ROOM,
      current_user_count := 0,
      created_at := now,
      is_active := 1 }, ?_, rfl, rfl⟩
    unfold db_room live_rooms
    simp only []
    rw [e1, take_succ_set db.rooms n _ (by omega), List.find?_append]
    have hnone : List.find? (fun r => decide (r.room_id = db.next_room_id)) (List.take n db.rooms)
        = none := by
      rw [List.find?_eq_none]
      intro x hx
      have hx' : x ∈ live_rooms db := by
        unfold live_rooms
        rw [hn, Int.toNat_ofNat]
        exact hx
      have := (hnd x hx').2
      simp only [decide_eq_true_eq]
      omega
    rw [hnone, Option.none_or, List.find?_cons_of_pos]
    simp

/-- Adding, one after the other, user ids that are pairwise distinct and not yet members, as
long as the room has space: every call returns 0 and the member list grows by the ids. -/
theorem add_users_ok (room_id : Int) :
    ∀ (us : List Int) (db : Database) (r : ChatRoom), StoreWF db →
      db_room db room_id = some r → r.max_users = 50 → (room_members r ++ us).Nodup →
      r.current_user_count + us.length ≤ 50 →
      (add_users db room_id us).1 = List.replicate us.length 0 ∧
      StoreWF (add_users db room_id us).2 ∧
      ∃ r', db_room (add_users db room_id us).2 room_id = some r' ∧
        room_members r' = room_members r ++ us ∧
        r'.current_user_count = r.current_user_count + us.length ∧ r'.max_users = 50
  | [], db, r, hwf, hroom, hmax, _, _ => by
    refine ⟨rfl, hwf, r, hroom, by simp, by simp, hmax⟩
  | u :: us, db, r, hwf, hroom, hmax, hnd, hcap => by
    have hnd2 : ((room_members r ++ [u]) ++ us).Nodup := by simpa using hnd
    have hnd1 := (List.nodup_append.1 hnd2).1
    have hnot : u ∉ room_members r := by
      intro hin
      exact (List.nodup_append.1 hnd1).2.2 hin (List.mem_singleton_self u)
    rw [List.length_cons] at hcap
    obtain ⟨e, hwf', r', hroom', hm, hc, hmx, -⟩ :=
      add_user_ok db room_id u hwf r hroom (by push_cast at hcap; omega) hnot
    have ih := add_users_ok room_id us (db_add_user_to_room db room_id u).2 r' hwf' hroom'
      (by rw [hmx, hmax]) (by rw [hm]; exact hnd2) (by rw [hc]; push_cast at hcap; omega)
    obtain ⟨i1, i2, r'', i3, i4, i5, i6⟩ := ih
    unfold add_users
    refine ⟨?_, i2, r'', i3, ?_, ?_, i6⟩
    · show (db_add_user_to_room db room_id u).1
          :: (add_users (db_add_user_to_room db room_id u).2 room_id us).1
        = List.replicate (us.length + 1) 0
      rw [e, i1]
      rfl
    · rw [i4, hm]
      simp
    · rw [i5, hc, List.length_cons]
      push_cast
      omega

/-! ## Rooms: the claims -/

/-- C17 (room capacity): in a well-formed rooms table, `db_add_user_to_room` returns 0 exactly
when a room with the given id is stored (the first one in table order, `r`), its
`current_user_count` is below its `max_users`, which is 50, and the user id is not in its member
list; the member list of the room is then the old list with the user id appended at the end.
Consequently, for a room freshly created by `db_create_room` in any store reachable from
`db_init` with fewer than 100 rooms, 50 adds of pairwise distinct user ids `us` all return 0
and the next add returns -1 for every user id `u`, in particular for a further distinct one. -/
theorem room_capacity (db : Database) (room_id user_id : Int) (calls : List RoomCall)
    (room_name : List Nat) (created_by now : Int) (us : List Int) (u : Int)
    (hwf : StoreWF db) (hroom : (room_calls db_init calls).room_count < 100)
    (hus : us.Nodup) (hlen : us.length = 50) :
    ((db_add_user_to_room db room_id user_id).1 = 0 ↔
      ∃ r, db_room db room_id = some r ∧ r.max_users = 50 ∧
        r.current_user_count < r.max_users ∧ user_id ∉ room_members r) ∧
    (∀ r, db_room db room_id = some r → (db_add_user_to_room db room_id user_id).1 = 0 →
      ∃ r', db_room (db_add_user_to_room db room_id user_id).2 room_id = some r' ∧
        room_members r' = room_members r ++ [user_id]) ∧
    (add_users (db_create_room (room_calls db_init calls) room_name created_by now).2
        (db_create_room (room_calls db_init calls) room_name created_by now).1 us).1
      = List.replicate 50 0 ∧
    (db_add_user_to_room
        (add_users (db_create_room (room_calls db_init calls) room_name created_by now).2
          (db_create_room (room_calls db_init calls) room_name created_by now).1 us).2
        (db_create_room (room_calls db_init calls) room_name created_by now).1 u).1 = -1 := by
  have hcases : ∀ r, db_room db room_id = some r →
      (db_add_user_to_room db room_id user_id).1 = 0 →
      r.max_users = 50 ∧ r.current_user_count < r.max_users ∧ user_id ∉ room_members r := by
    intro r hr h0
    obtain ⟨k, hk, hrk, -, -, e⟩ := add_user_some db room_id user_id hwf r hr
    have hmax := (hwf.2.2.2.2 r (live_rooms_mem db k r hk hrk)).1
    rw [e] at h0
    by_cases hfull : r.current_user_count ≥ r.max_users
    · rw [if_pos hfull] at h0
      simp at h0
    · rw [if_neg hfull] at h0
      by_cases hin : user_id ∈ room_members r
      · rw [if_pos hin] at h0
        simp at h0
      · exact ⟨hmax, by omega, hin⟩
  refine ⟨⟨?_, ?_⟩, ?_, ?_⟩
  · intro h0
    cases hr : db_room db room_id with
    | none =>
      rw [add_user_none db room_id user_id hwf hr] at h0
      simp at h0
    | some r =>
      obtain ⟨a, b, c⟩ := hcases r hr h0
      exact ⟨r, rfl, a, b, c⟩
  · rintro ⟨r, hr, -, hlt, hnot⟩
    exact (add_user_ok db room_id user_id hwf r hr hlt hnot).1
  · intro r hr h0
    obtain ⟨-, hlt, hnot⟩ := hcases r hr h0
    obtain ⟨-, -, r', h1, h2, -⟩ := add_user_ok db room_id user_id hwf r hr hlt hnot
    exact ⟨r', h1, h2⟩
  · have hinv := room_calls_inv calls db_init store_inv_init
    obtain ⟨e, hwf1, r0, hr0, hc0, hm0⟩ :=
      create_room_fresh (room_calls db_init calls) room_name created_by now hinv hroom
    rw [e]
    have hmem0 : room_members r0 = [] := by
      unfold room_members
      rw [hc0]
      rfl
    obtain ⟨a1, a2, r', a3, a4, a5, a6⟩ := add_users_ok (room_calls db_init calls).next_room_id
      us _ r0 hwf1 hr0 hm0 (by rw [hmem0]; simpa using hus) (by rw [hc0, hlen]; decide)
    rw [hlen] at a1
    refine ⟨a1, ?_⟩
    obtain ⟨k, -, -, -, -, e2⟩ := add_user_some _ (room_calls db_init calls).next_room_id u
      a2 r' a3
    rw [e2, if_pos (by rw [a5, a6, hc0, hlen]; decide)]

set_option maxRecDepth 100000 in
/-- Witness for C17: user 9 joins room 1, which has the members 5 and 6; and the users 1 to
50, then user 51, join a room created right after `db_init`. -/
theorem room_capacity_witness :
    (db_add_user_to_room store_two_members 1 9).1 = 0 ∧
    (add_users (db_create_room (room_calls db_init []) [82] 1 0).2
        (db_create_room (room_calls db_init []) [82] 1 0).1 fifty_users).1
      = List.replicate 50 0 ∧
    (db_add_user_to_room
        (add_users (db_create_room (room_calls db_init []) [82] 1 0).2
          (db_create_room (room_calls db_init []) [82] 1 0).1 fifty_users).2
        (db_create_room (room_calls db_init []) [82] 1 0).1 51).1 = -1 :=
  ⟨(room_capacity store_two_members 1 9 [] [82] 1 0 fifty_users 51
      (by decide) (by decide) (by decide) (by decide)).1.2
      ⟨array_get store_two_members.rooms 0, by decide, by decide, by decide, by decide⟩,
   (room_capacity store_two_members 1 9 [] [82] 1 0 fifty_users 51
      (by decide) (by decide) (by decide) (by decide)).2.2⟩

/-- C18 (duplicate join), as the code has it: in a well-formed rooms table, for a stored room
`r` and a user id that is already in its member list, `db_add_user_to_room` leaves the store
unchanged, hence the room's member count and member list too; it returns -2 when the room's
member count is below `max_users`, and -1 when the room is full, because the capacity test
comes before the search of the member list. -/
theorem duplicate_join (db : Database) (room_id user_id : Int) (r : ChatRoom)
    (hwf : StoreWF db) (hroom : db_room db room_id = some r)
    (hin : user_id ∈ room_members r) :
    (db_add_user_to_room db room_id user_id).2 = db ∧
    (r.current_user_count < r.max_users → (db_add_user_to_room db room_id user_id).1 = -2) ∧
    (r.current_user_count ≥ r.max_users → (db_add_user_to_room db room_id user_id).1 = -1) := by
  obtain ⟨k, -, -, -, -, e⟩ := add_user_some db room_id user_id hwf r hroom
  rw [e]
  by_cases hfull : r.current_user_count ≥ r.max_users
  · rw [if_pos hfull]
    exact ⟨rfl, fun h => absurd hfull (by omega), fun _ => rfl⟩
  · rw [if_neg hfull, if_pos hin]
    exact ⟨rfl, fun _ => rfl, fun h => absurd h hfull⟩

set_option maxRecDepth 100000 in
/-- Witness for C18: user 5 joins room 1 again, which has the members 5 and 6. -/
theorem duplicate_join_witness :
    (db_add_user_to_room store_two_members 1 5).2 = store_two_members ∧
    (db_add_user_to_room store_two_members 1 5).1 = -2 :=
  ⟨(duplicate_join store_two_members 1 5 (array_get store_two_members.rooms 0)
      (by decide) (by decide) (by decide)).1,
   (duplicate_join store_two_members 1 5 (array_get store_two_members.rooms 0)
      (by decide) (by decide) (by decide)).2.1 (by decide)⟩

set_option maxRecDepth 100000 in
/-- Counterexample to C18 as stated: room 1 is stored and full with the members 1 to 50; user 7
is one of them, and `db_add_user_to_room(1, 7)` returns -1, not -2. -/
theorem duplicate_join_full_room :
    (db_room store_full_room 1).map room_members = some fifty_users ∧
    (7 : Int) ∈ fifty_users ∧
    (db_add_user_to_room store_full_room 1 7).1 = -1 := by
  decide

/-- C19 (join failures): in a well-formed rooms table, `db_add_user_to_room` returns -3 if and
only if no stored room has the given id; it returns -1 exactly when the room with the id is
full, -2 exactly when that room has space and holds the user id already, and 0 or one of these
three values in every case, so that each of the four results names one cause; and whenever the
result is negative the store, hence the rooms table, is as before the call. -/
theorem join_failures (db : Database) (room_id user_id : Int) (hwf : StoreWF db) :
    ((db_add_user_to_room db room_id user_id).1 = -3 ↔
      ∀ r ∈ live_rooms db, r.room_id ≠ room_id) ∧
    ((db_add_user_to_room db room_id user_id).1 = -1 ↔
      ∃ r, db_room db room_id = some r ∧ r.current_user_count ≥ r.max_users) ∧
    ((db_add_user_to_room db room_id user_id).1 = -2 ↔
      ∃ r, db_room db room_id = some r ∧ r.current_user_count < r.max_users ∧
        user_id ∈ room_members r) ∧
    ((db_add_user_to_room db room_id user_id).1 = 0 ∨
      (db_add_user_to_room db room_id user_id).1 = -1 ∨
      (db_add_user_to_room db room_id user_id).1 = -2 ∨
      (db_add_user_to_room db room_id user_id).1 = -3) ∧
    ((db_add_user_to_room db room_id user_id).1 < 0 →
      (db_add_user_to_room db room_id user_id).2 = db) := by
  have hnone : db_room db room_id = none ↔ ∀ r ∈ live_rooms db, r.room_id ≠ room_id := by
    unfold db_room
    rw [List.find?_eq_none]
    simp
  cases hroom : db_room db room_id with
  | none =>
    rw [add_user_none db room_id user_id hwf hroom]
    refine ⟨⟨fun _ => hnone.1 hroom, fun _ => rfl⟩, ?_, ?_, by simp, fun _ => rfl⟩
    · simp
    · simp
  | some r =>
    obtain ⟨k, -, -, -, -, e⟩ := add_user_some db room_id user_id hwf r hroom
    have hsome : ¬ ∀ x ∈ live_rooms db, x.room_id ≠ room_id := by
      intro h
      rw [hnone.2 h] at hroom
      cases hroom
    rw [e]
    by_cases hfull : r.current_user_count ≥ r.max_users
    · rw [if_pos hfull]
      refine ⟨⟨fun h => by simp at h, fun h => absurd h hsome⟩, ?_, ?_, by simp, fun _ => rfl⟩
      · simp [hfull]
      · simp
        intro h
        omega
    · rw [if_neg hfull]
      by_cases hin : user_id ∈ room_members r
      · rw [if_pos hin]
        refine ⟨⟨fun h => by simp at h, fun h => absurd h hsome⟩, ?_, ?_, by simp,
          fun _ => rfl⟩
        · simp
          omega
        · simp [hin]
          omega
      · rw [if_neg hin]
        refine ⟨⟨fun h => by simp at h, fun h => absurd h hsome⟩, ?_, ?_, by simp,
          fun h => by simp at h⟩
        · simp
          omega
        · simp [hin]

set_option maxRecDepth 100000 in
/-- Witness for C19: user 9 asks for room 2 in the store whose only room has id 1. -/
theorem join_failures_witness :
    (db_add_user_to_room store_two_members 2 9).1 = -3 ∧
    (db_add_user_to_room store_two_members 2 9).2 = store_two_members :=
  ⟨(join_failures store_two_members 2 9 (by decide)).1.2 (by decide),
   (join_failures store_two_members 2 9 (by decide)).2.2.2.2 (by decide)⟩

/-- C20 (room membership invariant): in every store reachable from `db_init` by any sequence
of `db_create_room`, `db_add_user_to_room` and `db_remove_user_from_room` calls, every stored
room `r` satisfies `0 <= current_user_count <= max_users = 50`, and the first
`current_user_count` entries of its `user_ids` are pairwise distinct. -/
theorem membership_invariant (calls : List RoomCall) (r : ChatRoom)
    (hr : r ∈ live_rooms (room_calls db_init calls)) :
    0 ≤ r.current_user_count ∧ r.current_user_count ≤ r.max_users ∧ r.max_users = 50 ∧
    (r.user_ids.take r.current_user_count.toNat).Nodup := by
  obtain ⟨hwf, -, hnd⟩ := room_calls_inv calls db_init store_inv_init
  obtain ⟨hmax, h0, h1⟩ := hwf.2.2.2.2 r hr
  exact ⟨h0, by omega, hmax, (hnd r hr).1⟩

set_option maxRecDepth 100000 in
/-- Witness for C20: the room of the store reached by creating a room, adding the users 5, 6
and 5 again, removing user 5 and adding user 7. -/
theorem membership_invariant_witness :
    0 ≤ (array_get (room_calls db_init example_calls).rooms 0).current_user_count ∧
    (array_get (room_calls db_init example_calls).rooms 0).current_user_count
      ≤ (array_get (room_calls db_init example_calls).rooms 0).max_users ∧
    (array_get (room_calls db_init example_calls).rooms 0).max_users = 50 ∧
    ((array_get (room_calls db_init example_calls).rooms 0).user_ids.take
      (array_get (room_calls db_init example_calls).rooms 0).current_user_count.toNat).Nodup :=
  membership_invariant example_calls (array_get (room_calls db_init example_calls).rooms 0)
    (by decide)

/-! ## Theorems: users, messages and the store as a step system -/

/-- The test `strcmp(s, t) == 0` holds exactly when the two C strings are equal. -/
theorem strcmp_eq_zero : ∀ (s t : List Nat), strcmp s t = 0 ↔ c_str s = c_str t
  | [], [] => by simp [strcmp]
  | [], b :: t => by
    unfold strcmp c_str
    by_cases hb : b = 0
    · simp [hb]
    · simp [hb, List.takeWhile_cons]
  | a :: s, [] => by
    unfold strcmp c_str
    by_cases ha : a = 0
    · simp [ha]
    · simp [ha, List.takeWhile_cons]
  | a :: s, b :: t => by
    have ih := strcmp_eq_zero s t
    unfold strcmp
    unfold c_str at ih ⊢
    by_cases hab : a = b
    · subst hab
      by_cases ha : a = 0
      · simp [ha]
      · simp [ha, List.takeWhile_cons, ih]
    · have hne : (a : Int) - (b : Int) ≠ 0 := by omega
      by_cases ha : a = 0
      · subst ha
        have hb : b ≠ 0 := fun h => hab h.symm
        simp [hab, hne, hb, List.takeWhile_cons]
      · by_cases hb : b = 0
        · simp [hab, hne, ha, hb, List.takeWhile_cons]
        · simp [hab, hne, ha, hb, List.takeWhile_cons]

/-- The NUL-terminated string that `strncpy(dst, src, n)` leaves in a buffer of `n + 1` zero
bytes: the first `n` characters of `src`, followed by zero bytes. -/
theorem c_str_strncpy (src : List Nat) (n : Nat) :
    strncpy (List.replicate (n + 1) 0) src n
      = (c_str src).take n ++ List.replicate (n + 1 - min n (c_str src).length) 0 ∧
    c_str (strncpy (List.replicate (n + 1) 0) src n) = (c_str src).take n := by
  have hnz : ∀ x ∈ (c_str src).take n, (fun c => decide (c ≠ 0)) x = true := by
    intro x hx
    have hx' : x ∈ c_str src := List.mem_of_mem_take hx
    unfold c_str at hx'
    exact List.mem_takeWhile_imp (p := fun c => decide (c ≠ 0)) hx'
  have hshape : strncpy (List.replicate (n + 1) 0) src n
      = (c_str src).take n ++ List.replicate (n + 1 - min n (c_str src).length) 0 := by
    unfold strncpy
    rw [List.drop_replicate, List.append_assoc, List.append_replicate_replicate]
    congr 2
    omega
  refine ⟨hshape, ?_⟩
  rw [hshape]
  unfold c_str at hnz ⊢
  rw [List.takeWhile_append_of_pos hnz, List.takeWhile_replicate]
  simp

/-- Identifiers that count up from 1 with the table index are strictly increasing and at most
the number of stored entities. -/
theorem ids_pairwise {α : Type} (l : List α) (id : α → Int)
    (h : ∀ (i : Nat) (u : α), l[i]? = some u → id u = (i : Int) + 1) :
    (l.map id).Pairwise (fun a b => a < b) ∧ ∀ x ∈ l.map id, x < (l.length : Int) + 1 := by
  constructor
  · rw [List.pairwise_iff_getElem]
    intro i j hi hj hij
    rw [List.length_map] at hi hj
    rw [List.getElem_map, List.getElem_map,
      h i l[i] (List.getElem?_eq_getElem hi), h j l[j] (List.getElem?_eq_getElem hj)]
    omega
  · intro x hx
    obtain ⟨u, hu, rfl⟩ := List.mem_map.1 hx
    obtain ⟨i, hi, rfl⟩ := List.getElem_of_mem hu
    rw [h i l[i] (List.getElem?_eq_getElem hi)]
    omega

/-- Writing a new entity with the next identifier into the first free slot keeps the
identifiers counting up from 1. -/
theorem ids_append {α : Type} (l : List α) (n : Nat) (v : α) (id : α → Int)
    (hn : n < l.length)
    (hold : ∀ (i : Nat) (u : α), (l.take n)[i]? = some u → id u = (i : Int) + 1)
    (hv : id v = (n : Int) + 1) :
    ∀ (i : Nat) (u : α), ((l.set n v).take (n + 1))[i]? = some u → id u = (i : Int) + 1 := by
  intro i u hu
  rw [take_succ_set l n v hn, List.getElem?_append] at hu
  have hlen : (l.take n).length = n := by rw [List.length_take]; omega
  by_cases hi : i < n
  · rw [if_pos (by omega)] at hu
    exact hold i u hu
  · rw [if_neg (by omega), hlen] at hu
    have hin : i = n := by
      by_contra hne
      have : 0 < i - n := by omega
      rw [List.getElem?_eq_none (by simp; omega)] at hu
      cases hu
    subst hin
    simp at hu
    rw [← hu, hv]

/-- Replacing a stored entity by one with the same identifier keeps the identifiers. -/
theorem ids_set {α : Type} (l : List α) (n k : Nat) (v u0 : α) (id : α → Int)
    (hold : ∀ (i : Nat) (u : α), (l.take n)[i]? = some u → id u = (i : Int) + 1)
    (hk : l[k]? = some u0) (hv : id v = id u0) :
    ∀ (i : Nat) (u : α), ((l.set k v).take n)[i]? = some u → id u = (i : Int) + 1 := by
  intro i u hu
  rw [List.getElem?_take] at hu
  by_cases hi : i < n
  · rw [if_pos hi] at hu
    by_cases hik : k = i
    · subst hik
      have hlt : k < l.length := (List.getElem?_eq_some_iff.1 hk).1
      rw [List.getElem?_set_self hlt] at hu
      cases hu
      rw [hv]
      apply hold k u0
      rw [List.getElem?_take, if_pos hi, hk]
    · rw [List.getElem?_set_ne hik] at hu
      apply hold i u
      rw [List.getElem?_take, if_pos hi, hu]
  · rw [if_neg hi] at hu
    cases hu

theorem create_user_full (db : Database) (username password_hash : List Nat) (role now : Int)
    (h : db.user_count ≥ MAX_USERS) :
    db_create_user db username password_hash role now = (-1, db) := by
  unfold db_create_user
  rw [if_pos h]

theorem create_room_full (db : Database) (room_name : List Nat) (created_by now : Int)
    (h : db.room_count ≥ MAX_ROOMS) :
    db_create_room db room_name created_by now = (-1, db) := by
  unfold db_create_room
  rw [if_pos h]

theorem create_message_full (db : Database) (sender_id room_id : Int)
    (sender_name content : List Nat) (now : Int) (h : db.message_count ≥ MAX_MESSAGES) :
    db_create_message db sender_id room_id sender_name content now = (-1, db) := by
  unfold db_create_message
  rw [if_pos h]

/-- The search loop of `db_create_user`: it finds a stored user exactly when one has the
given name as its stored name. -/
theorem username_lookup (db : Database) (username : List Nat) (hinv : UsersInv db) :
    (first_index (fun i => strcmp (array_get db.users i).username username = 0)
        db.user_count db.user_count.toNat 0 = none ∧
      ∀ u ∈ live_users db, c_str u.username ≠ c_str username) ∨
    ((∃ k : Int, first_index (fun i => strcmp (array_get db.users i).username username = 0)
        db.user_count db.user_count.toNat 0 = some k) ∧
      ∃ u ∈ live_users db, c_str u.username = c_str username) := by
  obtain ⟨hl, h0, h1, -, -, -⟩ := hinv
  obtain ⟨n, hn⟩ := Int.eq_ofNat_of_zero_le h0
  have h := first_index_array db.users n (by omega)
    (fun u => decide (strcmp u.username username = 0))
  unfold live_users
  rw [hn, Int.toNat_ofNat]
  rcases h with ⟨h1, h2⟩ | ⟨k, x, h1, h2, h3, h4, h5, -⟩
  · left
    refine ⟨h1, fun u hu => ?_⟩
    have := h2 u hu
    intro hc
    rw [← strcmp_eq_zero] at hc
    simp [hc] at this
  · right
    refine ⟨⟨k, h1⟩, x, List.mem_of_find?_eq_some h5, ?_⟩
    exact (strcmp_eq_zero _ _).1 (by simpa using h4)

/-- The call `db_create_user` when some stored user has the name. -/
theorem create_user_dup (db : Database) (username password_hash : List Nat) (role now : Int)
    (hinv : UsersInv db) (hroom : db.user_count < MAX_USERS)
    (hdup : ∃ u ∈ live_users db, c_str u.username = c_str username) :
    db_create_user db username password_hash role now = (-2, db) := by
  unfold db_create_user
  rw [if_neg (by omega)]
  rcases username_lookup db username hinv with ⟨-, hno⟩ | ⟨⟨k, e⟩, -⟩
  · obtain ⟨u, hu, hc⟩ := hdup
    exact absurd hc (hno u hu)
  · rw [e]

/-- The call `db_create_user` when the table has space and no stored user has the name: the
new user is written into the first free slot. -/
theorem create_user_new (db : Database) (username password_hash : List Nat) (role now : Int)
    (hinv : UsersInv db) (hroom : db.user_count < MAX_USERS)
    (hnew : ∀ u ∈ live_users db, c_str u.username ≠ c_str username) :
    db_create_user db username password_hash role now
      = (db.next_user_id,
         { db with
           users := db.users.set db.user_count.toNat
             { user_id := db.next_user_id,
               username := strncpy (List.replicate 50 0) username 49,
               password_hash := strncpy (List.replicate 65 0) password_hash 64,
               role := role, current_room_id := -1, created_at := now, is_active := 1,
               is_online := 0 },
           next_user_id := db.next_user_id + 1,
           user_count := db.user_count + 1 }) := by
  have hM : MAX_USERS = 1000 := rfl
  unfold db_create_user
  rw [if_neg (by omega)]
  rcases username_lookup db username hinv with ⟨e, -⟩ | ⟨-, u, hu, hc⟩
  · obtain ⟨hl, h0, h1, hnext, -, hfree⟩ := hinv
    obtain ⟨n, hn⟩ := Int.eq_ofNat_of_zero_le h0
    have hslot : array_get db.users (n : Int) = user_zero :=
      array_get_of_getElem? (hfree n (by omega) (by omega))
    rw [e]
    simp only []
    rw [int32_eq_self (by omega) (by omega), int32_eq_self (by omega) (by omega), hn,
      array_set_natCast, hslot, Int.toNat_ofNat]
    rfl
  · exact absurd hc (hnew u hu)

/-- The call `db_create_message` when the table has space. -/
theorem create_message_new (db : Database) (sender_id room_id : Int)
    (sender_name content : List Nat) (now : Int) (hinv : MessagesInv db)
    (hroom : db.message_count < MAX_MESSAGES) :
    db_create_message db sender_id room_id sender_name content now
      = (db.next_message_id,
         { db with
           messages := db.messages.set db.message_count.toNat
             { message_id := db.next_message_id, sender_id := sender_id, room_id := room_id,
               sender_name := strncpy (List.replicate 50 0) sender_name 49,
               content := strncpy (List.replicate 1024 0) content 1023,
               timestamp := now },
           next_message_id := db.next_message_id + 1,
           message_count := db.message_count + 1 }) := by
  have hM : MAX_MESSAGES = 10000 := rfl
  unfold db_create_message
  rw [if_neg (by omega)]
  obtain ⟨hl, h0, h1, hnext, -, hfree⟩ := hinv
  obtain ⟨n, hn⟩ := Int.eq_ofNat_of_zero_le h0
  have hslot : array_get db.messages (n : Int) = message_zero :=
    array_get_of_getElem? (hfree n (by omega) (by omega))
  simp only []
  rw [int32_eq_self (by omega) (by omega), int32_eq_self (by omega) (by omega), hn,
    array_set_natCast, hslot, Int.toNat_ofNat]
  rfl

/-- The call `db_create_room` when the table has space. -/
theorem create_room_new (db : Database) (room_name : List Nat) (created_by now : Int)
    (hinv : StoreInv db) (hids : RoomIdsInv db) (hroom : db.room_count < MAX_ROOMS) :
    db_create_room db room_name created_by now
      = (db.next_room_id,
         { db with
           rooms := db.rooms.set db.room_count.toNat
             { room_id := db.next_room_id,
               room_name := strncpy (List.replicate 100 0) room_name 99,
               created_by := created_by, max_users := 50, current_user_count := 0,
               user_ids := List.replicate 50 0, created_at := now, is_active := 1 },
           next_room_id := db.next_room_id + 1,
           room_count := db.room_count + 1 }) := by
  have hM : MAX_ROOMS = 100 := rfl
  unfold db_create_room
  rw [if_neg (by omega)]
  obtain ⟨⟨hl, h0, h1, -, -⟩, hnext, -⟩ := hinv
  obtain ⟨n, hn⟩ := Int.eq_ofNat_of_zero_le h0
  have hslot : array_get db.rooms (n : Int) = room_zero :=
    array_get_of_getElem? (hids.2 n (by omega) (by omega))
  simp only []
  rw [int32_eq_self (by omega) (by omega), int32_eq_self (by omega) (by omega), hn,
    array_set_natCast, hslot, Int.toNat_ofNat]
  rfl

/-- The inner loop of the room functions finds the first position of the user id in the member
list. -/
theorem member_index_first (r : ChatRoom) (user_id : Int) (h0 : 0 ≤ r.current_user_count)
    (hlen : r.current_user_count ≤ (r.user_ids.length : Int)) :
    (first_index (fun j => array_get r.user_ids j = user_id)
        r.current_user_count r.current_user_count.toNat 0 = none ∧
      user_id ∉ room_members r) ∨
    ∃ j : Nat,
      first_index (fun j => array_get r.user_ids j = user_id)
        r.current_user_count r.current_user_count.toNat 0 = some (j : Int) ∧
      (j : Int) < r.current_user_count ∧ (room_members r)[j]? = some user_id ∧
      ∀ j', j' < j → (room_members r)[j']? ≠ some user_id := by
  obtain ⟨n, hn⟩ := Int.eq_ofNat_of_zero_le h0
  have h := first_index_array r.user_ids n (by omega) (fun u => decide (u = user_id))
  unfold room_members
  rw [hn, Int.toNat_ofNat]
  rcases h with ⟨h1, h2⟩ | ⟨k, x, h1, h2, h3, h4, -, h6⟩
  · left
    refine ⟨h1, fun hmem => ?_⟩
    have := h2 user_id hmem
    simp at this
  · right
    have hx : x = user_id := by simpa using h4
    subst hx
    refine ⟨k, h1, by omega, ?_, ?_⟩
    · rw [List.getElem?_take, if_pos h2, h3]
    · intro j' hj' hget
      rw [List.getElem?_take, if_pos (by omega)] at hget
      have := h6 j' x hj' hget
      simp at this

/-- Deleting the entry at the first position of a value deletes the value, as `List.erase`
does. -/
theorem eraseIdx_first (a : Int) :
    ∀ (l : List Int) (j : Nat), l[j]? = some a → (∀ j', j' < j → l[j']? ≠ some a) →
      l.eraseIdx j = l.erase a
  | [], j, h, _ => by simp at h
  | b :: l, 0, h, _ => by
    simp only [List.getElem?_cons_zero, Option.some.injEq] at h
    subst h
    simp
  | b :: l, j + 1, h, hfirst => by
    have hb : b ≠ a := by
      intro hba
      exact hfirst 0 (by omega) (by simp [hba])
    rw [List.eraseIdx_cons_succ, List.erase_cons_tail (by simpa using hb)]
    congr 1
    apply eraseIdx_first a l j (by simpa using h)
    intro j' hj' hget
    exact hfirst (j' + 1) (by omega) (by simpa using hget)

/-- The loop of `db_remove_user_from_room` from room index `i` on: either no stored room from
there on has the id and holds the user, and the result is -1 with the store unchanged, or the
user is deleted from the first such room. -/
theorem remove_user_loop_spec (db : Database) (room_id user_id : Int) (hwf : StoreWF db) :
    ∀ (fuel i : Nat), db.room_count.toNat ≤ i + fuel →
      (remove_user_loop db room_id user_id fuel (i : Int) = (-1, db) ∧
        ∀ (k : Nat) (r : ChatRoom), i ≤ k → (live_rooms db)[k]? = some r →
          r.room_id = room_id → user_id ∉ room_members r) ∨
      ∃ (k j : Nat) (r : ChatRoom), i ≤ k ∧ (k : Int) < db.room_count ∧
        db.rooms[k]? = some r ∧ r.room_id = room_id ∧
        (room_members r)[j]? = some user_id ∧
        (∀ j', j' < j → (room_members r)[j']? ≠ some user_id) ∧
        (∀ (k' : Nat) (r' : ChatRoom), i ≤ k' → k' < k → db.rooms[k']? = some r' →
          r'.room_id = room_id → user_id ∉ room_members r') ∧
        remove_user_loop db room_id user_id fuel (i : Int)
          = (0, { db with
                  rooms := db.rooms.set k { r with
                    user_ids := shift_down r.current_user_count r.current_user_count.toNat
                      (j : Int) r.user_ids,
                    current_user_count := r.current_user_count - 1 } })
  | 0, i, hfuel => by
    left
    refine ⟨rfl, ?_⟩
    intro k r hk hget
    have hlt := (List.getElem?_eq_some_iff.1 hget).1
    unfold live_rooms at hlt
    rw [List.length_take] at hlt
    omega
  | fuel + 1, i, hfuel => by
    obtain ⟨hl, h0, h1, hids, hlive⟩ := hwf
    have ih := remove_user_loop_spec db room_id user_id ⟨hl, h0, h1, hids, hlive⟩ fuel (i + 1)
      (by omega)
    have hcast : ((i : Int) + 1) = ((i + 1 : Nat) : Int) := by push_cast; rfl
    unfold remove_user_loop
    by_cases hlt : (i : Int) < db.room_count
    · rw [if_pos hlt]
      have hkl : i < db.rooms.length := by omega
      have hr : db.rooms[i]? = some db.rooms[i] := List.getElem?_eq_getElem hkl
      have hmem := live_rooms_mem db i _ hlt hr
      obtain ⟨hmax, hc0, hc1⟩ := hlive _ hmem
      have hlen := hids _ (List.getElem?_mem hr)
      have hlive_i : (live_rooms db)[i]? = some db.rooms[i] := by
        unfold live_rooms
        rw [List.getElem?_take, if_pos (by omega), hr]
      simp only [array_get_of_getElem? hr]
      -- the cases of the recursive call, with index `i` added
      have hrec : (db.rooms[i].room_id = room_id → user_id ∉ room_members db.rooms[i]) →
          (remove_user_loop db room_id user_id fuel ((i : Int) + 1) = (-1, db) ∧
            ∀ (k : Nat) (r : ChatRoom), i ≤ k → (live_rooms db)[k]? = some r →
              r.room_id = room_id → user_id ∉ room_members r) ∨
          ∃ (k j : Nat) (r : ChatRoom), i ≤ k ∧ (k : Int) < db.room_count ∧
            db.rooms[k]? = some r ∧ r.room_id = room_id ∧
            (room_members r)[j]? = some user_id ∧
            (∀ j', j' < j → (room_members r)[j']? ≠ some user_id) ∧
            (∀ (k' : Nat) (r' : ChatRoom), i ≤ k' → k' < k → db.rooms[k']? = some r' →
              r'.room_id = room_id → user_id ∉ room_members r') ∧
            remove_user_loop db room_id user_id fuel ((i : Int) + 1)
              = (0, { db with
                      rooms := db.rooms.set k { r with
                        user_ids := shift_down r.current_user_count
                          r.current_user_count.toNat (j : Int) r.user_ids,
                        current_user_count := r.current_user_count - 1 } }) := by
        intro hskip
        rw [hcast]
        rcases ih with ⟨e, hno⟩ | ⟨k, j, r, hk, hkc, hrk, hid, hj, hjf, hkf, e⟩
        · left
          refine ⟨e, ?_⟩
          intro k r hk hget hid
          by_cases hki : k = i
          · subst hki
            rw [hlive_i] at hget
            cases hget
            exact hskip hid
          · exact hno k r (by omega) hget hid
        · right
          refine ⟨k, j, r, by omega, hkc, hrk, hid, hj, hjf, ?_, e⟩
          intro k' r' hk' hk'k hget hid'
          by_cases hki : k' = i
          · subst hki
            rw [hr] at hget
            cases hget
            exact hskip hid'
          · exact hkf k' r' (by omega) hk'k hget hid'
      by_cases hid : db.rooms[i].room_id = room_id
      · rw [if_pos hid]
        rcases member_index_first db.rooms[i] user_id hc0 (by omega) with
          ⟨e, hnot⟩ | ⟨j, e, hj, hget, hfirst⟩
        · rw [e]
          exact hrec (fun _ => hnot)
        · right
          rw [e]
          refine ⟨i, j, db.rooms[i], le_refl _, hlt, hr, hid, hget, hfirst, ?_, ?_⟩
          · intro k' r' h1' h2'
            omega
          · simp only [array_set_natCast]
            rw [int32_eq_self (by omega) (by omega)]
      · rw [if_neg hid]
        exact hrec (fun h => absurd h hid)
    · rw [if_neg hlt]
      left
      refine ⟨rfl, ?_⟩
      intro k r hk hget
      have hlt' := (List.getElem?_eq_some_iff.1 hget).1
      unfold live_rooms at hlt'
      rw [List.length_take] at hlt'
      omega

theorem users_inv_congr {db db' : Database} (h1 : db'.users = db.users)
    (h2 : db'.user_count = db.user_count) (h3 : db'.next_user_id = db.next_user_id)
    (h : UsersInv db) : UsersInv db' := by
  unfold UsersInv live_users at *
  rw [h1, h2, h3]
  exact h

theorem messages_inv_congr {db db' : Database} (h1 : db'.messages = db.messages)
    (h2 : db'.message_count = db.message_count)
    (h3 : db'.next_message_id = db.next_message_id) (h : MessagesInv db) :
    MessagesInv db' := by
  unfold MessagesInv live_messages at *
  rw [h1, h2, h3]
  exact h

theorem room_ids_inv_congr {db db' : Database} (h1 : db'.rooms = db.rooms)
    (h2 : db'.room_count = db.room_count) (h : RoomIdsInv db) : RoomIdsInv db' := by
  unfold RoomIdsInv live_rooms at *
  rw [h1, h2]
  exact h

theorem store_inv_congr {db db' : Database} (h1 : db'.rooms = db.rooms)
    (h2 : db'.room_count = db.room_count) (h3 : db'.next_room_id = db.next_room_id)
    (h : StoreInv db) : StoreInv db' := by
  unfold StoreInv StoreWF live_rooms at *
  rw [h1, h2, h3]
  exact h

/-- The function `db_create_user` writes only the users table and its two counters. -/
theorem create_user_frame (db : Database) (username password_hash : List Nat)
    (role now : Int) :
    ∃ u c n, (db_create_user db username password_hash role now).2
      = { db with users := u, user_count := c, next_user_id := n } := by
  unfold db_create_user
  split
  · exact ⟨_, _, _, rfl⟩
  · split
    · exact ⟨_, _, _, rfl⟩
    · exact ⟨_, _, _, rfl⟩

/-- The function `db_update_user_online_status` writes only the users array. -/
theorem update_online_frame (db : Database) (user_id is_online : Int) :
    ∃ u, (db_update_user_online_status db user_id is_online).2 = { db with users := u } := by
  unfold db_update_user_online_status
  split
  · exact ⟨_, rfl⟩
  · exact ⟨_, rfl⟩

/-- The function `db_create_room` writes only the rooms table and its two counters. -/
theorem create_room_frame (db : Database) (room_name : List Nat) (created_by now : Int) :
    ∃ r c n, (db_create_room db room_name created_by now).2
      = { db with rooms := r, room_count := c, next_room_id := n } := by
  unfold db_create_room
  split
  · exact ⟨_, _, _, rfl⟩
  · exact ⟨_, _, _, rfl⟩

/-- The function `db_create_message` writes only the messages table and its two counters. -/
theorem create_message_frame (db : Database) (sender_id room_id : Int)
    (sender_name content : List Nat) (now : Int) :
    ∃ m c n, (db_create_message db sender_id room_id sender_name content now).2
      = { db with messages := m, message_count := c, next_message_id := n } := by
  unfold db_create_message
  split
  · exact ⟨_, _, _, rfl⟩
  · exact ⟨_, _, _, rfl⟩

/-- The function `db_add_user_to_room` writes only the rooms array. -/
theorem add_user_frame (db : Database) (room_id user_id : Int) :
    ∃ r, (db_add_user_to_room db room_id user_id).2 = { db with rooms := r } := by
  unfold db_add_user_to_room
  split
  · exact ⟨_, rfl⟩
  · simp only []
    split
    · exact ⟨_, rfl⟩
    · split
      · exact ⟨_, rfl⟩
      · exact ⟨_, rfl⟩

/-- The loop of `db_remove_user_from_room` writes only the rooms array. -/
theorem remove_user_frame (db : Database) (room_id user_id : Int) :
    ∀ (fuel : Nat) (i : Int),
      ∃ r, (remove_user_loop db room_id user_id fuel i).2 = { db with rooms := r }
  | 0, _ => ⟨_, rfl⟩
  | fuel + 1, i => by
    unfold remove_user_loop
    split
    · simp only []
      split
      · split
        · exact ⟨_, rfl⟩
        · exact remove_user_frame db room_id user_id fuel (i + 1)
      · exact remove_user_frame db room_id user_id fuel (i + 1)
    · exact ⟨_, rfl⟩

theorem create_user_inv (db : Database) (username password_hash : List Nat) (role now : Int)
    (hinv : UsersInv db) : UsersInv (db_create_user db username password_hash role now).2 := by
  have hM : MAX_USERS = 1000 := rfl
  by_cases hfull : db.user_count ≥ MAX_USERS
  · rw [create_user_full db username password_hash role now hfull]
    exact hinv
  · by_cases hdup : ∃ u ∈ live_users db, c_str u.username = c_str username
    · rw [create_user_dup db username password_hash role now hinv (by omega) hdup]
      exact hinv
    · rw [create_user_new db username password_hash role now hinv (by omega)
        (fun u hu hc => hdup ⟨u, hu, hc⟩)]
      obtain ⟨hl, h0, h1, hnext, hids, hfree⟩ := hinv
      obtain ⟨n, hn⟩ := Int.eq_ofNat_of_zero_le h0
      have e1 : ((n : Int) + 1).toNat = n + 1 := by omega
      refine ⟨by show (db.users.set _ _).length = 1000; rw [List.length_set]; exact hl,
        by show 0 ≤ db.user_count + 1; omega,
        by show db.user_count + 1 ≤ 1000; omega,
        by show db.next_user_id + 1 = db.user_count + 1 + 1; omega, ?_, ?_⟩
      · unfold live_users at hids ⊢
        simp only [hn, Int.toNat_ofNat, e1] at hids ⊢
        exact ids_append db.users n _ (fun u => u.user_id) (by omega) hids
          (by show db.next_user_id = (n : Int) + 1; omega)
      · intro i hi hi2
        simp only [hn, Int.toNat_ofNat, e1] at hi ⊢
        rw [List.getElem?_set_ne (by omega)]
        exact hfree i (by rw [hn, Int.toNat_ofNat]; omega) hi2

theorem create_message_inv (db : Database) (sender_id room_id : Int)
    (sender_name content : List Nat) (now : Int) (hinv : MessagesInv db) :
    MessagesInv (db_create_message db sender_id room_id sender_name content now).2 := by
  have hM : MAX_MESSAGES = 10000 := rfl
  by_cases hfull : db.message_count ≥ MAX_MESSAGES
  · rw [create_message_full db sender_id room_id sender_name content now hfull]
    exact hinv
  · rw [create_message_new db sender_id room_id sender_name content now hinv (by omega)]
    obtain ⟨hl, h0, h1, hnext, hids, hfree⟩ := hinv
    obtain ⟨n, hn⟩ := Int.eq_ofNat_of_zero_le h0
    have e1 : ((n : Int) + 1).toNat = n + 1 := by omega
    refine ⟨by show (db.messages.set _ _).length = 10000; rw [List.length_set]; exact hl,
      by show 0 ≤ db.message_count + 1; omega,
      by show db.message_count + 1 ≤ 10000; omega,
      by show db.next_message_id + 1 = db.message_count + 1 + 1; omega, ?_, ?_⟩
    · unfold live_messages at hids ⊢
      simp only [hn, Int.toNat_ofNat, e1] at hids ⊢
      exact ids_append db.messages n _ (fun m => m.message_id) (by omega) hids
        (by show db.next_message_id = (n : Int) + 1; omega)
    · intro i hi hi2
      simp only [hn, Int.toNat_ofNat, e1] at hi ⊢
      rw [List.getElem?_set_ne (by omega)]
      exact hfree i (by rw [hn, Int.toNat_ofNat]; omega) hi2

theorem create_room_ids_inv (db : Database) (room_name : List Nat) (created_by now : Int)
    (hinv : StoreInv db) (hids : RoomIdsInv db) :
    RoomIdsInv (db_create_room db room_name created_by now).2 := by
  have hM : MAX_ROOMS = 100 := rfl
  by_cases hfull : db.room_count ≥ MAX_ROOMS
  · rw [create_room_full db room_name created_by now hfull]
    exact hids
  · rw [create_room_new db room_name created_by now hinv hids (by omega)]
    obtain ⟨⟨hl, h0, h1, -, -⟩, hnext, -⟩ := hinv
    obtain ⟨hid, hfree⟩ := hids
    obtain ⟨n, hn⟩ := Int.eq_ofNat_of_zero_le h0
    have e1 : ((n : Int) + 1).toNat = n + 1 := by omega
    refine ⟨?_, ?_⟩
    · unfold live_rooms at hid ⊢
      simp only [hn, Int.toNat_ofNat, e1] at hid ⊢
      exact ids_append db.rooms n _ (fun r => r.room_id) (by omega) hid
        (by show db.next_room_id = (n : Int) + 1; omega)
    · intro i hi hi2
      simp only [hn, Int.toNat_ofNat, e1] at hi ⊢
      rw [List.getElem?_set_ne (by omega)]
      exact hfree i (by rw [hn, Int.toNat_ofNat]; omega) hi2

/-- Replacing a stored room by one of the same id keeps the ids and the free slots. -/
theorem room_ids_inv_set (db : Database) (hids : RoomIdsInv db) (k : Nat) (r r' : ChatRoom)
    (h0 : 0 ≤ db.room_count) (hk : (k : Int) < db.room_count) (hr : db.rooms[k]? = some r)
    (hid : r'.room_id = r.room_id) : RoomIdsInv { db with rooms := db.rooms.set k r' } := by
  obtain ⟨h1, h2⟩ := hids
  refine ⟨?_, ?_⟩
  · unfold live_rooms at h1 ⊢
    exact ids_set db.rooms _ k r' r (fun x => x.room_id) h1 hr hid
  · intro i hi hi2
    show (db.rooms.set k r')[i]? = some room_zero
    have hi' : db.room_count.toNat ≤ i := hi
    rw [List.getElem?_set_ne (by omega)]
    exact h2 i hi' hi2

theorem add_user_ids_inv (db : Database) (room_id user_id : Int) (hwf : StoreWF db)
    (hids : RoomIdsInv db) : RoomIdsInv (db_add_user_to_room db room_id user_id).2 := by
  cases hroom : db_room db room_id with
  | none =>
    rw [add_user_none db room_id user_id hwf hroom]
    exact hids
  | some r =>
    obtain ⟨k, hk, hr, -, -, e⟩ := add_user_some db room_id user_id hwf r hroom
    rw [e]
    split
    · exact hids
    · split
      · exact hids
      · exact room_ids_inv_set db hids k r _ hwf.2.1 hk hr rfl

theorem remove_user_ids_inv (db : Database) (room_id user_id : Int) (hwf : StoreWF db)
    (hids : RoomIdsInv db) : RoomIdsInv (db_remove_user_from_room db room_id user_id).2 := by
  unfold db_remove_user_from_room
  have hz : (0 : Int) = ((0 : Nat) : Int) := rfl
  rw [hz]
  rcases remove_user_loop_spec db room_id user_id hwf db.room_count.toNat 0 (by omega) with
    ⟨e, -⟩ | ⟨k, j, r, -, hk, hr, -, -, -, -, e⟩
  · rw [e]
    exact hids
  · rw [e]
    exact room_ids_inv_set db hids k r _ hwf.2.1 hk hr rfl

theorem update_online_inv (db : Database) (user_id is_online : Int) (hinv : UsersInv db) :
    UsersInv (db_update_user_online_status db user_id is_online).2 := by
  obtain ⟨hl, h0, h1, hnext, hids, hfree⟩ := hinv
  obtain ⟨n, hn⟩ := Int.eq_ofNat_of_zero_le h0
  have h := first_index_array db.users n (by omega) (fun u => decide (u.user_id = user_id))
  have e0 : first_index (fun i => decide ((array_get db.users i).user_id = user_id))
      db.user_count db.user_count.toNat 0
      = first_index (fun i => decide ((array_get db.users i).user_id = user_id))
        (n : Int) n 0 := by
    rw [hn, Int.toNat_ofNat]
  unfold db_update_user_online_status
  rw [e0]
  rcases h with ⟨e, -⟩ | ⟨k, x, e, hk, hx, -, -, -⟩
  · have e' : first_index (fun i => decide ((array_get db.users i).user_id = user_id))
        (n : Int) n 0 = none := e
    rw [e']
    exact ⟨hl, h0, h1, hnext, hids, hfree⟩
  · have e' : first_index (fun i => decide ((array_get db.users i).user_id = user_id))
        (n : Int) n 0 = some (k : Int) := e
    rw [e']
    simp only [array_set_natCast, array_get_of_getElem? hx]
    refine ⟨by show (db.users.set _ _).length = 1000; rw [List.length_set]; exact hl,
      h0, h1, hnext, ?_, ?_⟩
    · unfold live_users at hids ⊢
      exact ids_set db.users _ k _ x (fun u => u.user_id) hids hx rfl
    · intro i hi hi2
      show (db.users.set k _)[i]? = some user_zero
      have hi' : db.user_count.toNat ≤ i := hi
      rw [List.getElem?_set_ne (by omega)]
      exact hfree i hi' hi2

theorem db_inv_init : DbInv db_init := by
  have e1 : live_users db_init = [] := rfl
  have e2 : live_rooms db_init = [] := rfl
  have e3 : live_messages db_init = [] := rfl
  refine ⟨store_inv_init, ⟨List.length_replicate _ _, by decide, by decide, rfl, ?_, ?_⟩,
    ⟨?_, ?_⟩, ⟨List.length_replicate _ _, by decide, by decide, rfl, ?_, ?_⟩⟩
  · intro i u h
    rw [e1] at h
    simp at h
  · intro i _ hi
    show (List.replicate 1000 user_zero)[i]? = some user_zero
    rw [List.getElem?_replicate, if_pos hi]
  · intro i u h
    rw [e2] at h
    simp at h
  · intro i _ hi
    show (List.replicate 100 room_zero)[i]? = some room_zero
    rw [List.getElem?_replicate, if_pos hi]
  · intro i u h
    rw [e3] at h
    simp at h
  · intro i _ hi
    show (List.replicate 10000 message_zero)[i]? = some message_zero
    rw [List.getElem?_replicate, if_pos hi]

/-- Every call of a store function keeps the invariant of the store. -/
theorem store_call_inv (db : Database) (c : StoreCall) (hinv : DbInv db) :
    DbInv (store_call db c) := by
  obtain ⟨hs, hu, hr, hm⟩ := hinv
  cases c with
  | create_user username password_hash role now =>
    obtain ⟨u, c, n, e⟩ := create_user_frame db username password_hash role now
    have f : (db_create_user db username password_hash role now).2.rooms = db.rooms ∧
        (db_create_user db username password_hash role now).2.room_count = db.room_count ∧
        (db_create_user db username password_hash role now).2.next_room_id = db.next_room_id ∧
        (db_create_user db username password_hash role now).2.messages = db.messages ∧
        (db_create_user db username password_hash role now).2.message_count
          = db.message_count ∧
        (db_create_user db username password_hash role now).2.next_message_id
          = db.next_message_id := by
      rw [e]
      exact ⟨rfl, rfl, rfl, rfl, rfl, rfl⟩
    exact ⟨store_inv_congr f.1 f.2.1 f.2.2.1 hs,
      create_user_inv db username password_hash role now hu,
      room_ids_inv_congr f.1 f.2.1 hr,
      messages_inv_congr f.2.2.2.1 f.2.2.2.2.1 f.2.2.2.2.2 hm⟩
  | update_online user_id is_online =>
    obtain ⟨u, e⟩ := update_online_frame db user_id is_online
    have f : (db_update_user_online_status db user_id is_online).2.rooms = db.rooms ∧
        (db_update_user_online_status db user_id is_online).2.room_count = db.room_count ∧
        (db_update_user_online_status db user_id is_online).2.next_room_id
          = db.next_room_id ∧
        (db_update_user_online_status db user_id is_online).2.messages = db.messages ∧
        (db_update_user_online_status db user_id is_online).2.message_count
          = db.message_count ∧
        (db_update_user_online_status db user_id is_online).2.next_message_id
          = db.next_message_id := by
      rw [e]
      exact ⟨rfl, rfl, rfl, rfl, rfl, rfl⟩
    exact ⟨store_inv_congr f.1 f.2.1 f.2.2.1 hs,
      update_online_inv db user_id is_online hu,
      room_ids_inv_congr f.1 f.2.1 hr,
      messages_inv_congr f.2.2.2.1 f.2.2.2.2.1 f.2.2.2.2.2 hm⟩
  | create_room room_name created_by now =>
    obtain ⟨r, c, n, e⟩ := create_room_frame db room_name created_by now
    have f : (db_create_room db room_name created_by now).2.users = db.users ∧
        (db_create_room db room_name created_by now).2.user_count = db.user_count ∧
        (db_create_room db room_name created_by now).2.next_user_id = db.next_user_id ∧
        (db_create_room db room_name created_by now).2.messages = db.messages ∧
        (db_create_room db room_name created_by now).2.message_count = db.message_count ∧
        (db_create_room db room_name created_by now).2.next_message_id
          = db.next_message_id := by
      rw [e]
      exact ⟨rfl, rfl, rfl, rfl, rfl, rfl⟩
    exact ⟨create_room_inv db room_name created_by now hs,
      users_inv_congr f.1 f.2.1 f.2.2.1 hu,
      create_room_ids_inv db room_name created_by now hs hr,
      messages_inv_congr f.2.2.2.1 f.2.2.2.2.1 f.2.2.2.2.2 hm⟩
  | add_user_to_room room_id user_id =>
    obtain ⟨r, e⟩ := add_user_frame db room_id user_id
    have f : (db_add_user_to_room db room_id user_id).2.users = db.users ∧
        (db_add_user_to_room db room_id user_id).2.user_count = db.user_count ∧
        (db_add_user_to_room db room_id user_id).2.next_user_id = db.next_user_id ∧
        (db_add_user_to_room db room_id user_id).2.messages = db.messages ∧
        (db_add_user_to_room db room_id user_id).2.message_count = db.message_count ∧
        (db_add_user_to_room db room_id user_id).2.next_message_id
          = db.next_message_id := by
      rw [e]
      exact ⟨rfl, rfl, rfl, rfl, rfl, rfl⟩
    exact ⟨add_user_inv db room_id user_id hs,
      users_inv_congr f.1 f.2.1 f.2.2.1 hu,
      add_user_ids_inv db room_id user_id hs.1 hr,
      messages_inv_congr f.2.2.2.1 f.2.2.2.2.1 f.2.2.2.2.2 hm⟩
  | remove_user_from_room room_id user_id =>
    obtain ⟨r, e⟩ := remove_user_frame db room_id user_id db.room_count.toNat 0
    have f : (db_remove_user_from_room db room_id user_id).2.users = db.users ∧
        (db_remove_user_from_room db room_id user_id).2.user_count = db.user_count ∧
        (db_remove_user_from_room db room_id user_id).2.next_user_id = db.next_user_id ∧
        (db_remove_user_from_room db room_id user_id).2.messages = db.messages ∧
        (db_remove_user_from_room db room_id user_id).2.message_count = db.message_count ∧
        (db_remove_user_from_room db room_id user_id).2.next_message_id
          = db.next_message_id := by
      unfold db_remove_user_from_room
      rw [e]
      exact ⟨rfl, rfl, rfl, rfl, rfl, rfl⟩
    exact ⟨remove_user_loop_inv db room_id user_id hs _ 0 (le_refl _),
      users_inv_congr f.1 f.2.1 f.2.2.1 hu,
      remove_user_ids_inv db room_id user_id hs.1 hr,
      messages_inv_congr f.2.2.2.1 f.2.2.2.2.1 f.2.2.2.2.2 hm⟩
  | create_message sender_id room_id sender_name content now =>
    obtain ⟨m, c, n, e⟩ := create_message_frame db sender_id room_id sender_name content now
    have f : (db_create_message db sender_id room_id sender_name content now).2.users
          = db.users ∧
        (db_create_message db sender_id room_id sender_name content now).2.user_count
          = db.user_count ∧
        (db_create_message db sender_id room_id sender_name content now).2.next_user_id
          = db.next_user_id ∧
        (db_create_message db sender_id room_id sender_name content now).2.rooms
          = db.rooms ∧
        (db_create_message db sender_id room_id sender_name content now).2.room_count
          = db.room_count ∧
        (db_create_message db sender_id room_id sender_name content now).2.next_room_id
          = db.next_room_id := by
      rw [e]
      exact ⟨rfl, rfl, rfl, rfl, rfl, rfl⟩
    exact ⟨store_inv_congr f.2.2.2.1 f.2.2.2.2.1 f.2.2.2.2.2 hs,
      users_inv_congr f.1 f.2.1 f.2.2.1 hu,
      room_ids_inv_congr f.2.2.2.1 f.2.2.2.2.1 hr,
      create_message_inv db sender_id room_id sender_name content now hm⟩
  | query => exact ⟨hs, hu, hr, hm⟩

/-- Every store reachable from `db_init` by calls of store functions satisfies the
invariant. -/
theorem store_calls_inv (calls : List StoreCall) :
    ∀ db, DbInv db → DbInv (store_calls db calls) := by
  induction calls with
  | nil => intro db h; exact h
  | cons c cs ih =>
    intro db h
    unfold store_calls
    rw [List.foldl_cons]
    exact ih _ (store_call_inv db c h)

/-- The result of `db_create_user` and the next user id: a positive result is the old counter
and the counter is then one more; the counter never decreases. -/
theorem create_user_result (db : Database) (username password_hash : List Nat)
    (role now : Int) (hinv : UsersInv db) :
    db.next_user_id ≤ (db_create_user db username password_hash role now).2.next_user_id ∧
    ((db_create_user db username password_hash role now).1 > 0 →
      (db_create_user db username password_hash role now).1 = db.next_user_id ∧
      (db_create_user db username password_hash role now).2.next_user_id
        = db.next_user_id + 1) := by
  have hM : MAX_USERS = 1000 := rfl
  by_cases hfull : db.user_count ≥ MAX_USERS
  · rw [create_user_full db username password_hash role now hfull]
    exact ⟨le_refl _, fun h => absurd h (by show ¬ ((-1 : Int) > 0); decide)⟩
  · by_cases hdup : ∃ u ∈ live_users db, c_str u.username = c_str username
    · rw [create_user_dup db username password_hash role now hinv (by omega) hdup]
      exact ⟨le_refl _, fun h => absurd h (by show ¬ ((-2 : Int) > 0); decide)⟩
    · rw [create_user_new db username password_hash role now hinv (by omega)
        (fun u hu hc => hdup ⟨u, hu, hc⟩)]
      refine ⟨?_, fun _ => ⟨rfl, rfl⟩⟩
      show db.next_user_id ≤ db.next_user_id + 1
      omega

theorem create_room_result (db : Database) (room_name : List Nat) (created_by now : Int)
    (hinv : StoreInv db) (hids : RoomIdsInv db) :
    db.next_room_id ≤ (db_create_room db room_name created_by now).2.next_room_id ∧
    ((db_create_room db room_name created_by now).1 > 0 →
      (db_create_room db room_name created_by now).1 = db.next_room_id ∧
      (db_create_room db room_name created_by now).2.next_room_id = db.next_room_id + 1) := by
  have hM : MAX_ROOMS = 100 := rfl
  by_cases hfull : db.room_count ≥ MAX_ROOMS
  · rw [create_room_full db room_name created_by now hfull]
    exact ⟨le_refl _, fun h => absurd h (by show ¬ ((-1 : Int) > 0); decide)⟩
  · rw [create_room_new db room_name created_by now hinv hids (by omega)]
    refine ⟨?_, fun _ => ⟨rfl, rfl⟩⟩
    show db.next_room_id ≤ db.next_room_id + 1
    omega

theorem create_message_result (db : Database) (sender_id room_id : Int)
    (sender_name content : List Nat) (now : Int) (hinv : MessagesInv db) :
    db.next_message_id
      ≤ (db_create_message db sender_id room_id sender_name content now).2.next_message_id ∧
    ((db_create_message db sender_id room_id sender_name content now).1 > 0 →
      (db_create_message db sender_id room_id sender_name content now).1
        = db.next_message_id ∧
      (db_create_message db sender_id room_id sender_name content now).2.next_message_id
        = db.next_message_id + 1) := by
  have hM : MAX_MESSAGES = 10000 := rfl
  by_cases hfull : db.message_count ≥ MAX_MESSAGES
  · rw [create_message_full db sender_id room_id sender_name content now hfull]
    exact ⟨le_refl _, fun h => absurd h (by show ¬ ((-1 : Int) > 0); decide)⟩
  · rw [create_message_new db sender_id room_id sender_name content now hinv (by omega)]
    refine ⟨?_, fun _ => ⟨rfl, rfl⟩⟩
    show db.next_message_id ≤ db.next_message_id + 1
    omega

/-- No call decreases a next-id counter. -/
theorem next_id_mono (t : Table) (db : Database) (c : StoreCall) (hinv : DbInv db) :
    next_id t db ≤ next_id t (store_call db c) := by
  obtain ⟨hs, hu, hr, hm⟩ := hinv
  cases c with
  | create_user username password_hash role now =>
    obtain ⟨u, c, n, e⟩ := create_user_frame db username password_hash role now
    cases t with
    | users => exact (create_user_result db username password_hash role now hu).1
    | rooms =>
      show db.next_room_id ≤ (db_create_user db username password_hash role now).2.next_room_id
      rw [e]
    | messages =>
      show db.next_message_id
        ≤ (db_create_user db username password_hash role now).2.next_message_id
      rw [e]
  | update_online user_id is_online =>
    obtain ⟨u, e⟩ := update_online_frame db user_id is_online
    cases t with
    | users =>
      show db.next_user_id ≤ (db_update_user_online_status db user_id is_online).2.next_user_id
      rw [e]
    | rooms =>
      show db.next_room_id ≤ (db_update_user_online_status db user_id is_online).2.next_room_id
      rw [e]
    | messages =>
      show db.next_message_id
        ≤ (db_update_user_online_status db user_id is_online).2.next_message_id
      rw [e]
  | create_room room_name created_by now =>
    obtain ⟨r, c, n, e⟩ := create_room_frame db room_name created_by now
    cases t with
    | users =>
      show db.next_user_id ≤ (db_create_room db room_name created_by now).2.next_user_id
      rw [e]
    | rooms => exact (create_room_result db room_name created_by now hs hr).1
    | messages =>
      show db.next_message_id ≤ (db_create_room db room_name created_by now).2.next_message_id
      rw [e]
  | add_user_to_room room_id user_id =>
    obtain ⟨r, e⟩ := add_user_frame db room_id user_id
    cases t with
    | users =>
      show db.next_user_id ≤ (db_add_user_to_room db room_id user_id).2.next_user_id
      rw [e]
    | rooms =>
      show db.next_room_id ≤ (db_add_user_to_room db room_id user_id).2.next_room_id
      rw [e]
    | messages =>
      show db.next_message_id ≤ (db_add_user_to_room db room_id user_id).2.next_message_id
      rw [e]
  | remove_user_from_room room_id user_id =>
    obtain ⟨r, e⟩ := remove_user_frame db room_id user_id db.room_count.toNat 0
    cases t with
    | users =>
      show db.next_user_id
        ≤ (remove_user_loop db room_id user_id db.room_count.toNat 0).2.next_user_id
      rw [e]
    | rooms =>
      show db.next_room_id
        ≤ (remove_user_loop db room_id user_id db.room_count.toNat 0).2.next_room_id
      rw [e]
    | messages =>
      show db.next_message_id
        ≤ (remove_user_loop db room_id user_id db.room_count.toNat 0).2.next_message_id
      rw [e]
  | create_message sender_id room_id sender_name content now =>
    obtain ⟨m, c, n, e⟩ := create_message_frame db sender_id room_id sender_name content now
    cases t with
    | users =>
      show db.next_user_id
        ≤ (db_create_message db sender_id room_id sender_name content now).2.next_user_id
      rw [e]
    | rooms =>
      show db.next_room_id
        ≤ (db_create_message db sender_id room_id sender_name content now).2.next_room_id
      rw [e]
    | messages =>
      exact (create_message_result db sender_id room_id sender_name content now hm).1
  | query => exact le_refl _

/-- A successful creation returns the next id of its table, and the counter is then one more
than the returned id. -/
theorem created_id_spec (t : Table) (db : Database) (c : StoreCall) (hinv : DbInv db)
    (id : Int) (h : created_id t db c = some id) :
    id = next_id t db ∧ next_id t (store_call db c) = id + 1 := by
  obtain ⟨hs, hu, hr, hm⟩ := hinv
  cases t with
  | users =>
    cases c with
    | create_user username password_hash role now =>
      simp only [created_id] at h
      by_cases hpos : (db_create_user db username password_hash role now).1 > 0
      · rw [if_pos hpos] at h
        cases h
        obtain ⟨a, b⟩ := (create_user_result db username password_hash role now hu).2 hpos
        exact ⟨a, by rw [a]; exact b⟩
      · rw [if_neg hpos] at h
        cases h
    | _ => simp [created_id] at h
  | rooms =>
    cases c with
    | create_room room_name created_by now =>
      simp only [created_id] at h
      by_cases hpos : (db_create_room db room_name created_by now).1 > 0
      · rw [if_pos hpos] at h
        cases h
        obtain ⟨a, b⟩ := (create_room_result db room_name created_by now hs hr).2 hpos
        exact ⟨a, by rw [a]; exact b⟩
      · rw [if_neg hpos] at h
        cases h
    | _ => simp [created_id] at h
  | messages =>
    cases c with
    | create_message sender_id room_id sender_name content now =>
      simp only [created_id] at h
      by_cases hpos : (db_create_message db sender_id room_id sender_name content now).1 > 0
      · rw [if_pos hpos] at h
        cases h
        obtain ⟨a, b⟩ :=
          (create_message_result db sender_id room_id sender_name content now hm).2 hpos
        exact ⟨a, by rw [a]; exact b⟩
      · rw [if_neg hpos] at h
        cases h
    | _ => simp [created_id] at h

/-- The identifiers returned by the successful creations of a run are strictly increasing, and
none is below the next-id counter at the start of the run. -/
theorem created_ids_increasing (t : Table) :
    ∀ (calls : List StoreCall) (db : Database), DbInv db →
      (created_ids t db calls).Pairwise (fun a b => a < b) ∧
      ∀ x ∈ created_ids t db calls, next_id t db ≤ x
  | [], _, _ => ⟨List.Pairwise.nil, fun x hx => by simp [created_ids] at hx⟩
  | c :: cs, db, hinv => by
    obtain ⟨ih1, ih2⟩ := created_ids_increasing t cs (store_call db c) (store_call_inv db c hinv)
    have hmono := next_id_mono t db c hinv
    unfold created_ids
    cases hc : created_id t db c with
    | none =>
      simp only [Option.toList, List.nil_append]
      exact ⟨ih1, fun x hx => le_trans hmono (ih2 x hx)⟩
    | some id =>
      obtain ⟨a, b⟩ := created_id_spec t db c hinv id hc
      simp only [Option.toList, List.singleton_append]
      refine ⟨List.Pairwise.cons ?_ ih1, ?_⟩
      · intro x hx
        have := ih2 x hx
        omega
      · intro x hx
        rcases List.mem_cons.1 hx with h | h
        · omega
        · have := ih2 x h
          omega

/-- In a store that satisfies the invariant, the identifiers stored in a table are strictly
increasing with the table index and below the next-id counter. -/
theorem stored_ids_increasing (t : Table) (db : Database) (hinv : DbInv db) :
    (stored_ids t db).Pairwise (fun a b => a < b) ∧
    ∀ x ∈ stored_ids t db, x < next_id t db := by
  obtain ⟨hs, hu, hr, hm⟩ := hinv
  cases t with
  | users =>
    obtain ⟨hl, h0, h1, hnext, hids, -⟩ := hu
    obtain ⟨p1, p2⟩ := ids_pairwise (live_users db) (fun u => u.user_id) hids
    refine ⟨p1, fun x hx => ?_⟩
    have := p2 x hx
    have hlen : (live_users db).length = db.user_count.toNat := by
      unfold live_users
      rw [List.length_take]
      omega
    show x < db.next_user_id
    omega
  | rooms =>
    obtain ⟨⟨hl, h0, h1, -, -⟩, hnext, -⟩ := hs
    obtain ⟨p1, p2⟩ := ids_pairwise (live_rooms db) (fun r => r.room_id) hr.1
    refine ⟨p1, fun x hx => ?_⟩
    have := p2 x hx
    have hlen : (live_rooms db).length = db.room_count.toNat := by
      unfold live_rooms
      rw [List.length_take]
      omega
    show x < db.next_room_id
    omega
  | messages =>
    obtain ⟨hl, h0, h1, hnext, hids, -⟩ := hm
    obtain ⟨p1, p2⟩ := ids_pairwise (live_messages db) (fun m => m.message_id) hids
    refine ⟨p1, fun x hx => ?_⟩
    have := p2 x hx
    have hlen : (live_messages db).length = db.message_count.toNat := by
      unfold live_messages
      rw [List.length_take]
      omega
    show x < db.next_message_id
    omega

/-- The call `db_remove_user_from_room` in a table with pairwise distinct room ids, when the
room with the id holds the user: the user id is deleted from its member list. -/
theorem remove_user_found (db : Database) (room_id user_id : Int) (hwf : StoreWF db)
    (hids : ((live_rooms db).map (fun r => r.room_id)).Nodup) (r : ChatRoom)
    (hroom : db_room db room_id = some r) (hin : user_id ∈ room_members r) :
    (db_remove_user_from_room db room_id user_id).1 = 0 ∧
    ∃ r', db_room (db_remove_user_from_room db room_id user_id).2 room_id = some r' ∧
      r'.current_user_count = r.current_user_count - 1 ∧
      room_members r' = (room_members r).erase user_id := by
  have hrmem : r ∈ live_rooms db := List.mem_of_find?_eq_some hroom
  have hrid : r.room_id = room_id := by
    have := List.find?_some hroom
    simpa using this
  unfold db_remove_user_from_room
  have hz : (0 : Int) = ((0 : Nat) : Int) := rfl
  rw [hz]
  rcases remove_user_loop_spec db room_id user_id hwf db.room_count.toNat 0 (by omega) with
    ⟨-, hno⟩ | ⟨k, j, r0, -, hk, hr0, hid0, hj, hjf, hkf, e⟩
  · obtain ⟨k, hk⟩ := List.mem_iff_getElem?.1 hrmem
    exact absurd hin (hno k r (Nat.zero_le _) hk hrid)
  · have hr0mem := live_rooms_mem db k r0 hk hr0
    have heq : r0 = r :=
      List.inj_on_of_nodup_map hids hr0mem hrmem (by rw [hid0, hrid])
    subst heq
    rw [e]
    obtain ⟨hmax, hc0, hc1⟩ := hwf.2.2.2.2 r0 hr0mem
    have hlen := hwf.2.2.2.1 r0 (List.getElem?_mem hr0)
    obtain ⟨n, hn⟩ := Int.eq_ofNat_of_zero_le hc0
    have hjn : j < n := by
      have := (List.getElem?_eq_some_iff.1 hj).1
      unfold room_members at this
      rw [List.length_take, hn, Int.toNat_ofNat] at this
      omega
    refine ⟨rfl, { r0 with
      user_ids := shift_down r0.current_user_count r0.current_user_count.toNat (j : Int)
        r0.user_ids,
      current_user_count := r0.current_user_count - 1 }, ?_, rfl, ?_⟩
    · refine db_room_set db room_id hwf k { r0 with
        user_ids := shift_down r0.current_user_count r0.current_user_count.toNat (j : Int)
          r0.user_ids,
        current_user_count := r0.current_user_count - 1 } hk ?_ hid0
      intro k' y hk' hy hidy
      have hymem := live_rooms_mem db k' y (by omega) hy
      have hy0 : y = r0 := List.inj_on_of_nodup_map hids hymem hr0mem (by rw [hidy, hid0])
      subst hy0
      exact hkf k' y (Nat.zero_le _) hk' hy hidy (List.getElem?_mem hj)
    · show List.take (r0.current_user_count - 1).toNat
          (shift_down r0.current_user_count r0.current_user_count.toNat (j : Int) r0.user_ids)
        = (room_members r0).erase user_id
      rw [← eraseIdx_first user_id (room_members r0) j hj hjf]
      unfold room_members
      rw [hn, Int.toNat_ofNat]
      have e1 : ((n : Int) - 1).toNat = n - 1 := by omega
      rw [e1]
      exact take_shift_down n j r0.user_ids (by omega) (by omega) hjn

/-- The call `db_remove_user_from_room` in a table with pairwise distinct room ids, when no
stored room has the id or the room with the id does not hold the user: the result is -1 and the
store is unchanged. -/
theorem remove_user_absent (db : Database) (room_id user_id : Int) (hwf : StoreWF db)
    (hids : ((live_rooms db).map (fun r => r.room_id)).Nodup)
    (habs : ∀ r, db_room db room_id = some r → user_id ∉ room_members r) :
    db_remove_user_from_room db room_id user_id = (-1, db) := by
  unfold db_remove_user_from_room
  have hz : (0 : Int) = ((0 : Nat) : Int) := rfl
  rw [hz]
  rcases remove_user_loop_spec db room_id user_id hwf db.room_count.toNat 0 (by omega) with
    ⟨e, -⟩ | ⟨k, j, r0, -, hk, hr0, hid0, hj, -, -, -⟩
  · exact e
  · exfalso
    have hr0mem := live_rooms_mem db k r0 hk hr0
    cases hroom : db_room db room_id with
    | none =>
      unfold db_room at hroom
      rw [List.find?_eq_none] at hroom
      have := hroom r0 hr0mem
      simp [hid0] at this
    | some r =>
      have hrmem : r ∈ live_rooms db := List.mem_of_find?_eq_some hroom
      have hrid : r.room_id = room_id := by
        have := List.find?_some hroom
        simpa using this
      have heq : r0 = r :=
        List.inj_on_of_nodup_map hids hr0mem hrmem (by rw [hid0, hrid])
      subst heq
      exact habs r0 hroom (List.getElem?_mem hj)

/-- In a store that satisfies the invariant the room ids are pairwise distinct. -/
theorem room_ids_nodup (db : Database) (hinv : DbInv db) :
    ((live_rooms db).map (fun r => r.room_id)).Nodup :=
  List.Pairwise.imp (fun h => ne_of_lt h) (stored_ids_increasing Table.rooms db hinv).1

/-- The stored messages from index `i` on, for an index below `message_count`. -/
theorem live_messages_drop (db : Database) (hl : db.messages.length = 10000)
    (h0 : 0 ≤ db.message_count) (h1 : db.message_count ≤ 10000) (i : Nat)
    (hi : (i : Int) < db.message_count) :
    ∃ m, db.messages[i]? = some m ∧
      (live_messages db).drop i = m :: (live_messages db).drop (i + 1) := by
  have hlt : i < db.messages.length := by omega
  have hlen : i < (live_messages db).length := by
    unfold live_messages
    rw [List.length_take]
    omega
  refine ⟨db.messages[i], List.getElem?_eq_getElem hlt, ?_⟩
  rw [List.drop_eq_getElem_cons hlen]
  congr 1
  unfold live_messages
  rw [List.getElem_take]

theorem live_messages_drop_nil (db : Database) (i : Nat)
    (hi : ¬ (i : Int) < db.message_count) : (live_messages db).drop i = [] := by
  apply List.drop_eq_nil_of_le
  unfold live_messages
  rw [List.length_take]
  omega

/-- The first loop of `db_get_room_messages` counts the messages of the room. -/
theorem count_room_messages_spec (db : Database) (room_id : Int)
    (hl : db.messages.length = 10000) (h0 : 0 ≤ db.message_count)
    (h1 : db.message_count ≤ 10000) :
    ∀ (fuel i : Nat) (acc : Int), db.message_count.toNat ≤ i + fuel → 0 ≤ acc →
      acc ≤ (i : Int) →
      count_room_messages db room_id fuel (i : Int) acc
        = acc + ((((live_messages db).drop i).filter
            (fun m => m.room_id = room_id)).length : Int)
  | 0, i, acc, hfuel, _, _ => by
    rw [live_messages_drop_nil db i (by omega)]
    simp [count_room_messages]
  | fuel + 1, i, acc, hfuel, hacc0, hacc => by
    have hcast : ((i : Int) + 1) = ((i + 1 : Nat) : Int) := by push_cast; rfl
    unfold count_room_messages
    by_cases hlt : (i : Int) < db.message_count
    · rw [if_pos hlt]
      obtain ⟨m, hm, hdrop⟩ := live_messages_drop db hl h0 h1 i hlt
      rw [hdrop, array_get_of_getElem? hm, hcast]
      by_cases hid : m.room_id = room_id
      · rw [if_pos hid, int32_eq_self (by omega) (by omega),
          count_room_messages_spec db room_id hl h0 h1 fuel (i + 1) (acc + 1) (by omega)
            (by omega) (by push_cast; omega),
          List.filter_cons_of_pos (by simpa using hid), List.length_cons]
        push_cast
        omega
      · rw [if_neg hid,
          count_room_messages_spec db room_id hl h0 h1 fuel (i + 1) acc (by omega) hacc0
            (by push_cast; omega),
          List.filter_cons_of_neg (by simpa using hid)]
    · rw [if_neg hlt, live_messages_drop_nil db i hlt]
      simp

/-- The second loop of `db_get_room_messages` copies the messages of the room after the first
`start_idx` of them. -/
theorem copy_room_messages_spec (db : Database) (room_id start_idx : Int)
    (hl : db.messages.length = 10000) (h0 : 0 ≤ db.message_count)
    (h1 : db.message_count ≤ 10000) :
    ∀ (fuel i : Nat) (result : List Message) (skipped : Int),
      db.message_count.toNat ≤ i + fuel → 0 ≤ skipped → skipped ≤ (i : Int) →
      copy_room_messages db room_id start_idx fuel (i : Int) result skipped
        = result ++ (((live_messages db).drop i).filter
            (fun m => m.room_id = room_id)).drop (start_idx - skipped).toNat
  | 0, i, result, skipped, hfuel, _, _ => by
    rw [live_messages_drop_nil db i (by omega)]
    simp [copy_room_messages]
  | fuel + 1, i, result, skipped, hfuel, hs0, hs => by
    have hcast : ((i : Int) + 1) = ((i + 1 : Nat) : Int) := by push_cast; rfl
    unfold copy_room_messages
    by_cases hlt : (i : Int) < db.message_count
    · rw [if_pos hlt]
      obtain ⟨m, hm, hdrop⟩ := live_messages_drop db hl h0 h1 i hlt
      rw [hdrop, array_get_of_getElem? hm, hcast]
      by_cases hid : m.room_id = room_id
      · rw [if_pos hid, int32_eq_self (by omega) (by omega),
          copy_room_messages_spec db room_id start_idx hl h0 h1 fuel (i + 1) _ (skipped + 1)
            (by omega) (by omega) (by push_cast; omega),
          List.filter_cons_of_pos (by simpa using hid)]
        by_cases hge : skipped ≥ start_idx
        · rw [if_pos hge]
          have e1 : (start_idx - skipped).toNat = 0 := by omega
          have e2 : (start_idx - (skipped + 1)).toNat = 0 := by omega
          rw [e1, e2, List.drop_zero, List.drop_zero, List.append_assoc]
          rfl
        · rw [if_neg hge]
          have e1 : (start_idx - skipped).toNat = (start_idx - (skipped + 1)).toNat + 1 := by
            omega
          rw [e1, List.drop_succ_cons]
      · rw [if_neg hid,
          copy_room_messages_spec db room_id start_idx hl h0 h1 fuel (i + 1) result skipped
            (by omega) hs0 (by push_cast; omega),
          List.filter_cons_of_neg (by simpa using hid)]
    · rw [if_neg hlt, live_messages_drop_nil db i hlt]
      simp

/-- The value of `db_get_room_messages` when the allocation succeeds. -/
theorem get_room_messages_eq (malloc : Nat → Bool) (db : Database) (room_id limit : Int)
    (hl : db.messages.length = 10000) (h0 : 0 ≤ db.message_count)
    (h1 : db.message_count ≤ 10000) (hm : ∀ n, malloc n = true) :
    db_get_room_messages malloc db room_id limit
      = if limit > 0 ∧ ((room_messages db room_id).length : Int) > limit
        then (some ((room_messages db room_id).drop
               ((room_messages db room_id).length - limit.toNat)), limit)
        else (some (room_messages db room_id), ((room_messages db room_id).length : Int)) := by
  have hcount := count_room_messages_spec db room_id hl h0 h1 db.message_count.toNat 0 0
    (by omega) (le_refl _) (le_refl _)
  unfold room_messages
  have hlen : (List.filter (fun m => decide (m.room_id = room_id)) (live_messages db)).length
      ≤ 10000 := by
    refine le_trans (List.length_filter_le _ _) ?_
    unfold live_messages
    rw [List.length_take]
    omega
  rw [List.drop_zero, Int.zero_add] at hcount
  have hcopy := fun s => copy_room_messages_spec db room_id s hl h0 h1 db.message_count.toNat 0
    [] 0 (by omega) (le_refl _) (le_refl _)
  have hz : ((0 : Nat) : Int) = 0 := rfl
  rw [hz] at hcount hcopy
  unfold db_get_room_messages
  simp only [hm, Bool.true_eq_false, if_false]
  rw [hcount, hcopy]
  by_cases hw : limit > 0 ∧
      ((List.filter (fun m => decide (m.room_id = room_id)) (live_messages db)).length : Int)
        > limit
  · rw [if_pos hw, if_pos hw, if_pos hw, int32_eq_self (by omega) (by omega)]
    simp only [List.drop_zero, List.nil_append, Int.sub_zero]
    have e : ((((List.filter (fun m => decide (m.room_id = room_id))
        (live_messages db)).length : Int) - limit).toNat)
        = (List.filter (fun m => decide (m.room_id = room_id)) (live_messages db)).length
          - limit.toNat := by
      omega
    rw [e]
  · rw [if_neg hw, if_neg hw, if_neg hw]
    simp only [List.drop_zero, List.nil_append, Int.sub_zero]
    rfl

/-- A successful `db_create_user` stores the new user, with the truncated strings, at the index
of the old `user_count`. -/
theorem create_user_stored (db : Database) (username password_hash : List Nat)
    (role now : Int) (hinv : UsersInv db)
    (hpos : 0 < (db_create_user db username password_hash role now).1) :
    array_get (db_create_user db username password_hash role now).2.users db.user_count
      = { user_id := db.next_user_id,
          username := strncpy (List.replicate 50 0) username 49,
          password_hash := strncpy (List.replicate 65 0) password_hash 64,
          role := role, current_room_id := -1, created_at := now, is_active := 1,
          is_online := 0 } := by
  have hM : MAX_USERS = 1000 := rfl
  by_cases hfull : db.user_count ≥ MAX_USERS
  · rw [create_user_full db username password_hash role now hfull] at hpos
    exact absurd hpos (by show ¬ ((0 : Int) < -1); decide)
  · by_cases hdup : ∃ u ∈ live_users db, c_str u.username = c_str username
    · rw [create_user_dup db username password_hash role now hinv (by omega) hdup] at hpos
      exact absurd hpos (by show ¬ ((0 : Int) < -2); decide)
    · rw [create_user_new db username password_hash role now hinv (by omega)
        (fun u hu hc => hdup ⟨u, hu, hc⟩)]
      obtain ⟨hl, h0, h1, -, -, -⟩ := hinv
      obtain ⟨n, hn⟩ := Int.eq_ofNat_of_zero_le h0
      simp only [hn, Int.toNat_ofNat]
      exact array_get_of_getElem? (List.getElem?_set_self (by omega))

/-- Below capacity `db_create_room` returns the next room id, which is positive, and stores
the new room at the index of the old `room_count`. -/
theorem create_room_stored (db : Database) (room_name : List Nat) (created_by now : Int)
    (hinv : StoreInv db) (hids : RoomIdsInv db) (hroom : db.room_count < MAX_ROOMS) :
    (db_create_room db room_name created_by now).1 = db.next_room_id ∧
    0 < db.next_room_id ∧
    (db_create_room db room_name created_by now).2.room_count = db.room_count + 1 ∧
    array_get (db_create_room db room_name created_by now).2.rooms db.room_count
      = { room_id := db.next_room_id,
          room_name := strncpy (List.replicate 100 0) room_name 99,
          created_by := created_by, max_users := 50, current_user_count := 0,
          user_ids := List.replicate 50 0, created_at := now, is_active := 1 } := by
  have hM : MAX_ROOMS = 100 := rfl
  rw [create_room_new db room_name created_by now hinv hids hroom]
  obtain ⟨⟨hl, h0, h1, -, -⟩, hnext, -⟩ := hinv
  obtain ⟨n, hn⟩ := Int.eq_ofNat_of_zero_le h0
  refine ⟨rfl, by omega, rfl, ?_⟩
  simp only [hn, Int.toNat_ofNat]
  exact array_get_of_getElem? (List.getElem?_set_self (by omega))

/-- Below capacity `db_create_message` returns the next message id, which is positive, and
stores the new message at the index of the old `message_count`. -/
theorem create_message_stored (db : Database) (sender_id room_id : Int)
    (sender_name content : List Nat) (now : Int) (hinv : MessagesInv db)
    (hroom : db.message_count < MAX_MESSAGES) :
    (db_create_message db sender_id room_id sender_name content now).1
      = db.next_message_id ∧
    0 < db.next_message_id ∧
    (db_create_message db sender_id room_id sender_name content now).2.message_count
      = db.message_count + 1 ∧
    array_get (db_create_message db sender_id room_id sender_name content now).2.messages
        db.message_count
      = { message_id := db.next_message_id, sender_id := sender_id, room_id := room_id,
          sender_name := strncpy (List.replicate 50 0) sender_name 49,
          content := strncpy (List.replicate 1024 0) content 1023,
          timestamp := now } := by
  have hM : MAX_MESSAGES = 10000 := rfl
  rw [create_message_new db sender_id room_id sender_name content now hinv hroom]
  obtain ⟨hl, h0, h1, hnext, -, -⟩ := hinv
  obtain ⟨n, hn⟩ := Int.eq_ofNat_of_zero_le h0
  refine ⟨rfl, by omega, rfl, ?_⟩
  simp only [hn, Int.toNat_ofNat]
  exact array_get_of_getElem? (List.getElem?_set_self (by omega))

/-- No call changes a stored message or decreases `message_count`. -/
theorem store_call_messages (db : Database) (c : StoreCall) (hinv : DbInv db) (i : Nat)
    (m : Message) (hi : (i : Int) < db.message_count) (hm : db.messages[i]? = some m) :
    (store_call db c).messages[i]? = some m ∧
    db.message_count ≤ (store_call db c).message_count := by
  obtain ⟨-, -, -, hmi⟩ := hinv
  cases c with
  | create_user username password_hash role now =>
    obtain ⟨u, c, n, e⟩ := create_user_frame db username password_hash role now
    show (db_create_user db username password_hash role now).2.messages[i]? = some m ∧
      db.message_count ≤ (db_create_user db username password_hash role now).2.message_count
    rw [e]
    exact ⟨hm, le_refl _⟩
  | update_online user_id is_online =>
    obtain ⟨u, e⟩ := update_online_frame db user_id is_online
    show (db_update_user_online_status db user_id is_online).2.messages[i]? = some m ∧
      db.message_count ≤ (db_update_user_online_status db user_id is_online).2.message_count
    rw [e]
    exact ⟨hm, le_refl _⟩
  | create_room room_name created_by now =>
    obtain ⟨r, c, n, e⟩ := create_room_frame db room_name created_by now
    show (db_create_room db room_name created_by now).2.messages[i]? = some m ∧
      db.message_count ≤ (db_create_room db room_name created_by now).2.message_count
    rw [e]
    exact ⟨hm, le_refl _⟩
  | add_user_to_room room_id user_id =>
    obtain ⟨r, e⟩ := add_user_frame db room_id user_id
    show (db_add_user_to_room db room_id user_id).2.messages[i]? = some m ∧
      db.message_count ≤ (db_add_user_to_room db room_id user_id).2.message_count
    rw [e]
    exact ⟨hm, le_refl _⟩
  | remove_user_from_room room_id user_id =>
    obtain ⟨r, e⟩ := remove_user_frame db room_id user_id db.room_count.toNat 0
    show (remove_user_loop db room_id user_id db.room_count.toNat 0).2.messages[i]? = some m ∧
      db.message_count
        ≤ (remove_user_loop db room_id user_id db.room_count.toNat 0).2.message_count
    rw [e]
    exact ⟨hm, le_refl _⟩
  | create_message sender_id room_id sender_name content now =>
    have hM : MAX_MESSAGES = 10000 := rfl
    show (db_create_message db sender_id room_id sender_name content now).2.messages[i]?
        = some m ∧
      db.message_count
        ≤ (db_create_message db sender_id room_id sender_name content now).2.message_count
    by_cases hfull : db.message_count ≥ MAX_MESSAGES
    · rw [create_message_full db sender_id room_id sender_name content now hfull]
      exact ⟨hm, le_refl _⟩
    · rw [create_message_new db sender_id room_id sender_name content now hmi (by omega)]
      obtain ⟨hl, h0, h1, -, -, -⟩ := hmi
      refine ⟨?_, ?_⟩
      · show (db.messages.set db.message_count.toNat _)[i]? = some m
        rw [List.getElem?_set_ne (by omega)]
        exact hm
      · show db.message_count ≤ db.message_count + 1
        omega
  | query => exact ⟨hm, le_refl _⟩

theorem map_set_same {α β : Type} (f : α → β) (l : List α) (k : Nat) (x x' : α)
    (hk : l[k]? = some x) (hf : f x' = f x) : (l.set k x').map f = l.map f := by
  apply List.ext_getElem?
  intro i
  rw [List.getElem?_map, List.getElem?_map]
  by_cases hik : k = i
  · subst hik
    have hlt : k < l.length := (List.getElem?_eq_some_iff.1 hk).1
    rw [List.getElem?_set_self hlt, hk]
    simp [hf]
  · rw [List.getElem?_set_ne hik]

/-- The value of `db_update_user_online_status`: the store is unchanged, or one stored user
has its `is_online` field replaced. -/
theorem update_online_eq (db : Database) (user_id is_online : Int) (hinv : UsersInv db) :
    (db_update_user_online_status db user_id is_online).2 = db ∨
    ∃ (k : Nat) (x : User), db.users[k]? = some x ∧
      (db_update_user_online_status db user_id is_online).2
        = { db with users := db.users.set k { x with is_online := is_online } } := by
  obtain ⟨hl, h0, h1, -, -, -⟩ := hinv
  obtain ⟨n, hn⟩ := Int.eq_ofNat_of_zero_le h0
  have h := first_index_array db.users n (by omega) (fun u => decide (u.user_id = user_id))
  have e0 : first_index (fun i => decide ((array_get db.users i).user_id = user_id))
      db.user_count db.user_count.toNat 0
      = first_index (fun i => decide ((array_get db.users i).user_id = user_id))
        (n : Int) n 0 := by
    rw [hn, Int.toNat_ofNat]
  unfold db_update_user_online_status
  rw [e0]
  rcases h with ⟨e, -⟩ | ⟨k, x, e, hk, hx, -, -, -⟩
  · have e' : first_index (fun i => decide ((array_get db.users i).user_id = user_id))
        (n : Int) n 0 = none := e
    rw [e']
    exact Or.inl rfl
  · have e' : first_index (fun i => decide ((array_get db.users i).user_id = user_id))
        (n : Int) n 0 = some (k : Int) := e
    rw [e']
    simp only [array_set_natCast, array_get_of_getElem? hx]
    exact Or.inr ⟨k, x, hx, rfl⟩

/-- A call with a username of at most 49 characters keeps the stored usernames pairwise
distinct. -/
theorem store_call_names (db : Database) (c : StoreCall) (hinv : DbInv db)
    (hshort : short_username c)
    (hnd : ((live_users db).map (fun u => c_str u.username)).Nodup) :
    ((live_users (store_call db c)).map (fun u => c_str u.username)).Nodup := by
  obtain ⟨-, hu, -, -⟩ := hinv
  cases c with
  | create_user username password_hash role now =>
    have hM : MAX_USERS = 1000 := rfl
    show ((live_users (db_create_user db username password_hash role now).2).map
      (fun u => c_str u.username)).Nodup
    by_cases hfull : db.user_count ≥ MAX_USERS
    · rw [create_user_full db username password_hash role now hfull]
      exact hnd
    · by_cases hdup : ∃ u ∈ live_users db, c_str u.username = c_str username
      · rw [create_user_dup db username password_hash role now hu (by omega) hdup]
        exact hnd
      · rw [create_user_new db username password_hash role now hu (by omega)
          (fun u hu hc => hdup ⟨u, hu, hc⟩)]
        obtain ⟨hl, h0, h1, -, -, -⟩ := hu
        obtain ⟨n, hn⟩ := Int.eq_ofNat_of_zero_le h0
        have e1 : ((n : Int) + 1).toNat = n + 1 := by omega
        have hlive : live_users db = db.users.take n := by
          unfold live_users
          rw [hn, Int.toNat_ofNat]
        unfold live_users
        simp only [hn, Int.toNat_ofNat, e1]
        rw [take_succ_set db.users n _ (by omega), List.map_append, ← hlive,
          List.nodup_append]
        refine ⟨hnd, List.nodup_singleton _, ?_⟩
        intro x hx hx'
        simp only [List.map_cons, List.map_nil, List.mem_singleton] at hx'
        rw [(c_str_strncpy username 49).2, List.take_of_length_le hshort] at hx'
        obtain ⟨u, hu1, hu2⟩ := List.mem_map.1 hx
        exact hdup ⟨u, hu1, by rw [← hx', ← hu2]⟩
  | update_online user_id is_online =>
    show ((live_users (db_update_user_online_status db user_id is_online).2).map
      (fun u => c_str u.username)).Nodup
    rcases update_online_eq db user_id is_online hu with e | ⟨k, x, hx, e⟩
    · rw [e]
      exact hnd
    · rw [e]
      unfold live_users at hnd ⊢
      show ((List.take db.user_count.toNat (db.users.set k _)).map
        (fun u => c_str u.username)).Nodup
      have hms := map_set_same (fun (u : User) => c_str u.username) db.users k x
        ({ x with is_online := is_online } : User) hx rfl
      rw [List.map_take, hms, ← List.map_take]
      exact hnd
  | create_room room_name created_by now =>
    obtain ⟨r, c, n, e⟩ := create_room_frame db room_name created_by now
    show ((live_users (db_create_room db room_name created_by now).2).map
      (fun u => c_str u.username)).Nodup
    rw [e]
    exact hnd
  | add_user_to_room room_id user_id =>
    obtain ⟨r, e⟩ := add_user_frame db room_id user_id
    show ((live_users (db_add_user_to_room db room_id user_id).2).map
      (fun u => c_str u.username)).Nodup
    rw [e]
    exact hnd
  | remove_user_from_room room_id user_id =>
    obtain ⟨r, e⟩ := remove_user_frame db room_id user_id db.room_count.toNat 0
    show ((live_users (remove_user_loop db room_id user_id db.room_count.toNat 0).2).map
      (fun u => c_str u.username)).Nodup
    rw [e]
    exact hnd
  | create_message sender_id room_id sender_name content now =>
    obtain ⟨m, c, n, e⟩ := create_message_frame db sender_id room_id sender_name content now
    show ((live_users (db_create_message db sender_id room_id sender_name content now).2).map
      (fun u => c_str u.username)).Nodup
    rw [e]
    exact hnd
  | query => exact hnd

/-- Runs whose usernames have at most 49 characters keep the stored usernames pairwise
distinct. -/
theorem store_calls_names (calls : List StoreCall) :
    ∀ db, DbInv db → (∀ c ∈ calls, short_username c) →
      ((live_users db).map (fun u => c_str u.username)).Nodup →
      ((live_users (store_calls db calls)).map (fun u => c_str u.username)).Nodup := by
  induction calls with
  | nil => intro db _ _ h; exact h
  | cons c cs ih =>
    intro db hinv hshort hnd
    unfold store_calls
    rw [List.foldl_cons]
    exact ih _ (store_call_inv db c hinv)
      (fun c' hc' => hshort c' (List.mem_cons_of_mem c hc'))
      (store_call_names db c hinv (hshort c (List.mem_cons_self c cs)) hnd)

/-! ## Store: the claims -/

/-- C21 (identifier invariant): in every store reachable from `db_init` by any sequence of
store calls, the identifiers stored in each table `t` (users, rooms, messages) are strictly
increasing with the table index, hence pairwise distinct, and every stored identifier is smaller
than the next-id counter of the table; and the identifiers returned by the successful
`db_create_user`, `db_create_room` or `db_create_message` calls of the sequence are, in the
order of the calls, strictly increasing, hence pairwise distinct: each is strictly greater than
every identifier returned before. -/
theorem identifier_invariant (calls : List StoreCall) (t : Table) :
    (stored_ids t (store_calls db_init calls)).Pairwise (fun a b => a < b) ∧
    (stored_ids t (store_calls db_init calls)).Nodup ∧
    (∀ x ∈ stored_ids t (store_calls db_init calls),
      x < next_id t (store_calls db_init calls)) ∧
    (created_ids t db_init calls).Pairwise (fun a b => a < b) ∧
    (created_ids t db_init calls).Nodup := by
  have hinv := store_calls_inv calls db_init db_inv_init
  obtain ⟨p1, p2⟩ := stored_ids_increasing t _ hinv
  have p3 := (created_ids_increasing t calls db_init db_inv_init).1
  exact ⟨p1, List.Pairwise.imp (fun h => ne_of_lt h) p1, p2, p3,
    List.Pairwise.imp (fun h => ne_of_lt h) p3⟩

set_option maxRecDepth 100000 in
/-- Witness for C21: after the example run the stored message id 3 is below the next message
id, and the ids returned for the messages created in the run are increasing. -/
theorem identifier_invariant_witness :
    (3 : Int) < next_id Table.messages (store_calls db_init example_store_calls) ∧
    (created_ids Table.messages db_init example_store_calls).Pairwise (fun a b => a < b) :=
  ⟨(identifier_invariant example_store_calls Table.messages).2.2.1 3 (by decide),
   (identifier_invariant example_store_calls Table.messages).2.2.2.1⟩

/-- C22 (user-name uniqueness), as the code has it: in every store reachable from `db_init` by
any sequence of store calls whose `db_create_user` calls pass usernames of at most 49
characters, the bound that `auth_register` enforces before it calls `db_create_user`, no two
stored users have equal stored usernames: the stored usernames, in table order, are pairwise
distinct. -/
theorem username_uniqueness (calls : List StoreCall)
    (hshort : ∀ c ∈ calls, short_username c) :
    ((live_users (store_calls db_init calls)).map (fun u => c_str u.username)).Nodup :=
  store_calls_names calls db_init db_inv_init hshort List.nodup_nil

set_option maxRecDepth 100000 in
/-- Witness for C22: the names `bob` and `al` of the example run. -/
theorem username_uniqueness_witness :
    ((live_users (store_calls db_init example_store_calls)).map
      (fun u => c_str u.username)).Nodup :=
  username_uniqueness example_store_calls (by decide)

set_option maxRecDepth 100000 in
/-- Counterexample to C22 as stated: after `db_init`, `db_create_user` accepts the name of 49
letters `a` followed by `b` with the result 1, then the different name of 49 letters `a`
followed by `c` with the result 2, because `strcmp` compares the stored name, cut to 49
characters, with the full new name; the two stored users then have the same stored name, 49
letters `a`. -/
theorem username_collision :
    (db_create_user db_init long_name_b [104] 0 0).1 = 1 ∧
    (db_create_user (db_create_user db_init long_name_b [104] 0 0).2 long_name_c [104] 0 0).1
      = 2 ∧
    long_name_b ≠ long_name_c ∧
    (live_users store_long_names).map (fun u => c_str u.username)
      = [List.replicate 49 97, List.replicate 49 97] := by
  decide

/-- C23 (duplicate registration): in every store reachable from `db_init` whose users table is
not full, `db_create_user` returns -2 if and only if some stored user's stored username is
equal, as a C string, to the given username; and in that case the store, hence the users table,
`user_count` and `next_user_id`, is unchanged. -/
theorem duplicate_registration (calls : List StoreCall) (username password_hash : List Nat)
    (role now : Int) (hroom : (store_calls db_init calls).user_count < MAX_USERS) :
    ((db_create_user (store_calls db_init calls) username password_hash role now).1 = -2 ↔
      ∃ u ∈ live_users (store_calls db_init calls), c_str u.username = c_str username) ∧
    ((db_create_user (store_calls db_init calls) username password_hash role now).1 = -2 →
      (db_create_user (store_calls db_init calls) username password_hash role now).2
        = store_calls db_init calls) := by
  obtain ⟨-, hu, -, -⟩ := store_calls_inv calls db_init db_inv_init
  by_cases hdup : ∃ u ∈ live_users (store_calls db_init calls),
      c_str u.username = c_str username
  · rw [create_user_dup _ username password_hash role now hu hroom hdup]
    exact ⟨⟨fun _ => hdup, fun _ => rfl⟩, fun _ => rfl⟩
  · rw [create_user_new _ username password_hash role now hu hroom
      (fun u hu hc => hdup ⟨u, hu, hc⟩)]
    have hne : (store_calls db_init calls).next_user_id ≠ -2 := by
      have := hu.2.1
      have := hu.2.2.2.1
      omega
    exact ⟨⟨fun h => absurd h hne, fun h => absurd h hdup⟩, fun h => absurd h hne⟩

set_option maxRecDepth 100000 in
/-- Witness for C23: the name `bob` is registered a second time in the example store. -/
theorem duplicate_registration_witness :
    (db_create_user (store_calls db_init example_store_calls) [98, 111, 98] [120] 0 7).1 = -2 ∧
    (db_create_user (store_calls db_init example_store_calls) [98, 111, 98] [120] 0 7).2
      = store_calls db_init example_store_calls :=
  have h := duplicate_registration example_store_calls [98, 111, 98] [120] 0 7 (by decide)
  have h2 := h.1.2 ⟨array_get (store_calls db_init example_store_calls).users 0,
    by decide, by decide⟩
  ⟨h2, h.2 h2⟩

/-- C24 (leave room): in a well-formed rooms table with pairwise distinct room ids, as every
store reachable from `db_init` has, if the user id is in the member list of the room `r` with
the given id, `db_remove_user_from_room` returns 0, the member count of the room decreases by
one and its new member list is the old list with that user id deleted, the other members in
their previous order; if the user id is absent from that room, or no stored room has the id, it
returns -1 and the store, hence the rooms table, is unchanged. -/
theorem leave_room (db : Database) (room_id user_id : Int) (hwf : StoreWF db)
    (hids : ((live_rooms db).map (fun r => r.room_id)).Nodup) :
    (∀ r, db_room db room_id = some r → user_id ∈ room_members r →
      (db_remove_user_from_room db room_id user_id).1 = 0 ∧
      ∃ r', db_room (db_remove_user_from_room db room_id user_id).2 room_id = some r' ∧
        r'.current_user_count = r.current_user_count - 1 ∧
        room_members r' = (room_members r).erase user_id) ∧
    (∀ r, db_room db room_id = some r → user_id ∉ room_members r →
      db_remove_user_from_room db room_id user_id = (-1, db)) ∧
    (db_room db room_id = none → db_remove_user_from_room db room_id user_id = (-1, db)) := by
  refine ⟨fun r hr hin => remove_user_found db room_id user_id hwf hids r hr hin, ?_, ?_⟩
  · intro r hr hnot
    apply remove_user_absent db room_id user_id hwf hids
    intro r2 hr2
    rw [hr] at hr2
    cases hr2
    exact hnot
  · intro hnone
    apply remove_user_absent db room_id user_id hwf hids
    intro r hr
    rw [hnone] at hr
    cases hr

set_option maxRecDepth 100000 in
/-- Witness for C24: user 5 leaves room 1, which has the members 5 and 6; and user 9, who is
not a member, does not. -/
theorem leave_room_witness :
    ((db_remove_user_from_room store_two_members 1 5).1 = 0 ∧
      ∃ r', db_room (db_remove_user_from_room store_two_members 1 5).2 1 = some r' ∧
        r'.current_user_count = (array_get store_two_members.rooms 0).current_user_count - 1 ∧
        room_members r' = (room_members (array_get store_two_members.rooms 0)).erase 5) ∧
    db_remove_user_from_room store_two_members 1 9 = (-1, store_two_members) :=
  ⟨(leave_room store_two_members 1 5 (by decide) (by decide)).1
      (array_get store_two_members.rooms 0) (by decide) (by decide),
   (leave_room store_two_members 1 9 (by decide) (by decide)).2.1
      (array_get store_two_members.rooms 0) (by decide) (by decide)⟩

/-- C25 (message window): in every store reachable from `db_init`, with `L` the stored messages
whose `room_id` equals the argument, in insertion order, and the allocation succeeding,
`db_get_room_messages(room_id, &count, limit)` returns the last `limit` elements of `L` in
their original order, with `count = limit`, their number, when `limit > 0` and `|L| > limit`,
and the whole of `L`, with `count = |L|`, when `limit <= 0` or `|L| <= limit`. -/
theorem message_window (malloc : Nat → Bool) (calls : List StoreCall) (room_id limit : Int)
    (hm : ∀ n, malloc n = true) :
    (limit > 0 ∧ ((room_messages (store_calls db_init calls) room_id).length : Int) > limit →
      db_get_room_messages malloc (store_calls db_init calls) room_id limit
        = (some ((room_messages (store_calls db_init calls) room_id).drop
            ((room_messages (store_calls db_init calls) room_id).length - limit.toNat)),
           limit) ∧
      (((room_messages (store_calls db_init calls) room_id).drop
          ((room_messages (store_calls db_init calls) room_id).length - limit.toNat)).length
        : Int) = limit) ∧
    (limit ≤ 0 ∨ ((room_messages (store_calls db_init calls) room_id).length : Int) ≤ limit →
      db_get_room_messages malloc (store_calls db_init calls) room_id limit
        = (some (room_messages (store_calls db_init calls) room_id),
           ((room_messages (store_calls db_init calls) room_id).length : Int))) := by
  obtain ⟨-, -, -, hl, h0, h1, -, -, -⟩ := store_calls_inv calls db_init db_inv_init
  have e := get_room_messages_eq malloc (store_calls db_init calls) room_id limit hl h0 h1 hm
  constructor
  · intro hw
    rw [e, if_pos hw]
    refine ⟨rfl, ?_⟩
    rw [List.length_drop]
    omega
  · intro hw
    rw [e, if_neg (by omega)]

set_option maxRecDepth 100000 in
/-- Witness for C25: room 1 of the example store holds the messages 1, 3 and 4; the window of
size 2 holds the last two of them, and the unbounded window all three. -/
theorem message_window_witness :
    (db_get_room_messages (fun _ => true) (store_calls db_init example_store_calls) 1 2
        = (some ((room_messages (store_calls db_init example_store_calls) 1).drop
            ((room_messages (store_calls db_init example_store_calls) 1).length
              - (2 : Int).toNat)),
           2) ∧
      (((room_messages (store_calls db_init example_store_calls) 1).drop
          ((room_messages (store_calls db_init example_store_calls) 1).length
            - (2 : Int).toNat)).length : Int) = 2) ∧
    db_get_room_messages (fun _ => true) (store_calls db_init example_store_calls) 1 0
      = (some (room_messages (store_calls db_init example_store_calls) 1),
         ((room_messages (store_calls db_init example_store_calls) 1).length : Int)) :=
  ⟨(message_window (fun _ => true) example_store_calls 1 2 (fun _ => rfl)).1 (by decide),
   (message_window (fun _ => true) example_store_calls 1 0 (fun _ => rfl)).2
     (Or.inl (by decide))⟩

/-- C26 (capacity rejection): in every store, `db_create_user`, `db_create_room` and
`db_create_message` return -1 when `user_count >= 1000`, `room_count >= 100` or
`message_count >= 10000` respectively, and the store, hence the table, its count and its next-id
counter, is unchanged; in every store reachable from `db_init`, below capacity
`db_create_room` and `db_create_message` return the next id of their table, which is positive,
increase the count by one and store the new entity with that id at the index of the old
count. -/
theorem capacity_rejection (db : Database) (calls : List StoreCall)
    (username password_hash room_name sender_name content : List Nat)
    (role created_by sender_id room_id now : Int) :
    (db.user_count ≥ MAX_USERS →
      db_create_user db username password_hash role now = (-1, db)) ∧
    (db.room_count ≥ MAX_ROOMS → db_create_room db room_name created_by now = (-1, db)) ∧
    (db.message_count ≥ MAX_MESSAGES →
      db_create_message db sender_id room_id sender_name content now = (-1, db)) ∧
    ((store_calls db_init calls).room_count < MAX_ROOMS →
      0 < (db_create_room (store_calls db_init calls) room_name created_by now).1 ∧
      (db_create_room (store_calls db_init calls) room_name created_by now).1
        = (store_calls db_init calls).next_room_id ∧
      (db_create_room (store_calls db_init calls) room_name created_by now).2.room_count
        = (store_calls db_init calls).room_count + 1 ∧
      (array_get (db_create_room (store_calls db_init calls) room_name created_by now).2.rooms
          (store_calls db_init calls).room_count).room_id
        = (db_create_room (store_calls db_init calls) room_name created_by now).1) ∧
    ((store_calls db_init calls).message_count < MAX_MESSAGES →
      0 < (db_create_message (store_calls db_init calls) sender_id room_id sender_name content
            now).1 ∧
      (db_create_message (store_calls db_init calls) sender_id room_id sender_name content
          now).1 = (store_calls db_init calls).next_message_id ∧
      (db_create_message (store_calls db_init calls) sender_id room_id sender_name content
          now).2.message_count = (store_calls db_init calls).message_count + 1 ∧
      (array_get (db_create_message (store_calls db_init calls) sender_id room_id sender_name
          content now).2.messages (store_calls db_init calls).message_count).message_id
        = (db_create_message (store_calls db_init calls) sender_id room_id sender_name content
            now).1) := by
  obtain ⟨hs, -, hr, hmi⟩ := store_calls_inv calls db_init db_inv_init
  refine ⟨create_user_full db username password_hash role now,
    create_room_full db room_name created_by now,
    create_message_full db sender_id room_id sender_name content now, ?_, ?_⟩
  · intro hroom
    obtain ⟨a, b, c, d⟩ := create_room_stored _ room_name created_by now hs hr hroom
    refine ⟨by rw [a]; exact b, a, c, ?_⟩
    rw [d, a]
  · intro hroom
    obtain ⟨a, b, c, d⟩ :=
      create_message_stored _ sender_id room_id sender_name content now hmi hroom
    refine ⟨by rw [a]; exact b, a, c, ?_⟩
    rw [d, a]

set_option maxRecDepth 100000 in
/-- Witness for C26: the 101st room is refused, and the first message is accepted with the
id 1. -/
theorem capacity_rejection_witness :
    db_create_room store_full_rooms [82] 1 0 = (-1, store_full_rooms) ∧
    0 < (db_create_message (store_calls db_init []) 1 1 [65] [104, 105] 0).1 ∧
    (db_create_message (store_calls db_init []) 1 1 [65] [104, 105] 0).1
      = (store_calls db_init []).next_message_id ∧
    (db_create_message (store_calls db_init []) 1 1 [65] [104, 105] 0).2.message_count
      = (store_calls db_init []).message_count + 1 ∧
    (array_get (db_create_message (store_calls db_init []) 1 1 [65] [104, 105] 0).2.messages
        (store_calls db_init []).message_count).message_id
      = (db_create_message (store_calls db_init []) 1 1 [65] [104, 105] 0).1 :=
  ⟨(capacity_rejection store_full_rooms [] [97] [104] [82] [65] [104, 105] 0 1 1 1 0).2.1
      (by decide),
   (capacity_rejection store_full_rooms [] [97] [104] [82] [65] [104, 105] 0 1 1 1 0).2.2.2.2
      (by decide)⟩

/-- C27 (messages are append-only and immutable): for every store reachable from `db_init`,
every call `c` of a store function and every index `i < message_count`, the message `m` stored
at index `i` before the call is stored at the same index after it, identical in all its fields,
and `message_count` does not decrease. -/
theorem messages_append_only (calls : List StoreCall) (c : StoreCall) (i : Nat)
    (hi : (i : Int) < (store_calls db_init calls).message_count) :
    (∃ m, (store_calls db_init calls).messages[i]? = some m ∧
      (store_call (store_calls db_init calls) c).messages[i]? = some m) ∧
    (store_calls db_init calls).message_count
      ≤ (store_call (store_calls db_init calls) c).message_count := by
  have hinv := store_calls_inv calls db_init db_inv_init
  obtain ⟨hl, h0, h1, -, -, -⟩ := hinv.2.2.2
  have hlt : i < (store_calls db_init calls).messages.length := by omega
  have hm := List.getElem?_eq_getElem hlt
  obtain ⟨a, b⟩ := store_call_messages _ c hinv i _ hi hm
  exact ⟨⟨_, hm, a⟩, b⟩

set_option maxRecDepth 100000 in
/-- Witness for C27: the first message of the example store stays when a fifth message is
created. -/
theorem messages_append_only_witness :
    (∃ m, (store_calls db_init example_store_calls).messages[0]? = some m ∧
      (store_call (store_calls db_init example_store_calls)
        (StoreCall.create_message 2 1 [97, 108] [108] 0)).messages[0]? = some m) ∧
    (store_calls db_init example_store_calls).message_count
      ≤ (store_call (store_calls db_init example_store_calls)
          (StoreCall.create_message 2 1 [97, 108] [108] 0)).message_count :=
  messages_append_only example_store_calls (StoreCall.create_message 2 1 [97, 108] [108] 0) 0
    (by decide)

/-- C28 (truncating store policy): in every store reachable from `db_init`, for input strings
of any length, a successful `db_create_user` stores in the new user's `username` array the first
49 characters of the username followed by zero bytes up to 50 bytes, so that the stored
NUL-terminated string is exactly the prefix of length `min(len, 49)`, and likewise the prefix of
length `min(len, 64)` of the password hash; a successful `db_create_room` stores the prefix of
length `min(len, 99)` of the room name; a successful `db_create_message` stores the prefix of
length `min(len, 49)` of the sender name and `min(len, 1023)` of the content. -/
theorem truncating_store (calls : List StoreCall)
    (username password_hash room_name sender_name content : List Nat)
    (role created_by sender_id room_id now : Int) :
    (0 < (db_create_user (store_calls db_init calls) username password_hash role now).1 →
      (array_get (db_create_user (store_calls db_init calls) username password_hash role
          now).2.users (store_calls db_init calls).user_count).username
        = (c_str username).take 49
            ++ List.replicate (50 - min 49 (c_str username).length) 0 ∧
      c_str (array_get (db_create_user (store_calls db_init calls) username password_hash role
          now).2.users (store_calls db_init calls).user_count).username
        = (c_str username).take 49 ∧
      (array_get (db_create_user (store_calls db_init calls) username password_hash role
          now).2.users (store_calls db_init calls).user_count).password_hash
        = (c_str password_hash).take 64
            ++ List.replicate (65 - min 64 (c_str password_hash).length) 0 ∧
      c_str (array_get (db_create_user (store_calls db_init calls) username password_hash role
          now).2.users (store_calls db_init calls).user_count).password_hash
        = (c_str password_hash).take 64) ∧
    (0 < (db_create_room (store_calls db_init calls) room_name created_by now).1 →
      (array_get (db_create_room (store_calls db_init calls) room_name created_by now).2.rooms
          (store_calls db_init calls).room_count).room_name
        = (c_str room_name).take 99
            ++ List.replicate (100 - min 99 (c_str room_name).length) 0 ∧
      c_str (array_get (db_create_room (store_calls db_init calls) room_name created_by
          now).2.rooms (store_calls db_init calls).room_count).room_name
        = (c_str room_name).take 99) ∧
    (0 < (db_create_message (store_calls db_init calls) sender_id room_id sender_name content
          now).1 →
      (array_get (db_create_message (store_calls db_init calls) sender_id room_id sender_name
          content now).2.messages (store_calls db_init calls).message_count).sender_name
        = (c_str sender_name).take 49
            ++ List.replicate (50 - min 49 (c_str sender_name).length) 0 ∧
      c_str (array_get (db_create_message (store_calls db_init calls) sender_id room_id
          sender_name content now).2.messages
          (store_calls db_init calls).message_count).sender_name
        = (c_str sender_name).take 49 ∧
      (array_get (db_create_message (store_calls db_init calls) sender_id room_id sender_name
          content now).2.messages (store_calls db_init calls).message_count).content
        = (c_str content).take 1023
            ++ List.replicate (1024 - min 1023 (c_str content).length) 0 ∧
      c_str (array_get (db_create_message (store_calls db_init calls) sender_id room_id
          sender_name content now).2.messages
          (store_calls db_init calls).message_count).content
        = (c_str content).take 1023) := by
  obtain ⟨hs, hu, hr, hmi⟩ := store_calls_inv calls db_init db_inv_init
  refine ⟨?_, ?_, ?_⟩
  · intro hpos
    rw [create_user_stored _ username password_hash role now hu hpos]
    exact ⟨(c_str_strncpy username 49).1, (c_str_strncpy username 49).2,
      (c_str_strncpy password_hash 64).1, (c_str_strncpy password_hash 64).2⟩
  · intro hpos
    have hM : MAX_ROOMS = 100 := rfl
    have hroom : (store_calls db_init calls).room_count < MAX_ROOMS := by
      by_contra hfull
      rw [create_room_full _ room_name created_by now (by omega)] at hpos
      exact absurd hpos (by show ¬ ((0 : Int) < -1); decide)
    rw [(create_room_stored _ room_name created_by now hs hr hroom).2.2.2]
    exact ⟨(c_str_strncpy room_name 99).1, (c_str_strncpy room_name 99).2⟩
  · intro hpos
    have hM : MAX_MESSAGES = 10000 := rfl
    have hroom : (store_calls db_init calls).message_count < MAX_MESSAGES := by
      by_contra hfull
      rw [create_message_full _ sender_id room_id sender_name content now (by omega)] at hpos
      exact absurd hpos (by show ¬ ((0 : Int) < -1); decide)
    rw [(create_message_stored _ sender_id room_id sender_name content now hmi hroom).2.2.2]
    exact ⟨(c_str_strncpy sender_name 49).1, (c_str_strncpy sender_name 49).2,
      (c_str_strncpy content 1023).1, (c_str_strncpy content 1023).2⟩

set_option maxRecDepth 100000 in
/-- Witness for C28: the user name of 50 characters `aa...ab` is registered right after
`db_init`; the stored name is its first 49 characters. -/
theorem truncating_store_witness :
    (array_get (db_create_user (store_calls db_init []) long_name_b [104] 0 0).2.users
        (store_calls db_init []).user_count).username
      = (c_str long_name_b).take 49
          ++ List.replicate (50 - min 49 (c_str long_name_b).length) 0 ∧
    c_str (array_get (db_create_user (store_calls db_init []) long_name_b [104] 0 0).2.users
        (store_calls db_init []).user_count).username
      = (c_str long_name_b).take 49 ∧
    (array_get (db_create_user (store_calls db_init []) long_name_b [104] 0 0).2.users
        (store_calls db_init []).user_count).password_hash
      = (c_str [104]).take 64 ++ List.replicate (65 - min 64 (c_str [104]).length) 0 ∧
    c_str (array_get (db_create_user (store_calls db_init []) long_name_b [104] 0 0).2.users
        (store_calls db_init []).user_count).password_hash
      = (c_str [104]).take 64 :=
  (truncating_store [] long_name_b [104] [82] [65] [104, 105] 0 1 1 1 0).1 (by decide)

/-! ## Connection handler and acceptor: the claims -/

/-- C29 (ping is answered with an empty pong): for every received buffer that `parse_ws_frame`
decodes, with a non-negative result, as a frame with opcode 0x9, one iteration of the receive
loop of `websocket_client_handler` makes exactly one `send` call, of the two bytes 0x8A 0x00 to
the client whose handler it is, hence none to any other client, leaves the registry unchanged
and reaches the end of the loop body without `break`. -/
theorem ping_pong (malloc : Nat → Bool) (s : WebSocketServer) (client_fd : Int)
    (buffer : List Nat) (n : Int)
    (hparse : 0 ≤ (parse_ws_frame malloc buffer n WSFrame.zero).1)
    (hop : (parse_ws_frame malloc buffer n WSFrame.zero).2.opcode = 0x9) :
    websocket_handler_iteration malloc s client_fd buffer n
      = { sends := [(client_fd, [0x8A, 0x00])], continues := true, server := s } := by
  have hn : ¬ n ≤ 0 := by
    intro h
    rw [parse_ws_frame_short malloc buffer n WSFrame.zero (by omega)] at hparse
    exact absurd hparse (by show ¬ ((0 : Int) ≤ -1); decide)
  unfold websocket_handler_iteration
  rw [if_neg hn, if_neg (by omega), hop, if_neg (by decide), if_neg (by decide),
    if_pos rfl]

set_option maxRecDepth 100000 in
/-- Witness for C29: the client with fd 6 of the registry holding fd 5, 6 and 7 sends the
unmasked ping frame `89 00`. -/
theorem ping_pong_witness :
    websocket_handler_iteration (fun _ => true) registry_567 6 [0x89, 0x00] 2
      = { sends := [(6, [0x8A, 0x00])], continues := true, server := registry_567 } :=
  ping_pong (fun _ => true) registry_567 6 [0x89, 0x00] 2 (by decide) (by decide)

set_option maxRecDepth 100000 in
/-- C30 (failing input): for every pool state, accepted socket and allocated argument, one
iteration of the acceptor loop of `http_server_start` passes no socket to `close` and no
pointer to `free`, whatever `thread_pool_submit` returns; in particular, with the queue of the
pool of `main` full, the socket 7 is submitted, the submit returns -1 and the pool is
unchanged, and neither the socket is closed nor the argument freed before the next `accept`. -/
theorem rejected_socket_leaked :
    (∀ (pool : ThreadPool) (client_fd : Int) (client_fd_ptr : Nat),
      (http_accept_iteration pool client_fd client_fd_ptr).closed = [] ∧
      (http_accept_iteration pool client_fd client_fd_ptr).freed = []) ∧
    pool_full.queue_count ≥ pool_full.queue_size ∧
    http_accept_iteration pool_full 7 4096
      = { pool := pool_full, submitted := some (-1), closed := [], freed := [] } := by
  refine ⟨?_, by decide, by decide⟩
  intro pool client_fd client_fd_ptr
  unfold http_accept_iteration
  split
  · exact ⟨rfl, rfl⟩
  · split
    · exact ⟨rfl, rfl⟩
    · exact ⟨rfl, rfl⟩

/-! ## Theorems: buffer bounds of the frame codec -/

/-- The number of bytes that `create_ws_frame` writes when the guard passes, for a length below
65536: header, extended length and payload. -/
theorem create_ws_frame_written (data : List Nat) (n : Nat) (frame_size : Int)
    (hfit : ((2 + (length_ext n).length + n : Nat) : Int) ≤ INT_MAX)
    (hguard : 2 + (n : Int) ≤ frame_size) (hdata : n ≤ data.length) (hshort : n < 65536) :
    (create_ws_frame data (n : Int) frame_size).1 = ((2 + (length_ext n).length + n : Nat) : Int) ∧
    (create_ws_frame data (n : Int) frame_size).2.length = 2 + (length_ext n).length + n := by
  rw [create_ws_frame_natCast data n frame_size hfit hguard hshort]
  refine ⟨rfl, ?_⟩
  simp only [List.length_cons, List.length_append, List.length_take]
  omega

/-! ## Buffer bounds of the frame codec: the claims -/

/-- C34 (failing inputs): `create_ws_frame` compares `frame_size` with `2 + data_len` only, also
when the header takes 4 or 10 bytes. For `data_len = 126` and `frame_size = 128` it returns 130
and writes 130 bytes; for a message of 65534 bytes and `frame_size = 65536`, the largest message
that passes the guard in `websocket_broadcast_to_room` and `websocket_send_to_client`, it
returns 65538 and writes 65538 bytes into the buffer of 65536 bytes. -/
theorem encoder_overruns_buffer :
    (create_ws_frame (List.replicate 126 65) 126 128).1 = 130 ∧
    (create_ws_frame (List.replicate 126 65) 126 128).2.length = 130 ∧
    (create_ws_frame (List.replicate 65534 65) 65534 MAX_FRAME_SIZE).1 = 65538 ∧
    (create_ws_frame (List.replicate 65534 65) 65534 MAX_FRAME_SIZE).2.length = 65538 ∧
    MAX_FRAME_SIZE = 65536 := by
  have h1 := create_ws_frame_written (List.replicate 126 65) 126 128 (by decide) (by decide)
    (by rw [List.length_replicate]) (by decide)
  have h2 := create_ws_frame_written (List.replicate 65534 65) 65534 MAX_FRAME_SIZE
    (by decide) (by decide) (by rw [List.length_replicate]) (by decide)
  have e1 : (length_ext 126).length = 2 := by decide
  have e2 : (length_ext 65534).length = 2 := by decide
  rw [e1] at h1
  rw [e2] at h2
  exact ⟨h1.1, h1.2, h2.1, h2.2, rfl⟩

/-! ## Theorems: bounds of the decoder -/

theorem parse_payload_bounds (malloc : Nat → Bool) (data : List Nat) (data_len : Int)
    (frame : WSFrame) (hs : Int) (hs0 : 0 ≤ hs) (hs14 : hs ≤ 14)
    (hr1 : -2147483648 ≤ frame.payload_len) (hr2 : frame.payload_len ≤ 2147483647)
    (hmalloc : ∀ x, 9223372036854775808 ≤ x → malloc x = false)
    (hok : 0 ≤ (parse_payload malloc data data_len frame hs).1) :
    0 ≤ frame.payload_len ∧
    (parse_payload malloc data data_len frame hs).1 = hs + frame.payload_len ∧
    hs + frame.payload_len ≤ data_len := by
  unfold parse_payload at hok ⊢
  by_cases h1 : data_len < int32 (hs + frame.payload_len)
  · rw [if_pos h1] at hok; simp at hok
  · rw [if_neg h1] at hok ⊢
    by_cases h2 : malloc (size_t frame.payload_len) = false
    · rw [if_pos h2] at hok; simp at hok
    · rw [if_neg h2] at hok ⊢
      simp only [] at hok ⊢
      obtain ⟨h3, h4, h5⟩ := int32_nonneg (by omega) (by omega) hok
      rw [h5] at h1 ⊢
      refine ⟨?_, rfl, by omega⟩
      by_contra hneg
      apply h2
      apply hmalloc
      unfold size_t
      omega

theorem parse_mask_bounds (malloc : Nat → Bool) (data : List Nat) (data_len : Int)
    (frame : WSFrame) (hs : Int) (hs0 : 0 ≤ hs) (hs10 : hs ≤ 10)
    (hr1 : -2147483648 ≤ frame.payload_len) (hr2 : frame.payload_len ≤ 2147483647)
    (hmalloc : ∀ x, 9223372036854775808 ≤ x → malloc x = false)
    (hok : 0 ≤ (parse_mask malloc data data_len frame hs).1) :
    0 ≤ frame.payload_len ∧
    (parse_mask malloc data data_len frame hs).1
      = hs + (if frame.masked ≠ 0 then 4 else 0) + frame.payload_len ∧
    hs + (if frame.masked ≠ 0 then 4 else 0) + frame.payload_len ≤ data_len ∧
    (parse_mask malloc data data_len frame hs).2.payload_len = frame.payload_len := by
  have hf := (parse_mask_fields malloc data data_len frame hs).2.2.2
  unfold parse_mask at hok ⊢
  by_cases hm : frame.masked ≠ 0
  · rw [if_pos hm] at hok ⊢
    rw [if_pos hm]
    by_cases h1 : data_len < hs + 4
    · rw [if_pos h1] at hok; simp at hok
    · rw [if_neg h1] at hok ⊢
      obtain ⟨a, b, c⟩ := parse_payload_bounds malloc data data_len
        { frame with mask := (data.drop hs.toNat).take 4 } (hs + 4) (by omega) (by omega)
        hr1 hr2 hmalloc hok
      refine ⟨a, b, c, ?_⟩
      unfold parse_mask at hf
      rw [if_pos hm, if_neg h1] at hf
      exact hf
  · rw [if_neg hm] at hok ⊢
    rw [if_neg hm]
    obtain ⟨a, b, c⟩ := parse_payload_bounds malloc data data_len frame hs hs0 (by omega)
      hr1 hr2 hmalloc hok
    refine ⟨a, by rw [b]; omega, by omega, ?_⟩
    unfold parse_mask at hf
    rw [if_neg hm] at hf
    exact hf

theorem decoder_branch (malloc : Nat → Bool) (data : List Nat) (data_len : Int)
    (frame0 : WSFrame) (len : Int) (hsI : Int) (hs : Nat) (hcast : hsI = (hs : Int))
    (hs10 : hs ≤ 10) (hs2 : 2 ≤ hs) (hbase : wire_base_size data = hs)
    (hr1 : -2147483648 ≤ len) (hr2 : len ≤ 2147483647)
    (hmalloc : ∀ x, 9223372036854775808 ≤ x → malloc x = false)
    (hok : 0 ≤ (parse_mask malloc data data_len (wire_frame data frame0 len) hsI).1) :
    0 ≤ (parse_mask malloc data data_len (wire_frame data frame0 len) hsI).2.payload_len ∧
    (parse_mask malloc data data_len (wire_frame data frame0 len) hsI).1
      = (wire_header_size data : Int)
        + (parse_mask malloc data data_len (wire_frame data frame0 len) hsI).2.payload_len ∧
    2 ≤ (parse_mask malloc data data_len (wire_frame data frame0 len) hsI).1 ∧
    (parse_mask malloc data data_len (wire_frame data frame0 len) hsI).1 ≤ data_len := by
  subst hcast
  obtain ⟨a, b, c, d⟩ := parse_mask_bounds malloc data data_len (wire_frame data frame0 len)
    (hs : Int) (by omega) (by omega) hr1 hr2 hmalloc hok
  have hpl : (wire_frame data frame0 len).payload_len = len := rfl
  have hmk : (wire_frame data frame0 len).masked = ((wire_mask_bit data : Nat) : Int) := rfl
  have hbit : wire_mask_bit data = 0 ∨ wire_mask_bit data = 1 := by
    unfold wire_mask_bit; omega
  have hh : ((wire_header_size data : Nat) : Int)
      = (hs : Int) + (if (wire_frame data frame0 len).masked ≠ 0 then 4 else 0) := by
    unfold wire_header_size
    rw [hbase, hmk]
    rcases hbit with h | h <;> rw [h] <;> simp
  rw [d, b, hh]
  rw [hpl] at a c ⊢
  refine ⟨a, rfl, ?_, c⟩
  split_ifs <;> omega

/-- Result of a successful call of the decoder: for every byte buffer and every `data_len`,
with `malloc` failing for sizes of 2^63 bytes or more (the size that a negative `int` length
converts to), whenever `parse_ws_frame` returns `n >= 0` the decoded `payload_len` is
non-negative, `n` equals the header size (2, 4 or 10, plus 4 when the mask bit is set) plus
`payload_len` without wrap-around, and `2 <= n <= data_len`. -/
theorem decoder_result_bounds (malloc : Nat → Bool) (data : List Nat) (data_len : Int)
    (frame0 : WSFrame) (hbytes : ∀ b ∈ data, b < 256)
    (hmalloc : ∀ x, 9223372036854775808 ≤ x → malloc x = false)
    (hok : 0 ≤ (parse_ws_frame malloc data data_len frame0).1) :
    0 ≤ (parse_ws_frame malloc data data_len frame0).2.payload_len ∧
    (parse_ws_frame malloc data data_len frame0).1
      = (wire_header_size data : Int)
        + (parse_ws_frame malloc data data_len frame0).2.payload_len ∧
    2 ≤ (parse_ws_frame malloc data data_len frame0).1 ∧
    (parse_ws_frame malloc data data_len frame0).1 ≤ data_len := by
  by_cases h2 : data_len < 2
  · rw [parse_ws_frame_short malloc data data_len frame0 h2] at hok
    simp at hok
  · have hb2 := getD_lt_of_bytes hbytes 2
    have hb3 := getD_lt_of_bytes hbytes 3
    rw [parse_ws_frame_stages malloc data data_len frame0 hbytes (by omega)] at hok ⊢
    by_cases c1 : wire_len7 data = 126
    · rw [if_pos c1] at hok ⊢
      by_cases c2 : data_len < 4
      · rw [if_pos c2] at hok; simp at hok
      · rw [if_neg c2] at hok ⊢
        exact decoder_branch malloc data data_len frame0 _ 4 4 rfl (by omega) (by omega)
          (by unfold wire_base_size; rw [if_pos c1]) (by omega) (by omega) hmalloc hok
    · rw [if_neg c1] at hok ⊢
      by_cases c3 : wire_len7 data = 127
      · rw [if_pos c3] at hok ⊢
        by_cases c4 : data_len < 10
        · rw [if_pos c4] at hok; simp at hok
        · rw [if_neg c4] at hok ⊢
          exact decoder_branch malloc data data_len frame0 _ 10 10 rfl (by omega) (by omega)
            (by unfold wire_base_size; rw [if_neg c1, if_pos c3])
            (read_len64_range data).1 (read_len64_range data).2 hmalloc hok
      · rw [if_neg c3] at hok ⊢
        have h7 : wire_len7 data < 128 := by unfold wire_len7; omega
        exact decoder_branch malloc data data_len frame0 _ 2 2 rfl (by omega) (by omega)
          (by unfold wire_base_size; rw [if_neg c1, if_neg c3]) (by omega) (by omega)
          hmalloc hok

/-! ## Theorems: bytes read by the decoder -/

theorem parse_payload_read_ok (malloc : Nat → Bool) (data : List Nat) (data_len : Int)
    (frame : WSFrame) (hs : Int) (hs0 : 0 ≤ hs) (hs14 : hs ≤ 14)
    (hr1 : -2147483648 ≤ frame.payload_len) (hr2 : frame.payload_len ≤ 2147483647)
    (hmalloc : ∀ x, 9223372036854775808 ≤ x → malloc x = false)
    (hok : 0 ≤ (parse_payload malloc data data_len frame hs).1) :
    ((parse_payload_read_end malloc data_len frame.payload_len hs : Nat) : Int)
      = (parse_payload malloc data data_len frame hs).1 := by
  obtain ⟨a, b, c⟩ := parse_payload_bounds malloc data data_len frame hs hs0 hs14 hr1 hr2
    hmalloc hok
  rw [b]
  unfold parse_payload at hok
  unfold parse_payload_read_end
  by_cases h1 : data_len < int32 (hs + frame.payload_len)
  · rw [if_pos h1] at hok; simp at hok
  · rw [if_neg h1] at hok ⊢
    by_cases h2 : malloc (size_t frame.payload_len) = false
    · rw [if_pos h2] at hok; simp at hok
    · rw [if_neg h2]
      unfold size_t
      push_cast
      rw [Int.toNat_of_nonneg hs0, Int.toNat_of_nonneg (by omega)]
      omega

theorem parse_mask_read_ok (malloc : Nat → Bool) (data : List Nat) (data_len : Int)
    (frame : WSFrame) (hs : Int) (hs0 : 0 ≤ hs) (hs10 : hs ≤ 10)
    (hr1 : -2147483648 ≤ frame.payload_len) (hr2 : frame.payload_len ≤ 2147483647)
    (hmalloc : ∀ x, 9223372036854775808 ≤ x → malloc x = false)
    (hok : 0 ≤ (parse_mask malloc data data_len frame hs).1) :
    ((parse_mask_read_end malloc data_len frame.masked frame.payload_len hs : Nat) : Int)
      = (parse_mask malloc data data_len frame hs).1 := by
  unfold parse_mask at hok ⊢
  unfold parse_mask_read_end
  by_cases hm : frame.masked ≠ 0
  · rw [if_pos hm] at hok ⊢
    rw [if_pos hm]
    by_cases h1 : data_len < hs + 4
    · rw [if_pos h1] at hok; simp at hok
    · rw [if_neg h1] at hok ⊢
      rw [if_neg h1]
      exact parse_payload_read_ok malloc data data_len
        { frame with mask := (data.drop hs.toNat).take 4 } (hs + 4) (by omega) (by omega)
        hr1 hr2 hmalloc hok
  · rw [if_neg hm] at hok ⊢
    rw [if_neg hm]
    exact parse_payload_read_ok malloc data data_len frame hs hs0 (by omega) hr1 hr2 hmalloc hok

theorem parse_ws_frame_read_end_stages (malloc : Nat → Bool) (data : List Nat) (data_len : Int)
    (hbytes : ∀ b ∈ data, b < 256) (h2 : 2 ≤ data_len) :
    parse_ws_frame_read_end malloc data data_len =
      if wire_len7 data = 126 then
        if data_len < 4 then 2
        else parse_mask_read_end malloc data_len ((wire_mask_bit data : Nat) : Int)
          ((data.getD 2 0 * 256 + data.getD 3 0 : Nat) : Int) 4
      else if wire_len7 data = 127 then
        if data_len < 10 then 2
        else parse_mask_read_end malloc data_len ((wire_mask_bit data : Nat) : Int)
          (read_len64 data) 10
      else parse_mask_read_end malloc data_len ((wire_mask_bit data : Nat) : Int)
          ((wire_len7 data : Nat) : Int) 2 := by
  have hb0 := getD_lt_of_bytes hbytes 0
  have hb1 := getD_lt_of_bytes hbytes 1
  have hb3 := getD_lt_of_bytes hbytes 3
  have hmb : wire_mask_bit data = data.getD 1 0 / 128 := by unfold wire_mask_bit; omega
  unfold parse_ws_frame_read_end
  rw [if_neg (by omega)]
  unfold byteAt wire_len7
  simp only [land_7F_mod, land_80_shr, byte_bit7 _ hb1, hmb, lor_shl8_natCast _ _ hb3]
  by_cases c1 : data.getD 1 0 % 128 = 126
  · rw [if_pos (by rw [c1]; rfl), if_pos c1]
  · rw [if_neg (by intro h; exact c1 (by exact_mod_cast h)), if_neg c1]
    by_cases c3 : data.getD 1 0 % 128 = 127
    · rw [if_pos (by rw [c3]; rfl), if_pos c3]
    · rw [if_neg (by intro h; exact c3 (by exact_mod_cast h)), if_neg c3]

theorem decoder_branch_read (malloc : Nat → Bool) (data : List Nat) (data_len : Int)
    (frame0 : WSFrame) (len : Int) (hs : Int) (hs0 : 0 ≤ hs) (hs10 : hs ≤ 10)
    (hr1 : -2147483648 ≤ len) (hr2 : len ≤ 2147483647)
    (hmalloc : ∀ x, 9223372036854775808 ≤ x → malloc x = false)
    (hok : 0 ≤ (parse_mask malloc data data_len (wire_frame data frame0 len) hs).1) :
    ((parse_mask_read_end malloc data_len ((wire_mask_bit data : Nat) : Int) len hs : Nat) : Int)
      = (parse_mask malloc data data_len (wire_frame data frame0 len) hs).1 :=
  parse_mask_read_ok malloc data data_len (wire_frame data frame0 len) hs hs0 hs10 hr1 hr2
    hmalloc hok

/-- When `parse_ws_frame` returns `n >= 0`, with `malloc` failing for sizes of 2^63 bytes or
more, the bytes of the input that it has read are those at the indices below `n`. -/
theorem decoder_reads_when_ok (malloc : Nat → Bool) (data : List Nat) (data_len : Int)
    (frame0 : WSFrame) (hbytes : ∀ b ∈ data, b < 256)
    (hmalloc : ∀ x, 9223372036854775808 ≤ x → malloc x = false)
    (hok : 0 ≤ (parse_ws_frame malloc data data_len frame0).1) :
    ((parse_ws_frame_read_end malloc data data_len : Nat) : Int)
      = (parse_ws_frame malloc data data_len frame0).1 := by
  by_cases h2 : data_len < 2
  · rw [parse_ws_frame_short malloc data data_len frame0 h2] at hok
    simp at hok
  · have hb2 := getD_lt_of_bytes hbytes 2
    have hb3 := getD_lt_of_bytes hbytes 3
    rw [parse_ws_frame_stages malloc data data_len frame0 hbytes (by omega)] at hok ⊢
    rw [parse_ws_frame_read_end_stages malloc data data_len hbytes (by omega)]
    by_cases c1 : wire_len7 data = 126
    · rw [if_pos c1] at hok ⊢
      rw [if_pos c1]
      by_cases c2 : data_len < 4
      · rw [if_pos c2] at hok; simp at hok
      · rw [if_neg c2] at hok ⊢
        rw [if_neg c2]
        exact decoder_branch_read malloc data data_len frame0 _ 4 (by omega) (by omega)
          (by omega) (by omega) hmalloc hok
    · rw [if_neg c1] at hok ⊢
      rw [if_neg c1]
      by_cases c3 : wire_len7 data = 127
      · rw [if_pos c3] at hok ⊢
        rw [if_pos c3]
        by_cases c4 : data_len < 10
        · rw [if_pos c4] at hok; simp at hok
        · rw [if_neg c4] at hok ⊢
          rw [if_neg c4]
          exact decoder_branch_read malloc data data_len frame0 _ 10 (by omega) (by omega)
            (read_len64_range data).1 (read_len64_range data).2 hmalloc hok
      · rw [if_neg c3] at hok ⊢
        rw [if_neg c3]
        have h7 : wire_len7 data < 128 := by unfold wire_len7; omega
        exact decoder_branch_read malloc data data_len frame0 _ 2 (by omega) (by omega)
          (by omega) (by omega) hmalloc hok

/-! ## Bounds of the decoder: the claim -/

/-- C35 (failing input): the 12-byte buffer `81 7F 00 00 00 00 7F FF FF FF 41 41` declares a
payload of 2^31 - 1 bytes. With `data_len = 12` the sum `header_size + payload_len` of the
full-payload check is 10 + (2^31 - 1), which as an `int` is -2147483639, so the test
`data_len < header_size + payload_len` does not hold; with the allocation granted, `memcpy`
reads 2^31 - 1 bytes from index 10 on, where the input has 2. `parse_ws_frame` then returns
-2147483639. The same holds with the mask bit set (header of 14 bytes). -/
theorem decoder_reads_past_input :
    parse_ws_frame_read_end (fun _ => true)
        [0x81, 0x7F, 0, 0, 0, 0, 0x7F, 0xFF, 0xFF, 0xFF, 0x41, 0x41] 12 = 10 + 2147483647 ∧
    (12 : Nat) < parse_ws_frame_read_end (fun _ => true)
        [0x81, 0x7F, 0, 0, 0, 0, 0x7F, 0xFF, 0xFF, 0xFF, 0x41, 0x41] 12 ∧
    (parse_ws_frame (fun _ => true)
        [0x81, 0x7F, 0, 0, 0, 0, 0x7F, 0xFF, 0xFF, 0xFF, 0x41, 0x41] 12 WSFrame.zero).1
      = -2147483639 ∧
    (parse_ws_frame (fun _ => true)
        [0x81, 0x7F, 0, 0, 0, 0, 0x7F, 0xFF, 0xFF, 0xFF, 0x41, 0x41] 12
        WSFrame.zero).2.payload_len = 2147483647 ∧
    parse_ws_frame_read_end (fun _ => true)
        [0x81, 0xFF, 0, 0, 0, 0, 0x7F, 0xFF, 0xFF, 0xFF, 1, 2, 3, 4, 0x41, 0x41] 16
      = 14 + 2147483647 := by
  decide

/-! ## Theorems: the queue invariant of the worker pool -/

theorem pool_step_submit_pool (y : PoolSys) (task arg : Nat) :
    (pool_step y (PoolEvent.submit task arg)).pool = (thread_pool_submit y.pool task arg).2 := by
  simp only [pool_step]
  split_ifs <;> rfl

theorem pool_step_worker_pool (y : PoolSys) :
    (pool_step y PoolEvent.worker).pool = (worker_iteration y.pool).2 := by
  simp only [pool_step]
  cases hw : worker_iteration y.pool with
  | mk act p =>
    cases act <;> rfl

theorem pool_step_size (y : PoolSys) (ev : PoolEvent) :
    (pool_step y ev).pool.queue_size = y.pool.queue_size := by
  cases ev with
  | submit task arg =>
    rw [pool_step_submit_pool]
    unfold thread_pool_submit
    split_ifs <;> rfl
  | worker =>
    rw [pool_step_worker_pool]
    unfold worker_iteration worker_dequeue
    split_ifs <;> rfl
  | shutdown => rfl

theorem pool_run_size (evs : List PoolEvent) (y : PoolSys) :
    (pool_run y evs).pool.queue_size = y.pool.queue_size := by
  induction evs generalizing y with
  | nil => rfl
  | cons ev evs ih =>
    have e : pool_run y (ev :: evs) = pool_run (pool_step y ev) evs := rfl
    rw [e, ih, pool_step_size]

theorem pool_run_append (y : PoolSys) (e1 e2 : List PoolEvent) :
    pool_run y (e1 ++ e2) = pool_run (pool_run y e1) e2 := by
  unfold pool_run
  rw [List.foldl_append]

/-- The fields after `k` submits that all find room, while the index sum fits an `int`. -/
theorem submits_fields (task arg : Nat) : ∀ (k : Nat) (y : PoolSys),
    y.pool.queue_size ≤ INT_MAX → 0 ≤ y.pool.queue_front → 0 ≤ y.pool.queue_count →
    y.pool.queue_front + y.pool.queue_count + (k : Int) ≤ INT_MAX + 1 →
    y.pool.queue_count + (k : Int) ≤ y.pool.queue_size →
    (pool_run y (List.replicate k (PoolEvent.submit task arg))).pool.queue_front
      = y.pool.queue_front ∧
    (pool_run y (List.replicate k (PoolEvent.submit task arg))).pool.queue_count
      = y.pool.queue_count + (k : Int) ∧
    (pool_run y (List.replicate k (PoolEvent.submit task arg))).pool.queue_size
      = y.pool.queue_size
  | 0, y, _, _, _, _, _ => by
    refine ⟨rfl, ?_, rfl⟩
    show y.pool.queue_count = y.pool.queue_count + ((0 : Nat) : Int)
    simp
  | k + 1, y, hsize, hf, hc, hsum, hroom => by
    have hI : INT_MAX = 2147483647 := rfl
    have e : pool_run y (List.replicate (k + 1) (PoolEvent.submit task arg))
        = pool_run (pool_step y (PoolEvent.submit task arg))
            (List.replicate k (PoolEvent.submit task arg)) := rfl
    have hp := pool_step_submit_pool y task arg
    rw [submit_room y.pool task arg hsize hf hc (by push_cast at hsum; omega)
      (by push_cast at hroom; omega)] at hp
    have hfr : (pool_step y (PoolEvent.submit task arg)).pool.queue_front
        = y.pool.queue_front := by rw [hp]
    have hcn : (pool_step y (PoolEvent.submit task arg)).pool.queue_count
        = y.pool.queue_count + 1 := by rw [hp]
    have hsz : (pool_step y (PoolEvent.submit task arg)).pool.queue_size
        = y.pool.queue_size := by rw [hp]
    obtain ⟨a, b, c⟩ := submits_fields task arg k (pool_step y (PoolEvent.submit task arg))
      (by rw [hsz]; exact hsize) (by rw [hfr]; exact hf) (by rw [hcn]; omega)
      (by rw [hfr, hcn]; push_cast at hsum; omega)
      (by rw [hcn, hsz]; push_cast at hroom; omega)
    rw [e]
    refine ⟨by rw [a, hfr], by rw [b, hcn]; push_cast; omega, by rw [c, hsz]⟩

/-- The fields after a worker iteration that dequeues, away from the end of the ring. -/
theorem worker_fields (y : PoolSys) (hc : 0 < y.pool.queue_count)
    (hcmax : y.pool.queue_count ≤ INT_MAX) (hf : 0 ≤ y.pool.queue_front)
    (hnext : y.pool.queue_front + 1 < y.pool.queue_size)
    (hsize : y.pool.queue_size ≤ INT_MAX) :
    (pool_step y PoolEvent.worker).pool.queue_front = y.pool.queue_front + 1 ∧
    (pool_step y PoolEvent.worker).pool.queue_count = y.pool.queue_count - 1 ∧
    (pool_step y PoolEvent.worker).pool.queue_size = y.pool.queue_size := by
  have hI : INT_MAX = 2147483647 := rfl
  rw [pool_step_worker_pool]
  unfold worker_iteration
  rw [if_neg (by omega), if_neg (by omega)]
  unfold worker_dequeue
  simp only []
  rw [int32_eq_self (by omega) (by omega), int32_eq_self (by omega) (by omega),
    c_rem_nonneg (by omega) (by omega), Int.emod_eq_of_lt (by omega) hnext]
  simp

theorem pool_run_three (y : PoolSys) (a b c : PoolEvent) :
    pool_run y [a, b, c]
      = pool_run (pool_step (pool_step y a) b) (List.replicate 1 c) := rfl

/-- The fields after a run that fills a ring of `q` slots, dequeues twice and submits once
more. -/
theorem wrapped_run_fields (n q : Int) (k : Nat) (mem : List WorkItem) (task arg : Nat)
    (hq : q = (k : Int)) (hk4 : 4 ≤ q) (hkmax : q ≤ INT_MAX) :
    (pool_run (pool_sys_init n q mem)
      (List.replicate k (PoolEvent.submit task arg)
        ++ [PoolEvent.worker, PoolEvent.worker, PoolEvent.submit task arg])).pool.queue_front
      = 2 ∧
    (pool_run (pool_sys_init n q mem)
      (List.replicate k (PoolEvent.submit task arg)
        ++ [PoolEvent.worker, PoolEvent.worker, PoolEvent.submit task arg])).pool.queue_count
      = q - 1 ∧
    (pool_run (pool_sys_init n q mem)
      (List.replicate k (PoolEvent.submit task arg)
        ++ [PoolEvent.worker, PoolEvent.worker, PoolEvent.submit task arg])).pool.queue_size
      = q := by
  have hI : INT_MAX = 2147483647 := rfl
  generalize hy0 : pool_sys_init n q mem = y0
  have h0f : y0.pool.queue_front = 0 := by rw [← hy0]; rfl
  have h0c : y0.pool.queue_count = 0 := by rw [← hy0]; rfl
  have h0s : y0.pool.queue_size = q := by rw [← hy0]; rfl
  rw [pool_run_append, pool_run_three]
  obtain ⟨a1, b1, c1⟩ := submits_fields task arg k y0
    (by rw [h0s]; exact hkmax) (by rw [h0f]) (by rw [h0c]) (by rw [h0f, h0c]; omega)
    (by rw [h0c, h0s]; omega)
  rw [h0f] at a1
  rw [h0c] at b1
  rw [h0s] at c1
  generalize pool_run y0 (List.replicate k (PoolEvent.submit task arg)) = y1 at a1 b1 c1 ⊢
  obtain ⟨a2, b2, c2⟩ := worker_fields y1 (by omega) (by omega) (by omega) (by omega) (by omega)
  rw [a1] at a2
  rw [b1] at b2
  rw [c1] at c2
  generalize pool_step y1 PoolEvent.worker = y2 at a2 b2 c2 ⊢
  obtain ⟨a3, b3, c3⟩ := worker_fields y2 (by omega) (by omega) (by omega) (by omega) (by omega)
  rw [a2] at a3
  rw [b2] at b3
  rw [c2] at c3
  generalize pool_step y2 PoolEvent.worker = y3 at a3 b3 c3 ⊢
  obtain ⟨a4, b4, c4⟩ := submits_fields task arg 1 y3 (by omega) (by omega) (by omega)
    (by push_cast; omega) (by push_cast; omega)
  refine ⟨by rw [a4, a3]; omega, by rw [b4, b3]; push_cast; omega, by rw [c4, c3]⟩

/-- A submit in a state whose index sum is 2^31: it finds room, and its ring index is -1. -/
theorem submit_index_wrapped (s : ThreadPool) (task arg : Nat)
    (hs : s.queue_size = 2147483647) (hf : s.queue_front = 2)
    (hc : s.queue_count = 2147483646) :
    (thread_pool_submit s task arg).1 = 0 ∧
    c_rem (int32 (s.queue_front + s.queue_count)) s.queue_size = -1 := by
  constructor
  · unfold thread_pool_submit
    rw [if_neg (by rw [hc, hs]; decide)]
  · rw [hf, hc, hs]
    decide

/-! ## Worker pool after shutdown and the queue invariant: the claims -/

set_option maxRecDepth 100000 in
/-- C31 as stated fails in the pool of `main` after `thread_pool_shutdown` has set
`is_shutdown`: `thread_pool_submit` does not read the flag, returns 0 and adds the task to the
queue, which then holds one item. -/
theorem submit_after_shutdown_accepted :
    pool_shut_down.is_shutdown = 1 ∧
    (thread_pool_submit pool_shut_down 7 9).1 = 0 ∧
    (thread_pool_submit pool_shut_down 7 9).2.queue_count = 1 ∧
    ring_contents (thread_pool_submit pool_shut_down 7 9).2 = [{ task := 7, arg := 9 }] := by
  decide

/-- C31 (amended): `thread_pool_submit` does not depend on `is_shutdown`. In a well-formed pool
in which `thread_pool_shutdown` has set the flag, it rejects the task (returns -1, pool
unchanged) exactly when the queue is full; otherwise it returns 0, appends the task at the end
of the queue and leaves the flag set. In both cases the result is the one the same call gives
before the shutdown. -/
theorem submit_after_shutdown (s : ThreadPool) (task arg : Nat) (hinv : RingInv s) :
    (thread_pool_shutdown s).is_shutdown ≠ 0 ∧
    thread_pool_submit (thread_pool_shutdown s) task arg
      = ((thread_pool_submit s task arg).1,
         thread_pool_shutdown (thread_pool_submit s task arg).2) ∧
    (s.queue_count ≥ s.queue_size →
      thread_pool_submit (thread_pool_shutdown s) task arg = (-1, thread_pool_shutdown s)) ∧
    (s.queue_count < s.queue_size →
      (thread_pool_submit (thread_pool_shutdown s) task arg).1 = 0 ∧
      (thread_pool_submit (thread_pool_shutdown s) task arg).2.is_shutdown ≠ 0 ∧
      ring_contents (thread_pool_submit (thread_pool_shutdown s) task arg).2
        = ring_contents (thread_pool_shutdown s) ++ [{ task := task, arg := arg }]) := by
  have hI : INT_MAX = 2147483647 := rfl
  have heq : thread_pool_submit (thread_pool_shutdown s) task arg
      = ((thread_pool_submit s task arg).1,
         thread_pool_shutdown (thread_pool_submit s task arg).2) := by
    unfold thread_pool_submit thread_pool_shutdown
    simp only []
    split_ifs <;> rfl
  refine ⟨by simp [thread_pool_shutdown], heq, fun h => ?_, fun h => ?_⟩
  · rw [heq, submit_full s task arg h]
  · obtain ⟨h1, h2⟩ := ring_contents_submit s task arg hinv h
    obtain ⟨-, -, hbig, hf0, hf1, hc0, hc1⟩ := hinv
    have e0 : (thread_pool_submit s task arg).1 = 0 := by
      rw [submit_room s task arg (by omega) hf0 hc0 (by omega) h]
    rw [heq]
    refine ⟨e0, by simp [thread_pool_shutdown], ?_⟩
    have e1 : ∀ p : ThreadPool, ring_contents (thread_pool_shutdown p) = ring_contents p :=
      fun _ => rfl
    simp only [e1]
    exact h2

set_option maxRecDepth 100000 in
/-- Witness for C31 (amended): the shut-down pool of `main` with two tasks queued takes a
third one. -/
theorem submit_after_shutdown_witness :
    (thread_pool_submit (thread_pool_shutdown pool_two_queued.pool) 7 9).1 = 0 ∧
    (thread_pool_submit (thread_pool_shutdown pool_two_queued.pool) 7 9).2.is_shutdown ≠ 0 ∧
    ring_contents (thread_pool_submit (thread_pool_shutdown pool_two_queued.pool) 7 9).2
      = ring_contents (thread_pool_shutdown pool_two_queued.pool) ++ [{ task := 7, arg := 9 }] :=
  (submit_after_shutdown pool_two_queued.pool 7 9 (by decide)).2.2.2 (by decide)

/-- C36 as stated fails at the queue size 2147483647: after 2147483647 accepted submits, two
worker iterations and one more accepted submit, `queue_front = 2` and
`queue_count = 2147483646`, so the queue has room, and the next `thread_pool_submit` computes
`queue_front + queue_count = 2^31`, which as an `int` is -2^31; the ring index
`(queue_front + queue_count) % queue_size` at which it stores the task is -1, outside
`[0, queue_size)`, and the call returns 0. -/
theorem ring_index_overflow :
    ∃ s : ThreadPool,
      s = (pool_run (pool_sys_init 10 2147483647 (List.replicate 2147483647 default))
            (List.replicate 2147483647 (PoolEvent.submit 1 1)
              ++ [PoolEvent.worker, PoolEvent.worker, PoolEvent.submit 1 1])).pool ∧
      s.queue_size = 2147483647 ∧ s.queue_front = 2 ∧ s.queue_count = 2147483646 ∧
      (thread_pool_submit s 7 9).1 = 0 ∧
      c_rem (int32 (s.queue_front + s.queue_count)) s.queue_size = -1 :=
  have h := wrapped_run_fields 10 2147483647 2147483647 (List.replicate 2147483647 default) 1 1
    (by decide) (by decide) (by decide)
  ⟨_, rfl, h.2.2, h.1, h.2.1.trans (by decide),
    submit_index_wrapped _ 7 9 h.2.2 h.1 (h.2.1.trans (by decide))⟩

/-- C36 (amended): for every `queue_size = q` up to 2^30, zero and negative values included, in
every pool state reachable from `thread_pool_init(n, q)` by submits, worker iterations and
shutdown, `queue_size` is still `q`, `0 <= queue_count <= max(queue_size, 0)` and, when
`queue_size > 0`, the array has `queue_size` elements and `0 <= queue_front < queue_size`.
A submit that finds room (`queue_count < queue_size`) evaluates `% queue_size` with
`queue_size` different from 0 and writes at an index in `[0, queue_size)`; a worker that
dequeues (`queue_count` different from 0) reads at `queue_front` in `[0, queue_size)` and
evaluates `% queue_size` with `queue_size` different from 0. -/
theorem queue_invariant (num_threads q : Int) (queue_mem : List WorkItem)
    (evs : List PoolEvent) (hq : q ≤ 1073741824)
    (hmem : 0 < q → (queue_mem.length : Int) = q) :
    (pool_run (pool_sys_init num_threads q queue_mem) evs).pool.queue_size = q ∧
    0 ≤ (pool_run (pool_sys_init num_threads q queue_mem) evs).pool.queue_count ∧
    (pool_run (pool_sys_init num_threads q queue_mem) evs).pool.queue_count ≤ max q 0 ∧
    (0 < q →
      ((pool_run (pool_sys_init num_threads q queue_mem) evs).pool.queue.length : Int) = q ∧
      0 ≤ (pool_run (pool_sys_init num_threads q queue_mem) evs).pool.queue_front ∧
      (pool_run (pool_sys_init num_threads q queue_mem) evs).pool.queue_front < q) ∧
    ((pool_run (pool_sys_init num_threads q queue_mem) evs).pool.queue_count < q →
      q ≠ 0 ∧
      0 ≤ c_rem (int32 ((pool_run (pool_sys_init num_threads q queue_mem) evs).pool.queue_front
            + (pool_run (pool_sys_init num_threads q queue_mem) evs).pool.queue_count)) q ∧
      c_rem (int32 ((pool_run (pool_sys_init num_threads q queue_mem) evs).pool.queue_front
            + (pool_run (pool_sys_init num_threads q queue_mem) evs).pool.queue_count)) q < q) ∧
    ((pool_run (pool_sys_init num_threads q queue_mem) evs).pool.queue_count ≠ 0 →
      q ≠ 0 ∧ 0 ≤ (pool_run (pool_sys_init num_threads q queue_mem) evs).pool.queue_front ∧
      (pool_run (pool_sys_init num_threads q queue_mem) evs).pool.queue_front < q ∧
      0 ≤ int32 ((pool_run (pool_sys_init num_threads q queue_mem) evs).pool.queue_front + 1)) := by
  have hinit : PoolInv (pool_sys_init num_threads q queue_mem).pool := by
    by_cases h0 : 0 < q
    · exact Or.inl ⟨hmem h0, h0, hq, le_refl _, h0, le_refl _, le_of_lt h0⟩
    · exact Or.inr ⟨by show q ≤ 0; omega, rfl⟩
  have hinv := (pool_run_accounting evs _ hinit).1
  have hsz : (pool_run (pool_sys_init num_threads q queue_mem) evs).pool.queue_size = q :=
    pool_run_size evs _
  generalize (pool_run (pool_sys_init num_threads q queue_mem) evs).pool = s at hinv hsz ⊢
  subst hsz
  rcases hinv with ⟨hlen, hpos, hbig, hf0, hf1, hc0, hc1⟩ | ⟨hneg, hzero⟩
  · have hsum : int32 (s.queue_front + s.queue_count) = s.queue_front + s.queue_count :=
      int32_eq_self (by omega) (by omega)
    have hone : int32 (s.queue_front + 1) = s.queue_front + 1 :=
      int32_eq_self (by omega) (by omega)
    rw [hsum, hone, c_rem_nonneg (by omega) hpos]
    refine ⟨rfl, hc0, le_trans hc1 (le_max_left _ _), fun _ => ⟨hlen, hf0, hf1⟩,
      fun _ => ⟨by omega, Int.emod_nonneg _ (by omega), Int.emod_lt_of_pos _ hpos⟩,
      fun _ => ⟨by omega, hf0, hf1, by omega⟩⟩
  · rw [hzero]
    refine ⟨rfl, le_refl _, le_max_right _ _, fun h => by omega, fun h => by omega,
      fun h => absurd rfl h⟩

set_option maxRecDepth 100000 in
/-- Witness for C36 (amended): the pool of `main` (queue size 100) after two submits, and the
pool of `thread_pool_init(10, -1)` after a submit and a worker iteration. -/
theorem queue_invariant_witness :
    (pool_two_queued.pool.queue_size = 100 ∧
     0 ≤ pool_two_queued.pool.queue_count ∧
     pool_two_queued.pool.queue_count ≤ max 100 0 ∧
     ((pool_two_queued.pool.queue.length : Int) = 100 ∧
       0 ≤ pool_two_queued.pool.queue_front ∧ pool_two_queued.pool.queue_front < 100) ∧
     ((100 : Int) ≠ 0 ∧
       0 ≤ c_rem (int32 (pool_two_queued.pool.queue_front + pool_two_queued.pool.queue_count))
             100 ∧
       c_rem (int32 (pool_two_queued.pool.queue_front + pool_two_queued.pool.queue_count)) 100
         < 100) ∧
     ((100 : Int) ≠ 0 ∧ 0 ≤ pool_two_queued.pool.queue_front ∧
       pool_two_queued.pool.queue_front < 100 ∧
       0 ≤ int32 (pool_two_queued.pool.queue_front + 1))) ∧
    ((pool_run (pool_sys_init 10 (-1) []) [PoolEvent.submit 1 1, PoolEvent.worker]).pool.queue_size
       = -1 ∧
     0 ≤ (pool_run (pool_sys_init 10 (-1) [])
       [PoolEvent.submit 1 1, PoolEvent.worker]).pool.queue_count ∧
     (pool_run (pool_sys_init 10 (-1) [])
       [PoolEvent.submit 1 1, PoolEvent.worker]).pool.queue_count ≤ max (-1) 0) :=
  have h := queue_invariant 10 100 (List.replicate 100 default)
    [PoolEvent.submit 1 1, PoolEvent.submit 2 2] (by decide) (fun _ => by decide)
  have g := queue_invariant 10 (-1) [] [PoolEvent.submit 1 1, PoolEvent.worker] (by decide)
    (fun h0 => absurd h0 (by decide))
  ⟨⟨h.1, h.2.1, h.2.2.1, h.2.2.2.1 (by decide), h.2.2.2.2.1 (by decide),
    h.2.2.2.2.2 (by decide)⟩, g.1, g.2.1, g.2.2.1⟩

/-! ## Theorems: join followed by leave -/

theorem find?_set_other {α : Type} (p : α → Bool) (x y : α) (hpx : p x = false)
    (hpy : p y = false) :
    ∀ (l : List α) (k : Nat), l[k]? = some x → (l.set k y).find? p = l.find? p
  | [], k, h => by simp at h
  | a :: l, 0, h => by
    simp only [List.getElem?_cons_zero, Option.some.injEq] at h
    subst h
    simp [List.find?, hpx, hpy]
  | a :: l, k + 1, h => by
    simp only [List.getElem?_cons_succ] at h
    simp only [List.set_cons_succ, List.find?]
    rw [find?_set_other p x y hpx hpy l k h]

theorem db_room_set_other (db : Database) (rid : Int) (k : Nat) (r r' : ChatRoom)
    (hk : (k : Int) < db.room_count) (hr : db.rooms[k]? = some r)
    (hid : r.room_id ≠ rid) (hid' : r'.room_id ≠ rid) :
    db_room { db with rooms := db.rooms.set k r' } rid = db_room db rid := by
  unfold db_room
  rw [live_rooms_set]
  apply find?_set_other _ r r' (by simpa using hid) (by simpa using hid')
  unfold live_rooms
  rw [List.getElem?_take_of_lt (by omega)]
  exact hr

/-- The call `db_add_user_to_room` leaves the rooms with another id as they are. -/
theorem add_user_others (db : Database) (room_id user_id rid : Int) (hwf : StoreWF db)
    (hne : rid ≠ room_id) :
    db_room (db_add_user_to_room db room_id user_id).2 rid = db_room db rid := by
  cases hroom : db_room db room_id with
  | none => rw [add_user_none db room_id user_id hwf hroom]
  | some r =>
    obtain ⟨k, hk, hr, hid, -, e⟩ := add_user_some db room_id user_id hwf r hroom
    rw [e]
    split
    · rfl
    · split
      · rfl
      · exact db_room_set_other db rid k r _ hk hr (by rw [hid]; exact fun h => hne h.symm)
          (by show r.room_id ≠ rid; rw [hid]; exact fun h => hne h.symm)

/-- The call `db_remove_user_from_room` leaves the rooms with another id as they are. -/
theorem remove_user_others (db : Database) (room_id user_id rid : Int) (hwf : StoreWF db)
    (hne : rid ≠ room_id) :
    db_room (db_remove_user_from_room db room_id user_id).2 rid = db_room db rid := by
  unfold db_remove_user_from_room
  have hz : (0 : Int) = ((0 : Nat) : Int) := rfl
  rw [hz]
  rcases remove_user_loop_spec db room_id user_id hwf db.room_count.toNat 0 (by omega) with
    ⟨e, -⟩ | ⟨k, j, r, -, hk, hr, hid, -, -, -, e⟩
  · rw [e]
  · rw [e]
    exact db_room_set_other db rid k r _ hk hr (by rw [hid]; exact fun h => hne h.symm)
      (by show r.room_id ≠ rid; rw [hid]; exact fun h => hne h.symm)

theorem erase_append_last (l : List Int) (a : Int) (h : a ∉ l) : (l ++ [a]).erase a = l := by
  induction l with
  | nil => simp
  | cons b l ih =>
    have hb : b ≠ a := fun e => h (by rw [e]; exact List.mem_cons_self _ _)
    have hl : a ∉ l := fun e => h (List.mem_cons_of_mem _ e)
    rw [List.cons_append, List.erase_cons_tail (by simpa using hb), ih hl]

/-! ## Join followed by leave: the claim -/

/-- C39 (join then leave): for every store reached from `db_init` by calls of the store
functions, every stored room that is not full and every user id that is not among its members,
`db_add_user_to_room` followed by `db_remove_user_from_room` with the same arguments both
return 0, and afterwards the room has the member count and the member list (the first
`current_user_count` entries of `user_ids`) that it had before, and the room stored under any
other id is the same as before. -/
theorem join_then_leave (calls : List StoreCall) (room_id user_id : Int) (r : ChatRoom)
    (hroom : db_room (store_calls db_init calls) room_id = some r)
    (hlt : r.current_user_count < r.max_users) (hnot : user_id ∉ room_members r) :
    (db_add_user_to_room (store_calls db_init calls) room_id user_id).1 = 0 ∧
    (db_remove_user_from_room
      (db_add_user_to_room (store_calls db_init calls) room_id user_id).2 room_id user_id).1
      = 0 ∧
    (∃ r', db_room (db_remove_user_from_room
        (db_add_user_to_room (store_calls db_init calls) room_id user_id).2
          room_id user_id).2 room_id = some r' ∧
      r'.current_user_count = r.current_user_count ∧ room_members r' = room_members r) ∧
    ∀ rid, rid ≠ room_id →
      db_room (db_remove_user_from_room
        (db_add_user_to_room (store_calls db_init calls) room_id user_id).2
          room_id user_id).2 rid
      = db_room (store_calls db_init calls) rid := by
  have hinv : DbInv (store_calls db_init calls) := store_calls_inv calls db_init db_inv_init
  have hinv1 : DbInv (db_add_user_to_room (store_calls db_init calls) room_id user_id).2 :=
    store_call_inv _ (StoreCall.add_user_to_room room_id user_id) hinv
  generalize store_calls db_init calls = db at hroom hinv hinv1 ⊢
  have hwf : StoreWF db := hinv.1.1
  obtain ⟨h0, hwf1, r1, hr1, hm1, hc1, -, -⟩ := add_user_ok db room_id user_id hwf r hroom hlt hnot
  obtain ⟨g0, r2, hr2, hc2, hm2⟩ := remove_user_found _ room_id user_id hwf1
    (room_ids_nodup _ hinv1) r1 hr1 (by rw [hm1]; simp)
  refine ⟨h0, g0, ⟨r2, hr2, by rw [hc2, hc1]; omega, ?_⟩, fun rid hne => ?_⟩
  · rw [hm2, hm1, erase_append_last _ _ hnot]
  · rw [remove_user_others _ room_id user_id rid hwf1 hne,
      add_user_others db room_id user_id rid hwf hne]

set_option maxRecDepth 100000 in
/-- Witness for C39: user 3 joins and leaves room 1 of the example store, which holds the
users 1 and 2. -/
theorem join_then_leave_witness :
    (db_add_user_to_room (store_calls db_init example_store_calls) 1 3).1 = 0 ∧
    (db_remove_user_from_room
      (db_add_user_to_room (store_calls db_init example_store_calls) 1 3).2 1 3).1 = 0 ∧
    (∃ r', db_room (db_remove_user_from_room
        (db_add_user_to_room (store_calls db_init example_store_calls) 1 3).2 1 3).2 1
          = some r' ∧
      r'.current_user_count = (array_get example_store.rooms 0).current_user_count ∧
      room_members r' = room_members (array_get example_store.rooms 0)) ∧
    ∀ rid, rid ≠ 1 →
      db_room (db_remove_user_from_room
        (db_add_user_to_room (store_calls db_init example_store_calls) 1 3).2 1 3).2 rid
      = db_room (store_calls db_init example_store_calls) rid :=
  join_then_leave example_store_calls 1 3 (array_get example_store.rooms 0)
    (by decide) (by decide) (by decide)

/-! ## The extracted handshake key: the claim -/

set_option maxRecDepth 1000000 in
/-- C40 (failing input): a request with two key lines, the first one with a blank and a tab
after the colon, then 255 characters `A` and a trailing blank. The text of that line after the
colon without its leading white space, trailing white space kept, has 256 characters; copying
it and the terminating NUL into the key buffer of 256 characters that
`websocket_client_handler` passes writes behind the end of the buffer, because
`parse_websocket_handshake` has no test on the length of the value. With 254 characters `A` the
function returns 1 and the key is the value of the first key line, the trailing blank
included. -/
theorem handshake_value_overrun :
    (key_line (str_bytes "GET /chat HTTP/1.1\r\nsec-websocket-KEY: \t" ++ List.replicate 255 65
        ++ str_bytes " \r\nSec-WebSocket-Key: second\r\n\r\n")).map line_value
      = some (List.replicate 255 65 ++ [32]) ∧
    parse_websocket_handshake KEY_SIZE
      (str_bytes "GET /chat HTTP/1.1\r\nsec-websocket-KEY: \t" ++ List.replicate 255 65
        ++ str_bytes " \r\nSec-WebSocket-Key: second\r\n\r\n") [] = none ∧
    (key_line (str_bytes "GET /chat HTTP/1.1\r\nsec-websocket-KEY: \t" ++ List.replicate 254 65
        ++ str_bytes " \r\nSec-WebSocket-Key: second\r\n\r\n")).map line_value
      = some (List.replicate 254 65 ++ [32]) ∧
    parse_websocket_handshake KEY_SIZE
      (str_bytes "GET /chat HTTP/1.1\r\nsec-websocket-KEY: \t" ++ List.replicate 254 65
        ++ str_bytes " \r\nSec-WebSocket-Key: second\r\n\r\n") []
      = some (1, List.replicate 254 65 ++ [32]) ∧
    parse_websocket_handshake KEY_SIZE
      (str_bytes "Sec-WebSocket-Key:  abc \r\n") [] = some (1, str_bytes "abc ") ∧
    parse_websocket_handshake KEY_SIZE
      (str_bytes "Sec-WebSocket-Key:  abc ") [] = some (1, str_bytes "abc ") ∧
    KEY_SIZE = 256 := by
  decide

/-! ## Theorems: the registry as a step system -/

/-- The two outcomes of `websocket_remove_client`: no live entry is connected with this `fd`
and nothing changes, or the first such entry is deleted. -/
theorem remove_client_cases (s : WebSocketServer) (fd : Int) (hinv : RegistryInv s) :
    (websocket_get_client_index s fd = -1 ∧ websocket_remove_client s fd = (-1, s) ∧
      ∀ c ∈ live_clients s, ¬ (c.fd = fd ∧ c.is_connected ≠ 0)) ∨
    ∃ (i : Nat) (c : WebSocketClient), (i : Int) < s.client_count ∧
      (live_clients s)[i]? = some c ∧ c.fd = fd ∧ c.is_connected ≠ 0 ∧
      websocket_get_client_index s fd = (i : Int) ∧
      (websocket_remove_client s fd).1 = (i : Int) ∧
      (websocket_remove_client s fd).2.client_count = s.client_count - 1 ∧
      RegistryInv (websocket_remove_client s fd).2 ∧
      live_clients (websocket_remove_client s fd).2 = (live_clients s).eraseIdx i := by
  have hspec := first_index_spec
    (fun i => (array_get s.clients i).fd = fd ∧ (array_get s.clients i).is_connected ≠ 0)
    s.client_count s.client_count.toNat 0 (by omega)
  have hlen := live_clients_length s hinv
  cases hfi : first_index
      (fun i => (array_get s.clients i).fd = fd ∧ (array_get s.clients i).is_connected ≠ 0)
      s.client_count s.client_count.toNat 0 with
  | none =>
    left
    have hidx : websocket_get_client_index s fd = -1 := by
      unfold websocket_get_client_index
      rw [hfi]
    refine ⟨hidx, ?_, ?_⟩
    · unfold websocket_remove_client
      simp only [hidx]
      rfl
    · intro c hc hcc
      obtain ⟨k, hk⟩ := List.mem_iff_getElem?.1 hc
      have hkl : k < (live_clients s).length := (List.getElem?_eq_some_iff.1 hk).1
      have hkc : (k : Int) < s.client_count := by omega
      have hget := live_clients_getElem? s hinv k hkc
      rw [hk] at hget
      have hck : array_get s.clients (k : Int) = c := (Option.some.inj hget).symm
      have := hspec.2 hfi (k : Int) (by omega) hkc
      simp only [hck, decide_eq_false_iff_not] at this
      exact this hcc
  | some j =>
    right
    obtain ⟨h0, h1, hp, -⟩ := hspec.1 j hfi
    obtain ⟨k, hk⟩ := Int.eq_ofNat_of_zero_le h0
    subst hk
    have hidx : websocket_get_client_index s fd = (k : Int) := by
      unfold websocket_get_client_index
      rw [hfi]
    simp only [decide_eq_true_eq] at hp
    obtain ⟨a, b, c, d⟩ := remove_client_found s fd hinv k hidx h1
    exact ⟨k, array_get s.clients (k : Int), h1, live_clients_getElem? s hinv k h1, hp.1, hp.2,
      hidx, a, b, c, d⟩

/-- The invariant of the registry with its history is kept by every call. -/
theorem registry_call_inv (y : RegistrySys) (c : RegistryCall) (hinv : RegistryInv y.server)
    (hconn : ∀ c ∈ live_clients y.server, c.is_connected = 1)
    (hcount : y.server.client_count = (y.added : Int) - (y.removed : Int)) :
    RegistryInv (registry_call y c).server ∧
    (∀ c' ∈ live_clients (registry_call y c).server, c'.is_connected = 1) ∧
    (registry_call y c).server.client_count
      = ((registry_call y c).added : Int) - ((registry_call y c).removed : Int) := by
  cases c with
  | add fd user_id room_id =>
    simp only [registry_call]
    by_cases hfull : y.server.client_count ≥ 1000
    · rw [add_client_full y.server fd user_id room_id hfull]
      simp only []
      rw [if_neg (by decide)]
      exact ⟨hinv, hconn, hcount⟩
    · have hlt : y.server.client_count < 1000 := by omega
      obtain ⟨hi', hlive⟩ := live_clients_add y.server fd user_id room_id hinv hlt
      have heq := add_client_room y.server fd user_id room_id hinv hlt
      refine ⟨hi', ?_, ?_⟩
      · intro c' hc'
        rw [hlive] at hc'
        rcases List.mem_append.1 hc' with h | h
        · exact hconn c' h
        · rw [List.mem_singleton.1 h]
      · rw [heq]
        simp only []
        rw [if_pos hinv.2.1]
        push_cast
        omega
  | remove fd =>
    simp only [registry_call]
    rcases remove_client_cases y.server fd hinv with
      ⟨-, e, -⟩ | ⟨i, c, hi, hget, -, -, -, r1, r2, r3, r4⟩
    · rw [e]
      simp only []
      rw [if_neg (by decide)]
      exact ⟨hinv, hconn, hcount⟩
    · refine ⟨r3, ?_, ?_⟩
      · intro c' hc'
        rw [r4] at hc'
        exact hconn c' (List.mem_of_mem_eraseIdx hc')
      · rw [r2, r1, if_pos (Int.ofNat_nonneg i)]
        push_cast
        omega

theorem registry_calls_inv (calls : List RegistryCall) :
    ∀ (y : RegistrySys), RegistryInv y.server →
      (∀ c ∈ live_clients y.server, c.is_connected = 1) →
      y.server.client_count = (y.added : Int) - (y.removed : Int) →
      RegistryInv (registry_calls y calls).server ∧
      (∀ c ∈ live_clients (registry_calls y calls).server, c.is_connected = 1) ∧
      (registry_calls y calls).server.client_count
        = ((registry_calls y calls).added : Int) - ((registry_calls y calls).removed : Int) := by
  induction calls with
  | nil => exact fun y h1 h2 h3 => ⟨h1, h2, h3⟩
  | cons c calls ih =>
    intro y h1 h2 h3
    obtain ⟨a, b, d⟩ := registry_call_inv y c h1 h2 h3
    exact ih (registry_call y c) a b d

theorem registry_zero_inv : RegistryInv websocket_server_zero :=
  ⟨List.length_replicate _ _, le_refl _, by decide⟩

theorem live_clients_zero : live_clients websocket_server_zero = [] := rfl

theorem registry_reachable (calls : List RegistryCall) :
    RegistryInv (registry_calls registry_sys_zero calls).server ∧
    (∀ c ∈ live_clients (registry_calls registry_sys_zero calls).server, c.is_connected = 1) ∧
    (registry_calls registry_sys_zero calls).server.client_count
      = ((registry_calls registry_sys_zero calls).added : Int)
        - ((registry_calls registry_sys_zero calls).removed : Int) :=
  registry_calls_inv calls registry_sys_zero registry_zero_inv
    (fun c hc => by
      have e : live_clients registry_sys_zero.server = [] := live_clients_zero
      rw [e] at hc
      exact absurd hc (List.not_mem_nil _))
    rfl

/-! ## Theorems: relay, broadcast and the handler steps -/

/-- The relay loop of the text branch reaches the connected live entries other than the sender,
in table order, when the encoder returns a positive size, and nobody otherwise. -/
theorem relay_loop_spec (s : WebSocketServer) (client_fd : Int) (message : List Nat)
    (payload_len : Int) (hinv : RegistryInv s) :
    ∀ (fuel i : Nat) (log : List (Int × List Nat)),
      s.client_count - (i : Int) ≤ (fuel : Int) →
      relay_loop s client_fd message payload_len fuel (i : Int) log
        = log ++
          if (create_ws_frame message payload_len MAX_FRAME_SIZE).1 > 0 then
            (((live_clients s).drop i).filter
              (fun c => c.is_connected ≠ 0 ∧ c.fd ≠ client_fd)).map
              (fun c => (c.fd, (create_ws_frame message payload_len MAX_FRAME_SIZE).2.take
                (create_ws_frame message payload_len MAX_FRAME_SIZE).1.toNat))
          else []
  | 0, i, log, h => by
    have hlen := live_clients_length s hinv
    rw [List.drop_of_length_le (by omega)]
    simp [relay_loop]
  | fuel + 1, i, log, h => by
    have hlen := live_clients_length s hinv
    unfold relay_loop
    by_cases hi : (i : Int) < s.client_count
    · rw [if_pos hi]
      have hget := live_clients_getElem? s hinv i hi
      have hdrop : (live_clients s).drop i
          = array_get s.clients (i : Int) :: (live_clients s).drop (i + 1) := by
        have hlt : i < (live_clients s).length := by omega
        rw [List.drop_eq_getElem_cons hlt]
        congr 1
        rw [List.getElem?_eq_getElem hlt] at hget
        exact Option.some.inj hget
      have hcast : (i : Int) + 1 = ((i + 1 : Nat) : Int) := by push_cast; rfl
      rw [hdrop, hcast]
      by_cases hc : (array_get s.clients (i : Int)).is_connected ≠ 0 ∧
          (array_get s.clients (i : Int)).fd ≠ client_fd
      · rw [if_pos hc, List.filter_cons_of_pos (by simpa using hc)]
        by_cases hp : (create_ws_frame message payload_len MAX_FRAME_SIZE).1 > 0
        · rw [if_pos hp, if_pos hp,
            relay_loop_spec s client_fd message payload_len hinv fuel (i + 1) _
              (by push_cast at h ⊢; omega), if_pos hp]
          simp
        · rw [if_neg hp, if_neg hp,
            relay_loop_spec s client_fd message payload_len hinv fuel (i + 1) _
              (by push_cast at h ⊢; omega), if_neg hp]
      · rw [if_neg hc, List.filter_cons_of_neg (by simpa using hc)]
        exact relay_loop_spec s client_fd message payload_len hinv fuel (i + 1) _
          (by push_cast at h ⊢; omega)
    · rw [if_neg hi, List.drop_of_length_le (by omega)]
      simp

/-- C37 (registry liveness invariant): in every registry state reached from the initial empty
registry by calls of `websocket_add_client` and `websocket_remove_client`,
`0 <= client_count <= 1000`, every entry at an index below `client_count` has
`is_connected = 1`, and `websocket_get_active_connections` returns the number of add calls that
returned an index minus the number of remove calls that returned an index. -/
theorem registry_liveness (calls : List RegistryCall) :
    0 ≤ (registry_calls registry_sys_zero calls).server.client_count ∧
    (registry_calls registry_sys_zero calls).server.client_count ≤ 1000 ∧
    (∀ i : Nat, (i : Int) < (registry_calls registry_sys_zero calls).server.client_count →
      (array_get (registry_calls registry_sys_zero calls).server.clients (i : Int)).is_connected
        = 1) ∧
    websocket_get_active_connections (registry_calls registry_sys_zero calls).server
      = ((registry_calls registry_sys_zero calls).added : Int)
        - ((registry_calls registry_sys_zero calls).removed : Int) := by
  obtain ⟨hinv, hconn, hcount⟩ := registry_reachable calls
  refine ⟨hinv.2.1, hinv.2.2, ?_, hcount⟩
  intro i hi
  exact hconn _ (List.getElem?_mem (live_clients_getElem? _ hinv i hi))

theorem length_unmask_from (mask : List Nat) (len : Int) :
    ∀ (l : List Nat) (i : Nat), (unmask_from mask len i l).length = l.length
  | [], _ => rfl
  | b :: bs, i => by
    simp only [unmask_from, List.length_cons, length_unmask_from mask len bs (i + 1)]

theorem parse_payload_length (malloc : Nat → Bool) (data : List Nat) (data_len : Int)
    (frame : WSFrame) (hs : Nat) (hs14 : hs ≤ 14)
    (hr1 : 0 ≤ frame.payload_len) (hr2 : frame.payload_len ≤ 2147483647)
    (hbuf : data_len ≤ (data.length : Int))
    (hok : 0 ≤ (parse_payload malloc data data_len frame (hs : Int)).1) :
    ∃ p, (parse_payload malloc data data_len frame (hs : Int)).2.payload = some p ∧
      (p.length : Int) = frame.payload_len := by
  unfold parse_payload at hok ⊢
  by_cases h1 : data_len < int32 ((hs : Int) + frame.payload_len)
  · rw [if_pos h1] at hok; simp at hok
  · rw [if_neg h1] at hok ⊢
    by_cases h2 : malloc (size_t frame.payload_len) = false
    · rw [if_pos h2] at hok; simp at hok
    · rw [if_neg h2] at hok ⊢
      simp only [] at hok ⊢
      obtain ⟨h3, h4, h5⟩ := int32_nonneg (by omega) (by omega) hok
      rw [h5] at h1
      have hsz : size_t frame.payload_len = frame.payload_len.toNat := by
        unfold size_t; omega
      refine ⟨_, rfl, ?_⟩
      have hcl : ((data.drop (hs : Int).toNat).take (size_t frame.payload_len)).length
          = frame.payload_len.toNat := by
        rw [hsz, List.length_take, List.length_drop, Int.toNat_ofNat]
        omega
      by_cases hm : frame.masked ≠ 0
      · rw [if_pos hm, length_unmask_from, hcl]
        omega
      · rw [if_neg hm, hcl]
        omega

theorem parse_mask_length (malloc : Nat → Bool) (data : List Nat) (data_len : Int)
    (frame : WSFrame) (hs : Nat) (hs10 : hs ≤ 10)
    (hr1 : 0 ≤ frame.payload_len) (hr2 : frame.payload_len ≤ 2147483647)
    (hbuf : data_len ≤ (data.length : Int))
    (hok : 0 ≤ (parse_mask malloc data data_len frame (hs : Int)).1) :
    ∃ p, (parse_mask malloc data data_len frame (hs : Int)).2.payload = some p ∧
      (p.length : Int) = frame.payload_len := by
  unfold parse_mask at hok ⊢
  by_cases hm : frame.masked ≠ 0
  · rw [if_pos hm] at hok ⊢
    by_cases h1 : data_len < (hs : Int) + 4
    · rw [if_pos h1] at hok; simp at hok
    · rw [if_neg h1] at hok ⊢
      have hcast : (hs : Int) + 4 = ((hs + 4 : Nat) : Int) := by push_cast; rfl
      rw [hcast] at hok ⊢
      exact parse_payload_length malloc data data_len
        { frame with mask := (data.drop (hs : Int).toNat).take 4 } (hs + 4) (by omega)
        hr1 hr2 hbuf hok
  · rw [if_neg hm] at hok ⊢
    exact parse_payload_length malloc data data_len frame hs (by omega) hr1 hr2 hbuf hok

theorem payload_branch (malloc : Nat → Bool) (data : List Nat) (data_len : Int)
    (frame0 : WSFrame) (len : Int) (hsI : Int) (hs : Nat) (hcast : hsI = (hs : Int))
    (hs10 : hs ≤ 10) (hr1 : -2147483648 ≤ len) (hr2 : len ≤ 2147483647)
    (hbuf : data_len ≤ (data.length : Int)) :
    -2147483648 ≤ (parse_mask malloc data data_len (wire_frame data frame0 len) hsI).2.payload_len
      ∧
    (parse_mask malloc data data_len (wire_frame data frame0 len) hsI).2.payload_len
      ≤ 2147483647 ∧
    (0 ≤ (parse_mask malloc data data_len (wire_frame data frame0 len) hsI).1 →
      0 ≤ (parse_mask malloc data data_len (wire_frame data frame0 len) hsI).2.payload_len →
      ∃ p, (parse_mask malloc data data_len (wire_frame data frame0 len) hsI).2.payload
          = some p ∧
        (p.length : Int)
          = (parse_mask malloc data data_len (wire_frame data frame0 len) hsI).2.payload_len) := by
  subst hcast
  have hf := (parse_mask_fields malloc data data_len (wire_frame data frame0 len) (hs : Int)).2.2.2
  have hpl : (wire_frame data frame0 len).payload_len = len := rfl
  rw [hf, hpl]
  refine ⟨hr1, hr2, fun hok h0 => ?_⟩
  exact parse_mask_length malloc data data_len (wire_frame data frame0 len) hs hs10
    (by rw [hpl]; exact h0) (by rw [hpl]; exact hr2) hbuf hok

/-- The decoded length is an `int`, and the payload buffer of a decoded frame with a
non-negative length holds that many bytes. -/
theorem parse_ws_frame_payload (malloc : Nat → Bool) (data : List Nat) (data_len : Int)
    (frame0 : WSFrame) (hbytes : ∀ b ∈ data, b < 256) (hbuf : data_len ≤ (data.length : Int))
    (hok : 0 ≤ (parse_ws_frame malloc data data_len frame0).1) :
    -2147483648 ≤ (parse_ws_frame malloc data data_len frame0).2.payload_len ∧
    (parse_ws_frame malloc data data_len frame0).2.payload_len ≤ 2147483647 ∧
    (0 ≤ (parse_ws_frame malloc data data_len frame0).2.payload_len →
      ∃ p, (parse_ws_frame malloc data data_len frame0).2.payload = some p ∧
        (p.length : Int) = (parse_ws_frame malloc data data_len frame0).2.payload_len) := by
  by_cases h2 : data_len < 2
  · rw [parse_ws_frame_short malloc data data_len frame0 h2] at hok
    simp at hok
  · have hb2 := getD_lt_of_bytes hbytes 2
    have hb3 := getD_lt_of_bytes hbytes 3
    rw [parse_ws_frame_stages malloc data data_len frame0 hbytes (by omega)] at hok ⊢
    by_cases c1 : wire_len7 data = 126
    · rw [if_pos c1] at hok ⊢
      by_cases c2 : data_len < 4
      · rw [if_pos c2] at hok; simp at hok
      · rw [if_neg c2] at hok ⊢
        obtain ⟨a, b, c⟩ := payload_branch malloc data data_len frame0
          ((data.getD 2 0 * 256 + data.getD 3 0 : Nat) : Int) 4 4 rfl (by omega) (by omega)
          (by omega) hbuf
        exact ⟨a, b, c hok⟩
    · rw [if_neg c1] at hok ⊢
      by_cases c3 : wire_len7 data = 127
      · rw [if_pos c3] at hok ⊢
        by_cases c4 : data_len < 10
        · rw [if_pos c4] at hok; simp at hok
        · rw [if_neg c4] at hok ⊢
          obtain ⟨a, b, c⟩ := payload_branch malloc data data_len frame0 (read_len64 data)
            10 10 rfl (by omega) (read_len64_range data).1 (read_len64_range data).2 hbuf
          exact ⟨a, b, c hok⟩
      · rw [if_neg c3] at hok ⊢
        have h7 : wire_len7 data < 128 := by unfold wire_len7; omega
        obtain ⟨a, b, c⟩ := payload_branch malloc data data_len frame0
          ((wire_len7 data : Nat) : Int) 2 2 rfl (by omega) (by omega) (by omega) hbuf
        exact ⟨a, b, c hok⟩

/-- The text branch of a receive-loop iteration. -/
theorem handler_text_branch (malloc : Nat → Bool) (s : WebSocketServer) (client_fd : Int)
    (buffer : List Nat) (n : Int) (f : Int × WSFrame)
    (hf : parse_ws_frame malloc buffer n WSFrame.zero = f) (hn : 0 < n)
    (hok : 0 ≤ f.1) (htext : f.2.opcode = 1) :
    websocket_handler_iteration malloc s client_fd buffer n
      = if size_t f.2.payload_len < 4096 then
          { sends := relay_loop s client_fd (f.2.payload.getD []) f.2.payload_len
              s.client_count.toNat 0 [],
            continues := true, server := s }
        else { sends := [], continues := true, server := s } := by
  unfold websocket_handler_iteration
  rw [hf, if_neg (by omega), if_neg (by omega), if_pos htext]

/-- The relay loop for a payload of fewer than 4096 bytes: the text frame of the payload goes
to every connected live entry other than the sender. -/
theorem relay_text_frame (s : WebSocketServer) (client_fd : Int) (payload : List Nat)
    (hinv : RegistryInv s) (hlen : payload.length < 4096) :
    relay_loop s client_fd payload (payload.length : Int) s.client_count.toNat 0 []
      = ((live_clients s).filter (fun c => c.is_connected ≠ 0 ∧ c.fd ≠ client_fd)).map
          (fun c => (c.fd, 0x81 :: length_code payload.length
            :: (length_ext payload.length ++ payload))) := by
  have hI : INT_MAX = 2147483647 := rfl
  have hM : MAX_FRAME_SIZE = 65536 := rfl
  have hle := length_ext_le payload.length
  have hcr := create_ws_frame_natCast payload payload.length MAX_FRAME_SIZE
    (by push_cast; omega) (by omega) (by omega)
  rw [List.take_length] at hcr
  have hz : (0 : Int) = ((0 : Nat) : Int) := rfl
  have hloop := relay_loop_spec s client_fd payload (payload.length : Int) hinv
    s.client_count.toNat 0 [] (by have := hinv.2.1; omega)
  rw [← hz] at hloop
  rw [hloop, hcr]
  simp only []
  rw [if_pos (by omega), List.nil_append, List.drop_zero]
  have htake : (0x81 :: length_code payload.length
        :: (length_ext payload.length ++ payload)).take
        ((2 + (length_ext payload.length).length + payload.length : Nat) : Int).toNat
      = 0x81 :: length_code payload.length :: (length_ext payload.length ++ payload) := by
    apply List.take_of_length_le
    simp only [List.length_cons, List.length_append, Int.toNat_ofNat]
    omega
  rw [htake]

/-! ## The text branch of the receive loop: the claims -/

/-- C33 (text relay ignores rooms): for every received buffer of `n` bytes that `parse_ws_frame`
decodes as a text frame (opcode 0x1), in a well-formed registry one iteration of the receive
loop of the handler of `client_fd` does the following. When the payload length is below 4096,
it sends the unmasked text frame of the payload (`0x81`, minimal length prefix, payload), once
and in table order, to every live entry that is connected and whose `fd` differs from
`client_fd`, whatever the `room_id` of the entry, sends nothing to `client_fd`, and continues.
When the payload length is 4096 or more (or negative), it sends nothing and continues. The
registry is unchanged in both cases. -/
theorem text_relay (malloc : Nat → Bool) (s : WebSocketServer) (client_fd : Int)
    (buffer : List Nat) (n : Int) (hinv : RegistryInv s) (hbytes : ∀ b ∈ buffer, b < 256)
    (hbuf : n ≤ (buffer.length : Int))
    (hok : 0 ≤ (parse_ws_frame malloc buffer n WSFrame.zero).1)
    (htext : (parse_ws_frame malloc buffer n WSFrame.zero).2.opcode = 1) :
    (0 ≤ (parse_ws_frame malloc buffer n WSFrame.zero).2.payload_len →
      (parse_ws_frame malloc buffer n WSFrame.zero).2.payload_len < 4096 →
      ∃ payload, (parse_ws_frame malloc buffer n WSFrame.zero).2.payload = some payload ∧
        (payload.length : Int) = (parse_ws_frame malloc buffer n WSFrame.zero).2.payload_len ∧
        websocket_handler_iteration malloc s client_fd buffer n
          = { sends := ((live_clients s).filter
                  (fun c => c.is_connected ≠ 0 ∧ c.fd ≠ client_fd)).map
                (fun c => (c.fd, 0x81 :: length_code payload.length
                  :: (length_ext payload.length ++ payload))),
              continues := true, server := s } ∧
        ∀ x ∈ (websocket_handler_iteration malloc s client_fd buffer n).sends,
          x.1 ≠ client_fd) ∧
    ((parse_ws_frame malloc buffer n WSFrame.zero).2.payload_len < 0 ∨
      4096 ≤ (parse_ws_frame malloc buffer n WSFrame.zero).2.payload_len →
      websocket_handler_iteration malloc s client_fd buffer n
        = { sends := [], continues := true, server := s }) := by
  have hn : 0 < n := by
    by_contra h
    rw [parse_ws_frame_short malloc buffer n WSFrame.zero (by omega)] at hok
    simp at hok
  obtain ⟨hr1, hr2, hpay⟩ := parse_ws_frame_payload malloc buffer n WSFrame.zero hbytes hbuf hok
  have hbr := handler_text_branch malloc s client_fd buffer n _ rfl hn hok htext
  generalize parse_ws_frame malloc buffer n WSFrame.zero = f at hr1 hr2 hpay hbr ⊢
  constructor
  · intro h0 h1
    obtain ⟨p, hp, hlen⟩ := hpay h0
    have hsz : size_t f.2.payload_len < 4096 := by
      unfold size_t; omega
    have hiter : websocket_handler_iteration malloc s client_fd buffer n
        = { sends := ((live_clients s).filter
                (fun c => c.is_connected ≠ 0 ∧ c.fd ≠ client_fd)).map
              (fun c => (c.fd, 0x81 :: length_code p.length
                :: (length_ext p.length ++ p))),
            continues := true, server := s } := by
      rw [hbr, if_pos hsz, hp, ← hlen]
      simp only [Option.getD_some]
      rw [relay_text_frame s client_fd p hinv (by omega)]
    refine ⟨p, hp, hlen, hiter, ?_⟩
    intro x hx
    rw [hiter] at hx
    simp only [List.mem_map, List.mem_filter, decide_eq_true_eq] at hx
    obtain ⟨c, ⟨-, -, hc⟩, rfl⟩ := hx
    exact hc
  · intro h
    have hsz : ¬ size_t f.2.payload_len < 4096 := by
      unfold size_t; omega
    rw [hbr, if_neg hsz]

set_option maxRecDepth 100000 in
/-- Witness for C33: the handler of socket 5 receives the masked text frame "Hi" while the
sockets 5, 6 (room 1) and 7 (room 0) are registered; the frame `81 02 48 69` goes to 6 and 7. -/
theorem text_relay_witness :
    ∃ payload,
      (parse_ws_frame (fun _ => true) [0x81, 0x82, 1, 2, 3, 4, 73, 107] 8 WSFrame.zero).2.payload
        = some payload ∧
      (payload.length : Int)
        = (parse_ws_frame (fun _ => true) [0x81, 0x82, 1, 2, 3, 4, 73, 107] 8
            WSFrame.zero).2.payload_len ∧
      websocket_handler_iteration (fun _ => true) registry_567 5
          [0x81, 0x82, 1, 2, 3, 4, 73, 107] 8
        = { sends := ((live_clients registry_567).filter
                (fun c => c.is_connected ≠ 0 ∧ c.fd ≠ 5)).map
              (fun c => (c.fd, 0x81 :: length_code payload.length
                :: (length_ext payload.length ++ payload))),
            continues := true, server := registry_567 } ∧
      ∀ x ∈ (websocket_handler_iteration (fun _ => true) registry_567 5
          [0x81, 0x82, 1, 2, 3, 4, 73, 107] 8).sends,
        x.1 ≠ 5 :=
  (text_relay (fun _ => true) registry_567 5 [0x81, 0x82, 1, 2, 3, 4, 73, 107] 8
    (by decide) (by decide) (by decide) (by decide) (by decide)).1 (by decide) (by decide)

end ChatApp
